import Mathlib

/-!
# The draw-mask stack and the `mask_mix` pixel operator of `lv_draw_mask.c`

A shallow embedding of the mask stack (`lv_draw_mask_add`, `lv_draw_mask_apply`,
`lv_draw_mask_remove_id`, `lv_draw_mask_remove_custom`, `lv_draw_mask_get_cnt`) and of
`mask_mix`, with the properties of the specification stated and settled on it.

Conventions of the embedding.

* A `void *` is a natural number, `NULL` is `0`; only equality of pointers is ever used.
* The global array `_lv_draw_mask_list` is a list of slots; a well-formed stack has exactly
  `_LV_MASK_MAX_NUM` of them.  A loop `for(i = 0; i < _LV_MASK_MAX_NUM; i++)` over the array is
  a traversal of that list which carries the index `i`.
* A read outside the array is undefined behaviour in C: the functions that can perform one
  return an `Option`, and `none` stands for it.
* The memory a mask callback may write (the mask buffer) is a value of a type `B` that is
  passed through the callbacks.
-/

namespace LvDrawMask

/-! ## Data model -/

/-- Modelled from the spec: the result type of a mask callback, declared in `lv_draw_mask.h`
(not part of the sources at hand): the three results `TRANSP`, `FULL_COVER`, `CHANGED` and the
internal marker `UNKNOWN`. -/
inductive lv_draw_mask_res_t where
  | LV_DRAW_MASK_RES_TRANSP
  | LV_DRAW_MASK_RES_FULL_COVER
  | LV_DRAW_MASK_RES_CHANGED
  | LV_DRAW_MASK_RES_UNKNOWN
  deriving DecidableEq

open lv_draw_mask_res_t

/-- The null pointer. -/
def NULL : Nat := 0

/-- Modelled from the spec: the capacity of the mask stack, a compile-time constant of
`lv_draw_mask.h` (not part of the sources at hand); the spec recommends 16.  It is below 256, so
the `uint8_t` loop counters of the stack functions never wrap. -/
def _LV_MASK_MAX_NUM : Nat := 16

/-- Modelled from the spec: the sentinel `INVALID` returned by `lv_draw_mask_add` when the stack
is full, a constant of `lv_draw_mask.h` (not part of the sources at hand); it is `-1`, which is
no slot index. -/
def LV_MASK_ID_INV : Int := -1

/-- Modelled from the spec: one slot of the mask stack, the pair `(param, custom_id)` of two
`void *` (the struct is declared in `lv_draw_mask.h`, not part of the sources at hand). -/
structure _lv_draw_mask_saved_t where
  param : Nat
  custom_id : Nat
  deriving DecidableEq

/-- The stack in its initial state: the global array is zero-initialised. -/
def empty_stack : List _lv_draw_mask_saved_t :=
  List.replicate _LV_MASK_MAX_NUM ⟨NULL, NULL⟩

/-- The callbacks of the mask descriptors: `cb p buf x y len` is the call
`dsc->cb(mask_buf, abs_x, abs_y, len, p)` for the descriptor `dsc` at address `p`; it gives the
result and the memory after the call. -/
abbrev mask_cb_t (B : Type) := Nat → B → Int → Int → Int → lv_draw_mask_res_t × B

/-! ## The stack operations -/

/-- The search loop of `lv_draw_mask_add`:
`for(i = 0; i < _LV_MASK_MAX_NUM; i++) if(list[i].param == NULL) break;`
on the slots from index `i` on; the value is `i` at the exit of the loop. -/
def lv_draw_mask_add_loop : List _lv_draw_mask_saved_t → Nat → Nat
  | [], i => i
  | m :: rest, i => if m.param = NULL then i else lv_draw_mask_add_loop rest (i + 1)

/-- `lv_draw_mask_add(param, custom_id)`: the returned `int16_t` and the stack after the call. -/
def lv_draw_mask_add (list : List _lv_draw_mask_saved_t) (param custom_id : Nat) :
    Int × List _lv_draw_mask_saved_t :=
  let i := lv_draw_mask_add_loop list 0
  if i ≥ _LV_MASK_MAX_NUM then (LV_MASK_ID_INV, list)
  else ((i : Int), list.set i ⟨param, custom_id⟩)

/-- The loop of `lv_draw_mask_apply`, `while(m->param) { ... m++; }`, with `m` pointing at the
head of the list and `changed` the latch.  When `m` has walked past the last slot of the array
the read `m->param` is outside the array: `none`. -/
def lv_draw_mask_apply_loop {B : Type} (cb : mask_cb_t B) (abs_x abs_y len : Int) :
    List _lv_draw_mask_saved_t → B → Bool → Option (lv_draw_mask_res_t × B)
  | [], _, _ => none
  | m :: rest, mask_buf, changed =>
    if m.param ≠ NULL then
      let r := cb m.param mask_buf abs_x abs_y len
      if r.1 = LV_DRAW_MASK_RES_TRANSP then some (LV_DRAW_MASK_RES_TRANSP, r.2)
      else if r.1 = LV_DRAW_MASK_RES_CHANGED then
        lv_draw_mask_apply_loop cb abs_x abs_y len rest r.2 true
      else lv_draw_mask_apply_loop cb abs_x abs_y len rest r.2 changed
    else some (if changed then LV_DRAW_MASK_RES_CHANGED else LV_DRAW_MASK_RES_FULL_COVER, mask_buf)

/-- `lv_draw_mask_apply(mask_buf, abs_x, abs_y, len)`: the result and the memory after the
call. -/
def lv_draw_mask_apply {B : Type} (cb : mask_cb_t B) (list : List _lv_draw_mask_saved_t)
    (mask_buf : B) (abs_x abs_y len : Int) : Option (lv_draw_mask_res_t × B) :=
  lv_draw_mask_apply_loop cb abs_x abs_y len list mask_buf false

/-- `lv_draw_mask_remove_id(id)`: the returned pointer and the stack after the call; an `id`
other than `LV_MASK_ID_INV` that is no index of the array is an access outside it: `none`. -/
def lv_draw_mask_remove_id (list : List _lv_draw_mask_saved_t) (id : Int) :
    Option (Nat × List _lv_draw_mask_saved_t) :=
  if id ≠ LV_MASK_ID_INV then
    if 0 ≤ id then
      match list[id.toNat]? with
      | some m => some (m.param, list.set id.toNat ⟨NULL, NULL⟩)
      | none => none
    else none
  else some (NULL, list)

/-- The loop of `lv_draw_mask_remove_custom` on the slots that remain, `p` being the pointer
found so far: the final `p` and the slots after the loop. -/
def lv_draw_mask_remove_custom_loop (custom_id : Nat) :
    List _lv_draw_mask_saved_t → Nat → Nat × List _lv_draw_mask_saved_t
  | [], p => (p, [])
  | m :: rest, p =>
    if m.custom_id = custom_id then
      let r := lv_draw_mask_remove_custom_loop custom_id rest m.param
      (r.1, ⟨NULL, NULL⟩ :: r.2)
    else
      let r := lv_draw_mask_remove_custom_loop custom_id rest p
      (r.1, m :: r.2)

/-- `lv_draw_mask_remove_custom(custom_id)`: the returned pointer and the stack after the
call. -/
def lv_draw_mask_remove_custom (list : List _lv_draw_mask_saved_t) (custom_id : Nat) :
    Nat × List _lv_draw_mask_saved_t :=
  lv_draw_mask_remove_custom_loop custom_id list NULL

/-- The loop of `lv_draw_mask_get_cnt` on the slots that remain, `cnt` being the `uint8_t`
counter. -/
def lv_draw_mask_get_cnt_loop : List _lv_draw_mask_saved_t → Nat → Nat
  | [], cnt => cnt
  | m :: rest, cnt =>
    if m.param ≠ NULL then lv_draw_mask_get_cnt_loop rest ((cnt + 1) % 256)
    else lv_draw_mask_get_cnt_loop rest cnt

/-- `lv_draw_mask_get_cnt()`. -/
def lv_draw_mask_get_cnt (list : List _lv_draw_mask_saved_t) : Nat :=
  lv_draw_mask_get_cnt_loop list 0

/-! ## Sequences of stack operations -/

/-- One call of the public interface that changes the stack. -/
inductive mask_op where
  | add (param custom_id : Nat)
  | remove_id (id : Int)
  | remove_custom (custom_id : Nat)
  deriving DecidableEq

/-- The stack after one call; `none` when the call is undefined behaviour. -/
def mask_op.run (list : List _lv_draw_mask_saved_t) : mask_op → Option (List _lv_draw_mask_saved_t)
  | .add param custom_id => some (lv_draw_mask_add list param custom_id).2
  | .remove_id id => (lv_draw_mask_remove_id list id).map Prod.snd
  | .remove_custom custom_id => some (lv_draw_mask_remove_custom list custom_id).2

/-- The stack after a sequence of calls, the first call first. -/
def run_ops : List _lv_draw_mask_saved_t → List mask_op → Option (List _lv_draw_mask_saved_t)
  | list, [] => some list
  | list, op :: ops => (op.run list).bind fun list1 => run_ops list1 ops

/-- A callback that also records, behind the memory it writes, the descriptor it was called
for and the result it gave. -/
def traced {B : Type} (cb : mask_cb_t B) : mask_cb_t (B × List (Nat × lv_draw_mask_res_t)) :=
  fun p mem abs_x abs_y len =>
    let r := cb p mem.1 abs_x abs_y len
    (r.1, (r.2, mem.2 ++ [(p, r.1)]))

/-! ## `mask_mix` -/

/-- Modelled from the spec: `LV_OPA_MIN`, a constant of a header that is not part of the
sources at hand; the spec gives `OPA_MIN = 0`. -/
def LV_OPA_MIN : Nat := 0

/-- Modelled from the spec: `LV_OPA_MAX`, a constant of a header that is not part of the
sources at hand; the spec gives `OPA_MAX = 255`. -/
def LV_OPA_MAX : Nat := 255

/-- Modelled from the spec: the macro `LV_UDIV255` of a header that is not part of the sources
at hand; the spec gives the reduction `(x * 0x101 + 0x8000) >> 16`, computed on 32 bits. -/
def LV_UDIV255 (x : Nat) : Nat := ((x * 0x101 + 0x8000) % 2 ^ 32) >>> 16

/-- `mask_mix` with the two thresholds and the division macro as parameters; the value
returned is an `lv_opa_t`, eight bits wide. -/
def mask_mix_with (opa_min opa_max : Nat) (udiv255 : Nat → Nat) (mask_act mask_new : Nat) : Nat :=
  if mask_new ≥ opa_max then mask_act
  else if mask_new ≤ opa_min then 0
  else udiv255 (mask_act * mask_new) % 256

/-- `mask_mix(mask_act, mask_new)`. -/
def mask_mix (mask_act mask_new : Nat) : Nat :=
  mask_mix_with LV_OPA_MIN LV_OPA_MAX LV_UDIV255 mask_act mask_new

/-! ## Integers and the mask buffer

Conventions for the generators.

* `lv_coord_t` is declared in a header that is not part of the sources at hand; coordinates are
  integers, and sums and differences of coordinates are exact (the type is narrower than
  `int32_t`).  Products are computed on 32 bits and wrap around (`int32_t`).
* One variable of type `lv_coord_t` is assigned a product and not a coordinate, `tmp` in the
  midpoint step of `cir_calc_aa4`.  Its assignments go through the conversion `lv_coord_t`, whose
  width is a parameter (`cir_calc_aa4_bits`); `cir_calc_aa4` takes the width of a type narrower
  than `int32_t`, 16 bits.
* `x >> n` on a signed value is the arithmetic shift, `asr x n`; `x << n` is `x * 2 ^ n`;
  `x & 0xFF` is `x % 256`.
* An `lv_opa_t` is a byte: a value stored in one is reduced modulo 256 (`uint8_t`).
* The mask buffer is the list of its bytes, `len` bytes long; a write outside it is undefined
  behaviour, `none`.
-/

/-- The arithmetic right shift `x >> n` of C on a signed value: the quotient by `2 ^ n`, rounded
down. -/
def asr (x : Int) (n : Nat) : Int := x / 2 ^ n

/-- The value of a product computed on `int32_t`: two's-complement wrap-around. -/
def int32_t (v : Int) : Int := (v + 2 ^ 31) % 2 ^ 32 - 2 ^ 31

/-- The value stored when an integer is assigned to an `lv_opa_t` / `uint8_t`. -/
def uint8_t (v : Int) : Nat := (v % 256).toNat

/-- The value stored when an integer is assigned to an `lv_coord_t` of `bits` bits:
two's-complement wrap-around.  The type is declared in a header that is not part of the sources
at hand, so its width is a parameter. -/
def lv_coord_t (bits : Nat) (v : Int) : Int :=
  (v + 2 ^ (bits - 1)) % 2 ^ bits - 2 ^ (bits - 1)

/-- Modelled from the spec: `lv_memset_00(&mask_buf[start], n)` (the function is declared in a
header that is not part of the sources at hand): `n` bytes from index `start` on are set to
zero; `n` is converted to `size_t`, so a negative `n` or a range that leaves the buffer writes
outside it. -/
def lv_memset_00 (mask_buf : List Nat) (start n : Int) : Option (List Nat) :=
  if n = 0 then some mask_buf
  else if 0 ≤ start ∧ 0 < n ∧ start + n ≤ mask_buf.length then
    some (mask_buf.take start.toNat ++ List.replicate n.toNat 0
      ++ mask_buf.drop (start.toNat + n.toNat))
  else none

/-- The statement `mask_buf[k] = mask_mix(mask_buf[k], m);`. -/
def mask_buf_mix (mask_buf : List Nat) (k : Int) (m : Nat) : Option (List Nat) :=
  if 0 ≤ k then
    match mask_buf[k.toNat]? with
    | some v => some (mask_buf.set k.toNat (mask_mix v m))
    | none => none
  else none

/-- The statement `mask_buf[k] = mask_mix(opa, mask_buf[k]);` of the radius generator. -/
def mask_buf_mix_opa (mask_buf : List Nat) (k : Int) (opa : Nat) : Option (List Nat) :=
  if 0 ≤ k then
    match mask_buf[k.toNat]? with
    | some v => some (mask_buf.set k.toNat (mask_mix opa v))
    | none => none
  else none

/-- The opacities a caller sees after a generator returned `res` on a buffer pre-filled with
`0xFF`: all zero for `TRANSP`, the untouched `0xFF` for `FULL_COVER`, the buffer otherwise. -/
def mask_out (len : Int) (r : lv_draw_mask_res_t × List Nat) : List Nat :=
  match r.1 with
  | LV_DRAW_MASK_RES_TRANSP => List.replicate len.toNat 0
  | LV_DRAW_MASK_RES_FULL_COVER => List.replicate len.toNat 255
  | _ => r.2

/-! ## The line generator -/

/-- Modelled from the spec: the side tag of a line mask, an enum of `lv_draw_mask.h` (not part
of the sources at hand). -/
inductive lv_draw_mask_line_side_t where
  | LV_DRAW_MASK_LINE_SIDE_LEFT
  | LV_DRAW_MASK_LINE_SIDE_RIGHT
  | LV_DRAW_MASK_LINE_SIDE_TOP
  | LV_DRAW_MASK_LINE_SIDE_BOTTOM
  deriving DecidableEq

open lv_draw_mask_line_side_t

/-- Modelled from the spec: the parameter block of a line mask, a struct of `lv_draw_mask.h`
(not part of the sources at hand), with the fields the source reads and writes: the
configuration `cfg` (two points and the side), the origin `origo`, the two slopes, `steep`,
`spx` and the bits `flat` and `inv`. -/
structure lv_draw_mask_line_param_t where
  cfg_p1_x : Int
  cfg_p1_y : Int
  cfg_p2_x : Int
  cfg_p2_y : Int
  cfg_side : lv_draw_mask_line_side_t
  origo_x : Int
  origo_y : Int
  xy_steep : Int
  yx_steep : Int
  steep : Int
  spx : Int
  flat : Bool
  inv : Bool
  deriving DecidableEq

/-- Modelled from the spec: the macro `LV_ABS` of `lv_math.h` (not part of the sources at
hand). -/
def LV_ABS (x : Int) : Int := if x > 0 then x else -x

/-- `lv_draw_mask_line_points_init(param, p1x, p1y, p2x, p2y, side)`: the parameter block it
fills.  `(1 << 20) / d` is the truncating division of C. -/
def lv_draw_mask_line_points_init (p1x p1y p2x p2y : Int) (side : lv_draw_mask_line_side_t) :
    lv_draw_mask_line_param_t :=
  let nudge : Bool := p1y = p2y ∧ side = LV_DRAW_MASK_LINE_SIDE_BOTTOM
  let p1y := if nudge then p1y - 1 else p1y
  let p2y := if nudge then p2y - 1 else p2y
  let swap : Bool := p1y > p2y
  let q1x := if swap then p2x else p1x
  let q2x := if swap then p1x else p2x
  let q1y := if swap then p2y else p1y
  let q2y := if swap then p1y else p2y
  let flat : Bool := LV_ABS (q2x - q1x) > LV_ABS (q2y - q1y)
  let dx := q2x - q1x
  let dy := q2y - q1y
  let yx_steep := if dx ≠ 0 then asr (int32_t (Int.tdiv (2 ^ 20) dx * dy)) 10 else 0
  let xy_steep := if dy ≠ 0 then asr (int32_t (Int.tdiv (2 ^ 20) dy * dx)) 10 else 0
  let steep := if flat then yx_steep else xy_steep
  let inv : Bool :=
    if side = LV_DRAW_MASK_LINE_SIDE_LEFT then false
    else if side = LV_DRAW_MASK_LINE_SIDE_RIGHT then true
    else if side = LV_DRAW_MASK_LINE_SIDE_TOP then (if steep > 0 then true else false)
    else (if steep > 0 then false else true)
  let spx := if steep < 0 then -(asr steep 2) else asr steep 2
  { cfg_p1_x := q1x, cfg_p1_y := q1y, cfg_p2_x := q2x, cfg_p2_y := q2y, cfg_side := side,
    origo_x := q1x, origo_y := q1y, xy_steep := xy_steep, yx_steep := yx_steep,
    steep := steep, spx := spx, flat := flat, inv := inv }

/-- The loop `while(px_h > p->spx) { ... }` of `line_mask_flat`, the state being the buffer,
`px_h` and `k`.  The loop is left at the latest when `k` reaches `len`; the first argument
bounds the number of passes and `none` is also the value when it does not suffice. -/
def line_mask_flat_loop (inv : Bool) (spx len : Int) :
    Nat → List Nat → Int → Int → Option (List Nat × Int × Int)
  | 0, _, _, _ => none
  | fuel + 1, mask_buf, px_h, k =>
    if px_h > spx then
      (if 0 ≤ k ∧ k < len then
          mask_buf_mix mask_buf k
            (if inv then 255 - uint8_t (px_h - (asr spx 1)) else uint8_t (px_h - (asr spx 1)))
        else some mask_buf).bind fun buf1 =>
      if k + 1 ≥ len then some (buf1, px_h - spx, k + 1)
      else line_mask_flat_loop inv spx len fuel buf1 (px_h - spx) (k + 1)
    else some (mask_buf, px_h, k)

/-- The part of `line_mask_flat` behind the two early returns, from `int32_t xei = xe >> 8`
on. -/
def line_mask_flat_aa (mask_buf : List Nat) (abs_x len xe : Int)
    (p : lv_draw_mask_line_param_t) : Option (lv_draw_mask_res_t × List Nat) :=
  let xei := asr xe 8
  let xef := xe % 256
  let px_h : Int := if xef = 0 then 255 else 255 - (asr (int32_t ((255 - xef) * p.spx)) 8)
  let k := xei - abs_x
  (if xef ≠ 0 ∧ 0 ≤ k ∧ k < len then
      let m := uint8_t (255 - (asr (int32_t ((255 - xef) * (255 - px_h))) 9))
      mask_buf_mix mask_buf k (if p.inv then 255 - m else m)
    else some mask_buf).bind fun buf1 =>
  let k := if xef ≠ 0 then k + 1 else k
  (line_mask_flat_loop p.inv p.spx len ((len - k).toNat + 1) buf1 px_h k).bind fun st =>
  let buf2 := st.1
  let px_h := st.2.1
  let k := st.2.2
  (if k < len ∧ 0 ≤ k then
      let x_inters := asr (int32_t (px_h * p.xy_steep)) 10
      let m := uint8_t (asr (int32_t (x_inters * px_h)) 9)
      let m := if p.yx_steep < 0 then 255 - m else m
      mask_buf_mix buf2 k (if p.inv then 255 - m else m)
    else some buf2).bind fun buf3 =>
  if p.inv then
    let k := xei - abs_x
    if k > len then some (LV_DRAW_MASK_RES_TRANSP, buf3)
    else
      (if 0 ≤ k then lv_memset_00 buf3 0 k else some buf3).bind fun buf4 =>
      some (LV_DRAW_MASK_RES_CHANGED, buf4)
  else
    let k := k + 1
    if k < 0 then some (LV_DRAW_MASK_RES_TRANSP, buf3)
    else
      (if k ≤ len then lv_memset_00 buf3 k (len - k) else some buf3).bind fun buf4 =>
      some (LV_DRAW_MASK_RES_CHANGED, buf4)

/-- `line_mask_flat(mask_buf, abs_x, abs_y, len, p)`, the coordinates being relative to the
origin of the line: the two early returns and the computation of `xe`. -/
def line_mask_flat (mask_buf : List Nat) (abs_x abs_y len : Int)
    (p : lv_draw_mask_line_param_t) : Option (lv_draw_mask_res_t × List Nat) :=
  let y_at_x := asr (int32_t (p.yx_steep * abs_x)) 10
  if (if p.yx_steep > 0 then y_at_x > abs_y else y_at_x < abs_y) then
    some (if p.inv then LV_DRAW_MASK_RES_FULL_COVER else LV_DRAW_MASK_RES_TRANSP, mask_buf)
  else
  let y_at_x := asr (int32_t (p.yx_steep * (abs_x + len))) 10
  if (if p.yx_steep > 0 then y_at_x < abs_y else y_at_x > abs_y) then
    some (if p.inv then LV_DRAW_MASK_RES_TRANSP else LV_DRAW_MASK_RES_FULL_COVER, mask_buf)
  else
  let xe :=
    if p.yx_steep > 0 then asr (int32_t (int32_t (abs_y * 256) * p.xy_steep)) 10
    else asr (int32_t (int32_t ((abs_y + 1) * 256) * p.xy_steep)) 10
  line_mask_flat_aa mask_buf abs_x len xe p

/-- The branch `if(xsi == xei)` of `line_mask_steep`: the line stays in one column of the
row; `k` is the index of that column in the buffer. -/
def line_mask_steep_one (mask_buf : List Nat) (abs_x len k xsi xsf xef : Int)
    (p : lv_draw_mask_line_param_t) : Option (lv_draw_mask_res_t × List Nat) :=
  (if 0 ≤ k ∧ k < len then
      let m := uint8_t (asr (xsf + xef) 1)
      mask_buf_mix mask_buf k (if p.inv then 255 - m else m)
    else some mask_buf).bind fun buf1 =>
  let k := k + 1
  if p.inv then
    let k := xsi - abs_x
    if k ≥ len then some (LV_DRAW_MASK_RES_TRANSP, buf1)
    else
      (if 0 ≤ k then lv_memset_00 buf1 0 k else some buf1).bind fun buf2 =>
      some (LV_DRAW_MASK_RES_CHANGED, buf2)
  else
    let k := if k > len then len else k
    if k = 0 then some (LV_DRAW_MASK_RES_TRANSP, buf1)
    else
      (if k > 0 then lv_memset_00 buf1 k (len - k) else some buf1).bind fun buf2 =>
      some (LV_DRAW_MASK_RES_CHANGED, buf2)

/-- The branch `if(p->xy_steep < 0)` of `line_mask_steep` for a line that changes the column in
the row: the columns `k` and `k - 1`. -/
def line_mask_steep_neg (mask_buf : List Nat) (abs_x len k xsi xsf : Int)
    (p : lv_draw_mask_line_param_t) : Option (lv_draw_mask_res_t × List Nat) :=
  let y_inters := asr (int32_t (xsf * (-p.yx_steep))) 10
  (if 0 ≤ k ∧ k < len then
      let m := uint8_t (asr (int32_t (y_inters * xsf)) 9)
      mask_buf_mix mask_buf k (if p.inv then 255 - m else m)
    else some mask_buf).bind fun buf1 =>
  let k := k - 1
  let x_inters := asr (int32_t ((255 - y_inters) * (-p.xy_steep))) 10
  (if 0 ≤ k ∧ k < len then
      let m := uint8_t (255 - (asr (int32_t ((255 - y_inters) * x_inters)) 9))
      mask_buf_mix buf1 k (if p.inv then 255 - m else m)
    else some buf1).bind fun buf2 =>
  let k := k + 2
  if p.inv then
    let k := xsi - abs_x - 1
    (if k > len then some buf2
      else if k > 0 then lv_memset_00 buf2 0 k else some buf2).bind fun buf3 =>
    some (LV_DRAW_MASK_RES_CHANGED, buf3)
  else
    if k > len then some (LV_DRAW_MASK_RES_FULL_COVER, buf2)
    else
      (if 0 ≤ k then lv_memset_00 buf2 k (len - k) else some buf2).bind fun buf3 =>
      some (LV_DRAW_MASK_RES_CHANGED, buf3)

/-- The last branch of `line_mask_steep`, for a line with `xy_steep >= 0` that changes the
column in the row: the columns `k` and `k + 1`. -/
def line_mask_steep_pos (mask_buf : List Nat) (abs_x len k xsi xsf : Int)
    (p : lv_draw_mask_line_param_t) : Option (lv_draw_mask_res_t × List Nat) :=
  let y_inters := asr (int32_t ((255 - xsf) * p.yx_steep)) 10
  (if 0 ≤ k ∧ k < len then
      let m := uint8_t (255 - (asr (int32_t (y_inters * (255 - xsf))) 9))
      mask_buf_mix mask_buf k (if p.inv then 255 - m else m)
    else some mask_buf).bind fun buf1 =>
  let k := k + 1
  let x_inters := asr (int32_t ((255 - y_inters) * p.xy_steep)) 10
  (if 0 ≤ k ∧ k < len then
      let m := uint8_t (asr (int32_t ((255 - y_inters) * x_inters)) 9)
      mask_buf_mix buf1 k (if p.inv then 255 - m else m)
    else some buf1).bind fun buf2 =>
  let k := k + 1
  if p.inv then
    let k := xsi - abs_x
    if k > len then some (LV_DRAW_MASK_RES_TRANSP, buf2)
    else
      (if 0 ≤ k then lv_memset_00 buf2 0 k else some buf2).bind fun buf3 =>
      some (LV_DRAW_MASK_RES_CHANGED, buf3)
  else
    let k := if k > len then len else k
    if k = 0 then some (LV_DRAW_MASK_RES_TRANSP, buf2)
    else
      (if k > 0 then lv_memset_00 buf2 k (len - k) else some buf2).bind fun buf3 =>
      some (LV_DRAW_MASK_RES_CHANGED, buf3)

/-- The part of `line_mask_steep` behind the two early returns and the computation of `xs` and
`xe`, from `int32_t xsi = xs >> 8` on.  When the test
`xsi != xei && (p->xy_steep < 0 && xsf == 0)` holds the source sets `xsf = 0xFF`, `xsi = xei` and
decrements `k`; the test `xsi == xei` that follows then holds. -/
def line_mask_steep_aa (mask_buf : List Nat) (abs_x len xs xe : Int)
    (p : lv_draw_mask_line_param_t) : Option (lv_draw_mask_res_t × List Nat) :=
  let xsi := asr xs 8
  let xsf := xs % 256
  let xei := asr xe 8
  let xef := xe % 256
  let k := xsi - abs_x
  if xsi ≠ xei ∧ (p.xy_steep < 0 ∧ xsf = 0) then
    line_mask_steep_one mask_buf abs_x len (k - 1) xei 0xFF xef p
  else if xsi = xei then line_mask_steep_one mask_buf abs_x len k xsi xsf xef p
  else if p.xy_steep < 0 then line_mask_steep_neg mask_buf abs_x len k xsi xsf p
  else line_mask_steep_pos mask_buf abs_x len k xsi xsf p

/-- `line_mask_steep(mask_buf, abs_x, abs_y, len, p)`, the coordinates being relative to the
origin of the line: the two early returns and the computation of `xs` and `xe`. -/
def line_mask_steep (mask_buf : List Nat) (abs_x abs_y len : Int)
    (p : lv_draw_mask_line_param_t) : Option (lv_draw_mask_res_t × List Nat) :=
  let x_at_y := asr (int32_t (p.xy_steep * abs_y)) 10
  let x_at_y := if p.xy_steep > 0 then x_at_y + 1 else x_at_y
  if x_at_y < abs_x then
    some (if p.inv then LV_DRAW_MASK_RES_FULL_COVER else LV_DRAW_MASK_RES_TRANSP, mask_buf)
  else
  let x_at_y := asr (int32_t (p.xy_steep * abs_y)) 10
  if x_at_y > abs_x + len then
    some (if p.inv then LV_DRAW_MASK_RES_TRANSP else LV_DRAW_MASK_RES_FULL_COVER, mask_buf)
  else
  let xs := asr (int32_t (int32_t (abs_y * 256) * p.xy_steep)) 10
  let xe := asr (int32_t (int32_t ((abs_y + 1) * 256) * p.xy_steep)) 10
  line_mask_steep_aa mask_buf abs_x len xs xe p

/-- `lv_draw_mask_line(mask_buf, abs_x, abs_y, len, p)`: the result and the buffer after the
call. -/
def lv_draw_mask_line (mask_buf : List Nat) (abs_x abs_y len : Int)
    (p : lv_draw_mask_line_param_t) : Option (lv_draw_mask_res_t × List Nat) :=
  let abs_y := abs_y - p.origo_y
  let abs_x := abs_x - p.origo_x
  if p.steep = 0 then
    if p.flat then
      if p.cfg_side = LV_DRAW_MASK_LINE_SIDE_LEFT ∨ p.cfg_side = LV_DRAW_MASK_LINE_SIDE_RIGHT then
        some (LV_DRAW_MASK_RES_FULL_COVER, mask_buf)
      else if p.cfg_side = LV_DRAW_MASK_LINE_SIDE_TOP ∧ abs_y + 1 < 0 then
        some (LV_DRAW_MASK_RES_FULL_COVER, mask_buf)
      else if p.cfg_side = LV_DRAW_MASK_LINE_SIDE_BOTTOM ∧ abs_y > 0 then
        some (LV_DRAW_MASK_RES_FULL_COVER, mask_buf)
      else some (LV_DRAW_MASK_RES_TRANSP, mask_buf)
    else
      if p.cfg_side = LV_DRAW_MASK_LINE_SIDE_TOP ∨ p.cfg_side = LV_DRAW_MASK_LINE_SIDE_BOTTOM then
        some (LV_DRAW_MASK_RES_FULL_COVER, mask_buf)
      else if p.cfg_side = LV_DRAW_MASK_LINE_SIDE_RIGHT ∧ abs_x > 0 then
        some (LV_DRAW_MASK_RES_FULL_COVER, mask_buf)
      else if p.cfg_side = LV_DRAW_MASK_LINE_SIDE_LEFT then
        if abs_x + len < 0 then some (LV_DRAW_MASK_RES_FULL_COVER, mask_buf)
        else
          let k := -abs_x
          if k < 0 then some (LV_DRAW_MASK_RES_TRANSP, mask_buf)
          else
            (if 0 ≤ k ∧ k < len then lv_memset_00 mask_buf k (len - k)
              else some mask_buf).bind fun buf1 =>
            some (LV_DRAW_MASK_RES_CHANGED, buf1)
      else
        if abs_x + len < 0 then some (LV_DRAW_MASK_RES_TRANSP, mask_buf)
        else
          let k := -abs_x
          let k := if k < 0 then 0 else k
          if k ≥ len then some (LV_DRAW_MASK_RES_TRANSP, mask_buf)
          else
            (if 0 ≤ k ∧ k < len then lv_memset_00 mask_buf 0 k else some mask_buf).bind fun buf1 =>
            some (LV_DRAW_MASK_RES_CHANGED, buf1)
  else if p.flat then line_mask_flat mask_buf abs_x abs_y len p
  else line_mask_steep mask_buf abs_x abs_y len p

/-! ## The circle descriptor of the radius generator -/

/-- Modelled from the spec: `lv_point_t`, a struct of `lv_area.h` (not part of the sources at
hand). -/
structure lv_point_t where
  x : Int
  y : Int
  deriving DecidableEq

/-- Modelled from the spec: `lv_area_t`, a struct of `lv_area.h` (not part of the sources at
hand): the rectangle `(x1, y1)-(x2, y2)`, both corners included. -/
structure lv_area_t where
  x1 : Int
  y1 : Int
  x2 : Int
  y2 : Int
  deriving DecidableEq

/-- Modelled from the spec: `lv_area_get_width` of `lv_area.h` (not part of the sources at
hand). -/
def lv_area_get_width (a : lv_area_t) : Int := a.x2 - a.x1 + 1

/-- Modelled from the spec: `lv_area_get_height` of `lv_area.h` (not part of the sources at
hand). -/
def lv_area_get_height (a : lv_area_t) : Int := a.y2 - a.y1 + 1

/-- Modelled from the spec: the macro `LV_MIN` of `lv_math.h` (not part of the sources at
hand). -/
def LV_MIN (a b : Int) : Int := if a < b then a else b

/-- Modelled from the spec: the macro `LV_MAX` of `lv_math.h` (not part of the sources at
hand). -/
def LV_MAX (a b : Int) : Int := if a > b then a else b

/-- Modelled from the spec: the macro `LV_CLAMP(min, val, max)` of `lv_math.h` (not part of the
sources at hand). -/
def LV_CLAMP (min val max : Int) : Int := LV_MAX min (LV_MIN val max)

/-- The circle descriptor `_lv_draw_mask_radius_circle_dsc_t`; the three arrays have 300
entries. -/
structure _lv_draw_mask_radius_circle_dsc_t where
  cir_size : Int
  cir_opa : List Nat
  x_start_on_y : List Nat
  opa_start_on_y : List Nat
  deriving DecidableEq

/-- The static `circle_cache` before its first use: zero-initialised. -/
def circle_cache_init : _lv_draw_mask_radius_circle_dsc_t :=
  { cir_size := 0, cir_opa := List.replicate 300 0, x_start_on_y := List.replicate 300 0,
    opa_start_on_y := List.replicate 300 0 }

/-- The assignment `a[i] = v` to an array of bytes; outside the array it is undefined. -/
def array_set (a : List Nat) (i : Int) (v : Nat) : Option (List Nat) :=
  if 0 ≤ i ∧ i < a.length then some (a.set i.toNat v) else none

/-- The read `a[i]` of an array of bytes; outside the array it is undefined. -/
def array_get (a : List Nat) (i : Int) : Option Nat :=
  if 0 ≤ i then a[i.toNat]? else none

/-- `lv_circ_init(&c, &tmp, radius)`: the point and `tmp`. -/
def lv_circ_init (radius : Int) : lv_point_t × Int := (⟨radius, 0⟩, 1 - radius)

/-- `lv_circ_cont(&c)`. -/
def lv_circ_cont (c : lv_point_t) : Bool := c.y ≤ c.x

/-- `lv_circ_next(&c, &tmp)`: the point and `tmp` after the call. -/
def lv_circ_next (c : lv_point_t) (tmp : Int) : lv_point_t × Int :=
  if tmp ≤ 0 then (⟨c.x, c.y + 1⟩, tmp + (2 * c.y + 3))
  else (⟨c.x - 1, c.y + 1⟩, tmp + (2 * (c.y - c.x) + 5))

/-- The local state of `cir_calc_aa4`: the circle point `cp` and `tmp`, the samples `x_int`
and `x_fract` (four `uint32_t` each), the written part of the scratch arrays `cir_x` and `cir_y`
(`cir_size` is their length), the descriptor and `y_8th_cnt`. -/
structure cir_calc_state where
  cp : lv_point_t
  tmp : Int
  x_int : List Int
  x_fract : List Int
  cir_x : List Int
  cir_y : List Int
  c : _lv_draw_mask_radius_circle_dsc_t
  y_8th_cnt : Int

/-- The three assignments `cir_x[cir_size] = x; cir_y[cir_size] = y; c->cir_opa[cir_size] = opa;`
followed by `cir_size++`.  The scratch arrays have 1000 entries. -/
def cir_push (st : cir_calc_state) (x y : Int) (opa : Nat) : Option cir_calc_state :=
  if st.cir_x.length < 1000 then
    (array_set st.c.cir_opa st.cir_x.length opa).map fun cir_opa =>
      { st with cir_x := st.cir_x ++ [x], cir_y := st.cir_y ++ [y],
                c := { st.c with cir_opa := cir_opa } }
  else none

/-- The `uint32_t` expression `(a - b + 1) / 2` of the `AA_EXTRA` correction. -/
def aa_extra (a b : Int) : Int := ((a - b + 1) % 2 ^ 32) / 2

/-- The loop `for(i = i_start; i < 4 && lv_circ_cont(&cp); i++) { ... }` of `cir_calc_aa4`, with
`4 - i` passes left at most: the final `i` and the state. -/
def cir_calc_sample : Nat → Nat → cir_calc_state → Nat × cir_calc_state
  | 0, i, st => (i, st)
  | n + 1, i, st =>
    if lv_circ_cont st.cp then
      let r := lv_circ_next st.cp st.tmp
      cir_calc_sample n (i + 1)
        { st with cp := r.1, tmp := r.2,
                  x_int := st.x_int.set i ((asr r.1.x 2) % 2 ^ 32),
                  x_fract := st.x_fract.set i (r.1.x % 4) }
    else (i, st)

/-- The body of the loop `while(lv_circ_cont(&cp))` of `cir_calc_aa4` behind the sampling: the
entries of one row of the 4x oversampled circle. -/
def cir_calc_group (st : cir_calc_state) : Option cir_calc_state :=
  let x_int0 := st.x_int.getD 0 0
  let x_int1 := st.x_int.getD 1 0
  let x_int2 := st.x_int.getD 2 0
  let x_int3 := st.x_int.getD 3 0
  let f0 := st.x_fract.getD 0 0
  let f1 := st.x_fract.getD 1 0
  let f2 := st.x_fract.getD 2 0
  let f3 := st.x_fract.getD 3 0
  (if x_int0 = x_int3 then
      let opa := uint8_t (f0 + f1 + f2 + f3)
      let opa := uint8_t (opa + aa_extra f0 f1)
      let opa := uint8_t (opa + aa_extra f1 f2)
      let opa := uint8_t (opa + aa_extra f2 f3)
      cir_push st x_int0 st.y_8th_cnt (uint8_t (opa * 16))
    else if x_int0 ≠ x_int1 then
      (cir_push st x_int0 st.y_8th_cnt (uint8_t (uint8_t f0 * 16))).bind fun st1 =>
      let opa := uint8_t ((1 * 4 + f1 + f2 + f3) % 2 ^ 32)
      let opa := uint8_t (opa + aa_extra f1 f2)
      let opa := uint8_t (opa + aa_extra f2 f3)
      cir_push st1 (int32_t (x_int0 - 1)) st.y_8th_cnt (uint8_t (opa * 16))
    else if x_int0 ≠ x_int2 then
      let opa := uint8_t (f0 + f1)
      let opa := uint8_t (opa + aa_extra f0 f1)
      (cir_push st x_int0 st.y_8th_cnt (uint8_t (opa * 16))).bind fun st1 =>
      let opa := uint8_t ((2 * 4 + f2 + f3) % 2 ^ 32)
      let opa := uint8_t (opa + aa_extra f2 f3)
      cir_push st1 (int32_t (x_int0 - 1)) st.y_8th_cnt (uint8_t (opa * 16))
    else
      let opa := uint8_t (f0 + f1 + f2)
      let opa := uint8_t (opa + aa_extra f0 f1)
      let opa := uint8_t (opa + aa_extra f1 f2)
      (cir_push st x_int0 st.y_8th_cnt (uint8_t (opa * 16))).bind fun st1 =>
      let opa := uint8_t ((3 * 4 + f3) % 2 ^ 32)
      cir_push st1 (int32_t (x_int0 - 1)) st.y_8th_cnt (uint8_t (opa * 16))).map fun st2 =>
  { st2 with y_8th_cnt := st.y_8th_cnt + 1 }

/-- The loop `while(lv_circ_cont(&cp)) { ... }` of `cir_calc_aa4`; the first argument bounds
the number of passes (`none` when it does not suffice), `i_start` is 1 in the first pass and 0
afterwards. -/
def cir_calc_sweep : Nat → Nat → cir_calc_state → Option cir_calc_state
  | 0, _, _ => none
  | fuel + 1, i_start, st =>
    if lv_circ_cont st.cp then
      let r := cir_calc_sample (4 - i_start) i_start st
      if r.1 ≠ 4 then some r.2
      else (cir_calc_group r.2).bind fun st1 => cir_calc_sweep fuel 0 st1
    else some st

/-- The loop `for(i = i_start; i >= 0; i--, cir_size++)` that builds the second octant, with
`n = i + 1`. -/
def cir_calc_mirror : Nat → cir_calc_state → Option cir_calc_state
  | 0, st => some st
  | i + 1, st =>
    match st.cir_y[i]?, st.cir_x[i]?, st.c.cir_opa[i]? with
    | some y, some x, some opa => (cir_push st y x opa).bind fun st1 => cir_calc_mirror i st1
    | _, _, _ => none

/-- The loop `for(; cir_y[i] == y && i < cir_size; i++)` of the indexing part, with at most `n`
entries left: the final `i` and the descriptor.  (The source reads `cir_y[i]` before it tests
`i < cir_size`; the value read at `i = cir_size` does not matter.) -/
def cir_calc_row (cir_x cir_y : List Int) (y : Int) :
    Nat → Nat → _lv_draw_mask_radius_circle_dsc_t → Option (Nat × _lv_draw_mask_radius_circle_dsc_t)
  | 0, i, c => some (i, c)
  | n + 1, i, c =>
    match cir_y[i]?, cir_x[i]? with
    | some cy, some cx =>
      if cy % 2 ^ 32 = y then
        (array_get c.x_start_on_y y).bind fun xs =>
        (array_set c.x_start_on_y y (uint8_t (LV_MIN xs cx))).bind fun a =>
        cir_calc_row cir_x cir_y y n (i + 1) { c with x_start_on_y := a }
      else some (i, c)
    | _, _ => some (i, c)

/-- The loop `while(i < cir_size) { ... y++; }` of the indexing part; the first argument bounds
the number of passes, and the arrays end before it is used up. -/
def cir_calc_index (cir_x cir_y : List Int) :
    Nat → Int → Nat → _lv_draw_mask_radius_circle_dsc_t → Option _lv_draw_mask_radius_circle_dsc_t
  | 0, _, _, _ => none
  | fuel + 1, y, i, c =>
    if i < cir_x.length then
      (array_set c.opa_start_on_y y (uint8_t i)).bind fun a1 =>
      (array_set c.x_start_on_y y (uint8_t (cir_x.getD i 0))).bind fun a2 =>
      (cir_calc_row cir_x cir_y y (cir_x.length - i) i
        { c with opa_start_on_y := a1, x_start_on_y := a2 }).bind fun r =>
      cir_calc_index cir_x cir_y fuel (y + 1) r.1 r.2
    else some c

/-- The midpoint step of `cir_calc_aa4`, from `tmp = mid - (mid_int << 10)` to
`c->cir_opa[cir_size] *= 16`: the byte stored for the midpoint entry.  `tmp` is an `lv_coord_t`
of `bits` bits, and every assignment to it converts the value; the product `tmp * tmp * 2` is
computed on `int`. -/
def cir_calc_aa4_mid (bits : Nat) (mid mid_int : Int) : Nat :=
  let tmp := lv_coord_t bits ((mid - mid_int * 2 ^ 10) % 2 ^ 32)
  let tmp :=
    if tmp ≤ 512 then
      let tmp := lv_coord_t bits (int32_t (int32_t (tmp * tmp) * 2))
      lv_coord_t bits (asr tmp (10 + 6))
    else
      let tmp := lv_coord_t bits (1024 - tmp)
      let tmp := lv_coord_t bits (int32_t (int32_t (tmp * tmp) * 2))
      let tmp := lv_coord_t bits (asr tmp (10 + 6))
      lv_coord_t bits (15 - tmp)
  uint8_t (uint8_t tmp * 16)

/-- `cir_calc_aa4(c, radius)` for an `lv_coord_t` of `bits` bits: the descriptor after the
call. -/
def cir_calc_aa4_bits (bits : Nat) (c : _lv_draw_mask_radius_circle_dsc_t) (radius : Int) :
    Option _lv_draw_mask_radius_circle_dsc_t :=
  if radius = 0 then some c
  else
    let r := lv_circ_init (radius * 4)
    let st0 : cir_calc_state :=
      { cp := r.1, tmp := r.2, x_int := [(asr r.1.x 2) % 2 ^ 32, 0, 0, 0], x_fract := [0, 0, 0, 0],
        cir_x := [], cir_y := [], c := c, y_8th_cnt := 0 }
    (cir_calc_sweep ((4 * radius).toNat + 1) 1 st0).bind fun st1 =>
    let mid := (radius * 723) % 2 ^ 32
    let mid_int := asr mid 10
    match st1.cir_x.getLast?, st1.cir_y.getLast? with
    | some last_x, some last_y =>
      (if last_x % 2 ^ 32 ≠ mid_int ∨ last_y % 2 ^ 32 ≠ mid_int then
          cir_push st1 mid_int mid_int (cir_calc_aa4_mid bits mid mid_int)
        else some st1).bind fun st2 =>
      (cir_calc_mirror (st2.cir_x.length - 1) st2).bind fun st3 =>
      (array_set st3.c.opa_start_on_y 0 0).bind fun a0 =>
      (cir_calc_index st3.cir_x st3.cir_y 301 0 0 { st3.c with opa_start_on_y := a0 }).map
        fun c1 => { c1 with cir_size := st3.cir_x.length }
    | _, _ => none

/-- `cir_calc_aa4(c, radius)`: the descriptor after the call, for an `lv_coord_t` of 16
bits. -/
def cir_calc_aa4 (c : _lv_draw_mask_radius_circle_dsc_t) (radius : Int) :
    Option _lv_draw_mask_radius_circle_dsc_t :=
  cir_calc_aa4_bits 16 c radius

/-! ## The radius generator -/

/-- Modelled from the spec: the parameter block of a radius mask, a struct of
`lv_draw_mask.h` (not part of the sources at hand): the rectangle, the radius and the flag
`outer`.  Its field `circle` points at the static `circle_cache`, which is passed to
`lv_draw_mask_radius` next to the block. -/
structure lv_draw_mask_radius_param_t where
  cfg_rect : lv_area_t
  cfg_radius : Int
  cfg_outer : Bool
  deriving DecidableEq

/-- `lv_draw_mask_radius_init(param, rect, radius, inv)`: the parameter block, whose fields are
written first, and the static `circle_cache` after the call of `cir_calc_aa4` that ends the
function (`none` when that call is undefined). -/
def lv_draw_mask_radius_init (circle_cache : _lv_draw_mask_radius_circle_dsc_t)
    (rect : lv_area_t) (radius : Int) (inv : Bool) :
    lv_draw_mask_radius_param_t × Option _lv_draw_mask_radius_circle_dsc_t :=
  let w := lv_area_get_width rect
  let h := lv_area_get_height rect
  let radius := if radius < 0 then 0 else radius
  let short_side := LV_MIN w h
  let radius := if radius > asr short_side 1 then asr short_side 1 else radius
  ({ cfg_rect := rect, cfg_radius := radius, cfg_outer := inv },
    cir_calc_aa4 circle_cache radius)

/-- `get_next_line(c, y, &len, &x_start)`: the index in `cir_opa` of the returned pointer, `len`
and `x_start`. -/
def get_next_line (c : _lv_draw_mask_radius_circle_dsc_t) (y : Int) : Option (Int × Int × Int) :=
  (array_get c.opa_start_on_y (y + 1)).bind fun o1 =>
  (array_get c.opa_start_on_y y).bind fun o0 =>
  (array_get c.x_start_on_y y).map fun xs => ((o0 : Int), (o1 : Int) - (o0 : Int), (xs : Int))

/-- The two loops `for(i = 0; i < aa_len; i++) { ... }` of `lv_draw_mask_radius` (`outer` tells
which one), with `n` passes left. -/
def lv_draw_mask_radius_loop (c : _lv_draw_mask_radius_circle_dsc_t) (outer : Bool)
    (aa_opa aa_len cir_x_right cir_x_left len : Int) : Nat → Int → List Nat → Option (List Nat)
  | 0, _, mask_buf => some mask_buf
  | n + 1, i, mask_buf =>
    (array_get c.cir_opa (aa_opa + (aa_len - i - 1))).bind fun v =>
    let opa := if outer then uint8_t (255 - (v : Int)) else v
    (if cir_x_right + i ≥ 0 ∧ cir_x_right + i < len then
        mask_buf_mix_opa mask_buf (cir_x_right + i) opa
      else some mask_buf).bind fun buf1 =>
    (if cir_x_left - i ≥ 0 ∧ cir_x_left - i < len then
        mask_buf_mix_opa buf1 (cir_x_left - i) opa
      else some buf1).bind fun buf2 =>
    lv_draw_mask_radius_loop c outer aa_opa aa_len cir_x_right cir_x_left len n (i + 1) buf2

/-- `lv_draw_mask_radius(mask_buf, abs_x, abs_y, len, p)`, with the descriptor `p->circle`
points at: the result and the buffer after the call. -/
def lv_draw_mask_radius (circle : _lv_draw_mask_radius_circle_dsc_t) (mask_buf : List Nat)
    (abs_x abs_y len : Int) (p : lv_draw_mask_radius_param_t) :
    Option (lv_draw_mask_res_t × List Nat) :=
  let outer := p.cfg_outer
  let radius := p.cfg_radius
  let rect := p.cfg_rect
  if abs_y < rect.y1 ∨ abs_y > rect.y2 then
    some (if outer = false then LV_DRAW_MASK_RES_TRANSP else LV_DRAW_MASK_RES_FULL_COVER, mask_buf)
  else if (abs_x ≥ rect.x1 + radius ∧ abs_x + len ≤ rect.x2 - radius) ∨
      (abs_y ≥ rect.y1 + radius ∧ abs_y ≤ rect.y2 - radius) then
    if outer = false then
      let last := rect.x1 - abs_x
      if last > len then some (LV_DRAW_MASK_RES_TRANSP, mask_buf)
      else
        (if last ≥ 0 then lv_memset_00 mask_buf 0 last else some mask_buf).bind fun buf1 =>
        let first := rect.x2 - abs_x + 1
        if first ≤ 0 then some (LV_DRAW_MASK_RES_TRANSP, buf1)
        else
          (if first < len then lv_memset_00 buf1 first (len - first) else some buf1).bind
            fun buf2 =>
          if last = 0 ∧ first = len then some (LV_DRAW_MASK_RES_FULL_COVER, buf2)
          else some (LV_DRAW_MASK_RES_CHANGED, buf2)
    else
      let first := rect.x1 - abs_x
      let first := if first < 0 then 0 else first
      (if first ≤ len then
          let last := rect.x2 - abs_x - first + 1
          let last := if first + last > len then len - first else last
          if last ≥ 0 then lv_memset_00 mask_buf first last else some mask_buf
        else some mask_buf).bind fun buf1 =>
      some (LV_DRAW_MASK_RES_CHANGED, buf1)
  else
    let k := rect.x1 - abs_x
    let w := lv_area_get_width rect
    let h := lv_area_get_height rect
    let abs_y := abs_y - rect.y1
    let cir_y := if abs_y < radius then radius - abs_y - 1 else abs_y - (h - radius)
    (get_next_line circle cir_y).bind fun line =>
    let aa_opa := line.1
    let aa_len := line.2.1
    let x_start := line.2.2
    let cir_x_right := k + w - radius + x_start
    let cir_x_left := k + radius - x_start - 1
    (lv_draw_mask_radius_loop circle outer aa_opa aa_len cir_x_right cir_x_left len
      aa_len.toNat 0 mask_buf).bind fun buf1 =>
    let i := if 0 < aa_len then aa_len else 0
    if outer = false then
      let cir_x_right := LV_CLAMP 0 (cir_x_right + i) len
      (lv_memset_00 buf1 cir_x_right (len - cir_x_right)).bind fun buf2 =>
      let cir_x_left := LV_CLAMP 0 (cir_x_left - aa_len + 1) len
      (lv_memset_00 buf2 0 cir_x_left).bind fun buf3 =>
      some (LV_DRAW_MASK_RES_CHANGED, buf3)
    else
      let clr_start := LV_CLAMP 0 (cir_x_left + 1) (len - 1)
      let clr_len := LV_CLAMP 0 (cir_x_right - clr_start) (len - clr_start)
      (lv_memset_00 buf1 clr_start clr_len).bind fun buf2 =>
      some (LV_DRAW_MASK_RES_CHANGED, buf2)

/-! ## The angle generator -/

/-- Modelled from the spec: the parameter block of an angle mask, a struct of `lv_draw_mask.h`
(not part of the sources at hand), with the fields the source reads and writes: the vertex and
the two angles of `cfg`, the two line blocks and `delta_deg`. -/
structure lv_draw_mask_angle_param_t where
  cfg_vertex_p : lv_point_t
  cfg_start_angle : Int
  cfg_end_angle : Int
  start_line : lv_draw_mask_line_param_t
  end_line : lv_draw_mask_line_param_t
  delta_deg : Int
  deriving DecidableEq

/-- `lv_draw_mask_line_angle_init(param, p1x, py, angle, side)`.  The sine table `lv_trigo_sin`
of `lv_math.h` is not part of the sources at hand and is a parameter. -/
def lv_draw_mask_line_angle_init (lv_trigo_sin : Int → Int) (p1x py angle : Int)
    (side : lv_draw_mask_line_side_t) : lv_draw_mask_line_param_t :=
  let angle := if angle > 180 then angle - 180 else angle
  let p2x := asr (lv_trigo_sin (angle + 90)) 5 + p1x
  let p2y := asr (lv_trigo_sin angle) 5 + py
  lv_draw_mask_line_points_init p1x py p2x p2y side

/-- `lv_draw_mask_angle_init(param, vertex_x, vertex_y, start_angle, end_angle)`, with the sine
table as a parameter. -/
def lv_draw_mask_angle_init (lv_trigo_sin : Int → Int)
    (vertex_x vertex_y start_angle end_angle : Int) : lv_draw_mask_angle_param_t :=
  let start_angle := if start_angle < 0 then 0 else if start_angle > 359 then 359 else start_angle
  let end_angle := if end_angle < 0 then 0 else if end_angle > 359 then 359 else end_angle
  let delta_deg :=
    if end_angle < start_angle then 360 - start_angle + end_angle
    else LV_ABS (end_angle - start_angle)
  let start_side :=
    if start_angle ≥ 0 ∧ start_angle < 180 then LV_DRAW_MASK_LINE_SIDE_LEFT
    else if start_angle ≥ 180 ∧ start_angle < 360 then LV_DRAW_MASK_LINE_SIDE_RIGHT
    else LV_DRAW_MASK_LINE_SIDE_RIGHT
  let end_side :=
    if end_angle ≥ 0 ∧ end_angle < 180 then LV_DRAW_MASK_LINE_SIDE_RIGHT
    else if end_angle ≥ 180 ∧ end_angle < 360 then LV_DRAW_MASK_LINE_SIDE_LEFT
    else LV_DRAW_MASK_LINE_SIDE_RIGHT
  { cfg_vertex_p := ⟨vertex_x, vertex_y⟩, cfg_start_angle := start_angle,
    cfg_end_angle := end_angle,
    start_line := lv_draw_mask_line_angle_init lv_trigo_sin vertex_x vertex_y start_angle
      start_side,
    end_line := lv_draw_mask_line_angle_init lv_trigo_sin vertex_x vertex_y end_angle end_side,
    delta_deg := delta_deg }

/-- The call `res = lv_draw_mask_line(&mask_buf[start], abs_x, abs_y, n, p)` of
`lv_draw_mask_angle` on the `n` bytes from index `start` on, followed by
`if(res == LV_DRAW_MASK_RES_TRANSP) lv_memset_00(&mask_buf[start], n);`: the result and the
whole buffer.  The line generator is given these `n` bytes only; a write behind them is `none`
here as well. -/
def lv_draw_mask_angle_part (mask_buf : List Nat) (start abs_x abs_y n : Int)
    (p : lv_draw_mask_line_param_t) : Option (lv_draw_mask_res_t × List Nat) :=
  (lv_draw_mask_line ((mask_buf.drop start.toNat).take n.toNat) abs_x abs_y n p).bind fun r =>
  let buf1 := mask_buf.take start.toNat ++ r.2 ++ mask_buf.drop (start.toNat + n.toNat)
  if r.1 = LV_DRAW_MASK_RES_TRANSP then (lv_memset_00 buf1 start n).map fun buf2 => (r.1, buf2)
  else some (r.1, buf1)

/-- The index at which the first two regimes of `lv_draw_mask_angle` split the span: the
value of `tmp` behind the first `if(tmp > len) tmp = len;`.  The two regimes compute it with the
same statements. -/
def lv_draw_mask_angle_tmp (len rel_x rel_y : Int) (p : lv_draw_mask_angle_param_t) : Int :=
  let end_angle_first := asr (int32_t (rel_y * p.end_line.xy_steep)) 10
  let start_angle_last := asr (int32_t ((rel_y + 1) * p.start_line.xy_steep)) 10
  let start_angle_last :=
    if p.cfg_start_angle > 270 ∧ p.cfg_start_angle ≤ 359 ∧ start_angle_last < 0 then 0
    else if p.cfg_start_angle > 0 ∧ p.cfg_start_angle ≤ 90 ∧ start_angle_last < 0 then 0
    else if p.cfg_start_angle > 90 ∧ p.cfg_start_angle < 270 ∧ start_angle_last > 0 then 0
    else start_angle_last
  let start_angle_last :=
    if p.cfg_end_angle > 270 ∧ p.cfg_end_angle ≤ 359 ∧ start_angle_last < 0 then 0
    else if p.cfg_end_angle > 0 ∧ p.cfg_end_angle ≤ 90 ∧ start_angle_last < 0 then 0
    else if p.cfg_end_angle > 90 ∧ p.cfg_end_angle < 270 ∧ start_angle_last > 0 then 0
    else start_angle_last
  let dist := asr (end_angle_first - start_angle_last) 1
  let tmp := start_angle_last + dist - rel_x
  if tmp > len then len else tmp

/-- The rest of the first two regimes of `lv_draw_mask_angle`, from `if(tmp > 0)` on: the line
`first` is applied to the `tmp` bytes on the left and the line `second` to the bytes on the
right (`start_line` and `end_line` in the first regime, `end_line` and `start_line` in the
second). -/
def lv_draw_mask_angle_split (mask_buf : List Nat) (abs_x abs_y len tmp : Int)
    (first second : lv_draw_mask_line_param_t) : Option (lv_draw_mask_res_t × List Nat) :=
  (if tmp > 0 then lv_draw_mask_angle_part mask_buf 0 abs_x abs_y tmp first
    else some (LV_DRAW_MASK_RES_FULL_COVER, mask_buf)).bind fun r1 =>
  let tmp := if tmp > len then len else tmp
  let tmp := if tmp < 0 then 0 else tmp
  (lv_draw_mask_angle_part r1.2 tmp (abs_x + tmp) abs_y (len - tmp) second).bind fun r2 =>
  some (if r1.1 = r2.1 then r1.1 else LV_DRAW_MASK_RES_CHANGED, r2.2)

/-- The computation of `res1` in the last regime of `lv_draw_mask_angle`: the result of the
start line, or the marker `UNKNOWN`, and the buffer. -/
def lv_draw_mask_angle_res1 (mask_buf : List Nat) (abs_x abs_y len : Int)
    (p : lv_draw_mask_angle_param_t) : Option (lv_draw_mask_res_t × List Nat) :=
  if p.cfg_start_angle = 180 then
    some (if abs_y < p.cfg_vertex_p.y then LV_DRAW_MASK_RES_FULL_COVER
      else LV_DRAW_MASK_RES_UNKNOWN, mask_buf)
  else if p.cfg_start_angle = 0 then
    some (if abs_y < p.cfg_vertex_p.y then LV_DRAW_MASK_RES_UNKNOWN
      else LV_DRAW_MASK_RES_FULL_COVER, mask_buf)
  else if (p.cfg_start_angle < 180 ∧ abs_y < p.cfg_vertex_p.y) ∨
      (p.cfg_start_angle > 180 ∧ abs_y ≥ p.cfg_vertex_p.y) then
    some (LV_DRAW_MASK_RES_UNKNOWN, mask_buf)
  else lv_draw_mask_line mask_buf abs_x abs_y len p.start_line

/-- The computation of `res2` in the last regime of `lv_draw_mask_angle`: the result of the
end line, or the marker `UNKNOWN`, and the buffer. -/
def lv_draw_mask_angle_res2 (mask_buf : List Nat) (abs_x abs_y len : Int)
    (p : lv_draw_mask_angle_param_t) : Option (lv_draw_mask_res_t × List Nat) :=
  if p.cfg_end_angle = 180 then
    some (if abs_y < p.cfg_vertex_p.y then LV_DRAW_MASK_RES_UNKNOWN
      else LV_DRAW_MASK_RES_FULL_COVER, mask_buf)
  else if p.cfg_end_angle = 0 then
    some (if abs_y < p.cfg_vertex_p.y then LV_DRAW_MASK_RES_FULL_COVER
      else LV_DRAW_MASK_RES_UNKNOWN, mask_buf)
  else if (p.cfg_end_angle < 180 ∧ abs_y < p.cfg_vertex_p.y) ∨
      (p.cfg_end_angle > 180 ∧ abs_y ≥ p.cfg_vertex_p.y) then
    some (LV_DRAW_MASK_RES_UNKNOWN, mask_buf)
  else lv_draw_mask_line mask_buf abs_x abs_y len p.end_line

/-- The combination of `res1` and `res2` that ends the last regime of
`lv_draw_mask_angle`. -/
def lv_draw_mask_angle_combine (res1 res2 : lv_draw_mask_res_t) : lv_draw_mask_res_t :=
  if res1 = LV_DRAW_MASK_RES_TRANSP ∨ res2 = LV_DRAW_MASK_RES_TRANSP then LV_DRAW_MASK_RES_TRANSP
  else if res1 = LV_DRAW_MASK_RES_UNKNOWN ∧ res2 = LV_DRAW_MASK_RES_UNKNOWN then
    LV_DRAW_MASK_RES_TRANSP
  else if res1 = LV_DRAW_MASK_RES_FULL_COVER ∧ res2 = LV_DRAW_MASK_RES_FULL_COVER then
    LV_DRAW_MASK_RES_FULL_COVER
  else LV_DRAW_MASK_RES_CHANGED

/-- `lv_draw_mask_angle(mask_buf, abs_x, abs_y, len, p)`: the result and the buffer after the
call. -/
def lv_draw_mask_angle (mask_buf : List Nat) (abs_x abs_y len : Int)
    (p : lv_draw_mask_angle_param_t) : Option (lv_draw_mask_res_t × List Nat) :=
  let rel_y := abs_y - p.cfg_vertex_p.y
  let rel_x := abs_x - p.cfg_vertex_p.x
  if p.cfg_start_angle < 180 ∧ p.cfg_end_angle < 180 ∧ p.cfg_start_angle ≠ 0 ∧
      p.cfg_end_angle ≠ 0 ∧ p.cfg_start_angle > p.cfg_end_angle then
    if abs_y < p.cfg_vertex_p.y then some (LV_DRAW_MASK_RES_FULL_COVER, mask_buf)
    else lv_draw_mask_angle_split mask_buf abs_x abs_y len
      (lv_draw_mask_angle_tmp len rel_x rel_y p) p.start_line p.end_line
  else if p.cfg_start_angle > 180 ∧ p.cfg_end_angle > 180 ∧
      p.cfg_start_angle > p.cfg_end_angle then
    if abs_y > p.cfg_vertex_p.y then some (LV_DRAW_MASK_RES_FULL_COVER, mask_buf)
    else lv_draw_mask_angle_split mask_buf abs_x abs_y len
      (lv_draw_mask_angle_tmp len rel_x rel_y p) p.end_line p.start_line
  else
    (lv_draw_mask_angle_res1 mask_buf abs_x abs_y len p).bind fun r1 =>
    (lv_draw_mask_angle_res2 r1.2 abs_x abs_y len p).bind fun r2 =>
    some (lv_draw_mask_angle_combine r1.1 r2.1, r2.2)

/-! ## The fade generator -/

/-- Modelled from the spec: the parameter block of a fade mask, a struct of `lv_draw_mask.h`
(not part of the sources at hand): the rectangle, the two rows and the two opacities, which are
bytes. -/
structure lv_draw_mask_fade_param_t where
  cfg_coords : lv_area_t
  cfg_y_top : Int
  cfg_y_bottom : Int
  cfg_opa_top : Nat
  cfg_opa_bottom : Nat
  deriving DecidableEq

/-- `lv_draw_mask_fade_init(param, coords, opa_top, y_top, opa_bottom, y_bottom)`. -/
def lv_draw_mask_fade_init (coords : lv_area_t) (opa_top : Nat) (y_top : Int)
    (opa_bottom : Nat) (y_bottom : Int) : lv_draw_mask_fade_param_t :=
  { cfg_coords := coords, cfg_opa_top := opa_top, cfg_opa_bottom := opa_bottom,
    cfg_y_top := y_top, cfg_y_bottom := y_bottom }

/-- The loop `for(i = 0; i < len; i++) mask_buf[i] = mask_mix(mask_buf[i], opa);` of
`lv_draw_mask_fade`, where `mask_buf` points at the byte `x_ofs` of the buffer, with `n` passes
left. -/
def lv_draw_mask_fade_loop (x_ofs : Int) (opa : Nat) : Nat → Int → List Nat → Option (List Nat)
  | 0, _, mask_buf => some mask_buf
  | n + 1, i, mask_buf =>
    (mask_buf_mix mask_buf (x_ofs + i) opa).bind fun buf1 =>
    lv_draw_mask_fade_loop x_ofs opa n (i + 1) buf1

/-- The opacity `lv_draw_mask_fade` mixes into the pixels of the row `abs_y`: the three
branches `if(abs_y <= p->cfg.y_top)`, `else if(abs_y >= p->cfg.y_bottom)` and `else` of the
source differ in this value only.  `opa_diff` is an `int16_t` and holds the difference of two
bytes without loss; `opa_act` is an `lv_opa_t`. -/
def lv_draw_mask_fade_opa (abs_y : Int) (p : lv_draw_mask_fade_param_t) : Nat :=
  if abs_y ≤ p.cfg_y_top then p.cfg_opa_top
  else if abs_y ≥ p.cfg_y_bottom then p.cfg_opa_bottom
  else
    let opa_diff : Int := (p.cfg_opa_bottom : Int) - (p.cfg_opa_top : Int)
    let y_diff := p.cfg_y_bottom - p.cfg_y_top + 1
    let opa_act := uint8_t (Int.tdiv (int32_t ((abs_y - p.cfg_y_top) * opa_diff)) y_diff)
    uint8_t ((opa_act : Int) + (p.cfg_opa_top : Int))

/-- `lv_draw_mask_fade(mask_buf, abs_x, abs_y, len, p)`: the result and the buffer after the
call. -/
def lv_draw_mask_fade (mask_buf : List Nat) (abs_x abs_y len : Int)
    (p : lv_draw_mask_fade_param_t) : Option (lv_draw_mask_res_t × List Nat) :=
  if abs_y < p.cfg_coords.y1 then some (LV_DRAW_MASK_RES_FULL_COVER, mask_buf)
  else if abs_y > p.cfg_coords.y2 then some (LV_DRAW_MASK_RES_FULL_COVER, mask_buf)
  else if abs_x + len < p.cfg_coords.x1 then some (LV_DRAW_MASK_RES_FULL_COVER, mask_buf)
  else if abs_x > p.cfg_coords.x2 then some (LV_DRAW_MASK_RES_FULL_COVER, mask_buf)
  else
    let len :=
      if abs_x + len > p.cfg_coords.x2 then len - (abs_x + len - p.cfg_coords.x2 - 1) else len
    let x_ofs := if abs_x < p.cfg_coords.x1 then p.cfg_coords.x1 - abs_x else 0
    let len := if abs_x < p.cfg_coords.x1 then len - x_ofs else len
    (lv_draw_mask_fade_loop x_ofs (lv_draw_mask_fade_opa abs_y p) len.toNat 0 mask_buf).map
      fun buf1 => (LV_DRAW_MASK_RES_CHANGED, buf1)

/-! ## The map generator -/

/-- Modelled from the spec: the parameter block of a map mask, a struct of `lv_draw_mask.h`
(not part of the sources at hand): the rectangle and the bytes `cfg.map` points at. -/
structure lv_draw_mask_map_param_t where
  cfg_coords : lv_area_t
  cfg_map : List Nat
  deriving DecidableEq

/-- `lv_draw_mask_map_init(param, coords, map)`. -/
def lv_draw_mask_map_init (coords : lv_area_t) (map : List Nat) : lv_draw_mask_map_param_t :=
  { cfg_coords := coords, cfg_map := map }

/-- The loop `for(i = 0; i < len; i++) mask_buf[i] = mask_mix(mask_buf[i], map_tmp[i]);` of
`lv_draw_mask_map`, where `mask_buf` points at the byte `x_ofs` of the buffer and `map_tmp` at
the byte `map_tmp` of the map, with `n` passes left.  A read outside the map is undefined. -/
def lv_draw_mask_map_loop (map : List Nat) (map_tmp x_ofs : Int) :
    Nat → Int → List Nat → Option (List Nat)
  | 0, _, mask_buf => some mask_buf
  | n + 1, i, mask_buf =>
    (array_get map (map_tmp + i)).bind fun m =>
    (mask_buf_mix mask_buf (x_ofs + i) m).bind fun buf1 =>
    lv_draw_mask_map_loop map map_tmp x_ofs n (i + 1) buf1

/-- `lv_draw_mask_map(mask_buf, abs_x, abs_y, len, p)`: the result and the buffer after the
call. -/
def lv_draw_mask_map (mask_buf : List Nat) (abs_x abs_y len : Int)
    (p : lv_draw_mask_map_param_t) : Option (lv_draw_mask_res_t × List Nat) :=
  if abs_y < p.cfg_coords.y1 then some (LV_DRAW_MASK_RES_FULL_COVER, mask_buf)
  else if abs_y > p.cfg_coords.y2 then some (LV_DRAW_MASK_RES_FULL_COVER, mask_buf)
  else if abs_x + len < p.cfg_coords.x1 then some (LV_DRAW_MASK_RES_FULL_COVER, mask_buf)
  else if abs_x > p.cfg_coords.x2 then some (LV_DRAW_MASK_RES_FULL_COVER, mask_buf)
  else
    let map_tmp := (abs_y - p.cfg_coords.y1) * lv_area_get_width p.cfg_coords
    let len :=
      if abs_x + len > p.cfg_coords.x2 then len - (abs_x + len - p.cfg_coords.x2 - 1) else len
    if abs_x < p.cfg_coords.x1 then
      let x_ofs := p.cfg_coords.x1 - abs_x
      let len := len - x_ofs
      (lv_draw_mask_map_loop p.cfg_map map_tmp x_ofs len.toNat 0 mask_buf).map fun buf1 =>
        (LV_DRAW_MASK_RES_CHANGED, buf1)
    else
      let map_tmp := map_tmp + (abs_x - p.cfg_coords.x1)
      (lv_draw_mask_map_loop p.cfg_map map_tmp 0 len.toNat 0 mask_buf).map fun buf1 =>
        (LV_DRAW_MASK_RES_CHANGED, buf1)

/-! ## Relations used to compare the two sides of a line -/

/-- Two buffers of `L` bytes, `bN` written by a generator for one side and `bI` by the same
generator for the inverse side (`inv = 1`), while the pixels of the columns `lo <= i < hi` have
been written: there the two bytes add up to 255, elsewhere both are still `0xFF`. -/
def dual_band (L : Nat) (bN bI : List Nat) (lo hi : Int) : Prop :=
  bN.length = L ∧ bI.length = L ∧
  ∀ i : Nat, i < L →
    ((lo ≤ (i : Int) ∧ (i : Int) < hi) → bN.getD i 0 + bI.getD i 0 = 255) ∧
    (¬ (lo ≤ (i : Int) ∧ (i : Int) < hi) → bN.getD i 0 = 255 ∧ bI.getD i 0 = 255)

/-- The opacities `oN` (one side) and `oI` (the inverse side) of a span of `L` pixels form a
band: left of column `lo` the first is 255 and the second 0, from column `hi` on the first is 0
and the second 255, and in between the two add up to 255. -/
def dual_out (L : Nat) (oN oI : List Nat) (lo hi : Int) : Prop :=
  oN.length = L ∧ oI.length = L ∧
  ∀ i : Nat, i < L →
    ((i : Int) < lo → oN.getD i 0 = 255 ∧ oI.getD i 0 = 0) ∧
    ((lo ≤ (i : Int) ∧ (i : Int) < hi) → oN.getD i 0 + oI.getD i 0 = 255) ∧
    (hi ≤ (i : Int) → oN.getD i 0 = 0 ∧ oI.getD i 0 = 255)

/-- The opacities `oN` (one side) and `oI` (the inverse side) of a span of `L` pixels away from
the columns `lo <= i < hi`: left of column `lo` the first is 255 and the second 0, from column
`hi` on the first is 0 and the second 255. -/
def dual_far (L : Nat) (oN oI : List Nat) (lo hi : Int) : Prop :=
  oN.length = L ∧ oI.length = L ∧
  ∀ i : Nat, i < L →
    ((i : Int) < lo → oN.getD i 0 = 255 ∧ oI.getD i 0 = 0) ∧
    (hi ≤ (i : Int) → oN.getD i 0 = 0 ∧ oI.getD i 0 = 255)

/-- A step that yields a buffer returns, and the buffer it yields has `L` bytes: every byte it
wrote has an index below `L`. -/
def buf_in_span (L : Nat) (o : Option (List Nat)) : Prop :=
  ∃ buf1, o = some buf1 ∧ buf1.length = L

/-- A generator call returns, the buffer it leaves has `L` bytes (every byte it wrote has an
index below `L`), and the result is not the marker `UNKNOWN`. -/
def res_in_span (L : Nat) (o : Option (lv_draw_mask_res_t × List Nat)) : Prop :=
  ∃ r, o = some r ∧ r.2.length = L ∧ r.1 ≠ LV_DRAW_MASK_RES_UNKNOWN

/-- The layout of a circle descriptor: the three arrays have 300 entries, and the entries of
`opa_start_on_y`, which are `uint8_t`, are below 256. -/
def circle_dsc_wf (c : _lv_draw_mask_radius_circle_dsc_t) : Prop :=
  c.cir_opa.length = 300 ∧ c.x_start_on_y.length = 300 ∧ c.opa_start_on_y.length = 300 ∧
  ∀ v ∈ c.opa_start_on_y, v < 256

/-- The point `(x, y)` lies in the rectangle `a`, both corners included. -/
def point_in_area (a : lv_area_t) (x y : Int) : Bool :=
  decide (a.x1 ≤ x ∧ x ≤ a.x2 ∧ a.y1 ≤ y ∧ y ≤ a.y2)

/-- The callback of the radius masks: `lv_draw_mask_radius_init` sets `dsc.cb` to
`lv_draw_mask_radius`.  `blocks p` is the parameter block at the address `p`, `circle` the
descriptor the blocks point at; the memory is the mask buffer, or `none` once a call was
undefined. -/
def lv_draw_mask_radius_cb (circle : _lv_draw_mask_radius_circle_dsc_t)
    (blocks : Nat → lv_draw_mask_radius_param_t) : mask_cb_t (Option (List Nat)) :=
  fun p mem abs_x abs_y len =>
    match mem.bind fun mask_buf => lv_draw_mask_radius circle mask_buf abs_x abs_y len (blocks p) with
    | some r => (r.1, some r.2)
    | none => (LV_DRAW_MASK_RES_UNKNOWN, none)

/-- The opacities a caller sees after `lv_draw_mask_apply` on a buffer pre-filled with `0xFF`,
when the call and the callbacks it made are defined. -/
def lv_draw_mask_apply_out (len : Int)
    (o : Option (lv_draw_mask_res_t × Option (List Nat))) : Option (List Nat) :=
  o.bind fun r => r.2.map fun mask_buf => mask_out len (r.1, mask_buf)

/-- The state of `cir_calc_aa4` behind the loop `while(lv_circ_cont(&cp))`: the scratch arrays
and the descriptor hold the entries of the first octant. -/
def cir_calc_aa4_octant (c : _lv_draw_mask_radius_circle_dsc_t) (radius : Int) :
    Option cir_calc_state :=
  let r := lv_circ_init (radius * 4)
  let st0 : cir_calc_state :=
    { cp := r.1, tmp := r.2, x_int := [(asr r.1.x 2) % 2 ^ 32, 0, 0, 0], x_fract := [0, 0, 0, 0],
      cir_x := [], cir_y := [], c := c, y_8th_cnt := 0 }
  cir_calc_sweep ((4 * radius).toNat + 1) 1 st0

/-- The state of `cir_calc_aa4` behind the loop that builds the second octant (for a radius
other than 0 and an `lv_coord_t` of `bits` bits): the scratch arrays `cir_x` and `cir_y` and the
descriptor hold all entries. -/
def cir_calc_aa4_entries_bits (bits : Nat) (c : _lv_draw_mask_radius_circle_dsc_t)
    (radius : Int) : Option cir_calc_state :=
  (cir_calc_aa4_octant c radius).bind fun st1 =>
  let mid := (radius * 723) % 2 ^ 32
  let mid_int := asr mid 10
  match st1.cir_x.getLast?, st1.cir_y.getLast? with
  | some last_x, some last_y =>
    (if last_x % 2 ^ 32 ≠ mid_int ∨ last_y % 2 ^ 32 ≠ mid_int then
        cir_push st1 mid_int mid_int (cir_calc_aa4_mid bits mid mid_int)
      else some st1).bind fun st2 =>
    cir_calc_mirror (st2.cir_x.length - 1) st2
  | _, _ => none

/-- The state of `cir_calc_aa4` behind the loop that builds the second octant (for a radius
other than 0), for an `lv_coord_t` of 16 bits. -/
def cir_calc_aa4_entries (c : _lv_draw_mask_radius_circle_dsc_t) (radius : Int) :
    Option cir_calc_state :=
  cir_calc_aa4_entries_bits 16 c radius

/-- The ranges of the values `cir_calc_aa4` holds while it sweeps the first octant: the samples
`x_int` are values of `uint32_t`, `y_8th_cnt` counts rows and is at most the number of entries,
the entries of `cir_y` are row numbers below the 1000 entries of the scratch arrays, and the
entries of `cir_x` are values of `uint32_t` or of `int32_t`. -/
def cir_calc_ranges (st : cir_calc_state) : Prop :=
  (∀ v ∈ st.x_int, 0 ≤ v ∧ v < 2 ^ 32) ∧ 0 ≤ st.y_8th_cnt ∧
  st.y_8th_cnt ≤ st.cir_x.length ∧ (∀ y ∈ st.cir_y, 0 ≤ y ∧ y < 1000) ∧
  (∀ x ∈ st.cir_x, -2 ^ 31 ≤ x ∧ x < 2 ^ 32)

/-- The push of an entry whose coverage `opa` is a count of sub-samples computed in unbounded
integers: it is defined when `opa` lies in 0..15, and stores `opa * 16`. -/
def cir_push_exact (st : cir_calc_state) (x y opa : Int) : Option cir_calc_state :=
  if 0 ≤ opa ∧ opa ≤ 15 then cir_push st x y (16 * opa).toNat else none

/-- The entries of one row as `cir_calc_group` builds them, with the sample sums and the
`AA_EXTRA` corrections accumulated in unbounded integers instead of `lv_opa_t` and `uint32_t`:
no sum is reduced modulo 256 and no difference modulo `2 ^ 32`. -/
def cir_calc_group_exact (st : cir_calc_state) : Option cir_calc_state :=
  let x_int0 := st.x_int.getD 0 0
  let x_int1 := st.x_int.getD 1 0
  let x_int2 := st.x_int.getD 2 0
  let x_int3 := st.x_int.getD 3 0
  let f0 := st.x_fract.getD 0 0
  let f1 := st.x_fract.getD 1 0
  let f2 := st.x_fract.getD 2 0
  let f3 := st.x_fract.getD 3 0
  (if x_int0 = x_int3 then
      cir_push_exact st x_int0 st.y_8th_cnt
        (f0 + f1 + f2 + f3 + (f0 - f1 + 1) / 2 + (f1 - f2 + 1) / 2 + (f2 - f3 + 1) / 2)
    else if x_int0 ≠ x_int1 then
      (cir_push_exact st x_int0 st.y_8th_cnt f0).bind fun st1 =>
      cir_push_exact st1 (int32_t (x_int0 - 1)) st.y_8th_cnt
        (1 * 4 + f1 + f2 + f3 + (f1 - f2 + 1) / 2 + (f2 - f3 + 1) / 2)
    else if x_int0 ≠ x_int2 then
      (cir_push_exact st x_int0 st.y_8th_cnt (f0 + f1 + (f0 - f1 + 1) / 2)).bind fun st1 =>
      cir_push_exact st1 (int32_t (x_int0 - 1)) st.y_8th_cnt
        (2 * 4 + f2 + f3 + (f2 - f3 + 1) / 2)
    else
      (cir_push_exact st x_int0 st.y_8th_cnt
        (f0 + f1 + f2 + (f0 - f1 + 1) / 2 + (f1 - f2 + 1) / 2)).bind fun st1 =>
      cir_push_exact st1 (int32_t (x_int0 - 1)) st.y_8th_cnt (3 * 4 + f3)).map fun st2 =>
  { st2 with y_8th_cnt := st.y_8th_cnt + 1 }

/-- The sweep `cir_calc_sweep` with the rows of `cir_calc_group_exact`. -/
def cir_calc_sweep_exact : Nat → Nat → cir_calc_state → Option cir_calc_state
  | 0, _, _ => none
  | fuel + 1, i_start, st =>
    if lv_circ_cont st.cp then
      let r := cir_calc_sample (4 - i_start) i_start st
      if r.1 ≠ 4 then some r.2
      else (cir_calc_group_exact r.2).bind fun st1 => cir_calc_sweep_exact fuel 0 st1
    else some st

/-- The first octant `cir_calc_aa4_octant` with the sweep `cir_calc_sweep_exact`. -/
def cir_calc_aa4_octant_exact (c : _lv_draw_mask_radius_circle_dsc_t) (radius : Int) :
    Option cir_calc_state :=
  let r := lv_circ_init (radius * 4)
  let st0 : cir_calc_state :=
    { cp := r.1, tmp := r.2, x_int := [(asr r.1.x 2) % 2 ^ 32, 0, 0, 0], x_fract := [0, 0, 0, 0],
      cir_x := [], cir_y := [], c := c, y_8th_cnt := 0 }
  cir_calc_sweep_exact ((4 * radius).toNat + 1) 1 st0

/-- The samples of one row of the sweep, when `i` of them are taken: the circle point is in the
first quadrant, off the origin and within 32 bits after the division by 4; the samples taken are
split into `x_int` (a value of `uint32_t`) and `x_fract` (0..3), each sample is the one before
or one less, and the last one is the `x` of the circle point. -/
def cir_calc_samples (i : Nat) (st : cir_calc_state) : Prop :=
  st.x_int.length = 4 ∧ st.x_fract.length = 4 ∧
  0 ≤ st.cp.x ∧ st.cp.x < 2 ^ 34 ∧ 0 ≤ st.cp.y ∧ (st.cp.y = 0 → 1 ≤ st.cp.x) ∧
  (∀ j : Nat, j < i → 0 ≤ st.x_fract.getD j 0 ∧ st.x_fract.getD j 0 ≤ 3 ∧
    0 ≤ st.x_int.getD j 0 ∧ st.x_int.getD j 0 < 2 ^ 32) ∧
  (∀ j : Nat, j + 1 < i →
    4 * st.x_int.getD (j + 1) 0 + st.x_fract.getD (j + 1) 0 ≤
      4 * st.x_int.getD j 0 + st.x_fract.getD j 0 ∧
    4 * st.x_int.getD j 0 + st.x_fract.getD j 0 ≤
      4 * st.x_int.getD (j + 1) 0 + st.x_fract.getD (j + 1) 0 + 1) ∧
  (1 ≤ i → 4 * st.x_int.getD (i - 1) 0 + st.x_fract.getD (i - 1) 0 = st.cp.x)

/-- The sampling loop `cir_calc_sample` on natural numbers: the circle point `(x, y)`, `tmp`
shifted by `k` (`t = tmp + k`) and the sample `x_int[0]`; the result is the final `i` and these
four values. -/
def cir_calc_sample_nat (k : Nat) :
    Nat → Nat → Nat → Nat → Nat → Nat → Nat × Nat × Nat × Nat × Nat
  | 0, i, x, y, t, xi0 => (i, x, y, t, xi0)
  | n + 1, i, x, y, t, xi0 =>
    bif Nat.ble y x then
      bif Nat.ble t k then
        cir_calc_sample_nat k n (i + 1) x (y + 1) (t + (2 * y + 3))
          (bif Nat.beq i 0 then x / 4 else xi0)
      else
        cir_calc_sample_nat k n (i + 1) (x - 1) (y + 1) (t + (2 * y + 5) - 2 * x)
          (bif Nat.beq i 0 then (x - 1) / 4 else xi0)
    else (i, x, y, t, xi0)

/-- The sweep `cir_calc_sweep` on natural numbers, without the coverages: the number `n` of
entries and the coordinates of the entries, last entry first.  A row has one entry when
`x_int[0]` is `x_int[3]` and two entries otherwise; an entry needs room in the 300 entries of
`cir_opa`. -/
def cir_calc_sweep_nat (k : Nat) :
    Nat → Nat → Nat → Nat → Nat → Nat → Nat → Nat → List Nat → List Nat →
    Option (Nat × List Nat × List Nat)
  | 0, _, _, _, _, _, _, _, _, _ => none
  | fuel + 1, i_start, x, y, t, xi0, y8, n, xr, yr =>
    bif Nat.ble y x then
      match cir_calc_sample_nat k (4 - i_start) i_start x y t xi0 with
      | (i, x1, y1, t1, xi) =>
        bif Nat.beq i 4 then
          bif Nat.beq xi (x1 / 4) then
            bif Nat.blt n 300 then
              cir_calc_sweep_nat k fuel 0 x1 y1 t1 xi (y8 + 1) (n + 1) (xi :: xr) (y8 :: yr)
            else none
          else
            bif Nat.blt (n + 1) 300 then
              cir_calc_sweep_nat k fuel 0 x1 y1 t1 xi (y8 + 1) (n + 2) ((xi - 1) :: xi :: xr)
                (y8 :: y8 :: yr)
            else none
        else some (n, xr, yr)
    else some (n, xr, yr)

/-- The loop that builds the second octant, on the `n` entries of the first one given last
entry first: the coordinates `cir_x` and `cir_y` of all entries, first entry first, when they
fit into 300 entries. -/
def cir_calc_mirror_nat (n : Nat) (xr yr : List Nat) : Option (List Nat × List Nat) :=
  bif Nat.ble (2 * n) 301 then some (xr.reverse ++ yr.tail, yr.reverse ++ xr.tail) else none

/-- The coordinates `cir_x` and `cir_y` of the entries `cir_calc_aa4` builds for the radius `r`,
computed on natural numbers; `none` when they do not fit into 300 entries. -/
def cir_calc_entries_nat (r : Nat) : Option (List Nat × List Nat) :=
  match cir_calc_sweep_nat (8 * r) (4 * r + 1) 1 (4 * r) 0 (4 * r + 1) r 0 0 [] [] with
  | some (n, lx :: xr, ly :: yr) =>
    bif Nat.beq lx (r * 723 / 1024) && Nat.beq ly (r * 723 / 1024) then
      cir_calc_mirror_nat n (lx :: xr) (ly :: yr)
    else
      bif Nat.blt n 300 then
        cir_calc_mirror_nat (n + 1) (r * 723 / 1024 :: lx :: xr) (r * 723 / 1024 :: ly :: yr)
      else none
  | _ => none

/-- The control flow of the indexing part `cir_calc_index` on the entries of `cir_y` that are
left: every row `y` that is indexed is below 300. -/
def cir_calc_index_nat : Nat → Nat → List Nat → Bool
  | 0, _, _ => false
  | _ + 1, _, [] => true
  | fuel + 1, y, a :: l =>
    Nat.blt y 300 && cir_calc_index_nat fuel (y + 1) ((a :: l).dropWhile (fun v => Nat.beq v y))

/-- The tables of the radius `r` fit the descriptor: the entries fit into 300 entries and the
indexing part stays below row 300. -/
def cir_calc_aa4_fits (r : Nat) : Bool :=
  match cir_calc_entries_nat r with
  | some (_, ys) => cir_calc_index_nat 301 0 ys
  | none => false

/-- The row loop `cir_calc_row` of the indexing part on natural numbers: the entries of `cir_x`
and `cir_y` that are left, the index `i` of the first of them and the table `x_start_on_y`. -/
def cir_calc_row_tab (y : Nat) :
    List Nat → List Nat → Nat → List Nat → List Nat × List Nat × Nat × List Nat
  | b :: xs, a :: ys, i, xtab =>
    bif Nat.beq a y then
      cir_calc_row_tab y xs ys (i + 1) (xtab.set y (min (xtab.getD y 0) b % 256))
    else (b :: xs, a :: ys, i, xtab)
  | xs, ys, i, xtab => (xs, ys, i, xtab)

/-- The indexing part `cir_calc_index` on natural numbers: the tables `opa_start_on_y` and
`x_start_on_y` it leaves; every row that is indexed is below 300. -/
def cir_calc_index_tab :
    Nat → Nat → List Nat → List Nat → Nat → List Nat → List Nat → Option (List Nat × List Nat)
  | 0, _, _, _, _, _, _ => none
  | _ + 1, _, [], _, _, otab, xtab => some (otab, xtab)
  | fuel + 1, y, b :: xs, ys, i, otab, xtab =>
    bif Nat.blt y 300 then
      match cir_calc_row_tab y (b :: xs) ys i (xtab.set y (b % 256)) with
      | (xs1, ys1, i1, xtab1) =>
        cir_calc_index_tab fuel (y + 1) xs1 ys1 i1 (otab.set y (i % 256)) xtab1
    else none

/-! ## The stack reduction `lv_draw_mask_apply` -/

/-- C1: on a stack whose slot 0 has a null `param`, `lv_draw_mask_apply` returns `FULL_COVER`
and leaves the memory of the buffer as it was, for every buffer, `x`, `y` and `len`. -/
theorem lv_draw_mask_apply_no_mask {B : Type} (cb : mask_cb_t B) (m : _lv_draw_mask_saved_t)
    (rest : List _lv_draw_mask_saved_t) (mask_buf : B) (abs_x abs_y len : Int)
    (h0 : m.param = NULL) :
    lv_draw_mask_apply cb (m :: rest) mask_buf abs_x abs_y len
      = some (LV_DRAW_MASK_RES_FULL_COVER, mask_buf) := by
  simp [lv_draw_mask_apply, lv_draw_mask_apply_loop, h0]

/-- C1 at the empty stack, with a callback that would give `TRANSP` and clear the buffer. -/
theorem lv_draw_mask_apply_no_mask_witness :
    (⟨NULL, NULL⟩ : _lv_draw_mask_saved_t).param = NULL ∧
    lv_draw_mask_apply (fun _ (_ : List Nat) _ _ _ => (LV_DRAW_MASK_RES_TRANSP, []))
        (⟨NULL, NULL⟩ :: List.replicate 15 ⟨NULL, NULL⟩) [255, 255, 255] 7 3 3
      = some (LV_DRAW_MASK_RES_FULL_COVER, [255, 255, 255]) :=
  ⟨rfl, lv_draw_mask_apply_no_mask _ ⟨NULL, NULL⟩ (List.replicate 15 ⟨NULL, NULL⟩)
    [255, 255, 255] 7 3 3 rfl⟩

/-- The loop of `lv_draw_mask_apply` on live slots followed by a null one: it returns, the
traced run and the plain run agree, the calls made are those of an initial segment of the live
slots in index order, a call that gives `TRANSP` is the last one, every live slot is called when
no call gives `TRANSP`, and the result is the fold of the results of the calls. -/
theorem lv_draw_mask_apply_loop_spec {B : Type} (cb : mask_cb_t B) (abs_x abs_y len : Int)
    (m0 : _lv_draw_mask_saved_t) (rest : List _lv_draw_mask_saved_t) (h0 : m0.param = NULL) :
    ∀ (live : List _lv_draw_mask_saved_t) (mask_buf : B) (t0 : List (Nat × lv_draw_mask_res_t))
      (changed : Bool), (∀ m ∈ live, m.param ≠ NULL) →
      ∃ (r : lv_draw_mask_res_t) (mem : B) (t : List (Nat × lv_draw_mask_res_t)),
        lv_draw_mask_apply_loop (traced cb) abs_x abs_y len (live ++ m0 :: rest) (mask_buf, t0)
            changed = some (r, (mem, t0 ++ t)) ∧
        lv_draw_mask_apply_loop cb abs_x abs_y len (live ++ m0 :: rest) mask_buf changed
            = some (r, mem) ∧
        t.map Prod.fst = (live.map fun m => m.param).take t.length ∧
        (∀ i e, t[i]? = some e → e.2 = LV_DRAW_MASK_RES_TRANSP → i + 1 = t.length) ∧
        ((∀ e ∈ t, e.2 ≠ LV_DRAW_MASK_RES_TRANSP) → t.length = live.length) ∧
        (r = LV_DRAW_MASK_RES_TRANSP ↔ ∃ e ∈ t, e.2 = LV_DRAW_MASK_RES_TRANSP) ∧
        ((∀ e ∈ t, e.2 ≠ LV_DRAW_MASK_RES_TRANSP) →
          ((changed = true ∨ ∃ e ∈ t, e.2 = LV_DRAW_MASK_RES_CHANGED) →
            r = LV_DRAW_MASK_RES_CHANGED) ∧
          (changed = false → (∀ e ∈ t, e.2 ≠ LV_DRAW_MASK_RES_CHANGED) →
            r = LV_DRAW_MASK_RES_FULL_COVER)) := by
  intro live
  induction live with
  | nil =>
    intro mask_buf t0 changed _
    refine ⟨if changed then LV_DRAW_MASK_RES_CHANGED else LV_DRAW_MASK_RES_FULL_COVER,
      mask_buf, [], ?_, ?_, ?_, ?_, ?_, ?_, ?_⟩
    · simp [lv_draw_mask_apply_loop, h0]
    · simp [lv_draw_mask_apply_loop, h0]
    · simp
    · simp
    · simp
    · cases changed <;> simp
    · cases changed <;> simp
  | cons m live ih =>
    intro mask_buf t0 changed hlive
    have hm : m.param ≠ NULL := hlive m (List.mem_cons_self _ _)
    have hl : ∀ m1 ∈ live, m1.param ≠ NULL := fun m1 h1 => hlive m1 (List.mem_cons_of_mem _ h1)
    rcases hres : cb m.param mask_buf abs_x abs_y len with ⟨res, buf1⟩
    by_cases htr : res = LV_DRAW_MASK_RES_TRANSP
    · refine ⟨LV_DRAW_MASK_RES_TRANSP, buf1, [(m.param, res)], ?_, ?_, ?_, ?_, ?_, ?_, ?_⟩
      · simp [lv_draw_mask_apply_loop, traced, hm, hres, htr]
      · simp [lv_draw_mask_apply_loop, hm, hres, htr]
      · simp
      · intro i e hi _
        cases i with
        | zero => rfl
        | succ i => simp at hi
      · intro h
        exact absurd htr (h (m.param, res) (List.mem_singleton.mpr rfl))
      · simp [htr]
      · intro h
        exact absurd htr (h (m.param, res) (List.mem_singleton.mpr rfl))
    · obtain ⟨r, mem, t, h1, h2, h3, h4, h5, h6, h7⟩ :=
        ih buf1 (t0 ++ [(m.param, res)])
          (if res = LV_DRAW_MASK_RES_CHANGED then true else changed) hl
      rw [List.append_assoc, List.singleton_append] at h1
      refine ⟨r, mem, (m.param, res) :: t, ?_, ?_, ?_, ?_, ?_, ?_, ?_⟩
      · rw [← h1]
        by_cases hch : res = LV_DRAW_MASK_RES_CHANGED
        · simp [lv_draw_mask_apply_loop, traced, hm, hres, hch]
        · simp [lv_draw_mask_apply_loop, traced, hm, hres, hch, htr]
      · rw [← h2]
        by_cases hch : res = LV_DRAW_MASK_RES_CHANGED
        · simp [lv_draw_mask_apply_loop, hm, hres, hch]
        · simp [lv_draw_mask_apply_loop, hm, hres, hch, htr]
      · simp [h3]
      · intro i e hi he
        cases i with
        | zero =>
          simp at hi
          subst hi
          exact absurd he htr
        | succ i =>
          simp at hi
          simpa using h4 i e hi he
      · intro h
        have := h5 fun e he => h e (List.mem_cons_of_mem _ he)
        simp [this]
      · rw [h6]
        simp [htr]
      · intro h
        obtain ⟨h8, h9⟩ := h7 fun e he => h e (List.mem_cons_of_mem _ he)
        constructor
        · rintro (hc | ⟨e, he, hec⟩)
          · exact h8 (Or.inl (by simp [hc]))
          · rcases List.mem_cons.mp he with rfl | he1
            · exact h8 (Or.inl (by simp [show res = LV_DRAW_MASK_RES_CHANGED from hec]))
            · exact h8 (Or.inr ⟨e, he1, hec⟩)
        · intro hc hne
          have hres1 : res ≠ LV_DRAW_MASK_RES_CHANGED :=
            hne (m.param, res) (List.mem_cons_self _ _)
          exact h9 (by simp [hres1, hc]) fun e he => hne e (List.mem_cons_of_mem _ he)

/-- The live slots of a stack that consists of live slots, a null slot and null slots. -/
theorem filter_live_of_live_then_null (live rest : List _lv_draw_mask_saved_t)
    (m0 : _lv_draw_mask_saved_t) (hlive : ∀ m ∈ live, m.param ≠ NULL) (h0 : m0.param = NULL)
    (hrest : ∀ m ∈ rest, m.param = NULL) :
    (live ++ m0 :: rest).filter (fun m => m.param != NULL) = live := by
  rw [List.filter_append, List.filter_cons]
  have h1 : live.filter (fun m => m.param != NULL) = live :=
    List.filter_eq_self.mpr fun m hm => by simpa using hlive m hm
  have h2 : rest.filter (fun m => m.param != NULL) = [] :=
    List.filter_eq_nil_iff.mpr fun m hm => by simpa using hrest m hm
  simp [h1, h2, h0]

/-- C2 (the code at the failing input): sixteen calls of `lv_draw_mask_add` on the empty stack
all succeed and fill the sixteen slots; on that stack, with callbacks that give `FULL_COVER`,
the loop of `lv_draw_mask_apply` calls the sixteen callbacks and then reads `m->param` behind
the last slot of the array, so the call has no defined result. -/
theorem lv_draw_mask_apply_full_stack :
    run_ops empty_stack (List.replicate 16 (mask_op.add 1 NULL))
      = some (List.replicate 16 ⟨1, NULL⟩) ∧
    lv_draw_mask_get_cnt (List.replicate 16 ⟨1, NULL⟩) = _LV_MASK_MAX_NUM ∧
    lv_draw_mask_apply (traced fun _ (buf : List Nat) _ _ _ => (LV_DRAW_MASK_RES_FULL_COVER, buf))
      (List.replicate 16 ⟨1, NULL⟩) ([255], []) 0 0 1 = none := by
  refine ⟨by decide, by decide, by decide⟩

/-- C3 (as stated, refuted): two states reached from the empty stack in which a live mask is
not called.  After `add(1)`, `add(2)`, when the callback of mask 1 gives `TRANSP` the callback
of mask 2 is not called; after `add(1)`, `add(2)`, `remove_id(0)` slot 1 still holds mask 2 and
no callback is called at all. -/
theorem lv_draw_mask_apply_live_mask_not_called :
    (run_ops empty_stack [.add 1 NULL, .add 2 NULL]
        = some (⟨1, NULL⟩ :: ⟨2, NULL⟩ :: List.replicate 14 ⟨NULL, NULL⟩) ∧
      lv_draw_mask_apply
        (traced fun p (buf : List Nat) _ _ _ =>
          (if p = 1 then LV_DRAW_MASK_RES_TRANSP else LV_DRAW_MASK_RES_CHANGED, buf))
        (⟨1, NULL⟩ :: ⟨2, NULL⟩ :: List.replicate 14 ⟨NULL, NULL⟩) ([255], []) 0 0 1
        = some (LV_DRAW_MASK_RES_TRANSP, ([255], [(1, LV_DRAW_MASK_RES_TRANSP)]))) ∧
    (run_ops empty_stack [.add 1 NULL, .add 2 NULL, .remove_id 0]
        = some (⟨NULL, NULL⟩ :: ⟨2, NULL⟩ :: List.replicate 14 ⟨NULL, NULL⟩) ∧
      lv_draw_mask_apply
        (traced fun _ (buf : List Nat) _ _ _ => (LV_DRAW_MASK_RES_CHANGED, buf))
        (⟨NULL, NULL⟩ :: ⟨2, NULL⟩ :: List.replicate 14 ⟨NULL, NULL⟩) ([255], []) 0 0 1
        = some (LV_DRAW_MASK_RES_FULL_COVER, ([255], []))) := by
  refine ⟨⟨by decide, by decide⟩, by decide, by decide⟩

/-- C3 (amended): on a stack whose live slots form an initial segment and that has a null
slot, `lv_draw_mask_apply` returns; the callbacks it calls are those of the live masks, in
index order, each at most once; a call that gives `TRANSP` is the last call; and when no call
gives `TRANSP` every live mask of the stack is called exactly once. -/
theorem lv_draw_mask_apply_calls {B : Type} (cb : mask_cb_t B)
    (live rest : List _lv_draw_mask_saved_t) (m0 : _lv_draw_mask_saved_t) (mask_buf : B)
    (abs_x abs_y len : Int) (hlive : ∀ m ∈ live, m.param ≠ NULL) (h0 : m0.param = NULL)
    (hrest : ∀ m ∈ rest, m.param = NULL) :
    ∃ (r : lv_draw_mask_res_t) (mem : B) (t : List (Nat × lv_draw_mask_res_t)),
      lv_draw_mask_apply (traced cb) (live ++ m0 :: rest) (mask_buf, []) abs_x abs_y len
        = some (r, (mem, t)) ∧
      lv_draw_mask_apply cb (live ++ m0 :: rest) mask_buf abs_x abs_y len = some (r, mem) ∧
      t.map Prod.fst
        = ((((live ++ m0 :: rest).filter fun m => m.param != NULL).map
            fun m => m.param).take t.length) ∧
      (∀ i e, t[i]? = some e → e.2 = LV_DRAW_MASK_RES_TRANSP → i + 1 = t.length) ∧
      ((∀ e ∈ t, e.2 ≠ LV_DRAW_MASK_RES_TRANSP) →
        t.map Prod.fst
          = ((live ++ m0 :: rest).filter fun m => m.param != NULL).map
              fun m => m.param) := by
  obtain ⟨r, mem, t, h1, h2, h3, h4, h5, -, -⟩ :=
    lv_draw_mask_apply_loop_spec cb abs_x abs_y len m0 rest h0 live mask_buf [] false hlive
  rw [filter_live_of_live_then_null live rest m0 hlive h0 hrest]
  refine ⟨r, mem, t, by simpa [lv_draw_mask_apply] using h1, h2, h3, h4, fun h => ?_⟩
  rw [h3, h5 h, ← List.length_map live fun m => m.param, List.take_length]

/-- C3 (amended) at the stack after `add(1)`, `add(2)`, `add(3)`, with callbacks that give
`CHANGED`, `FULL_COVER`, `CHANGED`. -/
theorem lv_draw_mask_apply_calls_witness :
    (∀ m ∈ ([⟨1, NULL⟩, ⟨2, NULL⟩, ⟨3, NULL⟩] : List _lv_draw_mask_saved_t), m.param ≠ NULL) ∧
    (⟨NULL, NULL⟩ : _lv_draw_mask_saved_t).param = NULL ∧
    (∀ m ∈ List.replicate 12 (⟨NULL, NULL⟩ : _lv_draw_mask_saved_t), m.param = NULL) ∧
    ∃ (r : lv_draw_mask_res_t) (mem : List Nat) (t : List (Nat × lv_draw_mask_res_t)),
      lv_draw_mask_apply
          (traced fun p (buf : List Nat) _ _ _ =>
            (if p = 2 then LV_DRAW_MASK_RES_FULL_COVER else LV_DRAW_MASK_RES_CHANGED, buf))
          (([⟨1, NULL⟩, ⟨2, NULL⟩, ⟨3, NULL⟩] : List _lv_draw_mask_saved_t) ++
            ⟨NULL, NULL⟩ :: List.replicate 12 ⟨NULL, NULL⟩)
          ([255], []) 0 0 1 = some (r, (mem, t)) ∧
      lv_draw_mask_apply
          (fun p (buf : List Nat) _ _ _ =>
            (if p = 2 then LV_DRAW_MASK_RES_FULL_COVER else LV_DRAW_MASK_RES_CHANGED, buf))
          (([⟨1, NULL⟩, ⟨2, NULL⟩, ⟨3, NULL⟩] : List _lv_draw_mask_saved_t) ++
            ⟨NULL, NULL⟩ :: List.replicate 12 ⟨NULL, NULL⟩)
          [255] 0 0 1 = some (r, mem) ∧
      t.map Prod.fst
        = (((([⟨1, NULL⟩, ⟨2, NULL⟩, ⟨3, NULL⟩] ++ ⟨NULL, NULL⟩ ::
              List.replicate 12 ⟨NULL, NULL⟩ : List _lv_draw_mask_saved_t).filter
                fun m => m.param != NULL).map fun m => m.param).take t.length) ∧
      (∀ i e, t[i]? = some e → e.2 = LV_DRAW_MASK_RES_TRANSP → i + 1 = t.length) ∧
      ((∀ e ∈ t, e.2 ≠ LV_DRAW_MASK_RES_TRANSP) →
        t.map Prod.fst
          = (([⟨1, NULL⟩, ⟨2, NULL⟩, ⟨3, NULL⟩] ++ ⟨NULL, NULL⟩ ::
              List.replicate 12 ⟨NULL, NULL⟩ : List _lv_draw_mask_saved_t).filter
                fun m => m.param != NULL).map fun m => m.param) :=
  ⟨by decide, rfl, by decide,
    lv_draw_mask_apply_calls _ [⟨1, NULL⟩, ⟨2, NULL⟩, ⟨3, NULL⟩] (List.replicate 12 ⟨NULL, NULL⟩)
      ⟨NULL, NULL⟩ [255] 0 0 1 (by decide) rfl (by decide)⟩

/-- C4 (the code at the failing input): after `add(1)`, `add(2)`, `remove_id(0)` on the empty
stack, slot 0 is null and slot 1 is live: a null slot precedes a live one; the live-mask count
is 1 and `lv_draw_mask_apply` calls no callback. -/
theorem run_ops_null_before_live :
    run_ops empty_stack [.add 1 NULL, .add 2 NULL, .remove_id 0]
      = some (⟨NULL, NULL⟩ :: ⟨2, NULL⟩ :: List.replicate 14 ⟨NULL, NULL⟩) ∧
    lv_draw_mask_get_cnt (⟨NULL, NULL⟩ :: ⟨2, NULL⟩ :: List.replicate 14 ⟨NULL, NULL⟩) = 1 ∧
    lv_draw_mask_apply
        (traced fun _ (buf : List Nat) _ _ _ => (LV_DRAW_MASK_RES_TRANSP, buf))
        (⟨NULL, NULL⟩ :: ⟨2, NULL⟩ :: List.replicate 14 ⟨NULL, NULL⟩) ([255], []) 0 0 1
      = some (LV_DRAW_MASK_RES_FULL_COVER, ([255], [])) := by
  refine ⟨by decide, by decide, by decide⟩

/-! ## `lv_draw_mask_add` and `lv_draw_mask_get_cnt` -/

/-- The search loop of `lv_draw_mask_add` started at index `i`: it stops at the first slot with
a null `param`, or behind the last slot when there is none. -/
theorem lv_draw_mask_add_loop_spec :
    ∀ (list : List _lv_draw_mask_saved_t) (i : Nat),
      i ≤ lv_draw_mask_add_loop list i ∧
      lv_draw_mask_add_loop list i ≤ i + list.length ∧
      (∀ j m, j < lv_draw_mask_add_loop list i - i → list[j]? = some m → m.param ≠ NULL) ∧
      (lv_draw_mask_add_loop list i < i + list.length →
        ∃ m, list[lv_draw_mask_add_loop list i - i]? = some m ∧ m.param = NULL) := by
  intro list
  induction list with
  | nil => intro i; simp [lv_draw_mask_add_loop]
  | cons m rest ih =>
    intro i
    by_cases hm : m.param = NULL
    · simp [lv_draw_mask_add_loop, hm]
    · obtain ⟨h1, h2, h3, h4⟩ := ih (i + 1)
      simp only [lv_draw_mask_add_loop, hm, if_false, List.length_cons]
      refine ⟨by omega, by omega, ?_, ?_⟩
      · intro j m1 hj hget
        cases j with
        | zero =>
          simp at hget
          subst hget
          exact hm
        | succ j =>
          simp at hget
          exact h3 j m1 (by omega) hget
      · intro hlt
        obtain ⟨m1, hget, hnull⟩ := h4 (by omega)
        refine ⟨m1, ?_, hnull⟩
        have : lv_draw_mask_add_loop rest (i + 1) - i
            = (lv_draw_mask_add_loop rest (i + 1) - (i + 1)) + 1 := by omega
        rw [this]
        simpa using hget

/-- The counting loop of `lv_draw_mask_get_cnt` counts the slots with a non-null `param`, as
long as the `uint8_t` counter cannot wrap. -/
theorem lv_draw_mask_get_cnt_loop_eq :
    ∀ (list : List _lv_draw_mask_saved_t) (cnt : Nat), cnt + list.length < 256 →
      lv_draw_mask_get_cnt_loop list cnt = cnt + list.countP fun m => m.param != NULL := by
  intro list
  induction list with
  | nil => intro cnt _; simp [lv_draw_mask_get_cnt_loop]
  | cons m rest ih =>
    intro cnt h
    simp only [List.length_cons] at h
    by_cases hm : m.param = NULL
    · simp [lv_draw_mask_get_cnt_loop, hm, ih cnt (by omega)]
    · have h1 : (cnt + 1) % 256 = cnt + 1 := Nat.mod_eq_of_lt (by omega)
      simp [lv_draw_mask_get_cnt_loop, hm, h1, ih (cnt + 1) (by omega)]
      omega

/-- The count of a well-formed stack is the number of its slots with a non-null `param`. -/
theorem lv_draw_mask_get_cnt_eq (list : List _lv_draw_mask_saved_t)
    (hlen : list.length = _LV_MASK_MAX_NUM) :
    lv_draw_mask_get_cnt list = list.countP fun m => m.param != NULL := by
  have h := lv_draw_mask_get_cnt_loop_eq list 0 (by rw [hlen]; decide)
  simpa [lv_draw_mask_get_cnt] using h

/-- Writing a live slot over a null one adds one to the number of live slots. -/
theorem countP_live_set :
    ∀ (list : List _lv_draw_mask_saved_t) (i : Nat) (m new : _lv_draw_mask_saved_t),
      list[i]? = some m → m.param = NULL → new.param ≠ NULL →
      (list.set i new).countP (fun m => m.param != NULL)
        = list.countP (fun m => m.param != NULL) + 1 := by
  intro list
  induction list with
  | nil => intro i m new h; simp at h
  | cons a rest ih =>
    intro i m new hget hm hnew
    cases i with
    | zero =>
      simp at hget
      subst hget
      simp [List.countP_cons, hm, hnew]
    | succ i =>
      simp at hget
      simp only [List.set_cons_succ, List.countP_cons, ih i m new hget hm hnew]
      omega

/-- C5: on a well-formed stack with a null slot, `lv_draw_mask_add` of a non-null `param`
returns the smallest index `i` whose slot was null; afterwards slot `i` holds
`(param, custom_id)`, every other slot is as before, and `lv_draw_mask_get_cnt` is larger by
exactly 1. -/
theorem lv_draw_mask_add_free_slot (list : List _lv_draw_mask_saved_t) (param custom_id : Nat)
    (hlen : list.length = _LV_MASK_MAX_NUM) (hfree : ∃ m ∈ list, m.param = NULL)
    (hparam : param ≠ NULL) :
    ∃ i : Nat, i < _LV_MASK_MAX_NUM ∧
      (lv_draw_mask_add list param custom_id).1 = (i : Int) ∧
      (∃ m, list[i]? = some m ∧ m.param = NULL) ∧
      (∀ j m, j < i → list[j]? = some m → m.param ≠ NULL) ∧
      (lv_draw_mask_add list param custom_id).2[i]? = some ⟨param, custom_id⟩ ∧
      (∀ j, j ≠ i → (lv_draw_mask_add list param custom_id).2[j]? = list[j]?) ∧
      (lv_draw_mask_add list param custom_id).2.length = _LV_MASK_MAX_NUM ∧
      lv_draw_mask_get_cnt (lv_draw_mask_add list param custom_id).2
        = lv_draw_mask_get_cnt list + 1 := by
  obtain ⟨-, h2, h3, h4⟩ := lv_draw_mask_add_loop_spec list 0
  simp only [Nat.zero_add, Nat.sub_zero] at h2 h3 h4
  have hlt : lv_draw_mask_add_loop list 0 < list.length := by
    rcases Nat.lt_or_ge (lv_draw_mask_add_loop list 0) list.length with h | h
    · exact h
    · exfalso
      obtain ⟨m, hmem, hm⟩ := hfree
      obtain ⟨j, hj, hget⟩ := List.getElem_of_mem hmem
      exact h3 j m (by omega) (by rw [List.getElem?_eq_getElem hj, hget]) hm
  obtain ⟨m, hget, hm⟩ := h4 hlt
  have hadd : lv_draw_mask_add list param custom_id
      = (((lv_draw_mask_add_loop list 0 : Nat) : Int),
          list.set (lv_draw_mask_add_loop list 0) ⟨param, custom_id⟩) := by
    simp only [lv_draw_mask_add]
    rw [if_neg (by omega)]
  refine ⟨lv_draw_mask_add_loop list 0, by omega, by rw [hadd], ⟨m, hget, hm⟩, h3, ?_, ?_, ?_, ?_⟩
  · rw [hadd]
    simp [List.getElem?_set, hlt]
  · intro j hj
    rw [hadd]
    simp [List.getElem?_set, Ne.symm hj]
  · rw [hadd]
    simpa using hlen
  · rw [hadd]
    rw [lv_draw_mask_get_cnt_eq _ (by simpa using hlen), lv_draw_mask_get_cnt_eq _ hlen]
    exact countP_live_set list _ m ⟨param, custom_id⟩ hget hm hparam

/-- C5 at the stack after `add(1)`, `add(2)`, `remove_id(0)`: the mask goes to slot 0. -/
theorem lv_draw_mask_add_free_slot_witness :
    (⟨NULL, NULL⟩ :: ⟨2, NULL⟩ :: List.replicate 14 ⟨NULL, NULL⟩
        : List _lv_draw_mask_saved_t).length = _LV_MASK_MAX_NUM ∧
    (∃ m ∈ (⟨NULL, NULL⟩ :: ⟨2, NULL⟩ :: List.replicate 14 ⟨NULL, NULL⟩
        : List _lv_draw_mask_saved_t), m.param = NULL) ∧
    (7 : Nat) ≠ NULL ∧
    ∃ i : Nat, i < _LV_MASK_MAX_NUM ∧
      (lv_draw_mask_add (⟨NULL, NULL⟩ :: ⟨2, NULL⟩ :: List.replicate 14 ⟨NULL, NULL⟩) 7 9).1
        = (i : Int) ∧
      (∃ m, (⟨NULL, NULL⟩ :: ⟨2, NULL⟩ :: List.replicate 14 ⟨NULL, NULL⟩
        : List _lv_draw_mask_saved_t)[i]? = some m ∧ m.param = NULL) ∧
      (∀ j m, j < i → (⟨NULL, NULL⟩ :: ⟨2, NULL⟩ :: List.replicate 14 ⟨NULL, NULL⟩
        : List _lv_draw_mask_saved_t)[j]? = some m → m.param ≠ NULL) ∧
      (lv_draw_mask_add (⟨NULL, NULL⟩ :: ⟨2, NULL⟩ :: List.replicate 14 ⟨NULL, NULL⟩) 7 9).2[i]?
        = some ⟨7, 9⟩ ∧
      (∀ j, j ≠ i →
        (lv_draw_mask_add (⟨NULL, NULL⟩ :: ⟨2, NULL⟩ :: List.replicate 14 ⟨NULL, NULL⟩) 7 9).2[j]?
          = (⟨NULL, NULL⟩ :: ⟨2, NULL⟩ :: List.replicate 14 ⟨NULL, NULL⟩
              : List _lv_draw_mask_saved_t)[j]?) ∧
      (lv_draw_mask_add (⟨NULL, NULL⟩ :: ⟨2, NULL⟩ :: List.replicate 14 ⟨NULL, NULL⟩) 7 9).2.length
        = _LV_MASK_MAX_NUM ∧
      lv_draw_mask_get_cnt
          (lv_draw_mask_add (⟨NULL, NULL⟩ :: ⟨2, NULL⟩ :: List.replicate 14 ⟨NULL, NULL⟩) 7 9).2
        = lv_draw_mask_get_cnt (⟨NULL, NULL⟩ :: ⟨2, NULL⟩ :: List.replicate 14 ⟨NULL, NULL⟩) + 1 :=
  ⟨by decide, ⟨⟨NULL, NULL⟩, by simp, rfl⟩, by decide,
    lv_draw_mask_add_free_slot (⟨NULL, NULL⟩ :: ⟨2, NULL⟩ :: List.replicate 14 ⟨NULL, NULL⟩) 7 9
      (by decide) ⟨⟨NULL, NULL⟩, by simp, rfl⟩ (by decide)⟩

/-- C6: on a well-formed stack, when every slot is live `lv_draw_mask_add` returns
`LV_MASK_ID_INV` and leaves the stack as it was, and it returns `LV_MASK_ID_INV` only when
every slot is live. -/
theorem lv_draw_mask_add_full (list : List _lv_draw_mask_saved_t) (param custom_id : Nat)
    (hlen : list.length = _LV_MASK_MAX_NUM) :
    ((∀ m ∈ list, m.param ≠ NULL) →
      lv_draw_mask_add list param custom_id = (LV_MASK_ID_INV, list)) ∧
    ((lv_draw_mask_add list param custom_id).1 = LV_MASK_ID_INV →
      ∀ m ∈ list, m.param ≠ NULL) := by
  obtain ⟨-, h2, h3, h4⟩ := lv_draw_mask_add_loop_spec list 0
  simp only [Nat.zero_add, Nat.sub_zero] at h2 h3 h4
  constructor
  · intro hall
    have hge : lv_draw_mask_add_loop list 0 ≥ _LV_MASK_MAX_NUM := by
      rcases Nat.lt_or_ge (lv_draw_mask_add_loop list 0) list.length with h | h
      · obtain ⟨m, hget, hm⟩ := h4 h
        exact absurd hm (hall m (List.getElem?_mem hget))
      · omega
    simp only [lv_draw_mask_add]
    rw [if_pos hge]
  · intro hinv m hmem
    by_cases hge : lv_draw_mask_add_loop list 0 ≥ _LV_MASK_MAX_NUM
    · obtain ⟨j, hj, hget⟩ := List.getElem_of_mem hmem
      exact h3 j m (by omega) (by rw [List.getElem?_eq_getElem hj, hget])
    · exfalso
      simp only [lv_draw_mask_add] at hinv
      rw [if_neg hge] at hinv
      simp only [LV_MASK_ID_INV] at hinv
      omega

/-- C6 at the full stack reached by sixteen calls of `add`. -/
theorem lv_draw_mask_add_full_witness :
    (List.replicate 16 (⟨1, NULL⟩ : _lv_draw_mask_saved_t)).length = _LV_MASK_MAX_NUM ∧
    (∀ m ∈ List.replicate 16 (⟨1, NULL⟩ : _lv_draw_mask_saved_t), m.param ≠ NULL) ∧
    lv_draw_mask_add (List.replicate 16 ⟨1, NULL⟩) 5 6
      = (LV_MASK_ID_INV, List.replicate 16 ⟨1, NULL⟩) :=
  ⟨by decide, by decide,
    (lv_draw_mask_add_full (List.replicate 16 ⟨1, NULL⟩) 5 6 (by decide)).1 (by decide)⟩

/-! ## `lv_draw_mask_remove_id` and `lv_draw_mask_remove_custom` -/

/-- C7: on a well-formed stack, for every slot index `id` with `0 <= id < _LV_MASK_MAX_NUM`,
`lv_draw_mask_remove_id(id)` returns the `param` slot `id` held, leaves slot `id` with null
`param` and null `custom_id` and every other slot as it was; and
`lv_draw_mask_remove_id(LV_MASK_ID_INV)` returns null and leaves the stack as it was. -/
theorem lv_draw_mask_remove_id_spec (list : List _lv_draw_mask_saved_t)
    (hlen : list.length = _LV_MASK_MAX_NUM) :
    (∀ id : Int, 0 ≤ id → id < (_LV_MASK_MAX_NUM : Int) →
      ∃ (m : _lv_draw_mask_saved_t) (list1 : List _lv_draw_mask_saved_t),
        list[id.toNat]? = some m ∧
        lv_draw_mask_remove_id list id = some (m.param, list1) ∧
        list1.length = _LV_MASK_MAX_NUM ∧
        list1[id.toNat]? = some ⟨NULL, NULL⟩ ∧
        ∀ j, j ≠ id.toNat → list1[j]? = list[j]?) ∧
    lv_draw_mask_remove_id list LV_MASK_ID_INV = some (NULL, list) := by
  constructor
  · intro id h0 hlt
    have hid : id.toNat < list.length := by omega
    have hne : id ≠ LV_MASK_ID_INV := by
      simp only [LV_MASK_ID_INV]
      omega
    refine ⟨list[id.toNat], list.set id.toNat ⟨NULL, NULL⟩, List.getElem?_eq_getElem hid,
      ?_, by simpa using hlen, by simp [List.getElem?_set, hid], ?_⟩
    · simp only [lv_draw_mask_remove_id]
      rw [if_pos hne, if_pos h0, List.getElem?_eq_getElem hid]
    · intro j hj
      simp [List.getElem?_set, Ne.symm hj]
  · simp [lv_draw_mask_remove_id]

/-- C7 at the stack after `add(1)`, `add(2)`: removing id 1 gives back mask 2, and removing
`LV_MASK_ID_INV` changes nothing. -/
theorem lv_draw_mask_remove_id_spec_witness :
    (⟨1, 8⟩ :: ⟨2, 9⟩ :: List.replicate 14 ⟨NULL, NULL⟩
      : List _lv_draw_mask_saved_t).length = _LV_MASK_MAX_NUM ∧
    lv_draw_mask_remove_id (⟨1, 8⟩ :: ⟨2, 9⟩ :: List.replicate 14 ⟨NULL, NULL⟩) 1
      = some (2, ⟨1, 8⟩ :: ⟨NULL, NULL⟩ :: List.replicate 14 ⟨NULL, NULL⟩) ∧
    lv_draw_mask_remove_id (⟨1, 8⟩ :: ⟨2, 9⟩ :: List.replicate 14 ⟨NULL, NULL⟩) LV_MASK_ID_INV
      = some (NULL, ⟨1, 8⟩ :: ⟨2, 9⟩ :: List.replicate 14 ⟨NULL, NULL⟩) :=
  ⟨by decide, by decide,
    (lv_draw_mask_remove_id_spec (⟨1, 8⟩ :: ⟨2, 9⟩ :: List.replicate 14 ⟨NULL, NULL⟩)
      (by decide)).2⟩

/-- The loop of `lv_draw_mask_remove_custom`: every slot whose `custom_id` is the given one is
cleared, whether its `param` is null or not, every other slot is kept, and the pointer returned
is the `param` of the last slot whose `custom_id` is the given one (the initial `p` when there
is none). -/
theorem lv_draw_mask_remove_custom_loop_spec (custom_id : Nat) :
    ∀ (list : List _lv_draw_mask_saved_t) (p : Nat),
      (lv_draw_mask_remove_custom_loop custom_id list p).2
        = list.map (fun m => if m.custom_id = custom_id then ⟨NULL, NULL⟩ else m) ∧
      (lv_draw_mask_remove_custom_loop custom_id list p).1
        = (((list.filter fun m => m.custom_id == custom_id).map fun m => m.param).getLast?).getD
            p := by
  intro list
  induction list with
  | nil => intro p; simp [lv_draw_mask_remove_custom_loop]
  | cons m rest ih =>
    intro p
    by_cases hm : m.custom_id = custom_id
    · obtain ⟨h1, h2⟩ := ih m.param
      refine ⟨by simp [lv_draw_mask_remove_custom_loop, hm, h1], ?_⟩
      simp only [lv_draw_mask_remove_custom_loop, hm, if_true, h2]
      simp only [List.filter_cons, hm, beq_self_eq_true, if_true, List.map_cons]
      cases hf : (List.filter (fun m => m.custom_id == custom_id) rest).map fun m => m.param with
      | nil => simp
      | cons a l =>
        rw [List.getLast?_cons_cons, List.getLast?_eq_getLast _ (List.cons_ne_nil a l)]
        simp
    · obtain ⟨h1, h2⟩ := ih p
      refine ⟨by simp [lv_draw_mask_remove_custom_loop, hm, h1], ?_⟩
      simp [lv_draw_mask_remove_custom_loop, hm, h2, List.filter_cons]

/-- C8 (the code at the failing input): `lv_draw_mask_add(1, NULL)` on the empty stack puts the
mask in slot 0; `lv_draw_mask_remove_custom(NULL)` then removes it, and the pointer it returns
is null, not the `param` of the removed mask: the fifteen free slots behind it have a null
`custom_id` too and overwrite `p` with their null `param`. -/
theorem lv_draw_mask_remove_custom_null_id :
    lv_draw_mask_add empty_stack 1 NULL
      = (0, ⟨1, NULL⟩ :: List.replicate 15 ⟨NULL, NULL⟩) ∧
    lv_draw_mask_remove_custom (⟨1, NULL⟩ :: List.replicate 15 ⟨NULL, NULL⟩) NULL
      = (NULL, empty_stack) := by
  refine ⟨by decide, by decide⟩

/-! ## `mask_mix` -/

/-- C9: `mask_mix(a, 255) = a` and `mask_mix(a, 0) = 0` for every `a`; this does not depend on
the values of `LV_OPA_MIN` and `LV_OPA_MAX` (as long as `0 < LV_OPA_MAX <= 255`) nor on
`LV_UDIV255`. -/
theorem mask_mix_max_min (a : Nat) :
    (mask_mix a 255 = a ∧ mask_mix a 0 = 0) ∧
    ∀ (opa_min opa_max : Nat) (udiv255 : Nat → Nat), 0 < opa_max → opa_max ≤ 255 →
      mask_mix_with opa_min opa_max udiv255 a 255 = a ∧
      mask_mix_with opa_min opa_max udiv255 a 0 = 0 := by
  refine ⟨⟨by simp [mask_mix, mask_mix_with, LV_OPA_MAX],
    by simp [mask_mix, mask_mix_with, LV_OPA_MAX, LV_OPA_MIN]⟩, ?_⟩
  intro opa_min opa_max udiv255 h0 h255
  constructor
  · simp [mask_mix_with, h255]
  · have h1 : ¬ 0 ≥ opa_max := by omega
    simp [mask_mix_with, h1]

/-- C9 at `a = 200`, with the thresholds 2 and 253 and a truncating division. -/
theorem mask_mix_max_min_witness :
    (0 : Nat) < 253 ∧ (253 : Nat) ≤ 255 ∧
    mask_mix_with 2 253 (fun x => x / 255) 200 255 = 200 ∧
    mask_mix_with 2 253 (fun x => x / 255) 200 0 = 0 :=
  ⟨by decide, by decide, (mask_mix_max_min 200).2 2 253 (fun x => x / 255) (by decide) (by decide)⟩

/-- C10 (as stated, refuted): at `old = 152`, `new = 229` the product is 34808, the reduction
`(x * 0x101 + 0x8000) >> 16` gives 136 and the rounded quotient `(x + 127) / 255` is 137, so
the two expressions of the claim differ and `mask_mix` is not the rounded quotient. -/
theorem mask_mix_not_rounded_quotient :
    mask_mix 152 229 = 136 ∧
    ((152 * 229) * 0x101 + 0x8000) >>> 16 = 136 ∧
    (152 * 229 + 127) / 255 = 137 ∧
    mask_mix 152 229 ≠ (152 * 229 + 127) / 255 := by
  refine ⟨by decide, by decide, by decide, by decide⟩

/-- C10 (amended): for bytes `old` and `new` with `0 < new < 255`, `mask_mix(old, new)` is
`((old * new) * 0x101 + 0x8000) >> 16`, and this is the rounded quotient
`(old * new + 127) / 255` or one less. -/
theorem mask_mix_reduction (old new : Nat) (hold : old < 256) (h0 : 0 < new) (h255 : new < 255) :
    mask_mix old new = ((old * new) * 0x101 + 0x8000) >>> 16 ∧
    mask_mix old new ≤ (old * new + 127) / 255 ∧
    (old * new + 127) / 255 ≤ mask_mix old new + 1 := by
  have hx : old * new ≤ 255 * 254 := Nat.mul_le_mul (by omega) (by omega)
  have h1 : ¬ new ≥ 255 := by omega
  have h2 : ¬ new ≤ 0 := by omega
  simp only [mask_mix, mask_mix_with, LV_OPA_MAX, LV_OPA_MIN, LV_UDIV255, if_neg h1, if_neg h2,
    Nat.shiftRight_eq_div_pow]
  generalize old * new = x at hx
  have h3 : (x * 0x101 + 0x8000) % 2 ^ 32 = x * 0x101 + 0x8000 :=
    Nat.mod_eq_of_lt (by norm_num; omega)
  have h4 : (x * 0x101 + 0x8000) / 2 ^ 16 % 256 = (x * 0x101 + 0x8000) / 2 ^ 16 :=
    Nat.mod_eq_of_lt (by norm_num; omega)
  rw [h3, h4]
  norm_num
  omega

/-- C10 (amended) at `old = 152`, `new = 229`. -/
theorem mask_mix_reduction_witness :
    (152 : Nat) < 256 ∧ (0 : Nat) < 229 ∧ (229 : Nat) < 255 ∧
    mask_mix 152 229 = ((152 * 229) * 0x101 + 0x8000) >>> 16 ∧
    mask_mix 152 229 ≤ (152 * 229 + 127) / 255 ∧
    (152 * 229 + 127) / 255 ≤ mask_mix 152 229 + 1 :=
  ⟨by decide, by decide, by decide, mask_mix_reduction 152 229 (by decide) (by decide) (by decide)⟩

/-- The reduction `LV_UDIV255` is monotone. -/
theorem LV_UDIV255_mono (x y : Nat) (h : x ≤ y) (hy : y ≤ 255 * 255) :
    LV_UDIV255 x ≤ LV_UDIV255 y := by
  simp only [LV_UDIV255, Nat.shiftRight_eq_div_pow]
  have h1 : (x * 0x101 + 0x8000) % 2 ^ 32 = x * 0x101 + 0x8000 :=
    Nat.mod_eq_of_lt (by norm_num; omega)
  have h2 : (y * 0x101 + 0x8000) % 2 ^ 32 = y * 0x101 + 0x8000 :=
    Nat.mod_eq_of_lt (by norm_num; omega)
  rw [h1, h2]
  norm_num
  omega

/-- The reduction `LV_UDIV255` of a product `a * n` with `n <= 254` is at most `a`. -/
theorem LV_UDIV255_le (a n : Nat) (ha : a < 256) (hn : n ≤ 254) :
    LV_UDIV255 (a * n) ≤ a := by
  have hx : a * n ≤ a * 254 := Nat.mul_le_mul_left a hn
  simp only [LV_UDIV255, Nat.shiftRight_eq_div_pow]
  generalize a * n = x at hx
  have h1 : (x * 0x101 + 0x8000) % 2 ^ 32 = x * 0x101 + 0x8000 :=
    Nat.mod_eq_of_lt (by norm_num; omega)
  rw [h1]
  norm_num
  omega

/-- C11: for every byte `a` and all bytes `n1 <= n2`, `mask_mix(a, n1) <= mask_mix(a, n2)`
(with `LV_OPA_MIN`, `LV_OPA_MAX` and `LV_UDIV255` as the spec gives them). -/
theorem mask_mix_mono (a n1 n2 : Nat) (ha : a < 256) (h12 : n1 ≤ n2) (h2 : n2 < 256) :
    mask_mix a n1 ≤ mask_mix a n2 := by
  simp only [mask_mix, mask_mix_with, LV_OPA_MAX, LV_OPA_MIN]
  by_cases hn2 : n2 ≥ 255
  · rw [if_pos hn2]
    by_cases hn1 : n1 ≥ 255
    · rw [if_pos hn1]
    · rw [if_neg hn1]
      by_cases hz : n1 ≤ 0
      · rw [if_pos hz]
        omega
      · rw [if_neg hz]
        have := LV_UDIV255_le a n1 ha (by omega)
        have := Nat.mod_le (LV_UDIV255 (a * n1)) 256
        omega
  · have hn1 : ¬ n1 ≥ 255 := by omega
    rw [if_neg hn2, if_neg hn1]
    by_cases hz : n1 ≤ 0
    · rw [if_pos hz]
      omega
    · have hz2 : ¬ n2 ≤ 0 := by omega
      rw [if_neg hz, if_neg hz2]
      have hb1 := LV_UDIV255_le a n1 ha (by omega)
      have hb2 := LV_UDIV255_le a n2 ha (by omega)
      have hm := LV_UDIV255_mono (a * n1) (a * n2) (Nat.mul_le_mul_left a h12)
        (Nat.mul_le_mul (by omega) (by omega))
      rw [Nat.mod_eq_of_lt (by omega), Nat.mod_eq_of_lt (by omega)]
      exact hm

/-- C11 at `a = 200`, `n1 = 100`, `n2 = 101`. -/
theorem mask_mix_mono_witness :
    (200 : Nat) < 256 ∧ (100 : Nat) ≤ 101 ∧ (101 : Nat) < 256 ∧
    mask_mix 200 100 ≤ mask_mix 200 101 :=
  ⟨by decide, by decide, by decide, mask_mix_mono 200 100 101 (by decide) (by decide) (by decide)⟩

/-! ## The line generator: axis-aligned lines -/

/-- The result of `lv_draw_mask_line` for a block with `steep = 0` and `flat = 1`. -/
theorem lv_draw_mask_line_steep_zero_flat (mask_buf : List Nat) (abs_x abs_y len : Int)
    (p : lv_draw_mask_line_param_t) (hsteep : p.steep = 0) (hflat : p.flat = true) :
    lv_draw_mask_line mask_buf abs_x abs_y len p
      = some (match p.cfg_side with
          | LV_DRAW_MASK_LINE_SIDE_LEFT => LV_DRAW_MASK_RES_FULL_COVER
          | LV_DRAW_MASK_LINE_SIDE_RIGHT => LV_DRAW_MASK_RES_FULL_COVER
          | LV_DRAW_MASK_LINE_SIDE_TOP =>
            if abs_y + 1 < p.origo_y then LV_DRAW_MASK_RES_FULL_COVER
            else LV_DRAW_MASK_RES_TRANSP
          | LV_DRAW_MASK_LINE_SIDE_BOTTOM =>
            if abs_y > p.origo_y then LV_DRAW_MASK_RES_FULL_COVER
            else LV_DRAW_MASK_RES_TRANSP, mask_buf) := by
  simp only [lv_draw_mask_line, hsteep, hflat, if_true]
  cases hside : p.cfg_side
  · simp
  · simp
  · by_cases h : abs_y + 1 < p.origo_y
    · have h1 : abs_y - p.origo_y + 1 < 0 := by omega
      simp [h, h1]
    · have h1 : ¬ abs_y - p.origo_y + 1 < 0 := by omega
      simp [h, h1]
  · by_cases h : abs_y > p.origo_y
    · have h1 : abs_y - p.origo_y > 0 := by omega
      simp [h, h1]
    · have h1 : ¬ abs_y - p.origo_y > 0 := by omega
      simp [h, h1]

/-- C13: for a horizontal line (`steep = 0`, `flat = 1`), `lv_draw_mask_line` leaves the buffer
as it was and returns `FULL_COVER` for side `LEFT` or `RIGHT`; for side `TOP`, `FULL_COVER` if
`y + 1 < origo.y` and `TRANSP` otherwise; for side `BOTTOM`, `FULL_COVER` if `y > origo.y` and
`TRANSP` otherwise. -/
theorem lv_draw_mask_line_horizontal (mask_buf : List Nat) (abs_x abs_y len : Int)
    (p : lv_draw_mask_line_param_t) (hsteep : p.steep = 0) (hflat : p.flat = true) :
    lv_draw_mask_line mask_buf abs_x abs_y len p
      = some (match p.cfg_side with
          | LV_DRAW_MASK_LINE_SIDE_LEFT => LV_DRAW_MASK_RES_FULL_COVER
          | LV_DRAW_MASK_LINE_SIDE_RIGHT => LV_DRAW_MASK_RES_FULL_COVER
          | LV_DRAW_MASK_LINE_SIDE_TOP =>
            if abs_y + 1 < p.origo_y then LV_DRAW_MASK_RES_FULL_COVER
            else LV_DRAW_MASK_RES_TRANSP
          | LV_DRAW_MASK_LINE_SIDE_BOTTOM =>
            if abs_y > p.origo_y then LV_DRAW_MASK_RES_FULL_COVER
            else LV_DRAW_MASK_RES_TRANSP, mask_buf) :=
  lv_draw_mask_line_steep_zero_flat mask_buf abs_x abs_y len p hsteep hflat

/-- C13 for the block of the horizontal line (0,5)-(10,5) with side `TOP`, at row 2. -/
theorem lv_draw_mask_line_horizontal_witness :
    (lv_draw_mask_line_points_init 0 5 10 5 LV_DRAW_MASK_LINE_SIDE_TOP).steep = 0 ∧
    (lv_draw_mask_line_points_init 0 5 10 5 LV_DRAW_MASK_LINE_SIDE_TOP).flat = true ∧
    lv_draw_mask_line [255, 255, 255] 0 2 3
        (lv_draw_mask_line_points_init 0 5 10 5 LV_DRAW_MASK_LINE_SIDE_TOP)
      = some (LV_DRAW_MASK_RES_FULL_COVER, [255, 255, 255]) :=
  ⟨by decide, by decide,
    lv_draw_mask_line_horizontal [255, 255, 255] 0 2 3
      (lv_draw_mask_line_points_init 0 5 10 5 LV_DRAW_MASK_LINE_SIDE_TOP) (by decide) (by decide)⟩

/-- The value of a 32-bit product that is zero. -/
theorem int32_t_zero : int32_t 0 = 0 := by decide

/-- A shift of zero is zero. -/
theorem asr_zero (n : Nat) : asr 0 n = 0 := by simp [asr]

/-- The block `lv_draw_mask_line_points_init` fills for a horizontal line: `steep = 0`,
`flat = 1`, the side as given, and the origin on the row of the line, or one row above it for
side `BOTTOM`. -/
theorem lv_draw_mask_line_points_init_horizontal (p1x p2x y0 : Int)
    (side : lv_draw_mask_line_side_t) (hx : p1x ≠ p2x) :
    (lv_draw_mask_line_points_init p1x y0 p2x y0 side).steep = 0 ∧
    (lv_draw_mask_line_points_init p1x y0 p2x y0 side).flat = true ∧
    (lv_draw_mask_line_points_init p1x y0 p2x y0 side).cfg_side = side ∧
    (lv_draw_mask_line_points_init p1x y0 p2x y0 side).origo_y
      = if side = LV_DRAW_MASK_LINE_SIDE_BOTTOM then y0 - 1 else y0 := by
  have hdx : p2x - p1x ≠ 0 := by omega
  have habs : LV_ABS (p2x - p1x) > 0 := by
    simp only [LV_ABS]
    split_ifs <;> omega
  by_cases hs : side = LV_DRAW_MASK_LINE_SIDE_BOTTOM
  · simp [lv_draw_mask_line_points_init, hs, LV_ABS, int32_t_zero, asr_zero, hdx]
    simpa [LV_ABS] using habs
  · simp [lv_draw_mask_line_points_init, hs, LV_ABS, int32_t_zero, asr_zero, hdx]
    simpa [LV_ABS] using habs

/-- C12 (as stated, refuted): for the line (0,5)-(10,5) with side `BOTTOM`, at `x = 0`,
`len = 10`, row 4 gives `TRANSP` and rows 5 and 6 give `FULL_COVER`. -/
theorem lv_draw_mask_line_bottom_rows :
    lv_draw_mask_line (List.replicate 10 255) 0 4 10
        (lv_draw_mask_line_points_init 0 5 10 5 LV_DRAW_MASK_LINE_SIDE_BOTTOM)
      = some (LV_DRAW_MASK_RES_TRANSP, List.replicate 10 255) ∧
    lv_draw_mask_line (List.replicate 10 255) 0 5 10
        (lv_draw_mask_line_points_init 0 5 10 5 LV_DRAW_MASK_LINE_SIDE_BOTTOM)
      = some (LV_DRAW_MASK_RES_FULL_COVER, List.replicate 10 255) ∧
    lv_draw_mask_line (List.replicate 10 255) 0 6 10
        (lv_draw_mask_line_points_init 0 5 10 5 LV_DRAW_MASK_LINE_SIDE_BOTTOM)
      = some (LV_DRAW_MASK_RES_FULL_COVER, List.replicate 10 255) := by
  refine ⟨by decide, by decide, by decide⟩

/-- C12 (amended): for a horizontal line through `y0` (`p1x != p2x`) initialised by
`lv_draw_mask_line_points_init` with side `BOTTOM`, `lv_draw_mask_line` returns `FULL_COVER` for
every scanline `y >= y0` and `TRANSP` for every scanline `y < y0`, and leaves the buffer as it
was. -/
theorem lv_draw_mask_line_bottom (mask_buf : List Nat) (p1x p2x y0 abs_x abs_y len : Int)
    (hx : p1x ≠ p2x) :
    lv_draw_mask_line mask_buf abs_x abs_y len
        (lv_draw_mask_line_points_init p1x y0 p2x y0 LV_DRAW_MASK_LINE_SIDE_BOTTOM)
      = some (if abs_y ≥ y0 then LV_DRAW_MASK_RES_FULL_COVER else LV_DRAW_MASK_RES_TRANSP,
          mask_buf) := by
  obtain ⟨h1, h2, h3, h4⟩ :=
    lv_draw_mask_line_points_init_horizontal p1x p2x y0 LV_DRAW_MASK_LINE_SIDE_BOTTOM hx
  rw [lv_draw_mask_line_steep_zero_flat _ _ _ _ _ h1 h2, h3, h4]
  by_cases h : abs_y ≥ y0
  · have h5 : abs_y > y0 - 1 := by omega
    simp [h, h5]
  · have h5 : ¬ abs_y > y0 - 1 := by omega
    simp [h, h5]

/-- C12 (amended) at the line (0,5)-(10,5), row 5. -/
theorem lv_draw_mask_line_bottom_witness :
    (0 : Int) ≠ 10 ∧
    lv_draw_mask_line (List.replicate 10 255) 0 5 10
        (lv_draw_mask_line_points_init 0 5 10 5 LV_DRAW_MASK_LINE_SIDE_BOTTOM)
      = some (if (5 : Int) ≥ 5 then LV_DRAW_MASK_RES_FULL_COVER else LV_DRAW_MASK_RES_TRANSP,
          List.replicate 10 255) :=
  ⟨by decide, lv_draw_mask_line_bottom (List.replicate 10 255) 0 10 5 0 5 10 (by decide)⟩

/-! ## The mask buffer -/

/-- The bytes of a list in which `n` bytes from index `s` on were replaced by zero. -/
theorem memset_list_getD (buf : List Nat) (s n i : Nat) (h : s + n ≤ buf.length) :
    (buf.take s ++ List.replicate n 0 ++ buf.drop (s + n)).getD i 0
      = if s ≤ i ∧ i < s + n then 0 else buf.getD i 0 := by
  simp only [List.getD_eq_getElem?_getD, List.getElem?_append, List.getElem?_take,
    List.getElem?_replicate, List.getElem?_drop, List.length_append, List.length_take,
    List.length_replicate]
  have hs : min s buf.length = s := by omega
  rw [hs]
  by_cases h1 : i < s
  · have h2 : i < s + n := by omega
    have h3 : ¬ s ≤ i := by omega
    simp [h1, h2, h3]
  · by_cases h2 : i < s + n
    · have h3 : i - s < n := by omega
      have h4 : s ≤ i := by omega
      simp [h1, h2, h3, h4]
    · have h5 : s + n + (i - (s + n)) = i := by omega
      simp [h1, h2, h5]

/-- `lv_memset_00` on a range inside the buffer: it returns, the length is kept, the bytes of
the range are zero and the others are as before. -/
theorem lv_memset_00_spec (mask_buf : List Nat) (start n : Int) (h0 : 0 ≤ start) (hn : 0 ≤ n)
    (hle : start + n ≤ mask_buf.length) :
    ∃ buf1, lv_memset_00 mask_buf start n = some buf1 ∧ buf1.length = mask_buf.length ∧
      ∀ i : Nat, buf1.getD i 0
        = if start ≤ (i : Int) ∧ (i : Int) < start + n then 0 else mask_buf.getD i 0 := by
  by_cases hz : n = 0
  · refine ⟨mask_buf, by simp [lv_memset_00, hz], rfl, fun i => ?_⟩
    have : ¬ (start ≤ (i : Int) ∧ (i : Int) < start + n) := by omega
    rw [if_neg this]
  · have hpos : 0 < n := by omega
    have hle2 : start.toNat + n.toNat ≤ mask_buf.length := by omega
    refine ⟨_, by simp only [lv_memset_00, if_neg hz]; rw [if_pos ⟨h0, hpos, hle⟩], ?_,
      fun i => ?_⟩
    · simp only [List.length_append, List.length_take, List.length_replicate, List.length_drop]
      omega
    · rw [memset_list_getD mask_buf start.toNat n.toNat i hle2]
      by_cases hc : start ≤ (i : Int) ∧ (i : Int) < start + n
      · have : start.toNat ≤ i ∧ i < start.toNat + n.toNat := by omega
        rw [if_pos hc, if_pos this]
      · have : ¬ (start.toNat ≤ i ∧ i < start.toNat + n.toNat) := by omega
        rw [if_neg hc, if_neg this]

/-- The bytes of a buffer filled with one value. -/
theorem replicate_getD (n i v : Nat) (h : i < n) : (List.replicate n v).getD i 0 = v := by
  simp [List.getD_eq_getElem?_getD, List.getElem?_replicate, h]

/-- The block `lv_draw_mask_line_points_init` fills for a vertical line at column `x0`:
`steep = 0`, `flat = 0`, the side as given and the origin on column `x0`. -/
theorem lv_draw_mask_line_points_init_vertical (x0 p1y p2y : Int)
    (side : lv_draw_mask_line_side_t) (hy : p1y ≠ p2y) :
    (lv_draw_mask_line_points_init x0 p1y x0 p2y side).steep = 0 ∧
    (lv_draw_mask_line_points_init x0 p1y x0 p2y side).flat = false ∧
    (lv_draw_mask_line_points_init x0 p1y x0 p2y side).cfg_side = side ∧
    (lv_draw_mask_line_points_init x0 p1y x0 p2y side).origo_x = x0 := by
  have h1 : LV_ABS (p2y - p1y) > 0 := by
    simp only [LV_ABS]
    split_ifs <;> omega
  have h2 : LV_ABS (p1y - p2y) > 0 := by
    simp only [LV_ABS]
    split_ifs <;> omega
  by_cases hs : p1y > p2y
  · have h3 : ¬ LV_ABS 0 > LV_ABS (p1y - p2y) := by
      have : LV_ABS 0 = 0 := by decide
      omega
    simp [lv_draw_mask_line_points_init, hy, hs, int32_t_zero, asr_zero, h3]
  · have h3 : ¬ LV_ABS 0 > LV_ABS (p2y - p1y) := by
      have : LV_ABS 0 = 0 := by decide
      omega
    simp [lv_draw_mask_line_points_init, hy, hs, int32_t_zero, asr_zero, h3]

/-- The opacities `lv_draw_mask_line` leaves for a block with `steep = 0` and `flat = 0` (a
vertical line through the column `origo.x`) on a buffer filled with `0xFF`: all pixels are kept
for the sides `TOP` and `BOTTOM`, the pixels left of the column are cleared for `RIGHT`, the
pixels on the column and right of it are cleared for `LEFT`. -/
theorem lv_draw_mask_line_steep_zero_not_flat (p : lv_draw_mask_line_param_t)
    (abs_x abs_y len : Int) (hsteep : p.steep = 0) (hflat : p.flat = false) :
    ∃ r, lv_draw_mask_line (List.replicate len.toNat 255) abs_x abs_y len p = some r ∧
      (mask_out len r).length = len.toNat ∧
      ∀ i : Nat, i < len.toNat → (mask_out len r).getD i 0 =
        match p.cfg_side with
        | LV_DRAW_MASK_LINE_SIDE_LEFT => if abs_x + i ≥ p.origo_x then 0 else 255
        | LV_DRAW_MASK_LINE_SIDE_RIGHT => if abs_x + i < p.origo_x then 0 else 255
        | _ => 255 := by
  simp only [lv_draw_mask_line, hsteep, hflat, if_true]
  cases hside : p.cfg_side
  · -- LEFT
    simp only [reduceCtorEq, or_self, false_and, if_false, if_true]
    by_cases h1 : abs_x - p.origo_x + len < 0
    · refine ⟨_, by rw [if_pos h1], by simp [mask_out], fun i hi => ?_⟩
      have : ¬ abs_x + (i : Int) ≥ p.origo_x := by omega
      simp [mask_out, replicate_getD, hi, this]
    · rw [if_neg h1]
      by_cases h2 : -(abs_x - p.origo_x) < 0
      · refine ⟨_, by rw [if_pos h2], by simp [mask_out], fun i hi => ?_⟩
        have : abs_x + (i : Int) ≥ p.origo_x := by omega
        simp [mask_out, replicate_getD, hi, this]
      · rw [if_neg h2]
        by_cases h3 : 0 ≤ -(abs_x - p.origo_x) ∧ -(abs_x - p.origo_x) < len
        · obtain ⟨buf1, hb, hl, hg⟩ := lv_memset_00_spec (List.replicate len.toNat 255)
            (-(abs_x - p.origo_x)) (len - -(abs_x - p.origo_x)) (by omega) (by omega)
            (by simp only [List.length_replicate]; omega)
          refine ⟨(LV_DRAW_MASK_RES_CHANGED, buf1), by rw [if_pos h3, hb]; rfl,
            by simpa [mask_out] using hl, fun i hi => ?_⟩
          simp only [mask_out, hg]
          by_cases h4 : abs_x + (i : Int) ≥ p.origo_x
          · have : -(abs_x - p.origo_x) ≤ (i : Int) ∧
                (i : Int) < -(abs_x - p.origo_x) + (len - -(abs_x - p.origo_x)) := by omega
            rw [if_pos this, if_pos h4]
          · have : ¬ (-(abs_x - p.origo_x) ≤ (i : Int) ∧
                (i : Int) < -(abs_x - p.origo_x) + (len - -(abs_x - p.origo_x))) := by omega
            rw [if_neg this, if_neg h4, replicate_getD _ _ _ hi]
        · refine ⟨(LV_DRAW_MASK_RES_CHANGED, _), by rw [if_neg h3]; rfl,
            by simp [mask_out], fun i hi => ?_⟩
          have : ¬ abs_x + (i : Int) ≥ p.origo_x := by omega
          simp [mask_out, replicate_getD, hi, this]
  · -- RIGHT
    simp only [reduceCtorEq, or_self, true_and, if_false]
    by_cases h1 : abs_x - p.origo_x > 0
    · refine ⟨_, by rw [if_pos h1], by simp [mask_out], fun i hi => ?_⟩
      have : ¬ abs_x + (i : Int) < p.origo_x := by omega
      simp [mask_out, replicate_getD, hi, this]
    · rw [if_neg h1]
      by_cases h2 : abs_x - p.origo_x + len < 0
      · refine ⟨_, by rw [if_pos h2], by simp [mask_out], fun i hi => ?_⟩
        have : abs_x + (i : Int) < p.origo_x := by omega
        simp [mask_out, replicate_getD, hi, this]
      · rw [if_neg h2]
        have h3 : ¬ -(abs_x - p.origo_x) < 0 := by omega
        simp only [if_neg h3]
        by_cases h4 : -(abs_x - p.origo_x) ≥ len
        · refine ⟨_, by rw [if_pos h4], by simp [mask_out], fun i hi => ?_⟩
          have : abs_x + (i : Int) < p.origo_x := by omega
          simp [mask_out, replicate_getD, hi, this]
        · rw [if_neg h4]
          obtain ⟨buf1, hb, hl, hg⟩ := lv_memset_00_spec (List.replicate len.toNat 255)
            0 (-(abs_x - p.origo_x)) (by omega) (by omega)
            (by simp only [List.length_replicate]; omega)
          have h5 : 0 ≤ -(abs_x - p.origo_x) ∧ -(abs_x - p.origo_x) < len := by omega
          refine ⟨(LV_DRAW_MASK_RES_CHANGED, buf1), by rw [if_pos h5, hb]; rfl,
            by simpa [mask_out] using hl, fun i hi => ?_⟩
          simp only [mask_out, hg]
          by_cases h6 : abs_x + (i : Int) < p.origo_x
          · have : (0 : Int) ≤ (i : Int) ∧ (i : Int) < 0 + -(abs_x - p.origo_x) := by omega
            rw [if_pos this, if_pos h6]
          · have : ¬ ((0 : Int) ≤ (i : Int) ∧ (i : Int) < 0 + -(abs_x - p.origo_x)) := by omega
            rw [if_neg this, if_neg h6, replicate_getD _ _ _ hi]
  · -- TOP
    refine ⟨(LV_DRAW_MASK_RES_FULL_COVER, List.replicate len.toNat 255), by simp,
      by simp [mask_out], fun i hi => ?_⟩
    simp [mask_out, replicate_getD, hi]
  · -- BOTTOM
    refine ⟨(LV_DRAW_MASK_RES_FULL_COVER, List.replicate len.toNat 255), by simp,
      by simp [mask_out], fun i hi => ?_⟩
    simp [mask_out, replicate_getD, hi]

/-- A call of `lv_memset_00` under a guard that makes its range lie inside the buffer: it
returns, the length is kept, and a byte is zero if the guard holds and it is in the range, and
as before otherwise. -/
theorem lv_memset_00_guarded (c : Prop) [Decidable c] (mask_buf : List Nat) (start n : Int)
    (h : c → 0 ≤ start ∧ 0 ≤ n ∧ start + n ≤ mask_buf.length) :
    ∃ buf1, (if c then lv_memset_00 mask_buf start n else some mask_buf) = some buf1 ∧
      buf1.length = mask_buf.length ∧
      ∀ i : Nat, buf1.getD i 0
        = if c ∧ start ≤ (i : Int) ∧ (i : Int) < start + n then 0 else mask_buf.getD i 0 := by
  by_cases hc : c
  · obtain ⟨buf1, hb, hl, hg⟩ := lv_memset_00_spec mask_buf start n (h hc).1 (h hc).2.1 (h hc).2.2
    refine ⟨buf1, by rw [if_pos hc, hb], hl, fun i => ?_⟩
    rw [hg]
    simp [hc]
  · refine ⟨mask_buf, by rw [if_neg hc], rfl, fun i => ?_⟩
    simp [hc]

/-! ## The radius generator -/

/-- C18: for every rectangle (`x1 <= x2`, `y1 <= y2`) and every requested radius,
`lv_draw_mask_radius_init` stores a radius `r` with `0 <= r <= min(width, height) / 2`: a
negative request becomes 0, a request above half the short side becomes half the short side, and
any other request is stored as it is. -/
theorem lv_draw_mask_radius_init_radius (circle_cache : _lv_draw_mask_radius_circle_dsc_t)
    (rect : lv_area_t) (radius : Int) (inv : Bool) (hx : rect.x1 ≤ rect.x2)
    (hy : rect.y1 ≤ rect.y2) :
    0 ≤ (lv_draw_mask_radius_init circle_cache rect radius inv).1.cfg_radius ∧
    (lv_draw_mask_radius_init circle_cache rect radius inv).1.cfg_radius
      ≤ min (lv_area_get_width rect) (lv_area_get_height rect) / 2 ∧
    (radius < 0 → (lv_draw_mask_radius_init circle_cache rect radius inv).1.cfg_radius = 0) ∧
    (radius > min (lv_area_get_width rect) (lv_area_get_height rect) / 2 →
      (lv_draw_mask_radius_init circle_cache rect radius inv).1.cfg_radius
        = min (lv_area_get_width rect) (lv_area_get_height rect) / 2) ∧
    (0 ≤ radius → radius ≤ min (lv_area_get_width rect) (lv_area_get_height rect) / 2 →
      (lv_draw_mask_radius_init circle_cache rect radius inv).1.cfg_radius = radius) := by
  have hmin : LV_MIN (lv_area_get_width rect) (lv_area_get_height rect)
      = min (lv_area_get_width rect) (lv_area_get_height rect) := by
    simp only [LV_MIN]
    split_ifs <;> omega
  simp only [lv_draw_mask_radius_init, hmin, asr]
  have hw : 1 ≤ lv_area_get_width rect := by simp only [lv_area_get_width]; omega
  have hh : 1 ≤ lv_area_get_height rect := by simp only [lv_area_get_height]; omega
  generalize lv_area_get_width rect = w at hw ⊢
  generalize lv_area_get_height rect = h at hh ⊢
  norm_num
  refine ⟨?_, ?_, ?_, ?_, ?_⟩ <;> intros <;> split_ifs <;> omega

/-- C18 at the rectangle (0,0)-(9,19) with the request 7, which is above half the short
side. -/
theorem lv_draw_mask_radius_init_radius_witness :
    (⟨0, 0, 9, 19⟩ : lv_area_t).x1 ≤ (⟨0, 0, 9, 19⟩ : lv_area_t).x2 ∧
    (⟨0, 0, 9, 19⟩ : lv_area_t).y1 ≤ (⟨0, 0, 9, 19⟩ : lv_area_t).y2 ∧
    (lv_draw_mask_radius_init circle_cache_init ⟨0, 0, 9, 19⟩ 7 false).1.cfg_radius = 5 :=
  ⟨by decide, by decide,
    ((lv_draw_mask_radius_init_radius circle_cache_init ⟨0, 0, 9, 19⟩ 7 false (by decide)
      (by decide)).2.2.2.1 (by decide)).trans (by decide)⟩

/-! ## The line generator: vertical lines and the diagonal of scenario S4 -/

/-- C14 (as stated, refuted): for the vertical line (5,0)-(5,10) with side `LEFT`, at `x = 0`,
`y = 3`, `len = 10`, the pixel of column 5, the column of the line, is cleared as well as the
pixels right of it. -/
theorem lv_draw_mask_line_vertical_left_column :
    lv_draw_mask_line (List.replicate 10 255) 0 3 10
        (lv_draw_mask_line_points_init 5 0 5 10 LV_DRAW_MASK_LINE_SIDE_LEFT)
      = some (LV_DRAW_MASK_RES_CHANGED, [255, 255, 255, 255, 255, 0, 0, 0, 0, 0]) := by
  decide

/-- C14 (amended): for a vertical line at column `x0` (`p1x = p2x = x0`, `p1y != p2y`) and a
buffer pre-filled with `0xFF`, reading `TRANSP` as all zero and `FULL_COVER` as unchanged: side
`TOP` or `BOTTOM` keeps every pixel; side `RIGHT` clears exactly the span pixels with absolute
`x < x0`; side `LEFT` clears exactly the span pixels with absolute `x >= x0`. -/
theorem lv_draw_mask_line_vertical (x0 p1y p2y abs_x abs_y len : Int)
    (side : lv_draw_mask_line_side_t) (hy : p1y ≠ p2y) :
    ∃ r, lv_draw_mask_line (List.replicate len.toNat 255) abs_x abs_y len
        (lv_draw_mask_line_points_init x0 p1y x0 p2y side) = some r ∧
      (mask_out len r).length = len.toNat ∧
      ∀ i : Nat, i < len.toNat → (mask_out len r).getD i 0 =
        match side with
        | LV_DRAW_MASK_LINE_SIDE_LEFT => if abs_x + i ≥ x0 then 0 else 255
        | LV_DRAW_MASK_LINE_SIDE_RIGHT => if abs_x + i < x0 then 0 else 255
        | _ => 255 := by
  obtain ⟨h1, h2, h3, h4⟩ := lv_draw_mask_line_points_init_vertical x0 p1y p2y side hy
  have h := lv_draw_mask_line_steep_zero_not_flat
    (lv_draw_mask_line_points_init x0 p1y x0 p2y side) abs_x abs_y len h1 h2
  rw [h3, h4] at h
  exact h

/-- C14 (amended) at the line (5,0)-(5,10) with side `RIGHT`, `x = 3`, `y = 3`, `len = 4`. -/
theorem lv_draw_mask_line_vertical_witness :
    (0 : Int) ≠ 10 ∧
    ∃ r, lv_draw_mask_line (List.replicate (4 : Int).toNat 255) 3 3 4
        (lv_draw_mask_line_points_init 5 0 5 10 LV_DRAW_MASK_LINE_SIDE_RIGHT) = some r ∧
      (mask_out 4 r).length = (4 : Int).toNat ∧
      ∀ i : Nat, i < (4 : Int).toNat → (mask_out 4 r).getD i 0 =
        if (3 : Int) + i < 5 then 0 else 255 :=
  ⟨by decide, lv_draw_mask_line_vertical 5 0 10 3 3 4 LV_DRAW_MASK_LINE_SIDE_RIGHT (by decide)⟩

/-- C15: for the line (0,0)-(10,10) with side `LEFT` and a buffer of eleven `0xFF` bytes,
`lv_draw_mask_line` at `x = 0`, `y = 5`, `len = 11` returns `CHANGED` with pixels 0..4 at 255,
pixels 6..10 at 0 and pixel 5 at 126, which is within 4 of 128. -/
theorem lv_draw_mask_line_diagonal :
    lv_draw_mask_line (List.replicate 11 255) 0 5 11
        (lv_draw_mask_line_points_init 0 0 10 10 LV_DRAW_MASK_LINE_SIDE_LEFT)
      = some (LV_DRAW_MASK_RES_CHANGED, [255, 255, 255, 255, 255, 126, 0, 0, 0, 0, 0]) ∧
    128 - 4 ≤ 126 ∧ 126 ≤ 128 + 4 := by
  refine ⟨by decide, by decide, by decide⟩

/-! ## The radius generator: the straight band and scenario S2 -/

/-- C19: for every rectangle `R`, radius `r >= 0`, scanline row `y` in the straight band
`[R.y1 + r, R.y2 - r]` and buffer pre-filled with `0xFF`: in inner mode each span pixel ends at
255 if its absolute `x` is in `[R.x1, R.x2]` and at 0 otherwise; in outer mode it ends at 0 if
its absolute `x` is in `[R.x1, R.x2]` and at 255 otherwise (reading `TRANSP` as all 0 and
`FULL_COVER` as all 255). -/
theorem lv_draw_mask_radius_straight_band (circle : _lv_draw_mask_radius_circle_dsc_t)
    (p : lv_draw_mask_radius_param_t) (abs_x abs_y len : Int) (hr : 0 ≤ p.cfg_radius)
    (hy1 : p.cfg_rect.y1 + p.cfg_radius ≤ abs_y) (hy2 : abs_y ≤ p.cfg_rect.y2 - p.cfg_radius) :
    ∃ r, lv_draw_mask_radius circle (List.replicate len.toNat 255) abs_x abs_y len p = some r ∧
      (mask_out len r).length = len.toNat ∧
      ∀ i : Nat, i < len.toNat → (mask_out len r).getD i 0 =
        if p.cfg_outer = false then
          (if p.cfg_rect.x1 ≤ abs_x + i ∧ abs_x + i ≤ p.cfg_rect.x2 then 255 else 0)
        else (if p.cfg_rect.x1 ≤ abs_x + i ∧ abs_x + i ≤ p.cfg_rect.x2 then 0 else 255) := by
  have hout : ¬ (abs_y < p.cfg_rect.y1 ∨ abs_y > p.cfg_rect.y2) := by omega
  have hband : (abs_x ≥ p.cfg_rect.x1 + p.cfg_radius ∧ abs_x + len ≤ p.cfg_rect.x2 - p.cfg_radius) ∨
      (abs_y ≥ p.cfg_rect.y1 + p.cfg_radius ∧ abs_y ≤ p.cfg_rect.y2 - p.cfg_radius) :=
    Or.inr ⟨hy1, hy2⟩
  simp only [lv_draw_mask_radius, if_neg hout, if_pos hband]
  cases houter : p.cfg_outer
  · -- inner mode
    simp only [if_true]
    by_cases h1 : p.cfg_rect.x1 - abs_x > len
    · refine ⟨(LV_DRAW_MASK_RES_TRANSP, List.replicate len.toNat 255), by rw [if_pos h1],
        by simp [mask_out], fun i hi => ?_⟩
      have : ¬ (p.cfg_rect.x1 ≤ abs_x + i ∧ abs_x + i ≤ p.cfg_rect.x2) := by omega
      simp [mask_out, replicate_getD, hi, this]
    · rw [if_neg h1]
      obtain ⟨buf1, hb1, hl1, hg1⟩ := lv_memset_00_guarded (p.cfg_rect.x1 - abs_x ≥ 0)
        (List.replicate len.toNat 255) 0 (p.cfg_rect.x1 - abs_x)
        (fun h => ⟨le_refl 0, h, by simp only [List.length_replicate]; omega⟩)
      rw [hb1]
      simp only [Option.some_bind]
      by_cases h2 : p.cfg_rect.x2 - abs_x + 1 ≤ 0
      · refine ⟨(LV_DRAW_MASK_RES_TRANSP, buf1), by rw [if_pos h2], by simp [mask_out],
          fun i hi => ?_⟩
        have : ¬ (p.cfg_rect.x1 ≤ abs_x + i ∧ abs_x + i ≤ p.cfg_rect.x2) := by omega
        simp [mask_out, replicate_getD, hi, this]
      · rw [if_neg h2]
        obtain ⟨buf2, hb2, hl2, hg2⟩ := lv_memset_00_guarded (p.cfg_rect.x2 - abs_x + 1 < len)
          buf1 (p.cfg_rect.x2 - abs_x + 1) (len - (p.cfg_rect.x2 - abs_x + 1))
          (fun h => ⟨by omega, by omega, by rw [hl1, List.length_replicate]; omega⟩)
        rw [hb2]
        simp only [Option.some_bind]
        have hpix : ∀ i : Nat, i < len.toNat → buf2.getD i 0 =
            if p.cfg_rect.x1 ≤ abs_x + i ∧ abs_x + i ≤ p.cfg_rect.x2 then 255 else 0 := by
          intro i hi
          rw [hg2, hg1, replicate_getD _ _ _ hi]
          by_cases hin : p.cfg_rect.x1 ≤ abs_x + i ∧ abs_x + i ≤ p.cfg_rect.x2
          · rw [if_pos hin, if_neg (by omega), if_neg (by omega)]
          · rw [if_neg hin]
            by_cases hr2 : p.cfg_rect.x2 - abs_x + 1 < len ∧ p.cfg_rect.x2 - abs_x + 1 ≤ (i : Int) ∧
                (i : Int) < p.cfg_rect.x2 - abs_x + 1 + (len - (p.cfg_rect.x2 - abs_x + 1))
            · rw [if_pos hr2]
            · rw [if_neg hr2, if_pos (by omega)]
        by_cases h3 : p.cfg_rect.x1 - abs_x = 0 ∧ p.cfg_rect.x2 - abs_x + 1 = len
        · refine ⟨(LV_DRAW_MASK_RES_FULL_COVER, buf2), by rw [if_pos h3], by simp [mask_out],
            fun i hi => ?_⟩
          have : p.cfg_rect.x1 ≤ abs_x + i ∧ abs_x + i ≤ p.cfg_rect.x2 := by omega
          simp [mask_out, replicate_getD, hi, this]
        · refine ⟨(LV_DRAW_MASK_RES_CHANGED, buf2), by rw [if_neg h3],
            by simp [mask_out, hl2, hl1], fun i hi => ?_⟩
          simpa [mask_out] using hpix i hi
  · -- outer mode
    simp only [Bool.true_eq_false, if_false]
    by_cases h1 : (if p.cfg_rect.x1 - abs_x < 0 then 0 else p.cfg_rect.x1 - abs_x) ≤ len
    · rw [if_pos h1]
      generalize hfirst : (if p.cfg_rect.x1 - abs_x < 0 then 0 else p.cfg_rect.x1 - abs_x) = first
        at h1 ⊢
      have hf0 : 0 ≤ first := by rw [← hfirst]; split_ifs <;> omega
      have hf1 : first = 0 ∨ first = p.cfg_rect.x1 - abs_x := by
        rw [← hfirst]; split_ifs <;> omega
      have hf2 : p.cfg_rect.x1 - abs_x ≤ first := by rw [← hfirst]; split_ifs <;> omega
      generalize hlast : (if first + (p.cfg_rect.x2 - abs_x - first + 1) > len then len - first
        else p.cfg_rect.x2 - abs_x - first + 1) = last
      have hl0 : first + last ≤ len := by rw [← hlast]; split_ifs <;> omega
      have hl1 : last = len - first ∨ last = p.cfg_rect.x2 - abs_x - first + 1 := by
        rw [← hlast]; split_ifs <;> omega
      have hl2 : last ≤ p.cfg_rect.x2 - abs_x - first + 1 := by rw [← hlast]; split_ifs <;> omega
      obtain ⟨buf1, hb1, hlen1, hg1⟩ := lv_memset_00_guarded (last ≥ 0)
        (List.replicate len.toNat 255) first last
        (fun h => ⟨hf0, h, by simp only [List.length_replicate]; omega⟩)
      refine ⟨(LV_DRAW_MASK_RES_CHANGED, buf1), by rw [hb1]; rfl, by simp [mask_out, hlen1],
        fun i hi => ?_⟩
      simp only [mask_out, hg1, replicate_getD _ _ _ hi]
      by_cases hin : p.cfg_rect.x1 ≤ abs_x + i ∧ abs_x + i ≤ p.cfg_rect.x2
      · rw [if_pos hin, if_pos (by omega)]
      · rw [if_neg hin, if_neg (by omega)]
    · rw [if_neg h1]
      refine ⟨(LV_DRAW_MASK_RES_CHANGED, List.replicate len.toNat 255), rfl, by simp [mask_out],
        fun i hi => ?_⟩
      have : ¬ (p.cfg_rect.x1 ≤ abs_x + i ∧ abs_x + i ≤ p.cfg_rect.x2) := by
        split_ifs at h1 <;> omega
      simp [mask_out, replicate_getD, hi, this]

/-- C19 at the rectangle (0,0)-(9,9) with radius 0 in inner mode, `x = -2`, `y = 5`,
`len = 14` (scenario S1): `CHANGED` with the bytes 0, 0, ten times 255, 0, 0. -/
theorem lv_draw_mask_radius_straight_band_witness :
    (0 : Int) ≤ (⟨⟨0, 0, 9, 9⟩, 0, false⟩ : lv_draw_mask_radius_param_t).cfg_radius ∧
    lv_draw_mask_radius circle_cache_init (List.replicate 14 255) (-2) 5 14 ⟨⟨0, 0, 9, 9⟩, 0, false⟩
      = some (LV_DRAW_MASK_RES_CHANGED,
          [0, 0, 255, 255, 255, 255, 255, 255, 255, 255, 255, 255, 0, 0]) ∧
    ∃ r, lv_draw_mask_radius circle_cache_init (List.replicate (14 : Int).toNat 255) (-2) 5 14
        ⟨⟨0, 0, 9, 9⟩, 0, false⟩ = some r ∧
      (mask_out 14 r).length = (14 : Int).toNat ∧
      ∀ i : Nat, i < (14 : Int).toNat → (mask_out 14 r).getD i 0 =
        if (0 : Int) ≤ -2 + i ∧ (-2 : Int) + i ≤ 9 then 255 else 0 :=
  ⟨by decide, by decide,
    lv_draw_mask_radius_straight_band circle_cache_init ⟨⟨0, 0, 9, 9⟩, 0, false⟩ (-2) 5 14
      (by decide) (by decide) (by decide)⟩

set_option maxRecDepth 100000 in
/-- C20: after `lv_draw_mask_radius_init` on the rectangle (0,0)-(9,9) with radius 3 in inner
mode (on the fresh `circle_cache`, and also on a `circle_cache` that served a radius 5 before),
`lv_draw_mask_radius` on ten `0xFF` bytes at `x = 0`, `y = 0`, `len = 10` returns `CHANGED` with
the bytes 0, 176, 255, 255, 255, 255, 255, 255, 176, 0: the two ends are 0, pixels 1 and 8 are
equal and strictly between 0 and 255, pixels 3..6 are 255, and the row is symmetric. -/
theorem lv_draw_mask_radius_corner_row :
    (lv_draw_mask_radius_init circle_cache_init ⟨0, 0, 9, 9⟩ 3 false).1
      = ⟨⟨0, 0, 9, 9⟩, 3, false⟩ ∧
    ((lv_draw_mask_radius_init circle_cache_init ⟨0, 0, 9, 9⟩ 3 false).2.bind fun circle =>
        lv_draw_mask_radius circle (List.replicate 10 255) 0 0 10 ⟨⟨0, 0, 9, 9⟩, 3, false⟩)
      = some (LV_DRAW_MASK_RES_CHANGED, [0, 176, 255, 255, 255, 255, 255, 255, 176, 0]) ∧
    (((lv_draw_mask_radius_init circle_cache_init ⟨0, 0, 19, 19⟩ 5 true).2.bind fun cache5 =>
        (lv_draw_mask_radius_init cache5 ⟨0, 0, 9, 9⟩ 3 false).2).bind fun circle =>
        lv_draw_mask_radius circle (List.replicate 10 255) 0 0 10 ⟨⟨0, 0, 9, 9⟩, 3, false⟩)
      = some (LV_DRAW_MASK_RES_CHANGED, [0, 176, 255, 255, 255, 255, 255, 255, 176, 0]) ∧
    ([0, 176, 255, 255, 255, 255, 255, 255, 176, 0] : List Nat).reverse
      = [0, 176, 255, 255, 255, 255, 255, 255, 176, 0] := by
  refine ⟨by decide, by decide, by decide, by decide⟩

/-! ## The two sides of a line: tools -/

/-- A byte stored in an `lv_opa_t` is below 256. -/
theorem uint8_t_lt (v : Int) : uint8_t v < 256 := by
  simp only [uint8_t]
  omega

/-- Mixing a byte into a pixel that is still `0xFF` stores the byte. -/
theorem mask_mix_255 (m : Nat) (hm : m < 256) : mask_mix 255 m = m := by
  simp only [mask_mix, mask_mix_with, LV_OPA_MAX, LV_OPA_MIN, LV_UDIV255,
    Nat.shiftRight_eq_div_pow]
  by_cases h1 : m ≥ 255
  · rw [if_pos h1]
    omega
  · rw [if_neg h1]
    by_cases h2 : m ≤ 0
    · rw [if_pos h2]
      omega
    · rw [if_neg h2]
      have h3 : (255 * m * 0x101 + 0x8000) % 2 ^ 32 = 255 * m * 0x101 + 0x8000 :=
        Nat.mod_eq_of_lt (by norm_num; omega)
      have h4 : 255 * m * 0x101 + 0x8000 = (32768 - m) + m * 2 ^ 16 := by
        norm_num
        omega
      have h5 : (32768 - m) / 2 ^ 16 = 0 := Nat.div_eq_of_lt (by norm_num; omega)
      rw [h3, h4, Nat.add_mul_div_right _ _ (by norm_num), h5, Nat.zero_add]
      exact Nat.mod_eq_of_lt hm

/-- The statement `mask_buf[k] = mask_mix(mask_buf[k], m)` under a guard that makes `k` an
index of the buffer: it returns, the length is kept, and only the byte `k` changes, if the guard
holds. -/
theorem mask_buf_mix_guarded (g : Prop) [Decidable g] (mask_buf : List Nat) (k : Int) (m : Nat)
    (h : g → 0 ≤ k ∧ k < mask_buf.length) :
    ∃ buf1, (if g then mask_buf_mix mask_buf k m else some mask_buf) = some buf1 ∧
      buf1.length = mask_buf.length ∧
      ∀ i : Nat, buf1.getD i 0
        = if g ∧ (i : Int) = k then mask_mix (mask_buf.getD i 0) m else mask_buf.getD i 0 := by
  by_cases hg : g
  · obtain ⟨h0, h1⟩ := h hg
    have hlt : k.toNat < mask_buf.length := by omega
    refine ⟨mask_buf.set k.toNat (mask_mix (mask_buf[k.toNat]) m), ?_, by simp, fun i => ?_⟩
    · rw [if_pos hg]
      simp only [mask_buf_mix, if_pos h0, List.getElem?_eq_getElem hlt]
    · simp only [List.getD_eq_getElem?_getD, List.getElem?_set]
      by_cases hik : (i : Int) = k
      · have hik2 : k.toNat = i := by omega
        have hi : i < mask_buf.length := by omega
        simp [hg, hik, hik2, hi]
      · have hik2 : ¬ k.toNat = i := by omega
        simp [hik, hik2]
  · exact ⟨mask_buf, by rw [if_neg hg], rfl, fun i => by simp [hg]⟩

/-- A buffer pair that is untouched is a band without columns. -/
theorem dual_band_init (L : Nat) (k : Int) :
    dual_band L (List.replicate L 255) (List.replicate L 255) k k := by
  refine ⟨by simp, by simp, fun i hi => ⟨fun h => by omega, fun _ => ?_⟩⟩
  simp [replicate_getD, hi]

/-- Writing the byte `m` for one side and `255 - m` for the other at the column `hi` that
follows a band extends the band by that column; the guard holds exactly when the column is in
the span. -/
theorem dual_band_write_hi (L : Nat) (bN bI : List Nat) (lo hi : Int) (m : Nat)
    (g : Prop) [Decidable g] (hb : dual_band L bN bI lo hi) (hlo : lo ≤ hi) (hm : m < 256)
    (hg : g ↔ (0 ≤ hi ∧ hi < L)) :
    ∃ bN1 bI1, (if g then mask_buf_mix bN hi m else some bN) = some bN1 ∧
      (if g then mask_buf_mix bI hi (255 - m) else some bI) = some bI1 ∧
      dual_band L bN1 bI1 lo (hi + 1) := by
  obtain ⟨hlN, hlI, hpix⟩ := hb
  obtain ⟨bN1, h1, hl1, hg1⟩ := mask_buf_mix_guarded g bN hi m (fun h => by rw [hlN]; exact hg.mp h)
  obtain ⟨bI1, h2, hl2, hg2⟩ := mask_buf_mix_guarded g bI hi (255 - m)
    (fun h => by rw [hlI]; exact hg.mp h)
  refine ⟨bN1, bI1, h1, h2, by rw [hl1, hlN], by rw [hl2, hlI], fun i hi1 => ?_⟩
  obtain ⟨hin, hout⟩ := hpix i hi1
  rw [hg1, hg2]
  by_cases hik : (i : Int) = hi
  · have hgt : g := hg.mpr ⟨by omega, by omega⟩
    have h255 := hout (by omega)
    rw [if_pos ⟨hgt, hik⟩, if_pos ⟨hgt, hik⟩, h255.1, h255.2, mask_mix_255 m hm,
      mask_mix_255 (255 - m) (by omega)]
    exact ⟨fun _ => by omega, fun h => by omega⟩
  · rw [if_neg (fun h => hik h.2), if_neg (fun h => hik h.2)]
    exact ⟨fun h => hin (by omega), fun h => hout (by omega)⟩

/-- Writing the byte `m` for one side and `255 - m` for the other at the column `lo - 1` that
precedes a band extends the band by that column. -/
theorem dual_band_write_lo (L : Nat) (bN bI : List Nat) (lo hi : Int) (m : Nat)
    (g : Prop) [Decidable g] (hb : dual_band L bN bI lo hi) (hlo : lo ≤ hi) (hm : m < 256)
    (hg : g ↔ (0 ≤ lo - 1 ∧ lo - 1 < L)) :
    ∃ bN1 bI1, (if g then mask_buf_mix bN (lo - 1) m else some bN) = some bN1 ∧
      (if g then mask_buf_mix bI (lo - 1) (255 - m) else some bI) = some bI1 ∧
      dual_band L bN1 bI1 (lo - 1) hi := by
  obtain ⟨hlN, hlI, hpix⟩ := hb
  obtain ⟨bN1, h1, hl1, hg1⟩ := mask_buf_mix_guarded g bN (lo - 1) m
    (fun h => by rw [hlN]; exact hg.mp h)
  obtain ⟨bI1, h2, hl2, hg2⟩ := mask_buf_mix_guarded g bI (lo - 1) (255 - m)
    (fun h => by rw [hlI]; exact hg.mp h)
  refine ⟨bN1, bI1, h1, h2, by rw [hl1, hlN], by rw [hl2, hlI], fun i hi1 => ?_⟩
  obtain ⟨hin, hout⟩ := hpix i hi1
  rw [hg1, hg2]
  by_cases hik : (i : Int) = lo - 1
  · have hgt : g := hg.mpr ⟨by omega, by omega⟩
    have h255 := hout (by omega)
    rw [if_pos ⟨hgt, hik⟩, if_pos ⟨hgt, hik⟩, h255.1, h255.2, mask_mix_255 m hm,
      mask_mix_255 (255 - m) (by omega)]
    exact ⟨fun _ => by omega, fun h => by omega⟩
  · rw [if_neg (fun h => hik h.2), if_neg (fun h => hik h.2)]
    exact ⟨fun h => hin (by omega), fun h => hout (by omega)⟩

/-- From a band of written columns to the opacities of the two sides: one side is cleared from
column `hi` on, the other one left of column `lo`. -/
theorem dual_out_of_band (L : Nat) (bN bI oN oI : List Nat) (lo hi : Int)
    (hb : dual_band L bN bI lo hi) (hlo : lo ≤ hi) (hlN : oN.length = L) (hlI : oI.length = L)
    (hN : ∀ i : Nat, i < L → oN.getD i 0 = if hi ≤ (i : Int) then 0 else bN.getD i 0)
    (hI : ∀ i : Nat, i < L → oI.getD i 0 = if (i : Int) < lo then 0 else bI.getD i 0) :
    dual_out L oN oI lo hi := by
  obtain ⟨-, -, hpix⟩ := hb
  refine ⟨hlN, hlI, fun i hi1 => ?_⟩
  obtain ⟨hin, hout⟩ := hpix i hi1
  rw [hN i hi1, hI i hi1]
  refine ⟨fun h => ?_, fun h => ?_, fun h => ?_⟩
  · rw [if_neg (by omega), if_pos h]
    exact ⟨(hout (by omega)).1, rfl⟩
  · rw [if_neg (by omega), if_neg (by omega)]
    exact hin h
  · rw [if_pos h, if_neg (by omega)]
    exact ⟨rfl, (hout (by omega)).2⟩

/-- In a band the opacities of the two sides add up to 255 at every pixel. -/
theorem dual_out_sum (L : Nat) (oN oI : List Nat) (lo hi : Int) (h : dual_out L oN oI lo hi)
    (i : Nat) (hi1 : i < L) : oN.getD i 0 + oI.getD i 0 = 255 := by
  obtain ⟨-, -, hpix⟩ := h
  obtain ⟨h1, h2, h3⟩ := hpix i hi1
  by_cases ha : (i : Int) < lo
  · rw [(h1 ha).1, (h1 ha).2]
  · by_cases hb : (i : Int) < hi
    · exact h2 ⟨by omega, hb⟩
    · rw [(h3 (by omega)).1, (h3 (by omega)).2]

/-! ## The two sides of a flat line -/

/-- A value in the range of `int32_t` is not changed by the conversion. -/
theorem int32_t_of_range (v : Int) (h1 : -2147483648 ≤ v) (h2 : v < 2147483648) :
    int32_t v = v := by
  simp only [int32_t]
  omega

/-- A product of two bounded integers is bounded by the product of the bounds. -/
theorem mul_range (a b A B : Int) (ha : -A ≤ a ∧ a ≤ A) (hb : -B ≤ b ∧ b ≤ B) :
    -(A * B) ≤ a * b ∧ a * b ≤ A * B := by
  have h1 : |a| ≤ A := abs_le.mpr ha
  have h2 : |b| ≤ B := abs_le.mpr hb
  have h3 : |a * b| ≤ A * B := by
    rw [abs_mul]
    exact mul_le_mul h1 h2 (abs_nonneg _) (le_trans (abs_nonneg _) h1)
  exact abs_le.mp h3

/-- The conversion to `int32_t` does not change the value of a product modulo `2 ^ 32`: the
factor may be converted first. -/
theorem int32_t_mul_left (a b : Int) : int32_t (int32_t a * b) = int32_t (a * b) := by
  obtain ⟨k, hk⟩ : ∃ k : Int, int32_t a = a + k * 2 ^ 32 :=
    ⟨-((a + 2 ^ 31) / 2 ^ 32), by simp only [int32_t]; omega⟩
  rw [hk]
  have e : (a + k * 2 ^ 32) * b = a * b + (k * b) * 2 ^ 32 := by ring
  rw [e]
  simp only [int32_t]
  have e2 : a * b + k * b * 2 ^ 32 + 2 ^ 31 = (a * b + 2 ^ 31) + (k * b) * 2 ^ 32 := by ring
  rw [e2, Int.add_mul_emod_self]

/-- The number of passes of the loop of `line_mask_flat` for a step `spx > 0`: `k` advances by
less than `px_h / spx` columns. -/
theorem line_mask_flat_loop_steps (inv : Bool) (spx len : Int) :
    ∀ (fuel : Nat) (buf : List Nat) (px_h k : Int) (buf1 : List Nat) (px1 k1 : Int),
      line_mask_flat_loop inv spx len fuel buf px_h k = some (buf1, px1, k1) →
      k1 = k ∨ (k1 - k) * spx < px_h := by
  intro fuel
  induction fuel with
  | zero => intro buf px_h k buf1 px1 k1 h; simp [line_mask_flat_loop] at h
  | succ fuel ih =>
    intro buf px_h k buf1 px1 k1 h
    simp only [line_mask_flat_loop] at h
    by_cases hp : px_h > spx
    · rw [if_pos hp] at h
      cases hb : (if 0 ≤ k ∧ k < len then
          mask_buf_mix buf k
            (if inv = true then 255 - uint8_t (px_h - asr spx 1) else uint8_t (px_h - asr spx 1))
        else some buf) with
      | none => rw [hb] at h; simp at h
      | some b1 =>
        rw [hb] at h
        simp only [Option.some_bind] at h
        by_cases hk : k + 1 ≥ len
        · rw [if_pos hk] at h
          simp only [Option.some.injEq, Prod.mk.injEq] at h
          right
          rw [← h.2.2]
          have : (k + 1 - k) * spx = spx := by ring
          rw [this]
          exact hp
        · rw [if_neg hk] at h
          right
          rcases ih b1 (px_h - spx) (k + 1) buf1 px1 k1 h with h1 | h1
          · rw [h1]
            have : (k + 1 - k) * spx = spx := by ring
            rw [this]
            exact hp
          · have : (k1 - k) * spx = (k1 - (k + 1)) * spx + spx := by ring
            rw [this]
            omega
    · rw [if_neg hp] at h
      simp only [Option.some.injEq, Prod.mk.injEq] at h
      left
      exact h.2.2.symm

/-- The loop of `line_mask_flat` run for the two sides in step: both runs return, with the same
`px_h` and `k`, and the columns they pass extend the band. -/
theorem line_mask_flat_loop_dual (spx len lo : Int) :
    ∀ (fuel : Nat) (bN bI : List Nat) (px_h k : Int),
      dual_band len.toNat bN bI lo k → lo ≤ k → (len - k).toNat + 1 ≤ fuel →
      ∃ bN1 bI1 px1 k1,
        line_mask_flat_loop false spx len fuel bN px_h k = some (bN1, px1, k1) ∧
        line_mask_flat_loop true spx len fuel bI px_h k = some (bI1, px1, k1) ∧
        dual_band len.toNat bN1 bI1 lo k1 ∧ k ≤ k1 := by
  intro fuel
  induction fuel with
  | zero => intro bN bI px_h k _ _ hf; omega
  | succ fuel ih =>
    intro bN bI px_h k hb hlo hf
    simp only [line_mask_flat_loop]
    by_cases hp : px_h > spx
    · simp only [if_pos hp, Bool.false_eq_true, if_false, if_true]
      obtain ⟨bN1, bI1, h1, h2, hb1⟩ := dual_band_write_hi len.toNat bN bI lo k
        (uint8_t (px_h - asr spx 1)) (0 ≤ k ∧ k < len) hb hlo (uint8_t_lt _)
        ⟨fun h => ⟨h.1, by omega⟩, fun h => ⟨h.1, by omega⟩⟩
      rw [h1, h2]
      simp only [Option.some_bind]
      by_cases hk : k + 1 ≥ len
      · exact ⟨bN1, bI1, px_h - spx, k + 1, by rw [if_pos hk], by rw [if_pos hk], hb1, by omega⟩
      · rw [if_neg hk, if_neg hk]
        obtain ⟨bN2, bI2, px2, k2, h3, h4, hb2, hk2⟩ :=
          ih bN1 bI1 (px_h - spx) (k + 1) hb1 (by omega) (by omega)
        exact ⟨bN2, bI2, px2, k2, h3, h4, hb2, by omega⟩
    · exact ⟨bN, bI, px_h, k, by rw [if_neg hp], by rw [if_neg hp], hb, le_refl k⟩

/-- The opacities of a result `TRANSP` on a span of `len` pixels. -/
theorem mask_out_transp (len : Int) (buf : List Nat) (i : Nat) (h : i < len.toNat) :
    (mask_out len (LV_DRAW_MASK_RES_TRANSP, buf)).getD i 0 = 0 := by
  simp [mask_out, replicate_getD, h]

/-- The anti-aliased part of `line_mask_flat` run for the two sides on buffers filled with
`0xFF`: both runs return, and the opacities form a band that starts at column `xei - abs_x`; for
a step `spx` between 1 and 256 the band ends at most `254 / spx + 2` columns further. -/
theorem line_mask_flat_aa_dual (p : lv_draw_mask_line_param_t) (abs_x len xe : Int) :
    ∃ rN rI hi,
      line_mask_flat_aa (List.replicate len.toNat 255) abs_x len xe { p with inv := false }
        = some rN ∧
      line_mask_flat_aa (List.replicate len.toNat 255) abs_x len xe { p with inv := true }
        = some rI ∧
      asr xe 8 - abs_x ≤ hi ∧
      dual_out len.toNat (mask_out len rN) (mask_out len rI) (asr xe 8 - abs_x) hi ∧
      (0 < p.spx → p.spx ≤ 256 → hi ≤ asr xe 8 - abs_x + 254 / p.spx + 2) := by
  simp only [line_mask_flat_aa, Bool.false_eq_true, if_false, if_true]
  generalize asr xe 8 - abs_x = k0
  have hpx0 : 0 < p.spx → p.spx ≤ 256 → (if xe % 256 = 0 then (255 : Int)
      else 255 - asr (int32_t ((255 - xe % 256) * p.spx)) 8) ≤ 255 := by
    intro hs1 hs2
    split_ifs with hx
    · exact le_refl _
    · have hr := mul_range (255 - xe % 256) p.spx 255 256 ⟨by omega, by omega⟩ ⟨by omega, hs2⟩
      have hn : 0 ≤ (255 - xe % 256) * p.spx := mul_nonneg (by omega) (by omega)
      norm_num at hr
      rw [int32_t_of_range _ (by omega) (by omega)]
      simp only [asr]
      have : 0 ≤ (255 - xe % 256) * p.spx / 2 ^ 8 := Int.ediv_nonneg hn (by norm_num)
      omega
  generalize hpx : (if xe % 256 = 0 then (255 : Int)
    else 255 - asr (int32_t ((255 - xe % 256) * p.spx)) 8) = px_h0 at hpx0
  -- the first pixel
  obtain ⟨bN1, bI1, k1, h1N, h1I, hk1, hb1, hk01⟩ : ∃ bN1 bI1 k1,
      (if xe % 256 ≠ 0 ∧ 0 ≤ k0 ∧ k0 < len then
          mask_buf_mix (List.replicate len.toNat 255) k0
            (uint8_t (255 - asr (int32_t ((255 - xe % 256) * (255 - px_h0))) 9))
        else some (List.replicate len.toNat 255)) = some bN1 ∧
      (if xe % 256 ≠ 0 ∧ 0 ≤ k0 ∧ k0 < len then
          mask_buf_mix (List.replicate len.toNat 255) k0
            (255 - uint8_t (255 - asr (int32_t ((255 - xe % 256) * (255 - px_h0))) 9))
        else some (List.replicate len.toNat 255)) = some bI1 ∧
      (if xe % 256 ≠ 0 then k0 + 1 else k0) = k1 ∧
      dual_band len.toNat bN1 bI1 k0 k1 ∧ k0 ≤ k1 := by
    by_cases hxef : xe % 256 = 0
    · refine ⟨_, _, k0, by simp [hxef], by simp [hxef], by simp [hxef],
        dual_band_init len.toNat k0, le_refl k0⟩
    · obtain ⟨bN1, bI1, h1, h2, hb⟩ := dual_band_write_hi len.toNat _ _ k0 k0
        (uint8_t (255 - asr (int32_t ((255 - xe % 256) * (255 - px_h0))) 9))
        (xe % 256 ≠ 0 ∧ 0 ≤ k0 ∧ k0 < len) (dual_band_init len.toNat k0) (le_refl k0)
        (uint8_t_lt _)
        ⟨fun h => ⟨h.2.1, by omega⟩, fun h => ⟨hxef, h.1, by omega⟩⟩
      exact ⟨bN1, bI1, k0 + 1, h1, h2, by simp [hxef], hb, by omega⟩
  rw [h1N, h1I, hk1]
  simp only [Option.some_bind]
  -- the loop
  obtain ⟨bN2, bI2, px2, k2, h2N, h2I, hb2, hk12⟩ :=
    line_mask_flat_loop_dual p.spx len k0 ((len - k1).toNat + 1) bN1 bI1 px_h0 k1 hb1 hk01
      (le_refl _)
  rw [h2N, h2I]
  simp only [Option.some_bind]
  -- the last pixel
  obtain ⟨bN3, bI3, h3N, h3I, hb3⟩ := dual_band_write_hi len.toNat bN2 bI2 k0 k2
    (if p.yx_steep < 0 then 255 - uint8_t (asr (int32_t (asr (int32_t (px2 * p.xy_steep)) 10 * px2)) 9)
      else uint8_t (asr (int32_t (asr (int32_t (px2 * p.xy_steep)) 10 * px2)) 9))
    (k2 < len ∧ 0 ≤ k2) hb2 (by omega)
    (by have := uint8_t_lt (asr (int32_t (asr (int32_t (px2 * p.xy_steep)) 10 * px2)) 9)
        split_ifs <;> omega)
    ⟨fun h => ⟨h.2, by omega⟩, fun h => ⟨by omega, h.1⟩⟩
  rw [h3N, h3I]
  simp only [Option.some_bind]
  have hb3' := hb3
  obtain ⟨hl3N, hl3I, -⟩ := hb3
  -- clearing behind the band for one side
  obtain ⟨rN, hrN, hlN, hgN⟩ : ∃ rN,
      (if k2 + 1 < 0 then some (LV_DRAW_MASK_RES_TRANSP, bN3)
        else (if k2 + 1 ≤ len then lv_memset_00 bN3 (k2 + 1) (len - (k2 + 1)) else some bN3).bind
          fun buf4 => some (LV_DRAW_MASK_RES_CHANGED, buf4)) = some rN ∧
      (mask_out len rN).length = len.toNat ∧
      ∀ i : Nat, i < len.toNat →
        (mask_out len rN).getD i 0 = if k2 + 1 ≤ (i : Int) then 0 else bN3.getD i 0 := by
    by_cases hneg : k2 + 1 < 0
    · refine ⟨_, by rw [if_pos hneg], by simp [mask_out], fun i hi => ?_⟩
      rw [mask_out_transp len _ i hi, if_pos (by omega)]
    · obtain ⟨b4, hb4, hl4, hg4⟩ := lv_memset_00_guarded (k2 + 1 ≤ len) bN3 (k2 + 1)
        (len - (k2 + 1)) (fun h => ⟨by omega, by omega, by rw [hl3N]; omega⟩)
      refine ⟨(LV_DRAW_MASK_RES_CHANGED, b4), by rw [if_neg hneg, hb4]; rfl,
        by simp [mask_out, hl4, hl3N], fun i hi => ?_⟩
      simp only [mask_out, hg4]
      by_cases hc : k2 + 1 ≤ (i : Int)
      · rw [if_pos hc, if_pos ⟨by omega, hc, by omega⟩]
      · rw [if_neg hc, if_neg (fun h => hc h.2.1)]
  -- clearing before the band for the other side
  obtain ⟨rI, hrI, hlI, hgI⟩ : ∃ rI,
      (if k0 > len then some (LV_DRAW_MASK_RES_TRANSP, bI3)
        else (if 0 ≤ k0 then lv_memset_00 bI3 0 k0 else some bI3).bind
          fun buf4 => some (LV_DRAW_MASK_RES_CHANGED, buf4)) = some rI ∧
      (mask_out len rI).length = len.toNat ∧
      ∀ i : Nat, i < len.toNat →
        (mask_out len rI).getD i 0 = if (i : Int) < k0 then 0 else bI3.getD i 0 := by
    by_cases hbig : k0 > len
    · refine ⟨_, by rw [if_pos hbig], by simp [mask_out], fun i hi => ?_⟩
      rw [mask_out_transp len _ i hi, if_pos (by omega)]
    · obtain ⟨b4, hb4, hl4, hg4⟩ := lv_memset_00_guarded (0 ≤ k0) bI3 0 k0
        (fun h => ⟨le_refl 0, h, by rw [hl3I]; omega⟩)
      refine ⟨(LV_DRAW_MASK_RES_CHANGED, b4), by rw [if_neg hbig, hb4]; rfl,
        by simp [mask_out, hl4, hl3I], fun i hi => ?_⟩
      simp only [mask_out, hg4]
      by_cases hc : (i : Int) < k0
      · rw [if_pos hc, if_pos ⟨by omega, by omega, by omega⟩]
      · rw [if_neg hc, if_neg (fun h => hc (by omega))]
  refine ⟨rN, rI, k2 + 1, hrN, hrI, by omega,
    dual_out_of_band len.toNat bN3 bI3 _ _ k0 (k2 + 1) hb3' (by omega) hlN hlI hgN hgI,
    fun hs1 hs2 => ?_⟩
  have hq : 0 ≤ 254 / p.spx := Int.ediv_nonneg (by norm_num) (by omega)
  have hk1' : k1 ≤ k0 + 1 := by rw [← hk1]; split_ifs <;> omega
  rcases line_mask_flat_loop_steps false p.spx len _ bN1 px_h0 k1 bN2 px2 k2 h2N with h | h
  · omega
  · have h255 := hpx0 hs1 hs2
    have : k2 - k1 ≤ 254 / p.spx := Int.le_ediv_of_mul_le hs1 (by omega)
    omega

/-! ## The two sides of a steep line -/

/-- A band of opacities gives the opacities away from it. -/
theorem dual_far_of_out (L : Nat) (oN oI : List Nat) (lo hi : Int)
    (h : dual_out L oN oI lo hi) : dual_far L oN oI lo hi :=
  ⟨h.1, h.2.1, fun i hi1 => ⟨(h.2.2 i hi1).1, (h.2.2 i hi1).2.2⟩⟩

/-- The opacities away from a band stay what they are when the band is made larger. -/
theorem dual_far_mono (L : Nat) (oN oI : List Nat) (lo hi lo1 hi1 : Int)
    (h : dual_far L oN oI lo hi) (hlo : lo1 ≤ lo) (hhi : hi ≤ hi1) : dual_far L oN oI lo1 hi1 :=
  ⟨h.1, h.2.1, fun i hi2 =>
    ⟨fun h1 => (h.2.2 i hi2).1 (by omega), fun h1 => (h.2.2 i hi2).2 (by omega)⟩⟩

/-- Clearing from column `hi` on, as the branches of `line_mask_steep` do it for the side that is
not inverted (`k` is clamped to `len`, `TRANSP` is returned for `k = 0`): the opacities are zero
from column `hi` on and as in the buffer before it. -/
theorem steep_clear_right (len hi : Int) (bN : List Nat) (hl : bN.length = len.toNat)
    (hhi : 0 ≤ hi) :
    ∃ rN,
      (if (if hi > len then len else hi) = 0 then some (LV_DRAW_MASK_RES_TRANSP, bN)
        else (if (if hi > len then len else hi) > 0 then
            lv_memset_00 bN (if hi > len then len else hi) (len - if hi > len then len else hi)
          else some bN).bind fun buf2 => some (LV_DRAW_MASK_RES_CHANGED, buf2)) = some rN ∧
      (mask_out len rN).length = len.toNat ∧
      ∀ i : Nat, i < len.toNat →
        (mask_out len rN).getD i 0 = if hi ≤ (i : Int) then 0 else bN.getD i 0 := by
  generalize hkc : (if hi > len then len else hi) = kc
  have hkc1 : kc ≤ len := by rw [← hkc]; split_ifs <;> omega
  have hkc2 : kc = len ∨ kc = hi := by rw [← hkc]; split_ifs <;> omega
  have hkc3 : kc ≤ hi := by rw [← hkc]; split_ifs <;> omega
  by_cases hz : kc = 0
  · refine ⟨_, by rw [if_pos hz], by simp [mask_out], fun i hi1 => ?_⟩
    rw [mask_out_transp len _ i hi1, if_pos (by omega)]
  · obtain ⟨b2, hb2, hl2, hg2⟩ := lv_memset_00_guarded (kc > 0) bN kc (len - kc)
      (fun h => ⟨by omega, by omega, by rw [hl]; omega⟩)
    refine ⟨(LV_DRAW_MASK_RES_CHANGED, b2), by rw [if_neg hz, hb2]; rfl,
      by simp [mask_out, hl2, hl], fun i hi1 => ?_⟩
    simp only [mask_out, hg2]
    by_cases hc : hi ≤ (i : Int)
    · rw [if_pos hc, if_pos ⟨by omega, by omega, by omega⟩]
    · rw [if_neg hc, if_neg (fun h => hc (by omega))]

/-- Clearing before column `lo`, as `line_mask_steep` does it for the inverted side (`TRANSP` is
returned when the column is behind the span): the opacities are zero before column `lo` and as
in the buffer from it on. -/
theorem steep_clear_left (g : Prop) [Decidable g] (len lo : Int) (bI : List Nat)
    (hl : bI.length = len.toNat) (hg1 : g → len ≤ lo) (hg2 : ¬ g → lo ≤ len) :
    ∃ rI,
      (if g then some (LV_DRAW_MASK_RES_TRANSP, bI)
        else (if 0 ≤ lo then lv_memset_00 bI 0 lo else some bI).bind
          fun buf2 => some (LV_DRAW_MASK_RES_CHANGED, buf2)) = some rI ∧
      (mask_out len rI).length = len.toNat ∧
      ∀ i : Nat, i < len.toNat →
        (mask_out len rI).getD i 0 = if (i : Int) < lo then 0 else bI.getD i 0 := by
  by_cases hbig : g
  · refine ⟨_, by rw [if_pos hbig], by simp [mask_out], fun i hi1 => ?_⟩
    have := hg1 hbig
    rw [mask_out_transp len _ i hi1, if_pos (by omega)]
  · have := hg2 hbig
    obtain ⟨b2, hb2, hl2, hg⟩ := lv_memset_00_guarded (0 ≤ lo) bI 0 lo
      (fun h => ⟨le_refl 0, h, by rw [hl]; omega⟩)
    refine ⟨(LV_DRAW_MASK_RES_CHANGED, b2), by rw [if_neg hbig, hb2]; rfl,
      by simp [mask_out, hl2, hl], fun i hi1 => ?_⟩
    simp only [mask_out, hg]
    by_cases hc : (i : Int) < lo
    · rw [if_pos hc, if_pos ⟨by omega, by omega, by omega⟩]
    · rw [if_neg hc, if_neg (fun h => hc (by omega))]

/-- The branch of `line_mask_steep` for a line that stays in one column, run for the two sides
on buffers filled with `0xFF`: the opacities form a band of that one column. -/
theorem line_mask_steep_one_dual (p : lv_draw_mask_line_param_t)
    (abs_x len k xsi xsf xef : Int) (hk : k = xsi - abs_x) (hk1 : -1 ≤ k) :
    ∃ rN rI,
      line_mask_steep_one (List.replicate len.toNat 255) abs_x len k xsi xsf xef
        { p with inv := false } = some rN ∧
      line_mask_steep_one (List.replicate len.toNat 255) abs_x len k xsi xsf xef
        { p with inv := true } = some rI ∧
      dual_out len.toNat (mask_out len rN) (mask_out len rI) k (k + 1) := by
  simp only [line_mask_steep_one, Bool.false_eq_true, if_false, if_true]
  obtain ⟨bN1, bI1, h1N, h1I, hb1⟩ := dual_band_write_hi len.toNat _ _ k k
    (uint8_t (asr (xsf + xef) 1)) (0 ≤ k ∧ k < len) (dual_band_init len.toNat k) (le_refl k)
    (uint8_t_lt _) ⟨fun h => ⟨h.1, by omega⟩, fun h => ⟨h.1, by omega⟩⟩
  rw [h1N, h1I]
  simp only [Option.some_bind]
  obtain ⟨rN, hrN, hlN, hgN⟩ := steep_clear_right len (k + 1) bN1 hb1.1 (by omega)
  obtain ⟨rI, hrI, hlI, hgI⟩ := steep_clear_left (xsi - abs_x ≥ len) len k bI1 hb1.2.1
    (fun h => by omega) (fun h => by omega)
  rw [← hk] at hrI ⊢
  exact ⟨rN, rI, hrN, hrI,
    dual_out_of_band len.toNat bN1 bI1 _ _ k (k + 1) hb1 (by omega) hlN hlI hgN hgI⟩

/-- The last branch of `line_mask_steep` (the line passes from column `k` to column `k + 1`),
run for the two sides on buffers filled with `0xFF`: the opacities form a band of these two
columns. -/
theorem line_mask_steep_pos_dual (p : lv_draw_mask_line_param_t)
    (abs_x len k xsi xsf : Int) (hk : k = xsi - abs_x) (hk1 : -1 ≤ k) (hk2 : k ≤ len) :
    ∃ rN rI,
      line_mask_steep_pos (List.replicate len.toNat 255) abs_x len k xsi xsf
        { p with inv := false } = some rN ∧
      line_mask_steep_pos (List.replicate len.toNat 255) abs_x len k xsi xsf
        { p with inv := true } = some rI ∧
      dual_out len.toNat (mask_out len rN) (mask_out len rI) k (k + 2) := by
  simp only [line_mask_steep_pos, Bool.false_eq_true, if_false, if_true]
  generalize asr (int32_t ((255 - xsf) * p.yx_steep)) 10 = y_inters
  obtain ⟨bN1, bI1, h1N, h1I, hb1⟩ := dual_band_write_hi len.toNat _ _ k k
    (uint8_t (255 - asr (int32_t (y_inters * (255 - xsf))) 9)) (0 ≤ k ∧ k < len)
    (dual_band_init len.toNat k) (le_refl k) (uint8_t_lt _)
    ⟨fun h => ⟨h.1, by omega⟩, fun h => ⟨h.1, by omega⟩⟩
  rw [h1N, h1I]
  simp only [Option.some_bind]
  obtain ⟨bN2, bI2, h2N, h2I, hb2⟩ := dual_band_write_hi len.toNat bN1 bI1 k (k + 1)
    (uint8_t (asr (int32_t ((255 - y_inters) * asr (int32_t ((255 - y_inters) * p.xy_steep)) 10)) 9))
    (0 ≤ k + 1 ∧ k + 1 < len) hb1 (by omega) (uint8_t_lt _)
    ⟨fun h => ⟨h.1, by omega⟩, fun h => ⟨h.1, by omega⟩⟩
  rw [h2N, h2I]
  simp only [Option.some_bind]
  have hb2' : dual_band len.toNat bN2 bI2 k (k + 2) := by
    have : k + 1 + 1 = k + 2 := by ring
    rw [← this]
    exact hb2
  obtain ⟨rN, hrN, hlN, hgN⟩ := steep_clear_right len (k + 2) bN2 hb2'.1 (by omega)
  obtain ⟨rI, hrI, hlI, hgI⟩ := steep_clear_left (xsi - abs_x > len) len k bI2 hb2'.2.1
    (fun h => by omega) (fun h => by omega)
  have e1 : k + 1 + 1 = k + 2 := by ring
  rw [← hk] at hrI ⊢
  rw [e1]
  exact ⟨rN, rI, hrN, hrI,
    dual_out_of_band len.toNat bN2 bI2 _ _ k (k + 2) hb2' (by omega) hlN hlI hgN hgI⟩

/-- The branch of `line_mask_steep` for `xy_steep < 0` (the line passes from column `k` to
column `k - 1`), run for the two sides on buffers filled with `0xFF`: away from these two
columns the opacities are 255 and 0, and unless `k = len` they form a band of the two columns. -/
theorem line_mask_steep_neg_dual (p : lv_draw_mask_line_param_t)
    (abs_x len k xsi xsf : Int) (hk : k = xsi - abs_x) (hk1 : 0 ≤ k) (hk2 : k ≤ len) :
    ∃ rN rI,
      line_mask_steep_neg (List.replicate len.toNat 255) abs_x len k xsi xsf
        { p with inv := false } = some rN ∧
      line_mask_steep_neg (List.replicate len.toNat 255) abs_x len k xsi xsf
        { p with inv := true } = some rI ∧
      dual_far len.toNat (mask_out len rN) (mask_out len rI) (k - 1) (k + 1) ∧
      (k ≠ len → dual_out len.toNat (mask_out len rN) (mask_out len rI) (k - 1) (k + 1)) := by
  simp only [line_mask_steep_neg, Bool.false_eq_true, if_false, if_true]
  generalize asr (int32_t (xsf * -p.yx_steep)) 10 = y_inters
  obtain ⟨bN1, bI1, h1N, h1I, hb1⟩ := dual_band_write_hi len.toNat _ _ k k
    (uint8_t (asr (int32_t (y_inters * xsf)) 9)) (0 ≤ k ∧ k < len)
    (dual_band_init len.toNat k) (le_refl k) (uint8_t_lt _)
    ⟨fun h => ⟨h.1, by omega⟩, fun h => ⟨h.1, by omega⟩⟩
  rw [h1N, h1I]
  simp only [Option.some_bind]
  obtain ⟨bN2, bI2, h2N, h2I, hb2⟩ := dual_band_write_lo len.toNat bN1 bI1 k (k + 1)
    (uint8_t (255 - asr (int32_t ((255 - y_inters) *
      asr (int32_t ((255 - y_inters) * -p.xy_steep)) 10)) 9))
    (0 ≤ k - 1 ∧ k - 1 < len) hb1 (by omega) (uint8_t_lt _)
    ⟨fun h => ⟨h.1, by omega⟩, fun h => ⟨h.1, by omega⟩⟩
  rw [h2N, h2I]
  simp only [Option.some_bind]
  rw [← hk, if_neg (show ¬ k - 1 > len by omega)]
  have e1 : k - 1 + 2 = k + 1 := by ring
  rw [e1]
  obtain ⟨b3, hb3, hl3, hg3⟩ := lv_memset_00_guarded (k - 1 > 0) bI2 0 (k - 1)
    (fun h => ⟨le_refl 0, by omega, by rw [hb2.2.1]; omega⟩)
  rw [hb3]
  simp only [Option.some_bind]
  have hI : ∀ i : Nat, i < len.toNat →
      (mask_out len (LV_DRAW_MASK_RES_CHANGED, b3)).getD i 0
        = if (i : Int) < k - 1 then 0 else bI2.getD i 0 := by
    intro i hi1
    simp only [mask_out, hg3]
    by_cases hc : (i : Int) < k - 1
    · rw [if_pos hc, if_pos ⟨by omega, by omega, by omega⟩]
    · rw [if_neg hc, if_neg (fun h => hc (by omega))]
  have hlI : (mask_out len (LV_DRAW_MASK_RES_CHANGED, b3)).length = len.toNat := by
    simp [mask_out, hl3, hb2.2.1]
  by_cases hlen : k + 1 > len
  · rw [if_pos hlen]
    refine ⟨_, _, rfl, rfl, ⟨by simp [mask_out], hlI, fun i hi1 => ⟨fun h => ?_, fun h => ?_⟩⟩,
      fun h => absurd h (by omega)⟩
    · rw [hI i hi1, if_pos h]
      simp [mask_out, replicate_getD, hi1]
    · omega
  · rw [if_neg hlen]
    obtain ⟨b4, hb4, hl4, hg4⟩ := lv_memset_00_guarded (0 ≤ k + 1) bN2 (k + 1) (len - (k + 1))
      (fun h => ⟨h, by omega, by rw [hb2.1]; omega⟩)
    rw [hb4]
    simp only [Option.some_bind]
    have hN : ∀ i : Nat, i < len.toNat →
        (mask_out len (LV_DRAW_MASK_RES_CHANGED, b4)).getD i 0
          = if k + 1 ≤ (i : Int) then 0 else bN2.getD i 0 := by
      intro i hi1
      simp only [mask_out, hg4]
      by_cases hc : k + 1 ≤ (i : Int)
      · rw [if_pos hc, if_pos ⟨by omega, by omega, by omega⟩]
      · rw [if_neg hc, if_neg (fun h => hc (by omega))]
    have hlN : (mask_out len (LV_DRAW_MASK_RES_CHANGED, b4)).length = len.toNat := by
      simp [mask_out, hl4, hb2.1]
    have hout := dual_out_of_band len.toNat bN2 bI2 _ _ (k - 1) (k + 1) hb2 (by omega)
      hlN hlI hN hI
    exact ⟨_, _, rfl, rfl, dual_far_of_out _ _ _ _ _ hout, fun _ => hout⟩

/-- The part of `line_mask_steep` behind the early returns, run for the two sides on buffers
filled with `0xFF`, when the line ends the row in the column where it starts it or in the
next one in its direction, and starts it not behind the span: both runs return, away from the
columns `xsi` and `xei` the opacities are 255 and 0, and they add up to 255 at every pixel
unless `xy_steep < 0` and the line starts the row in the column that follows the span. -/
theorem line_mask_steep_aa_dual (p : lv_draw_mask_line_param_t) (abs_x len xs xe : Int)
    (hneg : p.xy_steep < 0 →
      (asr xe 8 = asr xs 8 ∨ asr xe 8 = asr xs 8 - 1) ∧ 0 ≤ asr xs 8 - abs_x)
    (hpos : ¬ p.xy_steep < 0 →
      (asr xe 8 = asr xs 8 ∨ asr xe 8 = asr xs 8 + 1) ∧ -1 ≤ asr xs 8 - abs_x)
    (hhi : asr xs 8 - abs_x ≤ len) :
    ∃ rN rI,
      line_mask_steep_aa (List.replicate len.toNat 255) abs_x len xs xe
        { p with inv := false } = some rN ∧
      line_mask_steep_aa (List.replicate len.toNat 255) abs_x len xs xe
        { p with inv := true } = some rI ∧
      dual_far len.toNat (mask_out len rN) (mask_out len rI)
        (min (asr xs 8) (asr xe 8) - abs_x) (max (asr xs 8) (asr xe 8) - abs_x + 1) ∧
      (¬ (p.xy_steep < 0 ∧ asr xs 8 - abs_x = len) →
        ∀ i : Nat, i < len.toNat →
          (mask_out len rN).getD i 0 + (mask_out len rI).getD i 0 = 255) := by
  simp only [line_mask_steep_aa]
  generalize asr xs 8 = xsi at hneg hpos hhi ⊢
  generalize asr xe 8 = xei at hneg hpos ⊢
  by_cases hadj : xsi ≠ xei ∧ (p.xy_steep < 0 ∧ xs % 256 = 0)
  · rw [if_pos hadj, if_pos hadj]
    obtain ⟨hne, hxy, -⟩ := hadj
    obtain ⟨hor, hk0⟩ := hneg hxy
    have hxei : xei = xsi - 1 := by omega
    obtain ⟨rN, rI, hN, hI, hout⟩ := line_mask_steep_one_dual p abs_x len (xsi - abs_x - 1)
      xei 0xFF (xe % 256) (by omega) (by omega)
    exact ⟨rN, rI, hN, hI,
      dual_far_mono _ _ _ _ _ _ _ (dual_far_of_out _ _ _ _ _ hout)
        (by rw [min_def]; split_ifs <;> omega) (by rw [max_def]; split_ifs <;> omega),
      fun _ i hi1 => dual_out_sum _ _ _ _ _ hout i hi1⟩
  · rw [if_neg hadj, if_neg hadj]
    by_cases heq : xsi = xei
    · rw [if_pos heq, if_pos heq]
      have hk1 : -1 ≤ xsi - abs_x := by
        by_cases hxy : p.xy_steep < 0
        · have := (hneg hxy).2
          omega
        · exact (hpos hxy).2
      obtain ⟨rN, rI, hN, hI, hout⟩ := line_mask_steep_one_dual p abs_x len (xsi - abs_x)
        xsi (xs % 256) (xe % 256) rfl hk1
      exact ⟨rN, rI, hN, hI,
        dual_far_mono _ _ _ _ _ _ _ (dual_far_of_out _ _ _ _ _ hout)
          (by rw [min_def]; split_ifs <;> omega) (by rw [max_def]; split_ifs <;> omega),
        fun _ i hi1 => dual_out_sum _ _ _ _ _ hout i hi1⟩
    · rw [if_neg heq, if_neg heq]
      by_cases hxy : p.xy_steep < 0
      · rw [if_pos hxy, if_pos hxy]
        obtain ⟨hor, hk0⟩ := hneg hxy
        obtain ⟨rN, rI, hN, hI, hfar, hout⟩ := line_mask_steep_neg_dual p abs_x len
          (xsi - abs_x) xsi (xs % 256) rfl hk0 hhi
        exact ⟨rN, rI, hN, hI,
          dual_far_mono _ _ _ _ _ _ _ hfar
            (by rw [min_def]; split_ifs <;> omega) (by rw [max_def]; split_ifs <;> omega),
          fun hns i hi1 => dual_out_sum _ _ _ _ _ (hout (fun h => hns ⟨hxy, h⟩)) i hi1⟩
      · rw [if_neg hxy, if_neg hxy]
        obtain ⟨hor, hk0⟩ := hpos hxy
        obtain ⟨rN, rI, hN, hI, hout⟩ := line_mask_steep_pos_dual p abs_x len
          (xsi - abs_x) xsi (xs % 256) rfl hk0 hhi
        exact ⟨rN, rI, hN, hI,
          dual_far_mono _ _ _ _ _ _ _ (dual_far_of_out _ _ _ _ _ hout)
            (by rw [min_def]; split_ifs <;> omega) (by rw [max_def]; split_ifs <;> omega),
          fun _ i hi1 => dual_out_sum _ _ _ _ _ hout i hi1⟩

/-- For a slope of at most one column per row and a row at most 8000 rows from the origin,
`line_mask_steep` computes without overflow: its value in terms of the exact products. -/
theorem line_mask_steep_eq (mask_buf : List Nat) (p : lv_draw_mask_line_param_t)
    (abs_x abs_y len : Int) (hxy : -1024 ≤ p.xy_steep ∧ p.xy_steep ≤ 1024)
    (hy : -8000 ≤ abs_y ∧ abs_y ≤ 8000) :
    line_mask_steep mask_buf abs_x abs_y len p =
      if (if p.xy_steep > 0 then asr (p.xy_steep * abs_y) 10 + 1
          else asr (p.xy_steep * abs_y) 10) < abs_x then
        some (if p.inv then LV_DRAW_MASK_RES_FULL_COVER else LV_DRAW_MASK_RES_TRANSP, mask_buf)
      else if asr (p.xy_steep * abs_y) 10 > abs_x + len then
        some (if p.inv then LV_DRAW_MASK_RES_TRANSP else LV_DRAW_MASK_RES_FULL_COVER, mask_buf)
      else line_mask_steep_aa mask_buf abs_x len (asr (abs_y * 256 * p.xy_steep) 10)
        (asr ((abs_y + 1) * 256 * p.xy_steep) 10) p := by
  have r1 := mul_range p.xy_steep abs_y 1024 8000 hxy hy
  have r2 := mul_range (abs_y * 256) p.xy_steep (8000 * 256) 1024 ⟨by omega, by omega⟩ hxy
  have r3 := mul_range ((abs_y + 1) * 256) p.xy_steep (8001 * 256) 1024
    ⟨by omega, by omega⟩ hxy
  norm_num at r1 r2 r3
  have e1 : int32_t (p.xy_steep * abs_y) = p.xy_steep * abs_y :=
    int32_t_of_range _ (by omega) (by omega)
  have e2 : int32_t (abs_y * 256) = abs_y * 256 := int32_t_of_range _ (by omega) (by omega)
  have e3 : int32_t ((abs_y + 1) * 256) = (abs_y + 1) * 256 :=
    int32_t_of_range _ (by omega) (by omega)
  have e4 : int32_t (abs_y * 256 * p.xy_steep) = abs_y * 256 * p.xy_steep :=
    int32_t_of_range _ (by omega) (by omega)
  have e5 : int32_t ((abs_y + 1) * 256 * p.xy_steep) = (abs_y + 1) * 256 * p.xy_steep :=
    int32_t_of_range _ (by omega) (by omega)
  simp only [line_mask_steep, e1, e2, e3, e4, e5]

/-- The column in which a line of slope `xy_steep` (in 1/1024 columns per row) crosses the
upper edge of the row `abs_y`, as `line_mask_steep` computes it with 8 fractional bits, is the
column `(xy_steep * abs_y) >> 10`. -/
theorem asr_asr_row (xy abs_y : Int) :
    asr (asr (abs_y * 256 * xy) 10) 8 = asr (xy * abs_y) 10 := by
  have e : abs_y * 256 * xy = 256 * (xy * abs_y) := by ring
  rw [e]
  simp only [asr]
  generalize xy * abs_y = a
  norm_num
  omega

/-- `line_mask_steep` run for the two sides on buffers filled with `0xFF`, for a slope of at
most one column per row and a row at most 8000 rows from the origin: both runs return; away
from the columns in which the line crosses the upper and the lower edge of the row the
opacities are 255 and 0; the opacities add up to 255 at every pixel unless `xy_steep < 0` and
the line crosses the upper edge in the column that follows the span. -/
theorem line_mask_steep_dual (p : lv_draw_mask_line_param_t) (abs_x abs_y len : Int)
    (hxy : -1024 ≤ p.xy_steep ∧ p.xy_steep ≤ 1024) (hy : -8000 ≤ abs_y ∧ abs_y ≤ 8000) :
    ∃ rN rI,
      line_mask_steep (List.replicate len.toNat 255) abs_x abs_y len
        { p with inv := false } = some rN ∧
      line_mask_steep (List.replicate len.toNat 255) abs_x abs_y len
        { p with inv := true } = some rI ∧
      dual_far len.toNat (mask_out len rN) (mask_out len rI)
        (min (asr (p.xy_steep * abs_y) 10) (asr (p.xy_steep * (abs_y + 1)) 10) - abs_x)
        (max (asr (p.xy_steep * abs_y) 10) (asr (p.xy_steep * (abs_y + 1)) 10) - abs_x + 1) ∧
      (¬ (p.xy_steep < 0 ∧ asr (p.xy_steep * abs_y) 10 = abs_x + len) →
        ∀ i : Nat, i < len.toNat →
          (mask_out len rN).getD i 0 + (mask_out len rI).getD i 0 = 255) := by
  rw [line_mask_steep_eq _ { p with inv := false } abs_x abs_y len hxy hy,
    line_mask_steep_eq _ { p with inv := true } abs_x abs_y len hxy hy]
  simp only [Bool.false_eq_true, if_false, if_true]
  have hxs := asr_asr_row p.xy_steep abs_y
  have hxe := asr_asr_row p.xy_steep (abs_y + 1)
  have hadj : (p.xy_steep < 0 →
        asr (p.xy_steep * (abs_y + 1)) 10 = asr (p.xy_steep * abs_y) 10 ∨
        asr (p.xy_steep * (abs_y + 1)) 10 = asr (p.xy_steep * abs_y) 10 - 1) ∧
      (¬ p.xy_steep < 0 →
        asr (p.xy_steep * (abs_y + 1)) 10 = asr (p.xy_steep * abs_y) 10 ∨
        asr (p.xy_steep * (abs_y + 1)) 10 = asr (p.xy_steep * abs_y) 10 + 1) := by
    have e : p.xy_steep * (abs_y + 1) = p.xy_steep * abs_y + p.xy_steep := by ring
    rw [e]
    simp only [asr]
    generalize p.xy_steep * abs_y = a
    norm_num
    omega
  generalize asr (p.xy_steep * abs_y) 10 = xsi at hxs hadj ⊢
  generalize asr (p.xy_steep * (abs_y + 1)) 10 = xei at hxe hadj ⊢
  obtain ⟨hadj1, hadj2⟩ := hadj
  have hmin : min xsi xei ≤ xsi := min_le_left _ _
  have hmax : xsi ≤ max xsi xei := le_max_left _ _
  by_cases hex1 : (if p.xy_steep > 0 then xsi + 1 else xsi) < abs_x
  · rw [if_pos hex1, if_pos hex1]
    have hx2 : min xsi xei - abs_x ≤ 0 := by
      split_ifs at hex1 <;> omega
    refine ⟨_, _, rfl, rfl, ⟨by simp [mask_out], by simp [mask_out], fun i hi1 =>
      ⟨fun h => by omega, fun _ => by simp [mask_out, replicate_getD, hi1]⟩⟩,
      fun _ i hi1 => by simp [mask_out, replicate_getD, hi1]⟩
  · rw [if_neg hex1, if_neg hex1]
    by_cases hex2 : xsi > abs_x + len
    · rw [if_pos hex2, if_pos hex2]
      refine ⟨_, _, rfl, rfl, ⟨by simp [mask_out], by simp [mask_out], fun i hi1 =>
        ⟨fun _ => by simp [mask_out, replicate_getD, hi1], fun h => by omega⟩⟩,
        fun _ i hi1 => by simp [mask_out, replicate_getD, hi1]⟩
    · rw [if_neg hex2, if_neg hex2]
      have hk : p.xy_steep < 0 → 0 ≤ xsi - abs_x := by
        intro hs
        have hs2 : ¬ p.xy_steep > 0 := by omega
        rw [if_neg hs2] at hex1
        omega
      have hk2 : ¬ p.xy_steep < 0 → -1 ≤ xsi - abs_x := by
        intro hs
        split_ifs at hex1 <;> omega
      obtain ⟨rN, rI, hN, hI, hfar, hsum⟩ := line_mask_steep_aa_dual p abs_x len
        (asr (abs_y * 256 * p.xy_steep) 10) (asr ((abs_y + 1) * 256 * p.xy_steep) 10)
        (fun hs => by rw [hxs, hxe]; exact ⟨hadj1 hs, hk hs⟩)
        (fun hs => by rw [hxs, hxe]; exact ⟨hadj2 hs, hk2 hs⟩)
        (by rw [hxs]; omega)
      rw [hxs, hxe] at hfar
      rw [hxs] at hsum
      exact ⟨rN, rI, hN, hI, hfar, fun hns => hsum (fun h => hns ⟨h.1, by omega⟩)⟩

/-- `line_mask_flat` run for the two sides on buffers filled with `0xFF`: both runs return and
the opacities add up to 255 at every pixel of the span. -/
theorem line_mask_flat_dual (p : lv_draw_mask_line_param_t) (abs_x abs_y len : Int) :
    ∃ rN rI,
      line_mask_flat (List.replicate len.toNat 255) abs_x abs_y len
        { p with inv := false } = some rN ∧
      line_mask_flat (List.replicate len.toNat 255) abs_x abs_y len
        { p with inv := true } = some rI ∧
      (mask_out len rN).length = len.toNat ∧ (mask_out len rI).length = len.toNat ∧
      ∀ i : Nat, i < len.toNat →
        (mask_out len rN).getD i 0 + (mask_out len rI).getD i 0 = 255 := by
  simp only [line_mask_flat, Bool.false_eq_true, if_false, if_true]
  generalize (if p.yx_steep > 0 then asr (int32_t (int32_t (abs_y * 256) * p.xy_steep)) 10
    else asr (int32_t (int32_t ((abs_y + 1) * 256) * p.xy_steep)) 10) = xe
  by_cases h1 : (if p.yx_steep > 0 then asr (int32_t (p.yx_steep * abs_x)) 10 > abs_y
    else asr (int32_t (p.yx_steep * abs_x)) 10 < abs_y)
  · rw [if_pos h1, if_pos h1]
    exact ⟨_, _, rfl, rfl, by simp [mask_out], by simp [mask_out],
      fun i hi1 => by simp [mask_out, replicate_getD, hi1]⟩
  · rw [if_neg h1, if_neg h1]
    by_cases h2 : (if p.yx_steep > 0 then asr (int32_t (p.yx_steep * (abs_x + len))) 10 < abs_y
      else asr (int32_t (p.yx_steep * (abs_x + len))) 10 > abs_y)
    · rw [if_pos h2, if_pos h2]
      exact ⟨_, _, rfl, rfl, by simp [mask_out], by simp [mask_out],
        fun i hi1 => by simp [mask_out, replicate_getD, hi1]⟩
    · rw [if_neg h2, if_neg h2]
      obtain ⟨rN, rI, hi, hN, hI, -, hout, -⟩ := line_mask_flat_aa_dual p abs_x len xe
      exact ⟨rN, rI, hN, hI, hout.1, hout.2.1,
        fun i hi1 => dual_out_sum _ _ _ _ _ hout i hi1⟩

/-- The blocks `lv_draw_mask_line_points_init` fills for the sides `LEFT` and `RIGHT` differ
in the side and in `inv` only, which is 0 for `LEFT` and 1 for `RIGHT`. -/
theorem lv_draw_mask_line_points_init_left_right (p1x p1y p2x p2y : Int) :
    lv_draw_mask_line_points_init p1x p1y p2x p2y LV_DRAW_MASK_LINE_SIDE_LEFT
      = { lv_draw_mask_line_points_init p1x p1y p2x p2y LV_DRAW_MASK_LINE_SIDE_LEFT with
          cfg_side := LV_DRAW_MASK_LINE_SIDE_LEFT, inv := false } ∧
    lv_draw_mask_line_points_init p1x p1y p2x p2y LV_DRAW_MASK_LINE_SIDE_RIGHT
      = { lv_draw_mask_line_points_init p1x p1y p2x p2y LV_DRAW_MASK_LINE_SIDE_LEFT with
          cfg_side := LV_DRAW_MASK_LINE_SIDE_RIGHT, inv := true } := by
  simp [lv_draw_mask_line_points_init]

/-- The product `((1 << 20) / dy) * dy` of `lv_draw_mask_line_points_init` lies between 0 and
`1 << 20`. -/
theorem tdiv_mul_range (dy : Int) (h : dy ≠ 0) :
    0 ≤ Int.tdiv (2 ^ 20) dy * dy ∧ Int.tdiv (2 ^ 20) dy * dy ≤ 2 ^ 20 := by
  have h1 := Int.tmod_add_tdiv (2 ^ 20) dy
  have h2 : 0 ≤ Int.tmod (2 ^ 20) dy := Int.tmod_nonneg _ (by norm_num)
  rcases lt_or_gt_of_ne h with hn | hp
  · have h3 : Int.tdiv (2 ^ 20) dy = -(Int.tdiv (2 ^ 20) (-dy)) := by
      rw [Int.tdiv_neg, neg_neg]
    have h4 : 0 ≤ Int.tdiv (2 ^ 20) (-dy) := Int.tdiv_nonneg (by norm_num) (by omega)
    constructor
    · rw [h3]
      nlinarith
    · nlinarith
  · have h4 : 0 ≤ Int.tdiv (2 ^ 20) dy := Int.tdiv_nonneg (by norm_num) (by omega)
    constructor
    · nlinarith
    · nlinarith

/-- The slope `xy_steep` computed from `dx` and `dy` with `|dx| <= |dy|` is at most one column
per row, that is at most 1024 in absolute value. -/
theorem xy_steep_range (dx dy : Int) (h : ¬ LV_ABS dx > LV_ABS dy) :
    -1024 ≤ (if dy ≠ 0 then asr (int32_t (Int.tdiv (2 ^ 20) dy * dx)) 10 else 0) ∧
    (if dy ≠ 0 then asr (int32_t (Int.tdiv (2 ^ 20) dy * dx)) 10 else 0) ≤ 1024 := by
  by_cases hdy : dy = 0
  · simp [hdy]
  · rw [if_pos hdy]
    obtain ⟨h1, h2⟩ := tdiv_mul_range dy hdy
    have habs : |dx| ≤ |dy| := by
      simp only [LV_ABS] at h
      rw [abs_le]
      constructor
      · split_ifs at h <;> cases abs_cases dy <;> omega
      · split_ifs at h <;> cases abs_cases dy <;> omega
    have h3 : |Int.tdiv (2 ^ 20) dy * dx| ≤ 2 ^ 20 := by
      rw [abs_mul]
      calc |Int.tdiv (2 ^ 20) dy| * |dx| ≤ |Int.tdiv (2 ^ 20) dy| * |dy| :=
            mul_le_mul_of_nonneg_left habs (abs_nonneg _)
        _ = |Int.tdiv (2 ^ 20) dy * dy| := (abs_mul _ _).symm
        _ = Int.tdiv (2 ^ 20) dy * dy := abs_of_nonneg h1
        _ ≤ 2 ^ 20 := h2
    generalize Int.tdiv (2 ^ 20) dy * dx = v at h3 ⊢
    obtain ⟨h4, h5⟩ := abs_le.mp h3
    norm_num at h4 h5
    rw [int32_t_of_range _ (by omega) (by omega)]
    simp only [asr]
    norm_num
    omega

/-- The slope `xy_steep` of a block that is not flat is at most one column per row, and it is
the `steep` of the block. -/
theorem lv_draw_mask_line_points_init_xy_steep (p1x p1y p2x p2y : Int)
    (side : lv_draw_mask_line_side_t)
    (hflat : (lv_draw_mask_line_points_init p1x p1y p2x p2y side).flat = false) :
    (-1024 ≤ (lv_draw_mask_line_points_init p1x p1y p2x p2y side).xy_steep ∧
      (lv_draw_mask_line_points_init p1x p1y p2x p2y side).xy_steep ≤ 1024) ∧
    (lv_draw_mask_line_points_init p1x p1y p2x p2y side).steep
      = (lv_draw_mask_line_points_init p1x p1y p2x p2y side).xy_steep := by
  simp only [lv_draw_mask_line_points_init] at hflat ⊢
  refine ⟨xy_steep_range _ _ (of_decide_eq_false hflat), ?_⟩
  rw [hflat]
  simp

/-- A flat block with `steep != 0` and its inverse, applied to buffers filled with `0xFF`: both
calls return and the opacities add up to 255 at every pixel of the span. -/
theorem lv_draw_mask_line_flat_dual (p : lv_draw_mask_line_param_t) (abs_x abs_y len : Int)
    (s1 s2 : lv_draw_mask_line_side_t) (hflat : p.flat = true) (hsteep : p.steep ≠ 0) :
    ∃ rL rR,
      lv_draw_mask_line (List.replicate len.toNat 255) abs_x abs_y len
        { p with cfg_side := s1, inv := false } = some rL ∧
      lv_draw_mask_line (List.replicate len.toNat 255) abs_x abs_y len
        { p with cfg_side := s2, inv := true } = some rR ∧
      (mask_out len rL).length = len.toNat ∧ (mask_out len rR).length = len.toNat ∧
      ∀ i : Nat, i < len.toNat →
        (mask_out len rL).getD i 0 + (mask_out len rR).getD i 0 = 255 := by
  simp only [lv_draw_mask_line, hflat, hsteep, if_true, if_false]
  exact line_mask_flat_dual p (abs_x - p.origo_x) (abs_y - p.origo_y) len

/-- A block that is not flat and its inverse, applied to buffers filled with `0xFF`, for a
slope `steep = xy_steep` of at most one column per row and, unless `steep = 0`, a row at most
8000 rows from the origin: both calls return; away from the columns in which the line crosses the upper and the
lower edge of the row the opacities are 255 and 0; the opacities add up to 255 at every pixel
unless `xy_steep < 0` and the line crosses the upper edge in the column that follows the
span. -/
theorem lv_draw_mask_line_not_flat_dual (p : lv_draw_mask_line_param_t)
    (abs_x abs_y len : Int) (hflat : p.flat = false) (hsteep : p.steep = p.xy_steep)
    (hxy : -1024 ≤ p.xy_steep ∧ p.xy_steep ≤ 1024)
    (hy : p.steep ≠ 0 → -8000 ≤ abs_y - p.origo_y ∧ abs_y - p.origo_y ≤ 8000) :
    ∃ rL rR,
      lv_draw_mask_line (List.replicate len.toNat 255) abs_x abs_y len
        { p with cfg_side := LV_DRAW_MASK_LINE_SIDE_LEFT, inv := false } = some rL ∧
      lv_draw_mask_line (List.replicate len.toNat 255) abs_x abs_y len
        { p with cfg_side := LV_DRAW_MASK_LINE_SIDE_RIGHT, inv := true } = some rR ∧
      dual_far len.toNat (mask_out len rL) (mask_out len rR)
        (min (asr (p.xy_steep * (abs_y - p.origo_y)) 10)
            (asr (p.xy_steep * (abs_y - p.origo_y + 1)) 10) - (abs_x - p.origo_x))
        (max (asr (p.xy_steep * (abs_y - p.origo_y)) 10)
            (asr (p.xy_steep * (abs_y - p.origo_y + 1)) 10) - (abs_x - p.origo_x) + 1) ∧
      (¬ (p.xy_steep < 0 ∧
          asr (p.xy_steep * (abs_y - p.origo_y)) 10 = abs_x - p.origo_x + len) →
        ∀ i : Nat, i < len.toNat →
          (mask_out len rL).getD i 0 + (mask_out len rR).getD i 0 = 255) := by
  by_cases h0 : p.steep = 0
  · have hxy0 : p.xy_steep = 0 := by rw [← hsteep]; exact h0
    obtain ⟨rL, hL, hlL, hgL⟩ := lv_draw_mask_line_steep_zero_not_flat
      { p with cfg_side := LV_DRAW_MASK_LINE_SIDE_LEFT, inv := false } abs_x abs_y len h0 hflat
    obtain ⟨rR, hR, hlR, hgR⟩ := lv_draw_mask_line_steep_zero_not_flat
      { p with cfg_side := LV_DRAW_MASK_LINE_SIDE_RIGHT, inv := true } abs_x abs_y len h0 hflat
    simp only at hgL hgR
    refine ⟨rL, rR, hL, hR, ⟨hlL, hlR, fun i hi1 => ?_⟩, fun _ i hi1 => ?_⟩
    · rw [hgL i hi1, hgR i hi1, hxy0]
      simp only [zero_mul, asr_zero, min_self, max_self]
      refine ⟨fun h => ?_, fun h => ?_⟩
      · rw [if_neg (by omega), if_pos (by omega)]
        exact ⟨rfl, rfl⟩
      · rw [if_pos (by omega), if_neg (by omega)]
        exact ⟨rfl, rfl⟩
    · rw [hgL i hi1, hgR i hi1]
      split_ifs <;> first | rfl | omega
  · simp only [lv_draw_mask_line, hflat, h0, if_false, Bool.false_eq_true]
    exact line_mask_steep_dual p (abs_x - p.origo_x) (abs_y - p.origo_y) len hxy (hy h0)

/-! ## The line generator: the sides `LEFT` and `RIGHT` of one line -/

/-- C16 (as stated, refuted): three lines for which the opacities of the sides `LEFT` and
`RIGHT` do not add up to 254, 255 or 256.  For the horizontal line (0,5)-(10,5) both sides
return `FULL_COVER` at `x = 0`, `y = 3`, `len = 4`, so the sum is 510 at the first pixel.  For
the line (-5,-2)-(-3,-5) at `x = -8`, `y = -4`, `len = 4` the side `LEFT` writes 234 to the last
pixel and returns `FULL_COVER` while the side `RIGHT` leaves 21 there, so the sum is 276.  For the line
(0,0)-(1,1) at `x = 8190`, `y = 8192`, `len = 4` the product `(abs_y * 256) * xy_steep` leaves
the range of `int32_t` and both sides leave the buffer as it was, so the sum is 510. -/
theorem lv_draw_mask_line_left_right_not_dual :
    (lv_draw_mask_line (List.replicate 4 255) 0 3 4
        (lv_draw_mask_line_points_init 0 5 10 5 LV_DRAW_MASK_LINE_SIDE_LEFT)
      = some (LV_DRAW_MASK_RES_FULL_COVER, [255, 255, 255, 255]) ∧
     lv_draw_mask_line (List.replicate 4 255) 0 3 4
        (lv_draw_mask_line_points_init 0 5 10 5 LV_DRAW_MASK_LINE_SIDE_RIGHT)
      = some (LV_DRAW_MASK_RES_FULL_COVER, [255, 255, 255, 255]) ∧
     (mask_out 4 (LV_DRAW_MASK_RES_FULL_COVER, [255, 255, 255, 255])).getD 0 0
       + (mask_out 4 (LV_DRAW_MASK_RES_FULL_COVER, [255, 255, 255, 255])).getD 0 0 = 510) ∧
    (lv_draw_mask_line (List.replicate 4 255) (-8) (-4) 4
        (lv_draw_mask_line_points_init (-5) (-2) (-3) (-5) LV_DRAW_MASK_LINE_SIDE_LEFT)
      = some (LV_DRAW_MASK_RES_FULL_COVER, [255, 255, 255, 234]) ∧
     lv_draw_mask_line (List.replicate 4 255) (-8) (-4) 4
        (lv_draw_mask_line_points_init (-5) (-2) (-3) (-5) LV_DRAW_MASK_LINE_SIDE_RIGHT)
      = some (LV_DRAW_MASK_RES_CHANGED, [0, 0, 0, 21]) ∧
     (mask_out 4 (LV_DRAW_MASK_RES_FULL_COVER, [255, 255, 255, 234])).getD 3 0
       + (mask_out 4 (LV_DRAW_MASK_RES_CHANGED, [0, 0, 0, 21])).getD 3 0 = 276) ∧
    (lv_draw_mask_line (List.replicate 4 255) 8190 8192 4
        (lv_draw_mask_line_points_init 0 0 1 1 LV_DRAW_MASK_LINE_SIDE_LEFT)
      = some (LV_DRAW_MASK_RES_CHANGED, [255, 255, 255, 255]) ∧
     lv_draw_mask_line (List.replicate 4 255) 8190 8192 4
        (lv_draw_mask_line_points_init 0 0 1 1 LV_DRAW_MASK_LINE_SIDE_RIGHT)
      = some (LV_DRAW_MASK_RES_CHANGED, [255, 255, 255, 255]) ∧
     (mask_out 4 (LV_DRAW_MASK_RES_CHANGED, [255, 255, 255, 255])).getD 0 0
       + (mask_out 4 (LV_DRAW_MASK_RES_CHANGED, [255, 255, 255, 255])).getD 0 0 = 510) := by
  refine ⟨⟨by decide, by decide, by decide⟩, ⟨by decide, by decide, by decide⟩,
    ⟨by decide, by decide, by decide⟩⟩

/-- C16 (amended): let `P` be the block `lv_draw_mask_line_points_init` fills for the side
`LEFT` from a pair of endpoints, and let it not be a horizontal block (`flat` and
`steep = 0`).  For every scanline `(x, y, len)` such that, when `P` is not flat, the row is at
most 8000 rows from `origo.y` unless `steep = 0`, and, if `xy_steep < 0`, the column
`(xy_steep * (y - origo.y)) >> 10` is not `x - origo.x + len`: the masks built with the sides
`LEFT` and `RIGHT` from these endpoints, applied to buffers pre-filled with `0xFF`, both return,
and reading `TRANSP` as 0 and `FULL_COVER` as 255 for the whole span, the two opacities of
every pixel of the span add up to 255. -/
theorem lv_draw_mask_line_left_right (p1x p1y p2x p2y abs_x abs_y len : Int)
    (P : lv_draw_mask_line_param_t)
    (hP : P = lv_draw_mask_line_points_init p1x p1y p2x p2y LV_DRAW_MASK_LINE_SIDE_LEFT)
    (hnh : ¬ (P.flat = true ∧ P.steep = 0))
    (hrow : P.flat = false → P.steep ≠ 0 →
      -8000 ≤ abs_y - P.origo_y ∧ abs_y - P.origo_y ≤ 8000)
    (hslip : ¬ (P.flat = false ∧ P.xy_steep < 0 ∧
      asr (P.xy_steep * (abs_y - P.origo_y)) 10 = abs_x - P.origo_x + len)) :
    ∃ rL rR,
      lv_draw_mask_line (List.replicate len.toNat 255) abs_x abs_y len
        (lv_draw_mask_line_points_init p1x p1y p2x p2y LV_DRAW_MASK_LINE_SIDE_LEFT)
        = some rL ∧
      lv_draw_mask_line (List.replicate len.toNat 255) abs_x abs_y len
        (lv_draw_mask_line_points_init p1x p1y p2x p2y LV_DRAW_MASK_LINE_SIDE_RIGHT)
        = some rR ∧
      ∀ i : Nat, i < len.toNat →
        (mask_out len rL).getD i 0 + (mask_out len rR).getD i 0 = 255 := by
  obtain ⟨hL, hR⟩ := lv_draw_mask_line_points_init_left_right p1x p1y p2x p2y
  rw [hR]
  subst hP
  by_cases hflat :
      (lv_draw_mask_line_points_init p1x p1y p2x p2y LV_DRAW_MASK_LINE_SIDE_LEFT).flat = true
  · obtain ⟨rL, rR, h1, h2, -, -, h3⟩ := lv_draw_mask_line_flat_dual
      (lv_draw_mask_line_points_init p1x p1y p2x p2y LV_DRAW_MASK_LINE_SIDE_LEFT)
      abs_x abs_y len LV_DRAW_MASK_LINE_SIDE_LEFT LV_DRAW_MASK_LINE_SIDE_RIGHT hflat
      (fun h => hnh ⟨hflat, h⟩)
    rw [← hL] at h1
    exact ⟨rL, rR, h1, h2, h3⟩
  · have hflat2 := eq_false_of_ne_true hflat
    obtain ⟨hxy, hst⟩ := lv_draw_mask_line_points_init_xy_steep p1x p1y p2x p2y
      LV_DRAW_MASK_LINE_SIDE_LEFT hflat2
    obtain ⟨rL, rR, h1, h2, -, hsum⟩ := lv_draw_mask_line_not_flat_dual
      (lv_draw_mask_line_points_init p1x p1y p2x p2y LV_DRAW_MASK_LINE_SIDE_LEFT)
      abs_x abs_y len hflat2 hst hxy (hrow hflat2)
    rw [← hL] at h1
    exact ⟨rL, rR, h1, h2, hsum (fun h => hslip ⟨hflat2, h⟩)⟩

/-- C16 (amended) at the line (0,0)-(10,10), `x = 0`, `y = 5`, `len = 11`. -/
theorem lv_draw_mask_line_left_right_witness :
    ¬ ((lv_draw_mask_line_points_init 0 0 10 10 LV_DRAW_MASK_LINE_SIDE_LEFT).flat = true ∧
      (lv_draw_mask_line_points_init 0 0 10 10 LV_DRAW_MASK_LINE_SIDE_LEFT).steep = 0) ∧
    ∃ rL rR,
      lv_draw_mask_line (List.replicate (11 : Int).toNat 255) 0 5 11
        (lv_draw_mask_line_points_init 0 0 10 10 LV_DRAW_MASK_LINE_SIDE_LEFT) = some rL ∧
      lv_draw_mask_line (List.replicate (11 : Int).toNat 255) 0 5 11
        (lv_draw_mask_line_points_init 0 0 10 10 LV_DRAW_MASK_LINE_SIDE_RIGHT) = some rR ∧
      ∀ i : Nat, i < (11 : Int).toNat →
        (mask_out 11 rL).getD i 0 + (mask_out 11 rR).getD i 0 = 255 :=
  ⟨by decide, lv_draw_mask_line_left_right 0 0 10 10 0 5 11
    (lv_draw_mask_line_points_init 0 0 10 10 LV_DRAW_MASK_LINE_SIDE_LEFT) rfl
    (by decide) (fun _ _ => by decide) (by decide)⟩

/-! ## A flat line away from its band -/

/-- The arithmetic shift is monotone. -/
theorem asr_mono (a b : Int) (n : Nat) (h : a ≤ b) : asr a n ≤ asr b n :=
  Int.ediv_le_ediv (by positivity) h

/-- `line_mask_flat` run for the two sides on buffers filled with `0xFF`, for a slope `yx_steep`
of at most one row per column, a step `spx` of at most 256, a span within `2 ^ 20` columns of
the origin and a row for which `256 * row * xy_steep` is a value of `int32_t`: both runs return.
With `c0` the column `(xy_steep * row) >> 10`, the row being `abs_y` for `yx_steep > 0` and
`abs_y + 1` otherwise: a pixel left of `c0` at whose column the line `y = yx_steep * x / 1024`
has not passed the row is 255 for the side that is not inverted and 0 for the other one; for
`spx > 0`, a pixel more than `254 / spx + 1` columns right of `c0` behind whose column the line
has reached the row is 0 for the side that is not inverted and 255 for the other one. -/
theorem line_mask_flat_kept (p : lv_draw_mask_line_param_t) (abs_x abs_y len : Int)
    (hyx : -1024 ≤ p.yx_steep ∧ p.yx_steep ≤ 1024) (hspx : p.spx ≤ 256)
    (hspan : -2 ^ 20 ≤ abs_x ∧ abs_x + len ≤ 2 ^ 20)
    (hrow : -2 ^ 31 ≤ 256 * (if p.yx_steep > 0 then abs_y else abs_y + 1) * p.xy_steep ∧
      256 * (if p.yx_steep > 0 then abs_y else abs_y + 1) * p.xy_steep < 2 ^ 31) :
    ∃ rN rI,
      line_mask_flat (List.replicate len.toNat 255) abs_x abs_y len
        { p with inv := false } = some rN ∧
      line_mask_flat (List.replicate len.toNat 255) abs_x abs_y len
        { p with inv := true } = some rI ∧
      ∀ i : Nat, i < len.toNat →
        (abs_x + i < asr (p.xy_steep * (if p.yx_steep > 0 then abs_y else abs_y + 1)) 10 ∧
            (0 < p.yx_steep ∧ asr (p.yx_steep * (abs_x + i)) 10 ≤ abs_y ∨
              p.yx_steep < 0 ∧ abs_y ≤ asr (p.yx_steep * (abs_x + i)) 10) →
          (mask_out len rN).getD i 0 = 255 ∧ (mask_out len rI).getD i 0 = 0) ∧
        (0 < p.spx ∧
            asr (p.xy_steep * (if p.yx_steep > 0 then abs_y else abs_y + 1)) 10
              + 254 / p.spx + 1 < abs_x + i ∧
            (0 < p.yx_steep ∧ abs_y ≤ asr (p.yx_steep * (abs_x + i + 1)) 10 ∨
              p.yx_steep < 0 ∧ asr (p.yx_steep * (abs_x + i + 1)) 10 ≤ abs_y) →
          (mask_out len rN).getD i 0 = 0 ∧ (mask_out len rI).getD i 0 = 255) := by
  by_cases hlen : 0 < len
  · have r1 := mul_range p.yx_steep abs_x 1024 (2 ^ 20) hyx ⟨by omega, by omega⟩
    have r2 := mul_range p.yx_steep (abs_x + len) 1024 (2 ^ 20) hyx ⟨by omega, by omega⟩
    norm_num at r1 r2
    have e1 : int32_t (p.yx_steep * abs_x) = p.yx_steep * abs_x :=
      int32_t_of_range _ (by omega) (by omega)
    have e2 : int32_t (p.yx_steep * (abs_x + len)) = p.yx_steep * (abs_x + len) :=
      int32_t_of_range _ (by omega) (by omega)
    have e3 : asr (if p.yx_steep > 0 then asr (int32_t (int32_t (abs_y * 256) * p.xy_steep)) 10
        else asr (int32_t (int32_t ((abs_y + 1) * 256) * p.xy_steep)) 10) 8
        = asr (p.xy_steep * (if p.yx_steep > 0 then abs_y else abs_y + 1)) 10 := by
      by_cases hs : p.yx_steep > 0
      · rw [if_pos hs] at hrow
        rw [if_pos hs, if_pos hs, int32_t_mul_left,
          int32_t_of_range _ (by norm_num at hrow ⊢; nlinarith [hrow.1])
            (by norm_num at hrow ⊢; nlinarith [hrow.2]), asr_asr_row]
      · rw [if_neg hs] at hrow
        rw [if_neg hs, if_neg hs, int32_t_mul_left,
          int32_t_of_range _ (by norm_num at hrow ⊢; nlinarith [hrow.1])
            (by norm_num at hrow ⊢; nlinarith [hrow.2]), asr_asr_row]
    simp only [line_mask_flat, Bool.false_eq_true, if_false, if_true, e1, e2]
    generalize (if p.yx_steep > 0 then asr (int32_t (int32_t (abs_y * 256) * p.xy_steep)) 10
      else asr (int32_t (int32_t ((abs_y + 1) * 256) * p.xy_steep)) 10) = xe at e3
    generalize asr (p.xy_steep * (if p.yx_steep > 0 then abs_y else abs_y + 1)) 10 = c0 at e3
    by_cases h1 : (if p.yx_steep > 0 then asr (p.yx_steep * abs_x) 10 > abs_y
      else asr (p.yx_steep * abs_x) 10 < abs_y)
    · rw [if_pos h1, if_pos h1]
      refine ⟨_, _, rfl, rfl, fun i hi1 => ⟨fun hn => ?_, fun _ => ?_⟩⟩
      · exfalso
        rcases hn.2 with ⟨hs, hy⟩ | ⟨hs, hy⟩
        · rw [if_pos hs] at h1
          have := asr_mono _ _ 10 (mul_le_mul_of_nonneg_left
            (show abs_x ≤ abs_x + (i : Int) by omega) (le_of_lt hs))
          omega
        · rw [if_neg (by omega)] at h1
          have := asr_mono _ _ 10 (mul_le_mul_of_nonpos_left
            (show abs_x ≤ abs_x + (i : Int) by omega) (le_of_lt hs))
          omega
      · simp [mask_out, replicate_getD, hi1]
    · rw [if_neg h1, if_neg h1]
      by_cases h2 : (if p.yx_steep > 0 then asr (p.yx_steep * (abs_x + len)) 10 < abs_y
        else asr (p.yx_steep * (abs_x + len)) 10 > abs_y)
      · rw [if_pos h2, if_pos h2]
        refine ⟨_, _, rfl, rfl, fun i hi1 => ⟨fun _ => ?_, fun hf => ?_⟩⟩
        · simp [mask_out, replicate_getD, hi1]
        · exfalso
          have hi2 : abs_x + (i : Int) + 1 ≤ abs_x + len := by omega
          rcases hf.2.2 with ⟨hs, hy⟩ | ⟨hs, hy⟩
          · rw [if_pos hs] at h2
            have := asr_mono _ _ 10 (mul_le_mul_of_nonneg_left hi2 (le_of_lt hs))
            omega
          · rw [if_neg (by omega)] at h2
            have := asr_mono _ _ 10 (mul_le_mul_of_nonpos_left hi2 (le_of_lt hs))
            omega
      · rw [if_neg h2, if_neg h2]
        obtain ⟨rN, rI, hi, hN, hI, -, hout, hbound⟩ := line_mask_flat_aa_dual p abs_x len xe
        rw [e3] at hout hbound
        refine ⟨rN, rI, hN, hI, fun i hi1 => ⟨fun hn => ?_, fun hf => ?_⟩⟩
        · exact (hout.2.2 i hi1).1 (by omega)
        · have := hbound hf.1 hspx
          exact (hout.2.2 i hi1).2.2 (by omega)
  · obtain ⟨rN, rI, hN, hI, -, -, -⟩ := line_mask_flat_dual p abs_x abs_y len
    exact ⟨rN, rI, hN, hI, fun i hi1 => by omega⟩



/-- The slope `yx_steep` of a flat block is at most one row per column, it is the `steep` of the
block, and the step `spx` lies between 0 and 256. -/
theorem lv_draw_mask_line_points_init_yx_steep (p1x p1y p2x p2y : Int)
    (side : lv_draw_mask_line_side_t)
    (hflat : (lv_draw_mask_line_points_init p1x p1y p2x p2y side).flat = true) :
    (-1024 ≤ (lv_draw_mask_line_points_init p1x p1y p2x p2y side).yx_steep ∧
      (lv_draw_mask_line_points_init p1x p1y p2x p2y side).yx_steep ≤ 1024) ∧
    (lv_draw_mask_line_points_init p1x p1y p2x p2y side).steep
      = (lv_draw_mask_line_points_init p1x p1y p2x p2y side).yx_steep ∧
    0 ≤ (lv_draw_mask_line_points_init p1x p1y p2x p2y side).spx ∧
    (lv_draw_mask_line_points_init p1x p1y p2x p2y side).spx ≤ 256 ∧
    ((lv_draw_mask_line_points_init p1x p1y p2x p2y side).steep = 0 →
      (lv_draw_mask_line_points_init p1x p1y p2x p2y side).spx = 0) := by
  simp only [lv_draw_mask_line_points_init] at hflat ⊢
  have hf := of_decide_eq_true hflat
  have hr := xy_steep_range _ _ (not_lt.mpr (le_of_lt hf))
  rw [hflat]
  simp only [if_true]
  generalize (if _ ≠ (0 : Int) then asr (int32_t _) 10 else 0) = s at hr ⊢
  refine ⟨hr, trivial, ?_, ?_, ?_⟩
  · simp only [asr]; split_ifs <;> omega
  · simp only [asr]; split_ifs <;> omega
  · intro h0; rw [h0]; decide



/-- A flat block with `steep != 0` and its inverse, applied to buffers filled with `0xFF`, under
the ranges of `line_mask_flat_kept`: both calls return, and the pixels away from the band are as
`line_mask_flat_kept` states, the columns being relative to the origin of the line. -/
theorem lv_draw_mask_line_flat_kept (p : lv_draw_mask_line_param_t) (abs_x abs_y len : Int)
    (s1 s2 : lv_draw_mask_line_side_t) (hflat : p.flat = true) (hsteep : p.steep ≠ 0)
    (hyx : -1024 ≤ p.yx_steep ∧ p.yx_steep ≤ 1024) (hspx : p.spx ≤ 256)
    (hspan : -2 ^ 20 ≤ abs_x - p.origo_x ∧ abs_x - p.origo_x + len ≤ 2 ^ 20)
    (hrow : -2 ^ 31 ≤ 256 * (if p.yx_steep > 0 then abs_y - p.origo_y
          else abs_y - p.origo_y + 1) * p.xy_steep ∧
      256 * (if p.yx_steep > 0 then abs_y - p.origo_y
          else abs_y - p.origo_y + 1) * p.xy_steep < 2 ^ 31) :
    ∃ rL rR,
      lv_draw_mask_line (List.replicate len.toNat 255) abs_x abs_y len
        { p with cfg_side := s1, inv := false } = some rL ∧
      lv_draw_mask_line (List.replicate len.toNat 255) abs_x abs_y len
        { p with cfg_side := s2, inv := true } = some rR ∧
      ∀ i : Nat, i < len.toNat →
        (abs_x + i - p.origo_x < asr (p.xy_steep * (if p.yx_steep > 0 then abs_y - p.origo_y
              else abs_y - p.origo_y + 1)) 10 ∧
            (0 < p.yx_steep ∧
                asr (p.yx_steep * (abs_x + i - p.origo_x)) 10 ≤ abs_y - p.origo_y ∨
              p.yx_steep < 0 ∧
                abs_y - p.origo_y ≤ asr (p.yx_steep * (abs_x + i - p.origo_x)) 10) →
          (mask_out len rL).getD i 0 = 255 ∧ (mask_out len rR).getD i 0 = 0) ∧
        (0 < p.spx ∧
            asr (p.xy_steep * (if p.yx_steep > 0 then abs_y - p.origo_y
              else abs_y - p.origo_y + 1)) 10 + 254 / p.spx + 1 < abs_x + i - p.origo_x ∧
            (0 < p.yx_steep ∧
                abs_y - p.origo_y ≤ asr (p.yx_steep * (abs_x + i - p.origo_x + 1)) 10 ∨
              p.yx_steep < 0 ∧
                asr (p.yx_steep * (abs_x + i - p.origo_x + 1)) 10 ≤ abs_y - p.origo_y) →
          (mask_out len rL).getD i 0 = 0 ∧ (mask_out len rR).getD i 0 = 255) := by
  simp only [lv_draw_mask_line, hflat, hsteep, if_true, if_false]
  obtain ⟨rN, rI, hN, hI, hpix⟩ := line_mask_flat_kept p (abs_x - p.origo_x)
    (abs_y - p.origo_y) len hyx hspx hspan hrow
  refine ⟨rN, rI, hN, hI, fun i hi1 => ?_⟩
  have e : abs_x + (i : Int) - p.origo_x = abs_x - p.origo_x + i := by ring
  rw [e]
  exact hpix i hi1

/-! ## The line generator: the pixels away from the line -/

set_option maxRecDepth 100000 in
/-- C17 (as stated, refuted): five pixels whose unit square lies on one side of the line and
which do not end at the value of that side.  For the line (0,0)-(-1,30) with side `LEFT`, at
`x = -5`, `y = 58`, `len = 7`, the pixel of column -3 ends at 254, although every point of its
square `[-3,-2] x [58,59]` is left of the line `30 * x + y = 0`.  For the line (0,0)-(38,1) with
side `LEFT`, at `x = -1142`, `y = -30`, `len = 6`, the result is `TRANSP`, so the pixel of column
-1142 ends at 0, although every point of its square is left of the line `x = 38 * y`.  For the
line (0,0)-(146,1) with side `LEFT` (`yx_steep = 7`, `spx = 1`), at `x = 144`, `y = 0`,
`len = 6`, the pixel of column 147 ends at 108, although every point of its square is right of
the line `x = 146 * y`.  For the line (0,0)-(300,1) with side `LEFT` (`yx_steep = 3`,
`spx = 0`), at `x = 300`, `y = 0`, `len = 4`, the pixel of column 301 ends at 255, although every
point of its square is right of the line `x = 300 * y`.  For the line (0,0)-(1025,1) with side
`RIGHT` (`yx_steep = 0`, so `steep = 0`), at `x = 0`, `y = 5`, `len = 4`, the result is
`FULL_COVER`, so the pixel of column 0 ends at 255, although every point of its square is left
of the line `x = 1025 * y`. -/
theorem lv_draw_mask_line_kept_side_not_exact :
    (lv_draw_mask_line (List.replicate 7 255) (-5) 58 7
        (lv_draw_mask_line_points_init 0 0 (-1) 30 LV_DRAW_MASK_LINE_SIDE_LEFT)
      = some (LV_DRAW_MASK_RES_CHANGED, [255, 255, 254, 0, 0, 0, 0]) ∧
     (mask_out 7 (LV_DRAW_MASK_RES_CHANGED, [255, 255, 254, 0, 0, 0, 0])).getD 2 0 = 254 ∧
     ∀ cx cy : Int, -5 + 2 ≤ cx → cx ≤ -5 + 2 + 1 → 58 ≤ cy → cy ≤ 58 + 1 →
       30 * cx + cy < 0) ∧
    (lv_draw_mask_line (List.replicate 6 255) (-1142) (-30) 6
        (lv_draw_mask_line_points_init 0 0 38 1 LV_DRAW_MASK_LINE_SIDE_LEFT)
      = some (LV_DRAW_MASK_RES_TRANSP, [255, 255, 255, 255, 255, 255]) ∧
     (mask_out 6 (LV_DRAW_MASK_RES_TRANSP, [255, 255, 255, 255, 255, 255])).getD 0 0 = 0 ∧
     ∀ cx cy : Int, -1142 ≤ cx → cx ≤ -1142 + 1 → -30 ≤ cy → cy ≤ -30 + 1 →
       cx < 38 * cy) ∧
    (lv_draw_mask_line (List.replicate 6 255) 144 0 6
        (lv_draw_mask_line_points_init 0 0 146 1 LV_DRAW_MASK_LINE_SIDE_LEFT)
      = some (LV_DRAW_MASK_RES_CHANGED, [111, 110, 109, 108, 107, 106]) ∧
     (mask_out 6 (LV_DRAW_MASK_RES_CHANGED, [111, 110, 109, 108, 107, 106])).getD 3 0 = 108 ∧
     ∀ cx cy : Int, 144 + 3 ≤ cx → cx ≤ 144 + 3 + 1 → 0 ≤ cy → cy ≤ 0 + 1 →
       146 * cy < cx) ∧
    (lv_draw_mask_line (List.replicate 4 255) 300 0 4
        (lv_draw_mask_line_points_init 0 0 300 1 LV_DRAW_MASK_LINE_SIDE_LEFT)
      = some (LV_DRAW_MASK_RES_CHANGED, [255, 255, 255, 255]) ∧
     (mask_out 4 (LV_DRAW_MASK_RES_CHANGED, [255, 255, 255, 255])).getD 1 0 = 255 ∧
     ∀ cx cy : Int, 300 + 1 ≤ cx → cx ≤ 300 + 1 + 1 → 0 ≤ cy → cy ≤ 0 + 1 →
       300 * cy < cx) ∧
    (lv_draw_mask_line (List.replicate 4 255) 0 5 4
        (lv_draw_mask_line_points_init 0 0 1025 1 LV_DRAW_MASK_LINE_SIDE_RIGHT)
      = some (LV_DRAW_MASK_RES_FULL_COVER, [255, 255, 255, 255]) ∧
     (mask_out 4 (LV_DRAW_MASK_RES_FULL_COVER, [255, 255, 255, 255])).getD 0 0 = 255 ∧
     ∀ cx cy : Int, 0 ≤ cx → cx ≤ 0 + 1 → 5 ≤ cy → cy ≤ 5 + 1 →
       cx < 1025 * cy) := by
  refine ⟨⟨by decide, by decide, fun cx cy h1 h2 h3 h4 => by omega⟩,
    ⟨by decide, by decide, fun cx cy h1 h2 h3 h4 => by omega⟩,
    ⟨by decide, by decide, fun cx cy h1 h2 h3 h4 => by omega⟩,
    ⟨by decide, by decide, fun cx cy h1 h2 h3 h4 => by omega⟩,
    ⟨by decide, by decide, fun cx cy h1 h2 h3 h4 => by omega⟩⟩

/-- C17 (amended): let `P` be the block `lv_draw_mask_line_points_init` fills for the side
`LEFT` from a pair of endpoints.  If `P` is not flat, let the row `y` be at most 8000 rows from
`origo.y` unless `steep = 0`; if `P` is flat, let the span lie within `2 ^ 20` columns of
`origo.x` and let `256 * row * xy_steep` be a value of `int32_t`, `row` being `y - origo.y` for
`yx_steep > 0` and `y - origo.y + 1` otherwise.  The masks built with the sides `LEFT` and
`RIGHT` from these endpoints, applied to buffers pre-filled with `0xFF`, both return.  Reading
`TRANSP` as 0 and `FULL_COVER` as 255 for the whole span, and writing `X = x - origo.x` for the
column of a pixel of the span and `Y = y - origo.y`:

* `P` not flat: with `cs = (xy_steep * Y) >> 10` and `ce = (xy_steep * (Y + 1)) >> 10`, the
  columns in which the line of slope `xy_steep / 1024` through the origin crosses the upper and
  the lower edge of the row, every pixel with `X` less than `cs` and `ce` ends at 255 for `LEFT`
  and at 0 for `RIGHT`, and every pixel with `X` greater than `cs` and `ce` ends at 0 for `LEFT`
  and at 255 for `RIGHT`;
* `P` flat: with `c0 = (xy_steep * row) >> 10`, every pixel with `X < c0` at whose left edge the
  line `y = yx_steep * x / 1024` has not passed the row (`(yx_steep * X) >> 10 <= Y` for
  `yx_steep > 0`, `>= Y` for `yx_steep < 0`) ends at 255 for `LEFT` and at 0 for `RIGHT`, and, if
  `spx > 0`, every pixel with `X > c0 + 254 / spx + 1` at whose right edge that line has reached
  the row (`(yx_steep * (X + 1)) >> 10 >= Y` for `yx_steep > 0`, `<= Y` for `yx_steep < 0`) ends
  at 0 for `LEFT` and at 255 for `RIGHT`. -/
theorem lv_draw_mask_line_kept_side (p1x p1y p2x p2y abs_x abs_y len : Int)
    (P : lv_draw_mask_line_param_t)
    (hP : P = lv_draw_mask_line_points_init p1x p1y p2x p2y LV_DRAW_MASK_LINE_SIDE_LEFT)
    (hrow : P.flat = false → P.steep ≠ 0 →
      -8000 ≤ abs_y - P.origo_y ∧ abs_y - P.origo_y ≤ 8000)
    (hspan : P.flat = true →
      -2 ^ 20 ≤ abs_x - P.origo_x ∧ abs_x - P.origo_x + len ≤ 2 ^ 20)
    (hxe : P.flat = true →
      -2 ^ 31 ≤ 256 * (if P.yx_steep > 0 then abs_y - P.origo_y
          else abs_y - P.origo_y + 1) * P.xy_steep ∧
      256 * (if P.yx_steep > 0 then abs_y - P.origo_y
          else abs_y - P.origo_y + 1) * P.xy_steep < 2 ^ 31) :
    ∃ rL rR,
      lv_draw_mask_line (List.replicate len.toNat 255) abs_x abs_y len
        (lv_draw_mask_line_points_init p1x p1y p2x p2y LV_DRAW_MASK_LINE_SIDE_LEFT)
        = some rL ∧
      lv_draw_mask_line (List.replicate len.toNat 255) abs_x abs_y len
        (lv_draw_mask_line_points_init p1x p1y p2x p2y LV_DRAW_MASK_LINE_SIDE_RIGHT)
        = some rR ∧
      ∀ i : Nat, i < len.toNat →
        (P.flat = false →
          (abs_x + i - P.origo_x < min (asr (P.xy_steep * (abs_y - P.origo_y)) 10)
              (asr (P.xy_steep * (abs_y - P.origo_y + 1)) 10) →
            (mask_out len rL).getD i 0 = 255 ∧ (mask_out len rR).getD i 0 = 0) ∧
          (abs_x + i - P.origo_x > max (asr (P.xy_steep * (abs_y - P.origo_y)) 10)
              (asr (P.xy_steep * (abs_y - P.origo_y + 1)) 10) →
            (mask_out len rL).getD i 0 = 0 ∧ (mask_out len rR).getD i 0 = 255)) ∧
        (P.flat = true →
          (abs_x + i - P.origo_x < asr (P.xy_steep * (if P.yx_steep > 0 then abs_y - P.origo_y
                else abs_y - P.origo_y + 1)) 10 ∧
              (0 < P.yx_steep ∧
                  asr (P.yx_steep * (abs_x + i - P.origo_x)) 10 ≤ abs_y - P.origo_y ∨
                P.yx_steep < 0 ∧
                  abs_y - P.origo_y ≤ asr (P.yx_steep * (abs_x + i - P.origo_x)) 10) →
            (mask_out len rL).getD i 0 = 255 ∧ (mask_out len rR).getD i 0 = 0) ∧
          (0 < P.spx ∧
              asr (P.xy_steep * (if P.yx_steep > 0 then abs_y - P.origo_y
                else abs_y - P.origo_y + 1)) 10 + 254 / P.spx + 1 < abs_x + i - P.origo_x ∧
              (0 < P.yx_steep ∧
                  abs_y - P.origo_y ≤ asr (P.yx_steep * (abs_x + i - P.origo_x + 1)) 10 ∨
                P.yx_steep < 0 ∧
                  asr (P.yx_steep * (abs_x + i - P.origo_x + 1)) 10 ≤ abs_y - P.origo_y) →
            (mask_out len rL).getD i 0 = 0 ∧ (mask_out len rR).getD i 0 = 255)) := by
  obtain ⟨hL, hR⟩ := lv_draw_mask_line_points_init_left_right p1x p1y p2x p2y
  rw [hR]
  subst hP
  by_cases hflat :
      (lv_draw_mask_line_points_init p1x p1y p2x p2y LV_DRAW_MASK_LINE_SIDE_LEFT).flat = true
  · obtain ⟨hyx, hst, hspx0, hspx, hzero⟩ := lv_draw_mask_line_points_init_yx_steep p1x p1y
      p2x p2y LV_DRAW_MASK_LINE_SIDE_LEFT hflat
    by_cases h0 :
        (lv_draw_mask_line_points_init p1x p1y p2x p2y LV_DRAW_MASK_LINE_SIDE_LEFT).steep = 0
    · obtain ⟨rL, rR, h1, h2, -, -, -⟩ : ∃ rL rR,
          lv_draw_mask_line (List.replicate len.toNat 255) abs_x abs_y len
            { lv_draw_mask_line_points_init p1x p1y p2x p2y LV_DRAW_MASK_LINE_SIDE_LEFT with
              cfg_side := LV_DRAW_MASK_LINE_SIDE_LEFT, inv := false } = some rL ∧
          lv_draw_mask_line (List.replicate len.toNat 255) abs_x abs_y len
            { lv_draw_mask_line_points_init p1x p1y p2x p2y LV_DRAW_MASK_LINE_SIDE_LEFT with
              cfg_side := LV_DRAW_MASK_LINE_SIDE_RIGHT, inv := true } = some rR ∧
          True ∧ True ∧ True := by
        simp only [lv_draw_mask_line, hflat, h0, if_true, true_or, or_true]
        exact ⟨_, _, rfl, rfl, trivial, trivial, trivial⟩
      rw [← hL] at h1
      refine ⟨rL, rR, h1, h2, fun i hi1 => ⟨fun hf => ?_, fun _ => ⟨fun hn => ?_, fun hf => ?_⟩⟩⟩
      · rw [hflat] at hf; exact Bool.noConfusion hf
      · exfalso
        rw [hst] at h0
        rcases hn.2 with ⟨hs, -⟩ | ⟨hs, -⟩ <;> omega
      · exfalso
        have := hzero h0
        omega
    · obtain ⟨rL, rR, h1, h2, hpix⟩ := lv_draw_mask_line_flat_kept
        (lv_draw_mask_line_points_init p1x p1y p2x p2y LV_DRAW_MASK_LINE_SIDE_LEFT)
        abs_x abs_y len LV_DRAW_MASK_LINE_SIDE_LEFT LV_DRAW_MASK_LINE_SIDE_RIGHT hflat h0
        hyx hspx (hspan hflat) (hxe hflat)
      rw [← hL] at h1
      refine ⟨rL, rR, h1, h2, fun i hi1 => ⟨fun hf => ?_, fun _ => hpix i hi1⟩⟩
      rw [hflat] at hf; exact Bool.noConfusion hf
  · have hflat2 := eq_false_of_ne_true hflat
    obtain ⟨hxy, hst⟩ := lv_draw_mask_line_points_init_xy_steep p1x p1y p2x p2y
      LV_DRAW_MASK_LINE_SIDE_LEFT hflat2
    obtain ⟨rL, rR, h1, h2, hfar, -⟩ := lv_draw_mask_line_not_flat_dual
      (lv_draw_mask_line_points_init p1x p1y p2x p2y LV_DRAW_MASK_LINE_SIDE_LEFT)
      abs_x abs_y len hflat2 hst hxy (hrow hflat2)
    rw [← hL] at h1
    refine ⟨rL, rR, h1, h2, fun i hi1 =>
      ⟨fun _ => ⟨fun h => ?_, fun h => ?_⟩, fun hf => absurd hf hflat⟩⟩
    · exact (hfar.2.2 i hi1).1 (by omega)
    · exact (hfar.2.2 i hi1).2 (by omega)

/-- C17 (amended) at a steep and at a flat line.  The line (0,0)-(-1,30), `x = -5`, `y = 58`,
`len = 7`: the block is not flat, the columns `cs` and `ce` are -2 and -3, the pixels of the
columns -5 and -4 end at 255 for `LEFT` and the pixels of the columns -1 to 1 at 0.  The line
(0,0)-(10,3), `x = 0`, `y = 1`, `len = 12`: the block is flat with `xy_steep = 3413`,
`yx_steep = 307` and `spx = 76`, so `c0 = 3` and `254 / spx = 3`; the pixels of the columns 0 to
2 end at 255 for `LEFT` and at 0 for `RIGHT`, the pixels of the columns 8 to 11 at 0 for `LEFT`
and at 255 for `RIGHT`. -/
theorem lv_draw_mask_line_kept_side_witness :
    ((lv_draw_mask_line_points_init 0 0 (-1) 30 LV_DRAW_MASK_LINE_SIDE_LEFT).flat = false ∧
    ∃ rL rR,
      lv_draw_mask_line (List.replicate (7 : Int).toNat 255) (-5) 58 7
        (lv_draw_mask_line_points_init 0 0 (-1) 30 LV_DRAW_MASK_LINE_SIDE_LEFT) = some rL ∧
      lv_draw_mask_line (List.replicate (7 : Int).toNat 255) (-5) 58 7
        (lv_draw_mask_line_points_init 0 0 (-1) 30 LV_DRAW_MASK_LINE_SIDE_RIGHT) = some rR ∧
      ∀ i : Nat, i < (7 : Int).toNat →
        ((-5 : Int) + i
            - (lv_draw_mask_line_points_init 0 0 (-1) 30 LV_DRAW_MASK_LINE_SIDE_LEFT).origo_x
          < min (asr ((lv_draw_mask_line_points_init 0 0 (-1) 30
                LV_DRAW_MASK_LINE_SIDE_LEFT).xy_steep * (58
              - (lv_draw_mask_line_points_init 0 0 (-1) 30
                LV_DRAW_MASK_LINE_SIDE_LEFT).origo_y)) 10)
            (asr ((lv_draw_mask_line_points_init 0 0 (-1) 30
                LV_DRAW_MASK_LINE_SIDE_LEFT).xy_steep * (58
              - (lv_draw_mask_line_points_init 0 0 (-1) 30
                LV_DRAW_MASK_LINE_SIDE_LEFT).origo_y + 1)) 10) →
          (mask_out 7 rL).getD i 0 = 255 ∧ (mask_out 7 rR).getD i 0 = 0) ∧
        ((-5 : Int) + i
            - (lv_draw_mask_line_points_init 0 0 (-1) 30 LV_DRAW_MASK_LINE_SIDE_LEFT).origo_x
          > max (asr ((lv_draw_mask_line_points_init 0 0 (-1) 30
                LV_DRAW_MASK_LINE_SIDE_LEFT).xy_steep * (58
              - (lv_draw_mask_line_points_init 0 0 (-1) 30
                LV_DRAW_MASK_LINE_SIDE_LEFT).origo_y)) 10)
            (asr ((lv_draw_mask_line_points_init 0 0 (-1) 30
                LV_DRAW_MASK_LINE_SIDE_LEFT).xy_steep * (58
              - (lv_draw_mask_line_points_init 0 0 (-1) 30
                LV_DRAW_MASK_LINE_SIDE_LEFT).origo_y + 1)) 10) →
          (mask_out 7 rL).getD i 0 = 0 ∧ (mask_out 7 rR).getD i 0 = 255)) ∧
    (((lv_draw_mask_line_points_init 0 0 10 3 LV_DRAW_MASK_LINE_SIDE_LEFT).flat = true ∧
      (lv_draw_mask_line_points_init 0 0 10 3 LV_DRAW_MASK_LINE_SIDE_LEFT).origo_x = 0 ∧
      (lv_draw_mask_line_points_init 0 0 10 3 LV_DRAW_MASK_LINE_SIDE_LEFT).origo_y = 0 ∧
      (lv_draw_mask_line_points_init 0 0 10 3 LV_DRAW_MASK_LINE_SIDE_LEFT).xy_steep = 3413 ∧
      (lv_draw_mask_line_points_init 0 0 10 3 LV_DRAW_MASK_LINE_SIDE_LEFT).yx_steep = 307 ∧
      (lv_draw_mask_line_points_init 0 0 10 3 LV_DRAW_MASK_LINE_SIDE_LEFT).spx = 76 ∧
      ((-2 ^ 20 : Int) ≤ 0 - 0 ∧ (0 : Int) - 0 + 12 ≤ 2 ^ 20) ∧
      ((-2 ^ 31 : Int) ≤ 256 * (1 - 0) * 3413 ∧ (256 : Int) * (1 - 0) * 3413 < 2 ^ 31) ∧
      ∃ rL rR,
        lv_draw_mask_line (List.replicate (12 : Int).toNat 255) 0 1 12
          (lv_draw_mask_line_points_init 0 0 10 3 LV_DRAW_MASK_LINE_SIDE_LEFT) = some rL ∧
        lv_draw_mask_line (List.replicate (12 : Int).toNat 255) 0 1 12
          (lv_draw_mask_line_points_init 0 0 10 3 LV_DRAW_MASK_LINE_SIDE_RIGHT) = some rR ∧
        ∀ i : Nat, i < (12 : Int).toNat →
          ((i : Int) < 3 → (mask_out 12 rL).getD i 0 = 255 ∧ (mask_out 12 rR).getD i 0 = 0) ∧
          (7 < (i : Int) → (mask_out 12 rL).getD i 0 = 0 ∧ (mask_out 12 rR).getD i 0 = 255))) := by
  constructor
  · have hflat :
        (lv_draw_mask_line_points_init 0 0 (-1) 30 LV_DRAW_MASK_LINE_SIDE_LEFT).flat = false := by
      decide
    obtain ⟨rL, rR, h1, h2, h⟩ := lv_draw_mask_line_kept_side 0 0 (-1) 30 (-5) 58 7
      (lv_draw_mask_line_points_init 0 0 (-1) 30 LV_DRAW_MASK_LINE_SIDE_LEFT) rfl
      (fun _ _ => by decide)
      (fun hf => by rw [hflat] at hf; exact Bool.noConfusion hf)
      (fun hf => by rw [hflat] at hf; exact Bool.noConfusion hf)
    exact ⟨hflat, rL, rR, h1, h2, fun i hi => (h i hi).1 hflat⟩
  · have hflat : (lv_draw_mask_line_points_init 0 0 10 3 LV_DRAW_MASK_LINE_SIDE_LEFT).flat = true := by
      decide
    have hox :
        (lv_draw_mask_line_points_init 0 0 10 3 LV_DRAW_MASK_LINE_SIDE_LEFT).origo_x = 0 := by
      decide
    have hoy :
        (lv_draw_mask_line_points_init 0 0 10 3 LV_DRAW_MASK_LINE_SIDE_LEFT).origo_y = 0 := by
      decide
    have hxy :
        (lv_draw_mask_line_points_init 0 0 10 3 LV_DRAW_MASK_LINE_SIDE_LEFT).xy_steep = 3413 := by
      decide
    have hyx :
        (lv_draw_mask_line_points_init 0 0 10 3 LV_DRAW_MASK_LINE_SIDE_LEFT).yx_steep = 307 := by
      decide
    have hspx :
        (lv_draw_mask_line_points_init 0 0 10 3 LV_DRAW_MASK_LINE_SIDE_LEFT).spx = 76 := by
      decide
    obtain ⟨rL, rR, h1, h2, h⟩ := lv_draw_mask_line_kept_side 0 0 10 3 0 1 12
      (lv_draw_mask_line_points_init 0 0 10 3 LV_DRAW_MASK_LINE_SIDE_LEFT) rfl
      (fun hf => by rw [hflat] at hf; exact Bool.noConfusion hf)
      (fun _ => by decide) (fun _ => by decide)
    refine ⟨hflat, hox, hoy, hxy, hyx, hspx, by norm_num, by norm_num, rL, rR, h1, h2,
      fun i hi => ?_⟩
    have hb := (h i hi).2 hflat
    rw [hox, hoy, hxy, hyx, hspx] at hb
    have hpos : (307 : Int) > 0 := by norm_num
    simp only [asr, if_pos hpos] at hb
    exact ⟨fun hn => hb.1 ⟨by omega, Or.inl ⟨by omega, by omega⟩⟩,
      fun hf => hb.2 ⟨by omega, by omega, Or.inl ⟨by omega, by omega⟩⟩⟩

/-! ## The fields `steep` and `spx` of a line block -/

/-- The multiplier `(1 << 20) / d` is at least 1024 in absolute value, and has the sign of `d`,
for `0 < |d| <= 1024`. -/
theorem tdiv_ge_of_le (d : Int) (h1 : -1024 ≤ d) (h2 : d ≤ 1024) :
    (0 < d → 1024 ≤ Int.tdiv (2 ^ 20) d) ∧ (d < 0 → Int.tdiv (2 ^ 20) d ≤ -1024) := by
  constructor
  · intro hd
    rw [Int.tdiv_eq_ediv (by norm_num) (by omega)]
    have : (1024 : Int) * d ≤ 2 ^ 20 := by norm_num; omega
    exact (Int.le_ediv_iff_mul_le hd).mpr this
  · intro hd
    have h3 : Int.tdiv (2 ^ 20) d = -(Int.tdiv (2 ^ 20) (-d)) := by rw [Int.tdiv_neg, neg_neg]
    rw [h3, Int.tdiv_eq_ediv (by norm_num) (by omega)]
    have : (1024 : Int) * (-d) ≤ 2 ^ 20 := by norm_num; omega
    have := (Int.le_ediv_iff_mul_le (show 0 < -d by omega)).mpr this
    omega

/-- The slope computed from two extents `d` and `e` with `0 < |e| <= |d| <= 1024` is not
zero. -/
theorem steep_ne_zero (d e : Int) (hd : d ≠ 0) (he : e ≠ 0) (h1 : -1024 ≤ d) (h2 : d ≤ 1024)
    (hle : LV_ABS e ≤ LV_ABS d) :
    asr (int32_t (Int.tdiv (2 ^ 20) d * e)) 10 ≠ 0 := by
  obtain ⟨hp, hn⟩ := tdiv_ge_of_le d h1 h2
  obtain ⟨r1, r2⟩ := tdiv_mul_range d hd
  have hm : 1024 ≤ |Int.tdiv (2 ^ 20) d| := by
    rcases lt_or_gt_of_ne hd with h | h
    · have := hn h
      rw [abs_of_nonpos (by omega)]
      omega
    · have := hp h
      rw [abs_of_nonneg (by omega)]
      omega
  have he1 : 1 ≤ |e| := Int.one_le_abs he
  have hed : |e| ≤ |d| := by
    simp only [LV_ABS] at hle
    rw [abs_le]
    constructor
    · split_ifs at hle <;> cases abs_cases d <;> omega
    · split_ifs at hle <;> cases abs_cases d <;> omega
  have hlo : 1024 ≤ |Int.tdiv (2 ^ 20) d * e| := by
    rw [abs_mul]
    calc (1024 : Int) = 1024 * 1 := by norm_num
      _ ≤ |Int.tdiv (2 ^ 20) d| * |e| := mul_le_mul hm he1 (by norm_num) (abs_nonneg _)
  have hhi : |Int.tdiv (2 ^ 20) d * e| ≤ 2 ^ 20 := by
    rw [abs_mul]
    calc |Int.tdiv (2 ^ 20) d| * |e| ≤ |Int.tdiv (2 ^ 20) d| * |d| :=
          mul_le_mul_of_nonneg_left hed (abs_nonneg _)
      _ = |Int.tdiv (2 ^ 20) d * d| := (abs_mul _ _).symm
      _ = Int.tdiv (2 ^ 20) d * d := abs_of_nonneg r1
      _ ≤ 2 ^ 20 := r2
  generalize Int.tdiv (2 ^ 20) d * e = v at hlo hhi ⊢
  obtain ⟨h4, h5⟩ := abs_le.mp hhi
  norm_num at h4 h5
  rw [int32_t_of_range _ (by omega) (by omega)]
  simp only [asr]
  norm_num
  rcases le_abs'.mp hlo with h | h <;> omega

/-- C29 (as stated, refuted): for the line (0,0)-(1025,1) with side `LEFT` the block is flat
with `steep = 0`, although neither the columns nor the rows of the two endpoints agree. -/
theorem lv_draw_mask_line_points_init_steep_zero_oblique :
    (lv_draw_mask_line_points_init 0 0 1025 1 LV_DRAW_MASK_LINE_SIDE_LEFT).steep = 0 ∧
    (lv_draw_mask_line_points_init 0 0 1025 1 LV_DRAW_MASK_LINE_SIDE_LEFT).flat = true ∧
    (lv_draw_mask_line_points_init 0 0 1025 1 LV_DRAW_MASK_LINE_SIDE_LEFT).cfg_p1_x = 0 ∧
    (lv_draw_mask_line_points_init 0 0 1025 1 LV_DRAW_MASK_LINE_SIDE_LEFT).cfg_p2_x = 1025 ∧
    (lv_draw_mask_line_points_init 0 0 1025 1 LV_DRAW_MASK_LINE_SIDE_LEFT).cfg_p1_y = 0 ∧
    (lv_draw_mask_line_points_init 0 0 1025 1 LV_DRAW_MASK_LINE_SIDE_LEFT).cfg_p2_y = 1 ∧
    ¬ ((0 : Int) = 1025 ∨ (0 : Int) = 1) := by
  decide

/-- The field `steep` as `lv_draw_mask_line_points_init` computes it from the extents `dx` and
`dy` of the normalised line: it is 0 for an axis-aligned line, and for extents of at most 1024
only for such a line. -/
theorem steep_zero_iff (dx dy : Int) :
    ((dx = 0 ∨ dy = 0) →
      (if LV_ABS dx > LV_ABS dy then
          (if dx ≠ 0 then asr (int32_t (Int.tdiv (2 ^ 20) dx * dy)) 10 else 0)
        else (if dy ≠ 0 then asr (int32_t (Int.tdiv (2 ^ 20) dy * dx)) 10 else 0)) = 0) ∧
    (LV_ABS dx ≤ 1024 → LV_ABS dy ≤ 1024 →
      (if LV_ABS dx > LV_ABS dy then
          (if dx ≠ 0 then asr (int32_t (Int.tdiv (2 ^ 20) dx * dy)) 10 else 0)
        else (if dy ≠ 0 then asr (int32_t (Int.tdiv (2 ^ 20) dy * dx)) 10 else 0)) = 0 →
      (dx = 0 ∨ dy = 0)) := by
  constructor
  · rintro (h | h)
    · subst h
      split_ifs <;> simp [int32_t_zero, asr_zero]
    · subst h
      split_ifs <;> simp [int32_t_zero, asr_zero]
  · intro hx hy hz
    by_contra hne
    push_neg at hne
    obtain ⟨hdx, hdy⟩ := hne
    have hx2 : -1024 ≤ dx ∧ dx ≤ 1024 := by
      simp only [LV_ABS] at hx
      split_ifs at hx <;> omega
    have hy2 : -1024 ≤ dy ∧ dy ≤ 1024 := by
      simp only [LV_ABS] at hy
      split_ifs at hy <;> omega
    by_cases hf : LV_ABS dx > LV_ABS dy
    · rw [if_pos hf, if_pos hdx] at hz
      exact steep_ne_zero dx dy hdx hdy hx2.1 hx2.2 (by omega) hz
    · rw [if_neg hf, if_pos hdy] at hz
      exact steep_ne_zero dy dx hdy hdx hy2.1 hy2.2 (by omega) hz

/-- The field `steep` of the block `lv_draw_mask_line_points_init` fills, in terms of the
normalised endpoints kept in `cfg`. -/
theorem lv_draw_mask_line_points_init_steep (p1x p1y p2x p2y : Int)
    (side : lv_draw_mask_line_side_t) (P : lv_draw_mask_line_param_t)
    (hP : P = lv_draw_mask_line_points_init p1x p1y p2x p2y side) :
    P.steep =
      if LV_ABS (P.cfg_p2_x - P.cfg_p1_x) > LV_ABS (P.cfg_p2_y - P.cfg_p1_y) then
        (if P.cfg_p2_x - P.cfg_p1_x ≠ 0 then
          asr (int32_t (Int.tdiv (2 ^ 20) (P.cfg_p2_x - P.cfg_p1_x)
            * (P.cfg_p2_y - P.cfg_p1_y))) 10 else 0)
      else
        (if P.cfg_p2_y - P.cfg_p1_y ≠ 0 then
          asr (int32_t (Int.tdiv (2 ^ 20) (P.cfg_p2_y - P.cfg_p1_y)
            * (P.cfg_p2_x - P.cfg_p1_x))) 10 else 0) := by
  subst hP
  simp only [lv_draw_mask_line_points_init, decide_eq_true_eq]

/-- C29 (amended): for every pair of endpoints and every side, after
`lv_draw_mask_line_points_init` the field `steep` is 0 if the normalised line is axis-aligned
(`p1.x = p2.x` or `p1.y = p2.y`, which includes `p1 = p2`); and if the normalised endpoints are
at most 1024 columns and at most 1024 rows apart, `steep` is 0 only if the normalised line is
axis-aligned. -/
theorem lv_draw_mask_line_points_init_steep_zero (p1x p1y p2x p2y : Int)
    (side : lv_draw_mask_line_side_t) (P : lv_draw_mask_line_param_t)
    (hP : P = lv_draw_mask_line_points_init p1x p1y p2x p2y side) :
    ((P.cfg_p1_x = P.cfg_p2_x ∨ P.cfg_p1_y = P.cfg_p2_y) → P.steep = 0) ∧
    (LV_ABS (P.cfg_p2_x - P.cfg_p1_x) ≤ 1024 → LV_ABS (P.cfg_p2_y - P.cfg_p1_y) ≤ 1024 →
      P.steep = 0 → (P.cfg_p1_x = P.cfg_p2_x ∨ P.cfg_p1_y = P.cfg_p2_y)) := by
  rw [lv_draw_mask_line_points_init_steep p1x p1y p2x p2y side P hP]
  obtain ⟨h1, h2⟩ := steep_zero_iff (P.cfg_p2_x - P.cfg_p1_x) (P.cfg_p2_y - P.cfg_p1_y)
  refine ⟨fun h => h1 (by omega), fun hx hy hz => ?_⟩
  have := h2 hx hy hz
  omega

/-- C29 (amended) at the lines (3,1)-(3,7) and (0,0)-(10,10) with side `LEFT`: the first is
axis-aligned and has `steep = 0`; the second has `steep = 1024`. -/
theorem lv_draw_mask_line_points_init_steep_zero_witness :
    (lv_draw_mask_line_points_init 3 1 3 7 LV_DRAW_MASK_LINE_SIDE_LEFT).steep = 0 ∧
    (LV_ABS ((lv_draw_mask_line_points_init 0 0 10 10 LV_DRAW_MASK_LINE_SIDE_LEFT).cfg_p2_x
        - (lv_draw_mask_line_points_init 0 0 10 10 LV_DRAW_MASK_LINE_SIDE_LEFT).cfg_p1_x) ≤ 1024 →
      LV_ABS ((lv_draw_mask_line_points_init 0 0 10 10 LV_DRAW_MASK_LINE_SIDE_LEFT).cfg_p2_y
        - (lv_draw_mask_line_points_init 0 0 10 10 LV_DRAW_MASK_LINE_SIDE_LEFT).cfg_p1_y) ≤ 1024 →
      (lv_draw_mask_line_points_init 0 0 10 10 LV_DRAW_MASK_LINE_SIDE_LEFT).steep = 0 →
      ((lv_draw_mask_line_points_init 0 0 10 10 LV_DRAW_MASK_LINE_SIDE_LEFT).cfg_p1_x
          = (lv_draw_mask_line_points_init 0 0 10 10 LV_DRAW_MASK_LINE_SIDE_LEFT).cfg_p2_x ∨
        (lv_draw_mask_line_points_init 0 0 10 10 LV_DRAW_MASK_LINE_SIDE_LEFT).cfg_p1_y
          = (lv_draw_mask_line_points_init 0 0 10 10 LV_DRAW_MASK_LINE_SIDE_LEFT).cfg_p2_y)) :=
  ⟨(lv_draw_mask_line_points_init_steep_zero 3 1 3 7 LV_DRAW_MASK_LINE_SIDE_LEFT _ rfl).1
      (Or.inl (by decide)),
    (lv_draw_mask_line_points_init_steep_zero 0 0 10 10 LV_DRAW_MASK_LINE_SIDE_LEFT _ rfl).2⟩

/-- C30 (as stated, refuted): for the line (-5,-2)-(-3,-5) with side `LEFT` the block has
`steep = -683` and `spx = 171`, while `|steep| / 4` is 170 with truncating division. -/
theorem lv_draw_mask_line_points_init_spx_negative :
    (lv_draw_mask_line_points_init (-5) (-2) (-3) (-5) LV_DRAW_MASK_LINE_SIDE_LEFT).steep = -683 ∧
    (lv_draw_mask_line_points_init (-5) (-2) (-3) (-5) LV_DRAW_MASK_LINE_SIDE_LEFT).spx = 171 ∧
    Int.tdiv (LV_ABS (-683)) 4 = 170 := by
  decide

/-- C30 (amended): for every pair of endpoints and every side, after
`lv_draw_mask_line_points_init` the field `spx` equals `|steep| / 4` rounded down when
`steep >= 0` and rounded up when `steep < 0`, that is `(|steep| + 3) / 4` with truncating
division in the second case. -/
theorem lv_draw_mask_line_points_init_spx (p1x p1y p2x p2y : Int)
    (side : lv_draw_mask_line_side_t) (P : lv_draw_mask_line_param_t)
    (hP : P = lv_draw_mask_line_points_init p1x p1y p2x p2y side) :
    P.spx = if P.steep < 0 then Int.tdiv (LV_ABS P.steep + 3) 4 else Int.tdiv (LV_ABS P.steep) 4 := by
  have h : P.spx = if P.steep < 0 then -(asr P.steep 2) else asr P.steep 2 := by
    subst hP
    simp only [lv_draw_mask_line_points_init]
  rw [h]
  generalize P.steep = s
  simp only [LV_ABS, asr]
  by_cases hs : s < 0
  · rw [if_pos hs, if_pos hs, if_neg (by omega), Int.tdiv_eq_ediv (by omega) (by norm_num)]
    norm_num
    omega
  · rw [if_neg hs, if_neg hs, Int.tdiv_eq_ediv (by split_ifs <;> omega) (by norm_num)]
    norm_num
    split_ifs <;> omega

/-- C30 (amended) at the line (-5,-2)-(-3,-5) with side `LEFT`: `steep = -683` and
`spx = 171 = (683 + 3) / 4`. -/
theorem lv_draw_mask_line_points_init_spx_witness :
    (lv_draw_mask_line_points_init (-5) (-2) (-3) (-5) LV_DRAW_MASK_LINE_SIDE_LEFT).spx
      = if (lv_draw_mask_line_points_init (-5) (-2) (-3) (-5) LV_DRAW_MASK_LINE_SIDE_LEFT).steep < 0
        then Int.tdiv (LV_ABS
          (lv_draw_mask_line_points_init (-5) (-2) (-3) (-5) LV_DRAW_MASK_LINE_SIDE_LEFT).steep + 3) 4
        else Int.tdiv (LV_ABS
          (lv_draw_mask_line_points_init (-5) (-2) (-3) (-5) LV_DRAW_MASK_LINE_SIDE_LEFT).steep) 4 :=
  lv_draw_mask_line_points_init_spx (-5) (-2) (-3) (-5) LV_DRAW_MASK_LINE_SIDE_LEFT _ rfl

/-! ## The fade generator and the map generator -/

/-- The loop of `lv_draw_mask_fade` on `n` bytes that lie in the buffer: it returns, keeps the
length and mixes `opa` into these bytes only. -/
theorem lv_draw_mask_fade_loop_spec (x_ofs : Int) (opa : Nat) (n : Nat) (i : Int)
    (mask_buf : List Nat) (h0 : 0 ≤ x_ofs + i) (h1 : x_ofs + i + n ≤ mask_buf.length) :
    ∃ buf1, lv_draw_mask_fade_loop x_ofs opa n i mask_buf = some buf1 ∧
      buf1.length = mask_buf.length ∧
      ∀ j : Nat, buf1.getD j 0 =
        if x_ofs + i ≤ (j : Int) ∧ (j : Int) < x_ofs + i + n then
          mask_mix (mask_buf.getD j 0) opa
        else mask_buf.getD j 0 := by
  induction n generalizing i mask_buf with
  | zero =>
    refine ⟨mask_buf, rfl, rfl, fun j => ?_⟩
    rw [if_neg (by push_cast; omega)]
  | succ n ih =>
    obtain ⟨b1, hb1, hl1, hg1⟩ := mask_buf_mix_guarded True mask_buf (x_ofs + i) opa
      (fun _ => ⟨h0, by push_cast at h1; omega⟩)
    rw [if_pos trivial] at hb1
    obtain ⟨b2, hb2, hl2, hg2⟩ := ih (i + 1) b1 (by omega) (by rw [hl1]; push_cast at h1 ⊢; omega)
    refine ⟨b2, ?_, by rw [hl2, hl1], fun j => ?_⟩
    · simp only [lv_draw_mask_fade_loop, hb1, Option.some_bind]
      exact hb2
    · rw [hg2, hg1]
      push_cast
      by_cases hj : (j : Int) = x_ofs + i
      · have c2 : ¬ (x_ofs + (i + 1) ≤ (j : Int) ∧ (j : Int) < x_ofs + (i + 1) + n) := by omega
        rw [if_neg c2, if_pos ⟨trivial, hj⟩, if_pos (by omega)]
      · have c1 : ¬ (True ∧ (j : Int) = x_ofs + i) := fun h => hj h.2
        simp only [if_neg c1]
        by_cases hj2 : x_ofs + (i + 1) ≤ (j : Int) ∧ (j : Int) < x_ofs + (i + 1) + n
        · rw [if_pos hj2, if_pos (by omega)]
        · rw [if_neg hj2, if_neg (by omega)]

/-- The loop of `lv_draw_mask_map` on `n` bytes that lie in the buffer, reading `n` bytes that
lie in the map: it returns, keeps the length and mixes the bytes of the map into these bytes
only. -/
theorem lv_draw_mask_map_loop_spec (map : List Nat) (map_tmp x_ofs : Int) (n : Nat) (i : Int)
    (mask_buf : List Nat) (h0 : 0 ≤ x_ofs + i) (h1 : x_ofs + i + n ≤ mask_buf.length)
    (h2 : 0 ≤ map_tmp + i) (h3 : map_tmp + i + n ≤ map.length) :
    ∃ buf1, lv_draw_mask_map_loop map map_tmp x_ofs n i mask_buf = some buf1 ∧
      buf1.length = mask_buf.length ∧
      ∀ j : Nat, buf1.getD j 0 =
        if x_ofs + i ≤ (j : Int) ∧ (j : Int) < x_ofs + i + n then
          mask_mix (mask_buf.getD j 0) (map.getD (map_tmp + ((j : Int) - x_ofs)).toNat 0)
        else mask_buf.getD j 0 := by
  induction n generalizing i mask_buf with
  | zero =>
    refine ⟨mask_buf, rfl, rfl, fun j => ?_⟩
    rw [if_neg (by push_cast; omega)]
  | succ n ih =>
    have hlt : (map_tmp + i).toNat < map.length := by push_cast at h3; omega
    have hread : array_get map (map_tmp + i) = some (map.getD (map_tmp + i).toNat 0) := by
      simp only [array_get, if_pos h2, List.getD_eq_getElem?_getD,
        List.getElem?_eq_getElem hlt, Option.getD_some]
    obtain ⟨b1, hb1, hl1, hg1⟩ := mask_buf_mix_guarded True mask_buf (x_ofs + i)
      (map.getD (map_tmp + i).toNat 0) (fun _ => ⟨h0, by push_cast at h1; omega⟩)
    rw [if_pos trivial] at hb1
    obtain ⟨b2, hb2, hl2, hg2⟩ := ih (i + 1) b1 (by omega) (by rw [hl1]; push_cast at h1 ⊢; omega)
      (by omega) (by push_cast at h3 ⊢; omega)
    refine ⟨b2, ?_, by rw [hl2, hl1], fun j => ?_⟩
    · simp only [lv_draw_mask_map_loop, hread, hb1, Option.some_bind]
      exact hb2
    · rw [hg2, hg1]
      push_cast
      by_cases hj : (j : Int) = x_ofs + i
      · have e : map_tmp + ((j : Int) - x_ofs) = map_tmp + i := by omega
        have c2 : ¬ (x_ofs + (i + 1) ≤ (j : Int) ∧ (j : Int) < x_ofs + (i + 1) + n) := by omega
        rw [if_neg c2, if_pos ⟨trivial, hj⟩, if_pos (by omega), e]
      · have c1 : ¬ (True ∧ (j : Int) = x_ofs + i) := fun h => hj h.2
        simp only [if_neg c1]
        by_cases hj2 : x_ofs + (i + 1) ≤ (j : Int) ∧ (j : Int) < x_ofs + (i + 1) + n
        · rw [if_pos hj2, if_pos (by omega)]
        · rw [if_neg hj2, if_neg (by omega)]

/-- What `lv_draw_mask_fade` does to a buffer of `len` bytes: outside the rows of the
rectangle, and when `abs_x + len < x1` or `abs_x > x2`, it returns `FULL_COVER` and leaves the
buffer as it is; in every other case it returns `CHANGED`, and it has mixed the opacity of the
row into the span pixels of the columns `x1 .. x2` and into no other byte. -/
theorem lv_draw_mask_fade_spec (p : lv_draw_mask_fade_param_t) (mask_buf : List Nat)
    (abs_x abs_y len : Int) (hl : mask_buf.length = len.toNat) :
    ((abs_y < p.cfg_coords.y1 ∨ abs_y > p.cfg_coords.y2 ∨ abs_x + len < p.cfg_coords.x1 ∨
        abs_x > p.cfg_coords.x2) →
      lv_draw_mask_fade mask_buf abs_x abs_y len p
        = some (LV_DRAW_MASK_RES_FULL_COVER, mask_buf)) ∧
    (¬ (abs_y < p.cfg_coords.y1 ∨ abs_y > p.cfg_coords.y2 ∨ abs_x + len < p.cfg_coords.x1 ∨
        abs_x > p.cfg_coords.x2) →
      ∃ buf1, lv_draw_mask_fade mask_buf abs_x abs_y len p
          = some (LV_DRAW_MASK_RES_CHANGED, buf1) ∧
        buf1.length = mask_buf.length ∧
        ∀ j : Nat, buf1.getD j 0 =
          if p.cfg_coords.x1 ≤ abs_x + j ∧ abs_x + j ≤ p.cfg_coords.x2 ∧ (j : Int) < len then
            mask_mix (mask_buf.getD j 0) (lv_draw_mask_fade_opa abs_y p)
          else mask_buf.getD j 0) := by
  constructor
  · intro h
    simp only [lv_draw_mask_fade]
    split_ifs <;> first | rfl | omega
  · intro h
    push_neg at h
    obtain ⟨h1, h2, h3, h4⟩ := h
    simp only [lv_draw_mask_fade, if_neg (not_lt.mpr h1), if_neg (not_lt.mpr h2),
      if_neg (not_lt.mpr h3), if_neg (not_lt.mpr h4)]
    generalize hx : (if abs_x < p.cfg_coords.x1 then p.cfg_coords.x1 - abs_x else 0) = x_ofs
    generalize hn : (if abs_x < p.cfg_coords.x1 then
      (if abs_x + len > p.cfg_coords.x2 then len - (abs_x + len - p.cfg_coords.x2 - 1) else len)
        - x_ofs
      else (if abs_x + len > p.cfg_coords.x2 then len - (abs_x + len - p.cfg_coords.x2 - 1)
        else len)) = n
    have hx0 : 0 ≤ x_ofs := by rw [← hx]; split_ifs <;> omega
    have hxn : x_ofs + (n.toNat : Int) ≤ mask_buf.length := by
      rw [hl, ← hn, ← hx]
      split_ifs <;> omega
    obtain ⟨b, hb, hlb, hgb⟩ := lv_draw_mask_fade_loop_spec x_ofs (lv_draw_mask_fade_opa abs_y p)
      n.toNat 0 mask_buf (by omega) (by omega)
    refine ⟨b, by rw [hb]; rfl, hlb, fun j => ?_⟩
    rw [hgb]
    have hiff : (x_ofs + 0 ≤ (j : Int) ∧ (j : Int) < x_ofs + 0 + (n.toNat : Int)) ↔
        (p.cfg_coords.x1 ≤ abs_x + j ∧ abs_x + j ≤ p.cfg_coords.x2 ∧ (j : Int) < len) := by
      rw [← hn, ← hx]
      split_ifs <;> omega
    by_cases hc : p.cfg_coords.x1 ≤ abs_x + j ∧ abs_x + j ≤ p.cfg_coords.x2 ∧ (j : Int) < len
    · rw [if_pos hc, if_pos (hiff.mpr hc)]
    · rw [if_neg hc, if_neg (fun h => hc (hiff.mp h))]

/-- What `lv_draw_mask_map` does to a buffer of `len` bytes, for a map that holds one byte for
every pixel of the rectangle: outside the rows of the rectangle, and when `abs_x + len < x1` or
`abs_x > x2`, it returns `FULL_COVER` and leaves the buffer as it is; in every other case it
returns `CHANGED`, and it has mixed the byte `map[(abs_y - y1) * w + (c - x1)]` into the span
pixel of every column `c` in `x1 .. x2` and has written no other byte. -/
theorem lv_draw_mask_map_spec (p : lv_draw_mask_map_param_t) (mask_buf : List Nat)
    (abs_x abs_y len : Int) (hl : mask_buf.length = len.toNat)
    (hm : lv_area_get_width p.cfg_coords * lv_area_get_height p.cfg_coords ≤ p.cfg_map.length) :
    ((abs_y < p.cfg_coords.y1 ∨ abs_y > p.cfg_coords.y2 ∨ abs_x + len < p.cfg_coords.x1 ∨
        abs_x > p.cfg_coords.x2) →
      lv_draw_mask_map mask_buf abs_x abs_y len p
        = some (LV_DRAW_MASK_RES_FULL_COVER, mask_buf)) ∧
    (¬ (abs_y < p.cfg_coords.y1 ∨ abs_y > p.cfg_coords.y2 ∨ abs_x + len < p.cfg_coords.x1 ∨
        abs_x > p.cfg_coords.x2) →
      ∃ buf1, lv_draw_mask_map mask_buf abs_x abs_y len p
          = some (LV_DRAW_MASK_RES_CHANGED, buf1) ∧
        buf1.length = mask_buf.length ∧
        ∀ j : Nat, buf1.getD j 0 =
          if p.cfg_coords.x1 ≤ abs_x + j ∧ abs_x + j ≤ p.cfg_coords.x2 ∧ (j : Int) < len then
            mask_mix (mask_buf.getD j 0)
              (p.cfg_map.getD ((abs_y - p.cfg_coords.y1) * lv_area_get_width p.cfg_coords
                + (abs_x + j - p.cfg_coords.x1)).toNat 0)
          else mask_buf.getD j 0) := by
  constructor
  · intro h
    simp only [lv_draw_mask_map]
    split_ifs <;> first | rfl | omega
  · intro h
    push_neg at h
    obtain ⟨h1, h2, h3, h4⟩ := h
    simp only [lv_draw_mask_map, if_neg (not_lt.mpr h1), if_neg (not_lt.mpr h2),
      if_neg (not_lt.mpr h3), if_neg (not_lt.mpr h4)]
    simp only [lv_area_get_width, lv_area_get_height] at hm ⊢
    have hrow : 0 ≤ (p.cfg_coords.x2 - p.cfg_coords.x1 + 1) →
        0 ≤ (abs_y - p.cfg_coords.y1) * (p.cfg_coords.x2 - p.cfg_coords.x1 + 1) ∧
        (abs_y - p.cfg_coords.y1) * (p.cfg_coords.x2 - p.cfg_coords.x1 + 1)
          + (p.cfg_coords.x2 - p.cfg_coords.x1 + 1) ≤ p.cfg_map.length := by
      intro hw
      constructor
      · exact mul_nonneg (by omega) hw
      · have : (abs_y - p.cfg_coords.y1) * (p.cfg_coords.x2 - p.cfg_coords.x1 + 1)
            + (p.cfg_coords.x2 - p.cfg_coords.x1 + 1)
            ≤ (p.cfg_coords.x2 - p.cfg_coords.x1 + 1) * (p.cfg_coords.y2 - p.cfg_coords.y1 + 1) := by
          nlinarith [mul_nonneg hw (show 0 ≤ p.cfg_coords.y2 - abs_y by omega)]
        omega
    generalize (abs_y - p.cfg_coords.y1) * (p.cfg_coords.x2 - p.cfg_coords.x1 + 1) = row at hrow ⊢
    generalize hlen1 : (if abs_x + len > p.cfg_coords.x2 then
      len - (abs_x + len - p.cfg_coords.x2 - 1) else len) = len1
    have hlen1a : len1 ≤ len ∧ len1 ≤ p.cfg_coords.x2 - abs_x + 1 ∧
        (len1 = len ∨ len1 = p.cfg_coords.x2 - abs_x + 1) := by
      rw [← hlen1]
      split_ifs <;> omega
    by_cases hx : abs_x < p.cfg_coords.x1
    · rw [if_pos hx]
      by_cases hn : (len1 - (p.cfg_coords.x1 - abs_x)).toNat = 0
      · refine ⟨mask_buf, by rw [hn]; rfl, rfl, fun j => ?_⟩
        rw [if_neg (by omega)]
      · have hw := hrow (by omega)
        obtain ⟨b, hb, hlb, hgb⟩ := lv_draw_mask_map_loop_spec p.cfg_map row
          (p.cfg_coords.x1 - abs_x) (len1 - (p.cfg_coords.x1 - abs_x)).toNat 0 mask_buf
          (by omega) (by omega) (by omega) (by omega)
        refine ⟨b, by rw [hb]; rfl, hlb, fun j => ?_⟩
        rw [hgb]
        by_cases hc : p.cfg_coords.x1 ≤ abs_x + j ∧ abs_x + j ≤ p.cfg_coords.x2 ∧ (j : Int) < len
        · have e : row + ((j : Int) - (p.cfg_coords.x1 - abs_x))
              = row + (abs_x + j - p.cfg_coords.x1) := by omega
          rw [if_pos hc, if_pos (by omega), e]
        · rw [if_neg hc, if_neg (by omega)]
    · rw [if_neg hx]
      by_cases hn : len1.toNat = 0
      · refine ⟨mask_buf, by rw [hn]; rfl, rfl, fun j => ?_⟩
        rw [if_neg (by omega)]
      · have hw := hrow (by omega)
        obtain ⟨b, hb, hlb, hgb⟩ := lv_draw_mask_map_loop_spec p.cfg_map
          (row + (abs_x - p.cfg_coords.x1)) 0 len1.toNat 0 mask_buf
          (by omega) (by omega) (by omega) (by omega)
        refine ⟨b, by rw [hb]; rfl, hlb, fun j => ?_⟩
        rw [hgb]
        by_cases hc : p.cfg_coords.x1 ≤ abs_x + j ∧ abs_x + j ≤ p.cfg_coords.x2 ∧ (j : Int) < len
        · have e : row + (abs_x - p.cfg_coords.x1) + ((j : Int) - 0)
              = row + (abs_x + j - p.cfg_coords.x1) := by omega
          rw [if_pos hc, if_pos (by omega), e]
        · rw [if_neg hc, if_neg (by omega)]

/-- Two lists of the same length whose bytes agree are equal. -/
theorem list_eq_of_getD (a b : List Nat) (hl : a.length = b.length)
    (h : ∀ j : Nat, a.getD j 0 = b.getD j 0) : a = b := by
  apply List.ext_getElem hl
  intro j h1 h2
  have := h j
  simp only [List.getD_eq_getElem?_getD, List.getElem?_eq_getElem h1,
    List.getElem?_eq_getElem h2, Option.getD_some] at this
  exact this

/-- C22 (as stated, refuted): for the fade mask over the rectangle (5,0)-(9,10) the span of the
columns 0..4 in row 5 meets no column of the rectangle, and `lv_draw_mask_fade` returns
`CHANGED` (with the buffer as it was), not `FULL_COVER`. -/
theorem lv_draw_mask_fade_span_before_x1 :
    lv_draw_mask_fade [255, 255, 255, 255, 255] 0 5 5
        (lv_draw_mask_fade_init ⟨5, 0, 9, 10⟩ 0 0 255 10)
      = some (LV_DRAW_MASK_RES_CHANGED, [255, 255, 255, 255, 255]) ∧
    ∀ c : Int, 0 ≤ c → c < 0 + 5 → ¬ (5 ≤ c ∧ c ≤ 9) := by
  refine ⟨by decide, fun c h1 h2 h3 => by omega⟩

/-- C22 (amended): for every fade mask, every buffer of `len` bytes and every scanline
`(x, y, len)`: when the row `y` is outside `[coords.y1, coords.y2]`, or `x + len < coords.x1`,
or `x > coords.x2`, `lv_draw_mask_fade` returns `FULL_COVER` and leaves the buffer unchanged;
in every other case it returns `CHANGED`, and it leaves the buffer unchanged when no pixel of
the span lies in the columns `coords.x1 .. coords.x2`. -/
theorem lv_draw_mask_fade_result (p : lv_draw_mask_fade_param_t) (mask_buf : List Nat)
    (abs_x abs_y len : Int) (hl : mask_buf.length = len.toNat) :
    ((abs_y < p.cfg_coords.y1 ∨ abs_y > p.cfg_coords.y2 ∨ abs_x + len < p.cfg_coords.x1 ∨
        abs_x > p.cfg_coords.x2) →
      lv_draw_mask_fade mask_buf abs_x abs_y len p
        = some (LV_DRAW_MASK_RES_FULL_COVER, mask_buf)) ∧
    (¬ (abs_y < p.cfg_coords.y1 ∨ abs_y > p.cfg_coords.y2 ∨ abs_x + len < p.cfg_coords.x1 ∨
        abs_x > p.cfg_coords.x2) →
      ∃ buf1, lv_draw_mask_fade mask_buf abs_x abs_y len p
          = some (LV_DRAW_MASK_RES_CHANGED, buf1) ∧
        buf1.length = mask_buf.length ∧
        ((∀ c : Int, abs_x ≤ c → c < abs_x + len →
            ¬ (p.cfg_coords.x1 ≤ c ∧ c ≤ p.cfg_coords.x2)) → buf1 = mask_buf)) := by
  obtain ⟨h1, h2⟩ := lv_draw_mask_fade_spec p mask_buf abs_x abs_y len hl
  refine ⟨h1, fun h => ?_⟩
  obtain ⟨b, hb, hlb, hgb⟩ := h2 h
  refine ⟨b, hb, hlb, fun hno => list_eq_of_getD b mask_buf hlb fun j => ?_⟩
  rw [hgb, if_neg]
  intro hc
  exact hno (abs_x + j) (by omega) (by omega) ⟨hc.1, hc.2.1⟩

/-- C22 (amended) at the fade mask over (5,0)-(9,10), `x = 0`, `y = 5`, `len = 5` and
`len = 4`: the first span ends in the column before the rectangle and gives `CHANGED`, the
second gives `FULL_COVER`. -/
theorem lv_draw_mask_fade_result_witness :
    ([255, 255, 255, 255] : List Nat).length = (4 : Int).toNat ∧
    lv_draw_mask_fade [255, 255, 255, 255] 0 5 4 (lv_draw_mask_fade_init ⟨5, 0, 9, 10⟩ 0 0 255 10)
      = some (LV_DRAW_MASK_RES_FULL_COVER, [255, 255, 255, 255]) ∧
    ∃ buf1, lv_draw_mask_fade [255, 255, 255, 255, 255] 0 5 5
          (lv_draw_mask_fade_init ⟨5, 0, 9, 10⟩ 0 0 255 10)
        = some (LV_DRAW_MASK_RES_CHANGED, buf1) ∧
      buf1.length = ([255, 255, 255, 255, 255] : List Nat).length ∧
      ((∀ c : Int, 0 ≤ c → c < 0 + 5 →
          ¬ ((lv_draw_mask_fade_init ⟨5, 0, 9, 10⟩ 0 0 255 10).cfg_coords.x1 ≤ c ∧
            c ≤ (lv_draw_mask_fade_init ⟨5, 0, 9, 10⟩ 0 0 255 10).cfg_coords.x2)) →
        buf1 = [255, 255, 255, 255, 255]) :=
  ⟨by decide,
    (lv_draw_mask_fade_result (lv_draw_mask_fade_init ⟨5, 0, 9, 10⟩ 0 0 255 10)
      [255, 255, 255, 255] 0 5 4 (by decide)).1 (by decide),
    (lv_draw_mask_fade_result (lv_draw_mask_fade_init ⟨5, 0, 9, 10⟩ 0 0 255 10)
      [255, 255, 255, 255, 255] 0 5 5 (by decide)).2 (by decide)⟩

/-- C23 (as stated, refuted): for the fade mask over the rectangle (0,0)-(0,10) with
`opa_top = 0`, `y_top = 0`, `opa_bottom = 255`, `y_bottom = 10`, the pixel of column 0 in row 5
ends at 115, which is `5 * 255 / 11`, and not at 127 or 128. -/
theorem lv_draw_mask_fade_row_5 :
    lv_draw_mask_fade [255] 0 5 1 (lv_draw_mask_fade_init ⟨0, 0, 0, 10⟩ 0 0 255 10)
      = some (LV_DRAW_MASK_RES_CHANGED, [115]) ∧
    lv_draw_mask_fade [255, 255, 255, 255, 255] (-2) 5 5
        (lv_draw_mask_fade_init ⟨0, 0, 0, 10⟩ 0 0 255 10)
      = some (LV_DRAW_MASK_RES_CHANGED, [255, 255, 115, 255, 255]) ∧
    (115 : Nat) ≠ 127 ∧ (115 : Nat) ≠ 128 ∧ Int.tdiv (5 * 255) 11 = 115 := by
  decide

/-- C23 (amended): for the fade mask over the rectangle (0,0)-(0,10) with `opa_top = 0`,
`y_top = 0`, `opa_bottom = 255`, `y_bottom = 10`, applied at row `y = 5` to any span and a
buffer of `0xFF` bytes: the call returns, and every span pixel of column 0, the one column of
the rectangle, ends at 115 (reading `TRANSP` as 0 and `FULL_COVER` as 255 for the whole
span). -/
theorem lv_draw_mask_fade_row_5_value (abs_x len : Int) :
    ∃ r, lv_draw_mask_fade (List.replicate len.toNat 255) abs_x 5 len
        (lv_draw_mask_fade_init ⟨0, 0, 0, 10⟩ 0 0 255 10) = some r ∧
      ∀ i : Nat, i < len.toNat → abs_x + i = 0 → (mask_out len r).getD i 0 = 115 := by
  obtain ⟨h1, h2⟩ := lv_draw_mask_fade_spec (lv_draw_mask_fade_init ⟨0, 0, 0, 10⟩ 0 0 255 10)
    (List.replicate len.toNat 255) abs_x 5 len (by simp)
  by_cases hc : ((5 : Int) < (lv_draw_mask_fade_init ⟨0, 0, 0, 10⟩ 0 0 255 10).cfg_coords.y1 ∨
      (5 : Int) > (lv_draw_mask_fade_init ⟨0, 0, 0, 10⟩ 0 0 255 10).cfg_coords.y2 ∨
      abs_x + len < (lv_draw_mask_fade_init ⟨0, 0, 0, 10⟩ 0 0 255 10).cfg_coords.x1 ∨
      abs_x > (lv_draw_mask_fade_init ⟨0, 0, 0, 10⟩ 0 0 255 10).cfg_coords.x2)
  · refine ⟨_, h1 hc, fun i hi hx => ?_⟩
    exfalso
    simp only [lv_draw_mask_fade_init] at hc
    omega
  · obtain ⟨b, hb, hlb, hgb⟩ := h2 hc
    refine ⟨_, hb, fun i hi hx => ?_⟩
    have hin : (lv_draw_mask_fade_init ⟨0, 0, 0, 10⟩ 0 0 255 10).cfg_coords.x1 ≤ abs_x + i ∧
        abs_x + i ≤ (lv_draw_mask_fade_init ⟨0, 0, 0, 10⟩ 0 0 255 10).cfg_coords.x2 ∧
        (i : Int) < len := by
      simp only [lv_draw_mask_fade_init]
      omega
    simp only [mask_out]
    rw [hgb, if_pos hin, replicate_getD _ _ _ hi]
    decide

/-- C24: for every map mask with rectangle `R` of width `w`, whose map holds one byte for every
pixel of `R`, and every buffer of `len` bytes: when the row is outside `[R.y1, R.y2]`,
`lv_draw_mask_map` returns `FULL_COVER` and writes nothing; on a scanline with
`R.y1 <= y <= R.y2` that has a pixel in the columns of `R` it returns `CHANGED`, replaces each
span pixel at an absolute column `c` in `[R.x1, R.x2]` by
`mask_mix(old, map[(y - R.y1) * w + (c - R.x1)])` and leaves every other span pixel as it
was. -/
theorem lv_draw_mask_map_result (p : lv_draw_mask_map_param_t) (mask_buf : List Nat)
    (abs_x abs_y len : Int) (hl : mask_buf.length = len.toNat)
    (hm : lv_area_get_width p.cfg_coords * lv_area_get_height p.cfg_coords ≤ p.cfg_map.length) :
    ((abs_y < p.cfg_coords.y1 ∨ abs_y > p.cfg_coords.y2) →
      lv_draw_mask_map mask_buf abs_x abs_y len p
        = some (LV_DRAW_MASK_RES_FULL_COVER, mask_buf)) ∧
    (p.cfg_coords.y1 ≤ abs_y → abs_y ≤ p.cfg_coords.y2 →
      (∃ c : Int, abs_x ≤ c ∧ c < abs_x + len ∧ p.cfg_coords.x1 ≤ c ∧ c ≤ p.cfg_coords.x2) →
      ∃ buf1, lv_draw_mask_map mask_buf abs_x abs_y len p
          = some (LV_DRAW_MASK_RES_CHANGED, buf1) ∧
        buf1.length = mask_buf.length ∧
        ∀ j : Nat, j < mask_buf.length → buf1.getD j 0 =
          if p.cfg_coords.x1 ≤ abs_x + j ∧ abs_x + j ≤ p.cfg_coords.x2 then
            mask_mix (mask_buf.getD j 0)
              (p.cfg_map.getD ((abs_y - p.cfg_coords.y1) * lv_area_get_width p.cfg_coords
                + (abs_x + j - p.cfg_coords.x1)).toNat 0)
          else mask_buf.getD j 0) := by
  obtain ⟨h1, h2⟩ := lv_draw_mask_map_spec p mask_buf abs_x abs_y len hl hm
  refine ⟨fun h => h1 (by omega), fun hy1 hy2 hc => ?_⟩
  obtain ⟨c, hc1, hc2, hc3, hc4⟩ := hc
  obtain ⟨b, hb, hlb, hgb⟩ := h2 (by omega)
  refine ⟨b, hb, hlb, fun j hj => ?_⟩
  rw [hgb]
  have hjl : (j : Int) < len := by omega
  by_cases hin : p.cfg_coords.x1 ≤ abs_x + j ∧ abs_x + j ≤ p.cfg_coords.x2
  · rw [if_pos hin, if_pos ⟨hin.1, hin.2, hjl⟩]
  · rw [if_neg hin, if_neg (fun h => hin ⟨h.1, h.2.1⟩)]

/-- C24 at the map mask over (5,0)-(6,2) with the map 1, 2, 3, 4, 5, 6, `x = 3`, `y = 1`,
`len = 5`: the pixels of the columns 5 and 6 take the bytes 3 and 4 of the second row of the
map. -/
theorem lv_draw_mask_map_result_witness :
    lv_draw_mask_map [255, 255, 255, 255, 255] 3 1 5 (lv_draw_mask_map_init ⟨5, 0, 6, 2⟩
        [1, 2, 3, 4, 5, 6]) = some (LV_DRAW_MASK_RES_CHANGED, [255, 255, 3, 4, 255]) ∧
    ∃ buf1, lv_draw_mask_map [255, 255, 255, 255, 255] 3 1 5
          (lv_draw_mask_map_init ⟨5, 0, 6, 2⟩ [1, 2, 3, 4, 5, 6])
        = some (LV_DRAW_MASK_RES_CHANGED, buf1) ∧
      buf1.length = ([255, 255, 255, 255, 255] : List Nat).length ∧
      ∀ j : Nat, j < ([255, 255, 255, 255, 255] : List Nat).length → buf1.getD j 0 =
        if (lv_draw_mask_map_init ⟨5, 0, 6, 2⟩ [1, 2, 3, 4, 5, 6]).cfg_coords.x1 ≤ 3 + j ∧
            3 + j ≤ (lv_draw_mask_map_init ⟨5, 0, 6, 2⟩ [1, 2, 3, 4, 5, 6]).cfg_coords.x2 then
          mask_mix (([255, 255, 255, 255, 255] : List Nat).getD j 0)
            ((lv_draw_mask_map_init ⟨5, 0, 6, 2⟩ [1, 2, 3, 4, 5, 6]).cfg_map.getD
              ((1 - (lv_draw_mask_map_init ⟨5, 0, 6, 2⟩ [1, 2, 3, 4, 5, 6]).cfg_coords.y1)
                * lv_area_get_width
                  (lv_draw_mask_map_init ⟨5, 0, 6, 2⟩ [1, 2, 3, 4, 5, 6]).cfg_coords
                + (3 + j
                  - (lv_draw_mask_map_init ⟨5, 0, 6, 2⟩ [1, 2, 3, 4, 5, 6]).cfg_coords.x1)).toNat
              0)
        else ([255, 255, 255, 255, 255] : List Nat).getD j 0 :=
  ⟨by decide,
    (lv_draw_mask_map_result (lv_draw_mask_map_init ⟨5, 0, 6, 2⟩ [1, 2, 3, 4, 5, 6])
      [255, 255, 255, 255, 255] 3 1 5 (by decide) (by decide)).2 (by decide) (by decide)
      ⟨5, by decide, by decide, by decide, by decide⟩⟩

/-! ## No generator writes outside the span -/

/-- A step that returns a buffer of `L` bytes, followed by a continuation that returns for
every such buffer. -/
theorem res_in_span_bind (L : Nat) (o : Option (List Nat))
    (f : List Nat → Option (lv_draw_mask_res_t × List Nat)) (h : buf_in_span L o)
    (hf : ∀ b : List Nat, b.length = L → res_in_span L (f b)) : res_in_span L (o.bind f) := by
  obtain ⟨b, hb, hl⟩ := h
  rw [hb]
  exact hf b hl

/-- Two steps in a row that return buffers of `L` bytes. -/
theorem buf_in_span_bind (L : Nat) (o : Option (List Nat)) (f : List Nat → Option (List Nat))
    (h : buf_in_span L o) (hf : ∀ b : List Nat, b.length = L → buf_in_span L (f b)) :
    buf_in_span L (o.bind f) := by
  obtain ⟨b, hb, hl⟩ := h
  rw [hb]
  exact hf b hl

/-- A returned result other than `UNKNOWN` with a buffer of `L` bytes. -/
theorem res_in_span_some (L : Nat) (res : lv_draw_mask_res_t) (b : List Nat) (hl : b.length = L)
    (hr : res ≠ LV_DRAW_MASK_RES_UNKNOWN) : res_in_span L (some (res, b)) :=
  ⟨(res, b), rfl, hl, hr⟩

/-- The guarded statement `mask_buf[k] = mask_mix(mask_buf[k], m)` stays in the buffer. -/
theorem buf_in_span_mix (g : Prop) [Decidable g] (mask_buf : List Nat) (k : Int) (m : Nat)
    (h : g → 0 ≤ k ∧ k < mask_buf.length) :
    buf_in_span mask_buf.length (if g then mask_buf_mix mask_buf k m else some mask_buf) := by
  obtain ⟨b, hb, hl, -⟩ := mask_buf_mix_guarded g mask_buf k m h
  exact ⟨b, hb, hl⟩

/-- A guarded `lv_memset_00` of bytes that lie in the buffer stays in the buffer. -/
theorem buf_in_span_memset (c : Prop) [Decidable c] (mask_buf : List Nat) (start n : Int)
    (h : c → 0 ≤ start ∧ 0 ≤ n ∧ start + n ≤ mask_buf.length) :
    buf_in_span mask_buf.length (if c then lv_memset_00 mask_buf start n else some mask_buf) := by
  obtain ⟨b, hb, hl, -⟩ := lv_memset_00_guarded c mask_buf start n h
  exact ⟨b, hb, hl⟩

/-- The loop of `line_mask_flat` returns for every buffer of `len` bytes, with the passes the
model allows it, and stays in the buffer. -/
theorem line_mask_flat_loop_in_span (inv : Bool) (spx len : Int) (fuel : Nat)
    (mask_buf : List Nat) (px_h k : Int) (hl : mask_buf.length = len.toNat)
    (hf : (len - k).toNat + 1 ≤ fuel) :
    ∃ st, line_mask_flat_loop inv spx len fuel mask_buf px_h k = some st ∧
      st.1.length = len.toNat := by
  induction fuel generalizing mask_buf px_h k with
  | zero => omega
  | succ fuel ih =>
    simp only [line_mask_flat_loop]
    by_cases hp : px_h > spx
    · rw [if_pos hp]
      obtain ⟨b, hb, hlb⟩ := buf_in_span_mix (0 ≤ k ∧ k < len) mask_buf k
        (if inv then 255 - uint8_t (px_h - asr spx 1) else uint8_t (px_h - asr spx 1))
        (fun h => ⟨h.1, by omega⟩)
      rw [hb]
      simp only [Option.some_bind]
      by_cases hk : k + 1 ≥ len
      · rw [if_pos hk]
        exact ⟨_, rfl, by rw [hlb, hl]⟩
      · rw [if_neg hk]
        exact ih b (px_h - spx) (k + 1) (by rw [hlb, hl]) (by omega)
    · rw [if_neg hp]
      exact ⟨_, rfl, hl⟩

/-- The anti-aliased part of `line_mask_flat` stays in the buffer. -/
theorem line_mask_flat_aa_in_span (mask_buf : List Nat) (abs_x len xe : Int)
    (p : lv_draw_mask_line_param_t) (hl : mask_buf.length = len.toNat) :
    res_in_span mask_buf.length (line_mask_flat_aa mask_buf abs_x len xe p) := by
  simp only [line_mask_flat_aa]
  apply res_in_span_bind _ _ _ (buf_in_span_mix _ _ _ _ (fun h => ⟨h.2.1, by omega⟩))
  intro b1 hb1
  obtain ⟨st, hst, hlst⟩ := line_mask_flat_loop_in_span p.inv p.spx len
    ((len - (if xe % 256 ≠ 0 then asr xe 8 - abs_x + 1 else asr xe 8 - abs_x)).toNat + 1) b1
    (if xe % 256 = 0 then (255 : Int) else 255 - asr (int32_t ((255 - xe % 256) * p.spx)) 8)
    (if xe % 256 ≠ 0 then asr xe 8 - abs_x + 1 else asr xe 8 - abs_x) (by omega) (le_refl _)
  rw [hst]
  simp only [Option.some_bind]
  have hst2 : st.1.length = mask_buf.length := by omega
  rw [← hst2]
  apply res_in_span_bind _ _ _ (buf_in_span_mix _ _ _ _ (fun h => ⟨h.2, by omega⟩))
  intro b3 hb3
  cases p.inv
  · simp only [Bool.false_eq_true, if_false]
    by_cases h1 : st.2.2 + 1 < 0
    · rw [if_pos h1]
      exact res_in_span_some _ _ _ hb3 (by decide)
    · rw [if_neg h1, ← hb3]
      apply res_in_span_bind _ _ _ (buf_in_span_memset _ _ _ _ (fun h => ⟨by omega, by omega, by omega⟩))
      intro b4 hb4
      exact res_in_span_some _ _ _ hb4 (by decide)
  · simp only [if_true]
    by_cases h1 : asr xe 8 - abs_x > len
    · rw [if_pos h1]
      exact res_in_span_some _ _ _ hb3 (by decide)
    · rw [if_neg h1, ← hb3]
      apply res_in_span_bind _ _ _ (buf_in_span_memset _ _ _ _ (fun h => ⟨by omega, by omega, by omega⟩))
      intro b4 hb4
      exact res_in_span_some _ _ _ hb4 (by decide)

/-- `line_mask_flat` stays in the buffer. -/
theorem line_mask_flat_in_span (mask_buf : List Nat) (abs_x abs_y len : Int)
    (p : lv_draw_mask_line_param_t) (hl : mask_buf.length = len.toNat) :
    res_in_span mask_buf.length (line_mask_flat mask_buf abs_x abs_y len p) := by
  simp only [line_mask_flat]
  split_ifs
  all_goals first
    | exact res_in_span_some _ _ _ rfl (by decide)
    | exact line_mask_flat_aa_in_span mask_buf abs_x len _ p hl

/-- The branch of `line_mask_steep` for a line that stays in one column stays in the
buffer. -/
theorem line_mask_steep_one_in_span (mask_buf : List Nat) (abs_x len k xsi xsf xef : Int)
    (p : lv_draw_mask_line_param_t) (hl : mask_buf.length = len.toNat) :
    res_in_span mask_buf.length (line_mask_steep_one mask_buf abs_x len k xsi xsf xef p) := by
  simp only [line_mask_steep_one]
  apply res_in_span_bind _ _ _ (buf_in_span_mix _ _ _ _ (fun h => ⟨h.1, by omega⟩))
  intro b1 hb1
  cases p.inv
  · simp only [Bool.false_eq_true, if_false]
    by_cases h1 : (if k + 1 > len then len else k + 1) = 0
    · rw [if_pos h1]
      exact res_in_span_some _ _ _ hb1 (by decide)
    · rw [if_neg h1, ← hb1]
      apply res_in_span_bind _ _ _ (buf_in_span_memset _ _ _ _
        (fun h => ⟨by omega, by split_ifs <;> omega, by split_ifs <;> omega⟩))
      intro b2 hb2
      exact res_in_span_some _ _ _ hb2 (by decide)
  · simp only [if_true]
    by_cases h1 : xsi - abs_x ≥ len
    · rw [if_pos h1]
      exact res_in_span_some _ _ _ hb1 (by decide)
    · rw [if_neg h1, ← hb1]
      apply res_in_span_bind _ _ _ (buf_in_span_memset _ _ _ _
        (fun h => ⟨by omega, by omega, by omega⟩))
      intro b2 hb2
      exact res_in_span_some _ _ _ hb2 (by decide)

/-- The branch of `line_mask_steep` for `xy_steep < 0` stays in the buffer. -/
theorem line_mask_steep_neg_in_span (mask_buf : List Nat) (abs_x len k xsi xsf : Int)
    (p : lv_draw_mask_line_param_t) (hl : mask_buf.length = len.toNat) :
    res_in_span mask_buf.length (line_mask_steep_neg mask_buf abs_x len k xsi xsf p) := by
  simp only [line_mask_steep_neg]
  apply res_in_span_bind _ _ _ (buf_in_span_mix _ _ _ _ (fun h => ⟨h.1, by omega⟩))
  intro b1 hb1
  rw [← hb1]
  apply res_in_span_bind _ _ _ (buf_in_span_mix _ _ _ _ (fun h => ⟨h.1, by omega⟩))
  intro b2 hb2
  cases p.inv
  · simp only [Bool.false_eq_true, if_false]
    by_cases h1 : k - 1 + 2 > len
    · rw [if_pos h1]
      exact res_in_span_some _ _ _ hb2 (by decide)
    · rw [if_neg h1, ← hb2]
      apply res_in_span_bind _ _ _ (buf_in_span_memset _ _ _ _
        (fun h => ⟨by omega, by omega, by omega⟩))
      intro b3 hb3
      exact res_in_span_some _ _ _ hb3 (by decide)
  · simp only [if_true]
    rw [← hb2]
    apply res_in_span_bind
    · by_cases h1 : xsi - abs_x - 1 > len
      · rw [if_pos h1]
        exact ⟨b2, rfl, rfl⟩
      · rw [if_neg h1]
        exact buf_in_span_memset _ _ _ _ (fun h => ⟨by omega, by omega, by omega⟩)
    · intro b3 hb3
      exact res_in_span_some _ _ _ hb3 (by decide)

/-- The last branch of `line_mask_steep` stays in the buffer. -/
theorem line_mask_steep_pos_in_span (mask_buf : List Nat) (abs_x len k xsi xsf : Int)
    (p : lv_draw_mask_line_param_t) (hl : mask_buf.length = len.toNat) :
    res_in_span mask_buf.length (line_mask_steep_pos mask_buf abs_x len k xsi xsf p) := by
  simp only [line_mask_steep_pos]
  apply res_in_span_bind _ _ _ (buf_in_span_mix _ _ _ _ (fun h => ⟨h.1, by omega⟩))
  intro b1 hb1
  rw [← hb1]
  apply res_in_span_bind _ _ _ (buf_in_span_mix _ _ _ _ (fun h => ⟨h.1, by omega⟩))
  intro b2 hb2
  cases p.inv
  · simp only [Bool.false_eq_true, if_false]
    by_cases h1 : (if k + 1 + 1 > len then len else k + 1 + 1) = 0
    · rw [if_pos h1]
      exact res_in_span_some _ _ _ hb2 (by decide)
    · rw [if_neg h1, ← hb2]
      apply res_in_span_bind _ _ _ (buf_in_span_memset _ _ _ _
        (fun h => ⟨by omega, by split_ifs <;> omega, by split_ifs <;> omega⟩))
      intro b3 hb3
      exact res_in_span_some _ _ _ hb3 (by decide)
  · simp only [if_true]
    by_cases h1 : xsi - abs_x > len
    · rw [if_pos h1]
      exact res_in_span_some _ _ _ hb2 (by decide)
    · rw [if_neg h1, ← hb2]
      apply res_in_span_bind _ _ _ (buf_in_span_memset _ _ _ _
        (fun h => ⟨by omega, by omega, by omega⟩))
      intro b3 hb3
      exact res_in_span_some _ _ _ hb3 (by decide)

/-- The part of `line_mask_steep` behind the early returns stays in the buffer. -/
theorem line_mask_steep_aa_in_span (mask_buf : List Nat) (abs_x len xs xe : Int)
    (p : lv_draw_mask_line_param_t) (hl : mask_buf.length = len.toNat) :
    res_in_span mask_buf.length (line_mask_steep_aa mask_buf abs_x len xs xe p) := by
  simp only [line_mask_steep_aa]
  by_cases h1 : asr xs 8 ≠ asr xe 8 ∧ (p.xy_steep < 0 ∧ xs % 256 = 0)
  · rw [if_pos h1]
    exact line_mask_steep_one_in_span mask_buf abs_x len _ _ _ _ p hl
  · rw [if_neg h1]
    by_cases h2 : asr xs 8 = asr xe 8
    · rw [if_pos h2]
      exact line_mask_steep_one_in_span mask_buf abs_x len _ _ _ _ p hl
    · rw [if_neg h2]
      by_cases h3 : p.xy_steep < 0
      · rw [if_pos h3]
        exact line_mask_steep_neg_in_span mask_buf abs_x len _ _ _ p hl
      · rw [if_neg h3]
        exact line_mask_steep_pos_in_span mask_buf abs_x len _ _ _ p hl

/-- `line_mask_steep` stays in the buffer. -/
theorem line_mask_steep_in_span (mask_buf : List Nat) (abs_x abs_y len : Int)
    (p : lv_draw_mask_line_param_t) (hl : mask_buf.length = len.toNat) :
    res_in_span mask_buf.length (line_mask_steep mask_buf abs_x abs_y len p) := by
  simp only [line_mask_steep]
  by_cases h1 : (if p.xy_steep > 0 then asr (int32_t (p.xy_steep * abs_y)) 10 + 1
      else asr (int32_t (p.xy_steep * abs_y)) 10) < abs_x
  · rw [if_pos h1]
    exact res_in_span_some _ _ _ rfl (by cases p.inv <;> decide)
  · rw [if_neg h1]
    by_cases h2 : asr (int32_t (p.xy_steep * abs_y)) 10 > abs_x + len
    · rw [if_pos h2]
      exact res_in_span_some _ _ _ rfl (by cases p.inv <;> decide)
    · rw [if_neg h2]
      exact line_mask_steep_aa_in_span mask_buf abs_x len _ _ p hl

/-- `lv_draw_mask_line` returns for every block, every buffer of `len` bytes and every
scanline, never gives `UNKNOWN`, and every byte it writes is a byte of the buffer. -/
theorem lv_draw_mask_line_in_span (mask_buf : List Nat) (abs_x abs_y len : Int)
    (p : lv_draw_mask_line_param_t) (hl : mask_buf.length = len.toNat) :
    res_in_span mask_buf.length (lv_draw_mask_line mask_buf abs_x abs_y len p) := by
  simp only [lv_draw_mask_line]
  by_cases hs : p.steep = 0
  · rw [if_pos hs]
    by_cases hf : p.flat = true
    · rw [if_pos hf]
      split_ifs <;> exact res_in_span_some _ _ _ rfl (by decide)
    · rw [if_neg hf]
      by_cases h1 : p.cfg_side = LV_DRAW_MASK_LINE_SIDE_TOP ∨
          p.cfg_side = LV_DRAW_MASK_LINE_SIDE_BOTTOM
      · rw [if_pos h1]
        exact res_in_span_some _ _ _ rfl (by decide)
      · rw [if_neg h1]
        by_cases h2 : p.cfg_side = LV_DRAW_MASK_LINE_SIDE_RIGHT ∧ abs_x - p.origo_x > 0
        · rw [if_pos h2]
          exact res_in_span_some _ _ _ rfl (by decide)
        · rw [if_neg h2]
          by_cases h3 : p.cfg_side = LV_DRAW_MASK_LINE_SIDE_LEFT
          · rw [if_pos h3]
            by_cases h4 : abs_x - p.origo_x + len < 0
            · rw [if_pos h4]
              exact res_in_span_some _ _ _ rfl (by decide)
            · rw [if_neg h4]
              by_cases h5 : -(abs_x - p.origo_x) < 0
              · rw [if_pos h5]
                exact res_in_span_some _ _ _ rfl (by decide)
              · rw [if_neg h5]
                apply res_in_span_bind _ _ _ (buf_in_span_memset _ _ _ _
                  (fun h => ⟨by omega, by omega, by omega⟩))
                intro b1 hb1
                exact res_in_span_some _ _ _ hb1 (by decide)
          · rw [if_neg h3]
            by_cases h4 : abs_x - p.origo_x + len < 0
            · rw [if_pos h4]
              exact res_in_span_some _ _ _ rfl (by decide)
            · rw [if_neg h4]
              by_cases h5 : (if -(abs_x - p.origo_x) < 0 then 0 else -(abs_x - p.origo_x)) ≥ len
              · rw [if_pos h5]
                exact res_in_span_some _ _ _ rfl (by decide)
              · rw [if_neg h5]
                apply res_in_span_bind _ _ _ (buf_in_span_memset _ _ _ _
                  (fun h => ⟨by omega, by omega, by omega⟩))
                intro b1 hb1
                exact res_in_span_some _ _ _ hb1 (by decide)
  · rw [if_neg hs]
    by_cases hf : p.flat = true
    · rw [if_pos hf]
      exact line_mask_flat_in_span mask_buf _ _ len p hl
    · rw [if_neg hf]
      exact line_mask_steep_in_span mask_buf _ _ len p hl

/-- A call of the line generator on a part of the buffer, as `lv_draw_mask_angle` makes it,
stays in the buffer. -/
theorem lv_draw_mask_angle_part_in_span (mask_buf : List Nat) (start abs_x abs_y n : Int)
    (p : lv_draw_mask_line_param_t) (h0 : 0 ≤ start) (hn : 0 ≤ n)
    (hsum : start + n ≤ mask_buf.length) :
    res_in_span mask_buf.length (lv_draw_mask_angle_part mask_buf start abs_x abs_y n p) := by
  simp only [lv_draw_mask_angle_part]
  have hsub : ((mask_buf.drop start.toNat).take n.toNat).length = n.toNat := by
    simp only [List.length_take, List.length_drop]
    omega
  obtain ⟨r, hr, hlr, hur⟩ := lv_draw_mask_line_in_span
    ((mask_buf.drop start.toNat).take n.toNat) abs_x abs_y n p hsub
  rw [hr]
  simp only [Option.some_bind]
  have hl1 : (mask_buf.take start.toNat ++ r.2 ++ mask_buf.drop (start.toNat + n.toNat)).length
      = mask_buf.length := by
    simp only [List.length_append, List.length_take, List.length_drop, hlr, hsub]
    omega
  by_cases ht : r.1 = LV_DRAW_MASK_RES_TRANSP
  · rw [if_pos ht]
    obtain ⟨b2, hb2, hl2, -⟩ := lv_memset_00_spec
      (mask_buf.take start.toNat ++ r.2 ++ mask_buf.drop (start.toNat + n.toNat)) start n h0 hn
      (by rw [hl1]; exact hsum)
    rw [hb2]
    exact ⟨_, rfl, by rw [hl2, hl1], hur⟩
  · rw [if_neg ht]
    exact ⟨_, rfl, hl1, hur⟩

/-- The index at which `lv_draw_mask_angle` splits the span is at most `len`. -/
theorem lv_draw_mask_angle_tmp_le (len rel_x rel_y : Int) (p : lv_draw_mask_angle_param_t) :
    lv_draw_mask_angle_tmp len rel_x rel_y p ≤ len := by
  simp only [lv_draw_mask_angle_tmp]
  generalize (_ : Int) + asr _ 1 - rel_x = t
  split_ifs <;> omega

/-- The split regimes of `lv_draw_mask_angle` stay in the buffer. -/
theorem lv_draw_mask_angle_split_in_span (mask_buf : List Nat) (abs_x abs_y len tmp : Int)
    (first second : lv_draw_mask_line_param_t)
    (hl : mask_buf.length = len.toNat) (hlen : 0 ≤ len) (htmp : tmp ≤ len) :
    res_in_span mask_buf.length
      (lv_draw_mask_angle_split mask_buf abs_x abs_y len tmp first second) := by
  simp only [lv_draw_mask_angle_split]
  have h1 : res_in_span mask_buf.length
      (if tmp > 0 then lv_draw_mask_angle_part mask_buf 0 abs_x abs_y tmp first
        else some (LV_DRAW_MASK_RES_FULL_COVER, mask_buf)) := by
    by_cases ht : tmp > 0
    · rw [if_pos ht]
      exact lv_draw_mask_angle_part_in_span mask_buf 0 abs_x abs_y tmp first (le_refl 0)
        (by omega) (by omega)
    · rw [if_neg ht]
      exact res_in_span_some _ _ _ rfl (by decide)
  obtain ⟨r1, hr1, hl1, hu1⟩ := h1
  rw [hr1]
  simp only [Option.some_bind]
  obtain ⟨r2, hr2, hl2, hu2⟩ := lv_draw_mask_angle_part_in_span r1.2
    (if (if tmp > len then len else tmp) < 0 then 0 else (if tmp > len then len else tmp))
    (abs_x + (if (if tmp > len then len else tmp) < 0 then 0
      else (if tmp > len then len else tmp))) abs_y
    (len - (if (if tmp > len then len else tmp) < 0 then 0
      else (if tmp > len then len else tmp))) second
    (by split_ifs <;> omega) (by split_ifs <;> omega) (by rw [hl1]; split_ifs <;> omega)
  rw [hr2]
  simp only [Option.some_bind]
  refine ⟨_, rfl, by rw [hl2, hl1], ?_⟩
  by_cases he : r1.1 = r2.1
  · rw [if_pos he]
    exact hu1
  · rw [if_neg he]
    exact (by decide : LV_DRAW_MASK_RES_CHANGED ≠ LV_DRAW_MASK_RES_UNKNOWN)

/-- The computation of `res1` in the last regime of `lv_draw_mask_angle` returns and stays in
the buffer. -/
theorem lv_draw_mask_angle_res1_in_span (mask_buf : List Nat) (abs_x abs_y len : Int)
    (p : lv_draw_mask_angle_param_t) (hl : mask_buf.length = len.toNat) :
    ∃ r, lv_draw_mask_angle_res1 mask_buf abs_x abs_y len p = some r ∧
      r.2.length = mask_buf.length := by
  simp only [lv_draw_mask_angle_res1]
  by_cases h1 : p.cfg_start_angle = 180
  · rw [if_pos h1]
    exact ⟨_, rfl, rfl⟩
  · rw [if_neg h1]
    by_cases h2 : p.cfg_start_angle = 0
    · rw [if_pos h2]
      exact ⟨_, rfl, rfl⟩
    · rw [if_neg h2]
      by_cases h3 : (p.cfg_start_angle < 180 ∧ abs_y < p.cfg_vertex_p.y) ∨
          (p.cfg_start_angle > 180 ∧ abs_y ≥ p.cfg_vertex_p.y)
      · rw [if_pos h3]
        exact ⟨_, rfl, rfl⟩
      · rw [if_neg h3]
        obtain ⟨r, hr, hlr, -⟩ := lv_draw_mask_line_in_span mask_buf abs_x abs_y len
          p.start_line hl
        exact ⟨r, hr, hlr⟩

/-- The computation of `res2` in the last regime of `lv_draw_mask_angle` returns and stays in
the buffer. -/
theorem lv_draw_mask_angle_res2_in_span (mask_buf : List Nat) (abs_x abs_y len : Int)
    (p : lv_draw_mask_angle_param_t) (hl : mask_buf.length = len.toNat) :
    ∃ r, lv_draw_mask_angle_res2 mask_buf abs_x abs_y len p = some r ∧
      r.2.length = mask_buf.length := by
  simp only [lv_draw_mask_angle_res2]
  by_cases h1 : p.cfg_end_angle = 180
  · rw [if_pos h1]
    exact ⟨_, rfl, rfl⟩
  · rw [if_neg h1]
    by_cases h2 : p.cfg_end_angle = 0
    · rw [if_pos h2]
      exact ⟨_, rfl, rfl⟩
    · rw [if_neg h2]
      by_cases h3 : (p.cfg_end_angle < 180 ∧ abs_y < p.cfg_vertex_p.y) ∨
          (p.cfg_end_angle > 180 ∧ abs_y ≥ p.cfg_vertex_p.y)
      · rw [if_pos h3]
        exact ⟨_, rfl, rfl⟩
      · rw [if_neg h3]
        obtain ⟨r, hr, hlr, -⟩ := lv_draw_mask_line_in_span mask_buf abs_x abs_y len
          p.end_line hl
        exact ⟨r, hr, hlr⟩

/-- The combination of two results is never `UNKNOWN`. -/
theorem lv_draw_mask_angle_combine_ne_unknown (res1 res2 : lv_draw_mask_res_t) :
    lv_draw_mask_angle_combine res1 res2 ≠ LV_DRAW_MASK_RES_UNKNOWN := by
  cases res1 <;> cases res2 <;> decide

/-- `lv_draw_mask_angle` returns for every block, every buffer of `len` bytes and every
scanline, never gives `UNKNOWN`, and every byte it writes is a byte of the buffer. -/
theorem lv_draw_mask_angle_in_span (mask_buf : List Nat) (abs_x abs_y len : Int)
    (p : lv_draw_mask_angle_param_t) (hl : mask_buf.length = len.toNat) (hlen : 0 ≤ len) :
    res_in_span mask_buf.length (lv_draw_mask_angle mask_buf abs_x abs_y len p) := by
  simp only [lv_draw_mask_angle]
  by_cases h1 : p.cfg_start_angle < 180 ∧ p.cfg_end_angle < 180 ∧ p.cfg_start_angle ≠ 0 ∧
      p.cfg_end_angle ≠ 0 ∧ p.cfg_start_angle > p.cfg_end_angle
  · rw [if_pos h1]
    by_cases h2 : abs_y < p.cfg_vertex_p.y
    · rw [if_pos h2]
      exact res_in_span_some _ _ _ rfl (by decide)
    · rw [if_neg h2]
      exact lv_draw_mask_angle_split_in_span mask_buf abs_x abs_y len _ _ _ hl hlen
        (lv_draw_mask_angle_tmp_le _ _ _ _)
  · rw [if_neg h1]
    by_cases h2 : p.cfg_start_angle > 180 ∧ p.cfg_end_angle > 180 ∧
        p.cfg_start_angle > p.cfg_end_angle
    · rw [if_pos h2]
      by_cases h3 : abs_y > p.cfg_vertex_p.y
      · rw [if_pos h3]
        exact res_in_span_some _ _ _ rfl (by decide)
      · rw [if_neg h3]
        exact lv_draw_mask_angle_split_in_span mask_buf abs_x abs_y len _ _ _ hl hlen
          (lv_draw_mask_angle_tmp_le _ _ _ _)
    · rw [if_neg h2]
      obtain ⟨r1, hr1, hl1⟩ := lv_draw_mask_angle_res1_in_span mask_buf abs_x abs_y len p hl
      obtain ⟨r2, hr2, hl2⟩ := lv_draw_mask_angle_res2_in_span r1.2 abs_x abs_y len p
        (by rw [hl1, hl])
      rw [hr1]
      simp only [Option.some_bind]
      rw [hr2]
      exact ⟨_, rfl, by rw [hl2, hl1], lv_draw_mask_angle_combine_ne_unknown _ _⟩

/-- `lv_draw_mask_fade` returns for every block, every buffer of `len` bytes and every
scanline, and every byte it writes is a byte of the buffer. -/
theorem lv_draw_mask_fade_in_span (mask_buf : List Nat) (abs_x abs_y len : Int)
    (p : lv_draw_mask_fade_param_t) (hl : mask_buf.length = len.toNat) :
    res_in_span mask_buf.length (lv_draw_mask_fade mask_buf abs_x abs_y len p) := by
  obtain ⟨h1, h2⟩ := lv_draw_mask_fade_spec p mask_buf abs_x abs_y len hl
  by_cases hc : abs_y < p.cfg_coords.y1 ∨ abs_y > p.cfg_coords.y2 ∨
      abs_x + len < p.cfg_coords.x1 ∨ abs_x > p.cfg_coords.x2
  · rw [h1 hc]
    exact res_in_span_some _ _ _ rfl (by decide)
  · obtain ⟨b, hb, hlb, -⟩ := h2 hc
    rw [hb]
    exact res_in_span_some _ _ _ hlb (by decide)

/-- `lv_draw_mask_map` returns for every block whose map holds one byte for every pixel of the
rectangle, every buffer of `len` bytes and every scanline, and every byte it writes is a byte of
the buffer. -/
theorem lv_draw_mask_map_in_span (mask_buf : List Nat) (abs_x abs_y len : Int)
    (p : lv_draw_mask_map_param_t) (hl : mask_buf.length = len.toNat)
    (hm : lv_area_get_width p.cfg_coords * lv_area_get_height p.cfg_coords ≤ p.cfg_map.length) :
    res_in_span mask_buf.length (lv_draw_mask_map mask_buf abs_x abs_y len p) := by
  obtain ⟨h1, h2⟩ := lv_draw_mask_map_spec p mask_buf abs_x abs_y len hl hm
  by_cases hc : abs_y < p.cfg_coords.y1 ∨ abs_y > p.cfg_coords.y2 ∨
      abs_x + len < p.cfg_coords.x1 ∨ abs_x > p.cfg_coords.x2
  · rw [h1 hc]
    exact res_in_span_some _ _ _ rfl (by decide)
  · obtain ⟨b, hb, hlb, -⟩ := h2 hc
    rw [hb]
    exact res_in_span_some _ _ _ hlb (by decide)

/-- A read of an array inside its bounds. -/
theorem array_get_some (a : List Nat) (i : Int) (h0 : 0 ≤ i) (h1 : i < a.length) :
    array_get a i = some (a.getD i.toNat 0) := by
  have hlt : i.toNat < a.length := by omega
  simp only [array_get, if_pos h0, List.getD_eq_getElem?_getD, List.getElem?_eq_getElem hlt,
    Option.getD_some]

/-- The statement `mask_buf[k] = mask_mix(opa, mask_buf[k])` under a guard that makes `k` an
index of the buffer stays in the buffer. -/
theorem buf_in_span_mix_opa (g : Prop) [Decidable g] (mask_buf : List Nat) (k : Int) (opa : Nat)
    (h : g → 0 ≤ k ∧ k < mask_buf.length) :
    buf_in_span mask_buf.length
      (if g then mask_buf_mix_opa mask_buf k opa else some mask_buf) := by
  by_cases hg : g
  · obtain ⟨h0, h1⟩ := h hg
    have hlt : k.toNat < mask_buf.length := by omega
    rw [if_pos hg]
    simp only [mask_buf_mix_opa, if_pos h0, List.getElem?_eq_getElem hlt]
    exact ⟨_, rfl, by simp⟩
  · rw [if_neg hg]
    exact ⟨_, rfl, rfl⟩

/-- The loops of `lv_draw_mask_radius` stay in the buffer when the entries they read lie in
`cir_opa`. -/
theorem lv_draw_mask_radius_loop_in_span (c : _lv_draw_mask_radius_circle_dsc_t) (outer : Bool)
    (aa_opa aa_len cir_x_right cir_x_left len : Int) (n : Nat) (i : Int) (mask_buf : List Nat)
    (hl : mask_buf.length = len.toNat) (h0 : 0 ≤ aa_opa) (hi : 0 ≤ i)
    (hn : 0 < n → aa_opa + aa_len ≤ c.cir_opa.length ∧ i + n ≤ aa_len) :
    buf_in_span mask_buf.length
      (lv_draw_mask_radius_loop c outer aa_opa aa_len cir_x_right cir_x_left len n i
        mask_buf) := by
  induction n generalizing i mask_buf with
  | zero => exact ⟨mask_buf, rfl, rfl⟩
  | succ n ih =>
    obtain ⟨h1, h2⟩ := hn (Nat.succ_pos n)
    simp only [lv_draw_mask_radius_loop]
    rw [array_get_some c.cir_opa (aa_opa + (aa_len - i - 1)) (by push_cast at h2; omega)
      (by push_cast at h2; omega)]
    simp only [Option.some_bind]
    apply buf_in_span_bind _ _ _ (buf_in_span_mix_opa _ _ _ _ (fun h => ⟨by omega, by omega⟩))
    intro b1 hb1
    rw [← hb1]
    apply buf_in_span_bind _ _ _ (buf_in_span_mix_opa _ _ _ _ (fun h => ⟨by omega, by omega⟩))
    intro b2 hb2
    rw [← hb2]
    exact ih (i + 1) b2 (by rw [hb2, hb1, hl]) (by omega)
      (fun _ => ⟨h1, by push_cast at h2; omega⟩)

/-- `LV_CLAMP(0, val, max)` lies between 0 and `max` for `max >= 0`. -/
theorem LV_CLAMP_range (val max : Int) (h : 0 ≤ max) :
    0 ≤ LV_CLAMP 0 val max ∧ LV_CLAMP 0 val max ≤ max := by
  simp only [LV_CLAMP, LV_MAX, LV_MIN]
  split_ifs <;> omega

/-- `LV_CLAMP(0, val, max)` is 0 for `max < 0`. -/
theorem LV_CLAMP_neg (val max : Int) (h : max < 0) : LV_CLAMP 0 val max = 0 := by
  simp only [LV_CLAMP, LV_MAX, LV_MIN]
  split_ifs <;> omega

/-- `lv_draw_mask_radius` returns for every descriptor with arrays of 300 bytes, every block
with a radius below 300, every buffer of `len` bytes and every scanline, and every byte it
writes is a byte of the buffer. -/
theorem lv_draw_mask_radius_in_span (circle : _lv_draw_mask_radius_circle_dsc_t)
    (mask_buf : List Nat) (abs_x abs_y len : Int) (p : lv_draw_mask_radius_param_t)
    (hwf : circle_dsc_wf circle) (hr : p.cfg_radius < 300)
    (hl : mask_buf.length = len.toNat) (hlen : 0 ≤ len) :
    res_in_span mask_buf.length (lv_draw_mask_radius circle mask_buf abs_x abs_y len p) := by
  obtain ⟨hw1, hw2, hw3, hw4⟩ := hwf
  simp only [lv_draw_mask_radius]
  by_cases h1 : abs_y < p.cfg_rect.y1 ∨ abs_y > p.cfg_rect.y2
  · rw [if_pos h1]
    exact res_in_span_some _ _ _ rfl (by cases p.cfg_outer <;> decide)
  · rw [if_neg h1]
    by_cases h2 : (abs_x ≥ p.cfg_rect.x1 + p.cfg_radius ∧
        abs_x + len ≤ p.cfg_rect.x2 - p.cfg_radius) ∨
        (abs_y ≥ p.cfg_rect.y1 + p.cfg_radius ∧ abs_y ≤ p.cfg_rect.y2 - p.cfg_radius)
    · rw [if_pos h2]
      cases p.cfg_outer
      · simp only [if_true]
        by_cases h3 : p.cfg_rect.x1 - abs_x > len
        · rw [if_pos h3]
          exact res_in_span_some _ _ _ rfl (by decide)
        · rw [if_neg h3]
          apply res_in_span_bind _ _ _ (buf_in_span_memset _ _ _ _
            (fun h => ⟨le_refl 0, by omega, by omega⟩))
          intro b1 hb1
          by_cases h4 : p.cfg_rect.x2 - abs_x + 1 ≤ 0
          · rw [if_pos h4]
            exact res_in_span_some _ _ _ hb1 (by decide)
          · rw [if_neg h4, ← hb1]
            apply res_in_span_bind _ _ _ (buf_in_span_memset _ _ _ _
              (fun h => ⟨by omega, by omega, by omega⟩))
            intro b2 hb2
            split_ifs <;> exact res_in_span_some _ _ _ hb2 (by decide)
      · simp only [Bool.true_eq_false, if_false]
        apply res_in_span_bind
        · by_cases h3 : (if p.cfg_rect.x1 - abs_x < 0 then 0 else p.cfg_rect.x1 - abs_x) ≤ len
          · rw [if_pos h3]
            exact buf_in_span_memset _ _ _ _
              (fun h => ⟨by split_ifs <;> omega, h, by split_ifs at h h3 ⊢ <;> omega⟩)
          · rw [if_neg h3]
            exact ⟨_, rfl, rfl⟩
        · intro b1 hb1
          exact res_in_span_some _ _ _ hb1 (by decide)
    · rw [if_neg h2]
      simp only [lv_area_get_height]
      generalize hcy : (if abs_y - p.cfg_rect.y1 < p.cfg_radius then
        p.cfg_radius - (abs_y - p.cfg_rect.y1) - 1
        else abs_y - p.cfg_rect.y1 - (p.cfg_rect.y2 - p.cfg_rect.y1 + 1 - p.cfg_radius)) = cir_y
      have hcy0 : 0 ≤ cir_y ∧ cir_y + 1 < 300 := by
        rw [← hcy]
        split_ifs <;> omega
      have ho1 : circle.opa_start_on_y.getD (cir_y + 1).toNat 0 < 256 := by
        have hlt : (cir_y + 1).toNat < circle.opa_start_on_y.length := by omega
        rw [List.getD_eq_getElem?_getD, List.getElem?_eq_getElem hlt, Option.getD_some]
        exact hw4 _ (List.getElem_mem _)
      simp only [get_next_line]
      rw [array_get_some _ (cir_y + 1) (by omega) (by omega),
        array_get_some _ cir_y (by omega) (by omega),
        array_get_some _ cir_y (by omega) (by omega)]
      simp only [Option.some_bind, Option.map_some', Option.pure_def, Option.bind_eq_bind]
      generalize circle.opa_start_on_y.getD (cir_y + 1).toNat 0 = o1 at ho1 ⊢
      generalize circle.opa_start_on_y.getD cir_y.toNat 0 = o0
      generalize circle.x_start_on_y.getD cir_y.toNat 0 = xs
      apply res_in_span_bind _ _ _ (lv_draw_mask_radius_loop_in_span circle p.cfg_outer _ _ _ _
        len _ 0 mask_buf hl (by omega) (le_refl 0) (fun h => ⟨by omega, by omega⟩))
      intro b1 hb1
      cases p.cfg_outer
      · simp only [if_true]
        rw [← hb1]
        obtain ⟨c1, c2⟩ := LV_CLAMP_range
          (p.cfg_rect.x1 - abs_x + lv_area_get_width p.cfg_rect - p.cfg_radius + (xs : Int)
            + (if (0 : Int) < (o1 : Int) - (o0 : Int) then (o1 : Int) - (o0 : Int) else 0)) len hlen
        generalize LV_CLAMP 0
          (p.cfg_rect.x1 - abs_x + lv_area_get_width p.cfg_rect - p.cfg_radius + (xs : Int)
            + (if (0 : Int) < (o1 : Int) - (o0 : Int) then (o1 : Int) - (o0 : Int) else 0)) len
          = cr at c1 c2 ⊢
        obtain ⟨b2, hb2, hl2, -⟩ := lv_memset_00_spec b1 cr (len - cr) c1 (by omega)
          (by rw [hb1, hl]; omega)
        rw [hb2]
        simp only [Option.some_bind]
        obtain ⟨c3, c4⟩ := LV_CLAMP_range
          (p.cfg_rect.x1 - abs_x + p.cfg_radius - (xs : Int) - 1 - ((o1 : Int) - (o0 : Int)) + 1)
          len hlen
        generalize LV_CLAMP 0
          (p.cfg_rect.x1 - abs_x + p.cfg_radius - (xs : Int) - 1 - ((o1 : Int) - (o0 : Int)) + 1)
          len = cl at c3 c4 ⊢
        obtain ⟨b3, hb3, hl3, -⟩ := lv_memset_00_spec b2 0 cl (le_refl 0) c3
          (by rw [hl2, hb1, hl]; omega)
        rw [hb3]
        exact res_in_span_some _ _ _ (by rw [hl3, hl2]) (by decide)
      · simp only [Bool.true_eq_false, if_false]
        by_cases hlen0 : len - 1 < 0
        · have e1 := LV_CLAMP_neg (p.cfg_rect.x1 - abs_x + p.cfg_radius - (xs : Int) - 1 + 1)
            (len - 1) hlen0
          rw [e1]
          obtain ⟨c1, c2⟩ := LV_CLAMP_range
            (p.cfg_rect.x1 - abs_x + lv_area_get_width p.cfg_rect - p.cfg_radius + (xs : Int) - 0)
            (len - 0) (by omega)
          generalize LV_CLAMP 0
            (p.cfg_rect.x1 - abs_x + lv_area_get_width p.cfg_rect - p.cfg_radius + (xs : Int) - 0)
            (len - 0) = cn at c1 c2 ⊢
          obtain ⟨b2, hb2, hl2, -⟩ := lv_memset_00_spec b1 0 cn (le_refl 0) c1
            (by rw [hb1, hl]; omega)
          rw [hb2]
          exact res_in_span_some _ _ _ (by rw [hl2, hb1]) (by decide)
        · obtain ⟨c1, c2⟩ := LV_CLAMP_range
            (p.cfg_rect.x1 - abs_x + p.cfg_radius - (xs : Int) - 1 + 1) (len - 1) (by omega)
          generalize LV_CLAMP 0 (p.cfg_rect.x1 - abs_x + p.cfg_radius - (xs : Int) - 1 + 1)
            (len - 1) = clr_start at c1 c2 ⊢
          obtain ⟨c3, c4⟩ := LV_CLAMP_range
            (p.cfg_rect.x1 - abs_x + lv_area_get_width p.cfg_rect - p.cfg_radius + (xs : Int)
              - clr_start) (len - clr_start) (by omega)
          generalize LV_CLAMP 0
            (p.cfg_rect.x1 - abs_x + lv_area_get_width p.cfg_rect - p.cfg_radius + (xs : Int)
              - clr_start) (len - clr_start) = clr_len at c3 c4 ⊢
          obtain ⟨b2, hb2, hl2, -⟩ := lv_memset_00_spec b1 clr_start clr_len c1 c3
            (by rw [hb1, hl]; omega)
          rw [hb2]
          exact res_in_span_some _ _ _ (by rw [hl2, hb1]) (by decide)

/-! ## The circle descriptor `cir_calc_aa4` builds -/

/-- An assignment to an array that returns keeps the length of the array, and its index is an
index of the array. -/
theorem array_set_some (a a1 : List Nat) (i : Int) (v : Nat) (h : array_set a i v = some a1) :
    a1.length = a.length ∧ 0 ≤ i ∧ i < a.length ∧ ∀ x ∈ a1, x = v ∨ x ∈ a := by
  simp only [array_set] at h
  split_ifs at h with hc
  simp only [Option.some.injEq] at h
  subst h
  refine ⟨by simp, hc.1, hc.2, fun x hx => ?_⟩
  rcases List.mem_or_eq_of_mem_set hx with h1 | h1
  · exact Or.inr h1
  · exact Or.inl h1

/-- The push `cir_push st x y opa` appends `x` to `cir_x` and `y` to `cir_y`, keeps the layout
of the descriptor and leaves the rest of the state as it is. -/
theorem cir_push_some (st st1 : cir_calc_state) (x y : Int) (opa : Nat)
    (h : cir_push st x y opa = some st1) :
    st1.cir_x = st.cir_x ++ [x] ∧ st1.cir_y = st.cir_y ++ [y] ∧
    st1.x_int = st.x_int ∧ st1.y_8th_cnt = st.y_8th_cnt ∧
    (circle_dsc_wf st.c → circle_dsc_wf st1.c) := by
  simp only [cir_push] at h
  split_ifs at h with hc
  cases hs : array_set st.c.cir_opa st.cir_x.length opa with
  | none => rw [hs] at h; simp at h
  | some a =>
    rw [hs] at h
    simp only [Option.map_some', Option.some.injEq] at h
    subst h
    obtain ⟨hl, -, -, -⟩ := array_set_some _ _ _ _ hs
    refine ⟨rfl, rfl, rfl, rfl, fun hwf => ?_⟩
    exact ⟨by rw [hl]; exact hwf.1, hwf.2.1, hwf.2.2.1, hwf.2.2.2⟩

/-- Two pushes in a row. -/
theorem cir_push_push_some (st st2 : cir_calc_state) (x y x1 y1 : Int) (opa opa1 : Nat)
    (h : (cir_push st x y opa).bind (fun s => cir_push s x1 y1 opa1) = some st2) :
    st2.cir_x = st.cir_x ++ [x, x1] ∧ st2.cir_y = st.cir_y ++ [y, y1] ∧
    st2.x_int = st.x_int ∧ st2.y_8th_cnt = st.y_8th_cnt ∧
    (circle_dsc_wf st.c → circle_dsc_wf st2.c) := by
  cases hs : cir_push st x y opa with
  | none => rw [hs] at h; simp at h
  | some s =>
    rw [hs] at h
    simp only [Option.some_bind] at h
    obtain ⟨a1, a2, a3, a4, a5⟩ := cir_push_some _ _ _ _ _ hs
    obtain ⟨b1, b2, b3, b4, b5⟩ := cir_push_some _ _ _ _ _ h
    refine ⟨by rw [b1, a1]; simp, by rw [b2, a2]; simp, by rw [b3, a3], by rw [b4, a4],
      fun hwf => b5 (a5 hwf)⟩

/-- One row of the sweep appends entries to `cir_x` and to `cir_y`, as many to the one as to the
other; the first ones are `x_int[0]` and `y_8th_cnt`. -/
theorem cir_calc_group_some (st st1 : cir_calc_state) (h : cir_calc_group st = some st1) :
    ∃ lx ly : List Int, st1.cir_x = st.cir_x ++ (st.x_int.getD 0 0 :: lx) ∧
      st1.cir_y = st.cir_y ++ (st.y_8th_cnt :: ly) ∧ lx.length = ly.length ∧
      (circle_dsc_wf st.c → circle_dsc_wf st1.c) := by
  simp only [cir_calc_group] at h
  rw [Option.map_eq_some'] at h
  obtain ⟨s2, h2, rfl⟩ := h
  split_ifs at h2 with c0 c1 c2
  · obtain ⟨a1, a2, -, -, a5⟩ := cir_push_some _ _ _ _ _ h2
    exact ⟨[], [], by simpa using a1, by simpa using a2, rfl, a5⟩
  · obtain ⟨a1, a2, -, -, a5⟩ := cir_push_push_some _ _ _ _ _ _ _ _ h2
    exact ⟨[int32_t (st.x_int.getD 0 0 - 1)], [st.y_8th_cnt], by simpa using a1,
      by simpa using a2, rfl, a5⟩
  · obtain ⟨a1, a2, -, -, a5⟩ := cir_push_push_some _ _ _ _ _ _ _ _ h2
    exact ⟨[int32_t (st.x_int.getD 0 0 - 1)], [st.y_8th_cnt], by simpa using a1,
      by simpa using a2, rfl, a5⟩
  · obtain ⟨a1, a2, -, -, a5⟩ := cir_push_push_some _ _ _ _ _ _ _ _ h2
    exact ⟨[int32_t (st.x_int.getD 0 0 - 1)], [st.y_8th_cnt], by simpa using a1,
      by simpa using a2, rfl, a5⟩

/-- The sampling loop leaves the scratch arrays, the descriptor and `y_8th_cnt` as they are,
and from `i ≥ 1` on also `x_int[0]`. -/
theorem cir_calc_sample_some (n : Nat) : ∀ (i : Nat) (st : cir_calc_state),
    (cir_calc_sample n i st).2.cir_x = st.cir_x ∧ (cir_calc_sample n i st).2.cir_y = st.cir_y ∧
    (cir_calc_sample n i st).2.c = st.c ∧
    (cir_calc_sample n i st).2.y_8th_cnt = st.y_8th_cnt ∧
    (1 ≤ i → (cir_calc_sample n i st).2.x_int.getD 0 0 = st.x_int.getD 0 0) := by
  induction n with
  | zero => intro i st; simp [cir_calc_sample]
  | succ n ih =>
    intro i st
    simp only [cir_calc_sample]
    split_ifs with hc
    · obtain ⟨a1, a2, a3, a4, a5⟩ := ih (i + 1)
        { st with cp := (lv_circ_next st.cp st.tmp).1, tmp := (lv_circ_next st.cp st.tmp).2,
                  x_int := st.x_int.set i ((asr (lv_circ_next st.cp st.tmp).1.x 2) % 2 ^ 32),
                  x_fract := st.x_fract.set i ((lv_circ_next st.cp st.tmp).1.x % 4) }
      refine ⟨a1, a2, a3, a4, fun hi => ?_⟩
      rw [a5 (by omega)]
      simp only [List.getD_eq_getElem?_getD]
      rw [List.getElem?_set_ne (by omega)]
    · simp

/-- The sweep appends entries to `cir_x` and to `cir_y`, as many to the one as to the other,
and keeps the layout of the descriptor. -/
theorem cir_calc_sweep_some (fuel : Nat) : ∀ (i : Nat) (st st1 : cir_calc_state),
    cir_calc_sweep fuel i st = some st1 →
    ∃ lx ly : List Int, st1.cir_x = st.cir_x ++ lx ∧ st1.cir_y = st.cir_y ++ ly ∧
      lx.length = ly.length ∧ (circle_dsc_wf st.c → circle_dsc_wf st1.c) := by
  induction fuel with
  | zero => intro i st st1 h; simp [cir_calc_sweep] at h
  | succ fuel ih =>
    intro i st st1 h
    simp only [cir_calc_sweep] at h
    obtain ⟨s1, s2, s3, s4, -⟩ := cir_calc_sample_some (4 - i) i st
    split_ifs at h with hc h4
    · simp only [Option.some.injEq] at h
      subst h
      exact ⟨[], [], by simp [s1], by simp [s2], rfl, fun hwf => by rw [s3]; exact hwf⟩
    · cases hg : cir_calc_group (cir_calc_sample (4 - i) i st).2 with
      | none => rw [hg] at h; simp at h
      | some g =>
        rw [hg] at h
        simp only [Option.some_bind] at h
        obtain ⟨lx, ly, g1, g2, g3, g4⟩ := cir_calc_group_some _ _ hg
        obtain ⟨mx, my, r1, r2, r3, r4⟩ := ih 0 g st1 h
        refine ⟨((cir_calc_sample (4 - i) i st).2.x_int.getD 0 0 :: lx) ++ mx,
          ((cir_calc_sample (4 - i) i st).2.y_8th_cnt :: ly) ++ my, ?_, ?_, ?_, fun hwf => ?_⟩
        · rw [r1, g1, s1, List.append_assoc]
        · rw [r2, g2, s2, List.append_assoc]
        · simp [g3, r3]
        · exact r4 (g4 (by rw [s3]; exact hwf))
    · simp only [Option.some.injEq] at h
      subst h
      exact ⟨[], [], by simp, by simp, rfl, fun hwf => hwf⟩

/-- The first pass of the sweep, entered with empty scratch arrays: either they are still empty
at the end, or `cir_x` starts with `x_int[0]` and `cir_y` with `y_8th_cnt`. -/
theorem cir_calc_sweep_first (fuel : Nat) (st st1 : cir_calc_state)
    (h : cir_calc_sweep (fuel + 1) 1 st = some st1) (hx : st.cir_x = []) (hy : st.cir_y = []) :
    st1.cir_x = [] ∨ ∃ lx ly : List Int, st1.cir_x = st.x_int.getD 0 0 :: lx ∧
      st1.cir_y = st.y_8th_cnt :: ly ∧ lx.length = ly.length := by
  simp only [cir_calc_sweep] at h
  obtain ⟨s1, s2, s3, s4, s5⟩ := cir_calc_sample_some (4 - 1) 1 st
  split_ifs at h with hc h4
  · simp only [Option.some.injEq] at h
    subst h
    exact Or.inl (by rw [s1, hx])
  · cases hg : cir_calc_group (cir_calc_sample (4 - 1) 1 st).2 with
    | none => rw [hg] at h; simp at h
    | some g =>
      rw [hg] at h
      simp only [Option.some_bind] at h
      obtain ⟨lx, ly, g1, g2, g3, -⟩ := cir_calc_group_some _ _ hg
      obtain ⟨mx, my, r1, r2, r3, -⟩ := cir_calc_sweep_some fuel 0 g st1 h
      refine Or.inr ⟨lx ++ mx, ly ++ my, ?_, ?_, ?_⟩
      · rw [r1, g1, s1, hx, s5 (le_refl 1)]; simp
      · rw [r2, g2, s2, hy, s4]; simp
      · simp [g3, r3]
  · simp only [Option.some.injEq] at h
    subst h
    exact Or.inl hx

/-- The mirror loop appends entries to `cir_x` and to `cir_y`, as many to the one as to the
other; when it runs at all, the last entry of `cir_y` is the first one of `cir_x`. -/
theorem cir_calc_mirror_some (n : Nat) : ∀ (st st1 : cir_calc_state),
    cir_calc_mirror n st = some st1 →
    ∃ lx ly : List Int, st1.cir_x = st.cir_x ++ lx ∧ st1.cir_y = st.cir_y ++ ly ∧
      lx.length = ly.length ∧ (1 ≤ n → ly.getLast? = some (st.cir_x.getD 0 0)) ∧
      (circle_dsc_wf st.c → circle_dsc_wf st1.c) := by
  induction n with
  | zero =>
    intro st st1 h
    simp only [cir_calc_mirror, Option.some.injEq] at h
    subst h
    exact ⟨[], [], by simp, by simp, rfl, fun h => absurd h (by omega), fun hwf => hwf⟩
  | succ i ih =>
    intro st st1 h
    simp only [cir_calc_mirror] at h
    cases hy : st.cir_y[i]? with
    | none => rw [hy] at h; simp at h
    | some y =>
      cases hx : st.cir_x[i]? with
      | none => rw [hy, hx] at h; simp at h
      | some x =>
        cases ho : st.c.cir_opa[i]? with
        | none => rw [hy, hx, ho] at h; simp at h
        | some opa =>
          rw [hy, hx, ho] at h
          simp only at h
          cases hp : cir_push st y x opa with
          | none => rw [hp] at h; simp at h
          | some s =>
            rw [hp] at h
            simp only [Option.some_bind] at h
            obtain ⟨p1, p2, -, -, p5⟩ := cir_push_some _ _ _ _ _ hp
            obtain ⟨lx, ly, r1, r2, r3, r4, r5⟩ := ih s st1 h
            refine ⟨y :: lx, x :: ly, by rw [r1, p1]; simp, by rw [r2, p2]; simp, by simp [r3],
              fun _ => ?_, fun hwf => r5 (p5 hwf)⟩
            have hi : i < st.cir_x.length := (List.getElem?_eq_some_iff.mp hx).1
            by_cases h0 : i = 0
            · subst h0
              simp only [cir_calc_mirror, Option.some.injEq] at h
              subst h
              have : ly = [] := by
                have := congrArg List.length r2
                simp only [List.length_append] at this
                exact List.eq_nil_of_length_eq_zero (by omega)
              subst this
              simp only [List.getLast?_singleton, Option.some.injEq]
              rw [List.getD_eq_getElem?_getD, hx]
              rfl
            · have h1 := r4 (by omega)
              have hne : ly ≠ [] := by
                intro hnil
                rw [hnil] at h1
                simp at h1
              have hs : s.cir_x.getD 0 0 = st.cir_x.getD 0 0 := by
                rw [p1, List.getD_eq_getElem?_getD, List.getD_eq_getElem?_getD,
                  List.getElem?_append_left (by omega)]
              cases ly with
              | nil => exact absurd rfl hne
              | cons a t => rw [List.getLast?_cons_cons, h1, hs]

/-- The row loop of the indexing part moves `i` forward over entries whose `cir_y` is `y` and
keeps the layout of the descriptor. -/
theorem cir_calc_row_some (cir_x cir_y : List Int) (y : Int) (n : Nat) :
    ∀ (i : Nat) (c : _lv_draw_mask_radius_circle_dsc_t)
      (r : Nat × _lv_draw_mask_radius_circle_dsc_t),
    cir_calc_row cir_x cir_y y n i c = some r →
    i ≤ r.1 ∧ r.1 ≤ i + n ∧ (∀ j : Nat, i ≤ j → j < r.1 → cir_y.getD j 0 % 2 ^ 32 = y) ∧
    (circle_dsc_wf c → circle_dsc_wf r.2) := by
  induction n with
  | zero =>
    intro i c r h
    simp only [cir_calc_row, Option.some.injEq] at h
    subst h
    exact ⟨le_refl _, le_refl _, fun j h1 h2 => absurd h2 (by simp only; omega), fun hwf => hwf⟩
  | succ n ih =>
    intro i c r h
    have hstop : some (i, c) = some r → i ≤ r.1 ∧ r.1 ≤ i + (n + 1) ∧
        (∀ j : Nat, i ≤ j → j < r.1 → cir_y.getD j 0 % 2 ^ 32 = y) ∧
        (circle_dsc_wf c → circle_dsc_wf r.2) := by
      intro h
      simp only [Option.some.injEq] at h
      subst h
      exact ⟨le_refl _, by simp, fun j h1 h2 => absurd h2 (by simp only; omega), fun hwf => hwf⟩
    simp only [cir_calc_row] at h
    cases hy : cir_y[i]? with
    | none => rw [hy] at h; exact hstop h
    | some cy =>
      cases hx : cir_x[i]? with
      | none => rw [hy, hx] at h; exact hstop h
      | some cx =>
        rw [hy, hx] at h
        simp only at h
        by_cases hc : cy % 2 ^ 32 = y
        · rw [if_pos hc] at h
          cases hg : array_get c.x_start_on_y y with
          | none => rw [hg] at h; simp at h
          | some xs =>
            rw [hg] at h
            simp only [Option.some_bind] at h
            cases hs : array_set c.x_start_on_y y (uint8_t (LV_MIN xs cx)) with
            | none => rw [hs] at h; simp at h
            | some a =>
              rw [hs] at h
              simp only [Option.some_bind] at h
              obtain ⟨r1, r2, r3, r4⟩ := ih (i + 1) _ r h
              obtain ⟨hl, -, -, -⟩ := array_set_some _ _ _ _ hs
              refine ⟨by omega, by omega, fun j h1 h2 => ?_, fun hwf => r4 ?_⟩
              · by_cases hj : j = i
                · subst hj
                  rw [List.getD_eq_getElem?_getD, hy]
                  exact hc
                · exact r3 j (by omega) h2
              · exact ⟨hwf.1, by rw [hl]; exact hwf.2.1, hwf.2.2.1, hwf.2.2.2⟩
        · rw [if_neg hc] at h
          exact hstop h

/-- The indexing part keeps the layout of the descriptor, and as long as entries are left it
ends only when it has indexed the row of the last entry, whose `cir_y` is then below 300. -/
theorem cir_calc_index_some (cir_x cir_y : List Int) (fuel : Nat) :
    ∀ (y : Int) (i : Nat) (c c1 : _lv_draw_mask_radius_circle_dsc_t),
    cir_calc_index cir_x cir_y fuel y i c = some c1 → circle_dsc_wf c →
    circle_dsc_wf c1 ∧
    (i < cir_x.length → cir_y.getD (cir_x.length - 1) 0 % 2 ^ 32 < 300) := by
  induction fuel with
  | zero => intro y i c c1 h; simp [cir_calc_index] at h
  | succ fuel ih =>
    intro y i c c1 h hwf
    simp only [cir_calc_index] at h
    by_cases hi : i < cir_x.length
    · rw [if_pos hi] at h
      cases h1 : array_set c.opa_start_on_y y (uint8_t i) with
      | none => rw [h1] at h; simp at h
      | some a1 =>
        rw [h1] at h
        simp only [Option.some_bind] at h
        cases h2 : array_set c.x_start_on_y y (uint8_t (cir_x.getD i 0)) with
        | none => rw [h2] at h; simp at h
        | some a2 =>
          rw [h2] at h
          simp only [Option.some_bind] at h
          cases h3 : cir_calc_row cir_x cir_y y (cir_x.length - i) i
              { c with opa_start_on_y := a1, x_start_on_y := a2 } with
          | none => rw [h3] at h; simp at h
          | some r =>
            rw [h3] at h
            simp only [Option.some_bind] at h
            obtain ⟨l1, -, y1, m1⟩ := array_set_some _ _ _ _ h1
            obtain ⟨l2, -, -, -⟩ := array_set_some _ _ _ _ h2
            have hwf1 : circle_dsc_wf
                { c with opa_start_on_y := a1, x_start_on_y := a2 } := by
              refine ⟨hwf.1, by rw [l2]; exact hwf.2.1, by rw [l1]; exact hwf.2.2.1,
                fun v hv => ?_⟩
              rcases m1 v hv with e | e
              · rw [e]; exact uint8_t_lt _
              · exact hwf.2.2.2 v e
            obtain ⟨r1, r2, r3, r4⟩ := cir_calc_row_some _ _ _ _ _ _ _ h3
            obtain ⟨w1, w2⟩ := ih _ _ _ _ h (r4 hwf1)
            refine ⟨w1, fun _ => ?_⟩
            by_cases hr : r.1 < cir_x.length
            · exact w2 hr
            · have := r3 (cir_x.length - 1) (by omega) (by omega)
              rw [this]
              rw [hwf.2.2.1] at y1
              exact_mod_cast y1
    · rw [if_neg hi] at h
      simp only [Option.some.injEq] at h
      subst h
      exact ⟨hwf, fun h => absurd h hi⟩

/-- The entry at the last index of a list that ends with a non-empty part. -/
theorem getD_last_append (a l : List Int) (v : Int) (n : Nat) (h : l.getLast? = some v)
    (hn : n = (a ++ l).length) : (a ++ l).getD (n - 1) 0 = v := by
  subst hn
  have h1 : (a ++ l).getLast? = some v := by
    rw [List.getLast?_append, h]
    rfl
  rw [List.getLast?_eq_getElem?] at h1
  rw [List.getD_eq_getElem?_getD, h1]
  rfl

/-- When `cir_calc_aa4` returns, the descriptor keeps its layout, and the radius (a value of a
type of at most 32 bits) is below 300: the row of the last entry, which is the radius, had to be
indexed in `opa_start_on_y`. -/
theorem cir_calc_aa4_some (c c1 : _lv_draw_mask_radius_circle_dsc_t) (radius : Int)
    (hwf : circle_dsc_wf c) (h32 : radius < 2 ^ 32) (h : cir_calc_aa4 c radius = some c1) :
    circle_dsc_wf c1 ∧ radius < 300 := by
  simp only [cir_calc_aa4, cir_calc_aa4_bits] at h
  by_cases h0 : radius = 0
  · rw [if_pos h0] at h
    simp only [Option.some.injEq] at h
    subst h
    exact ⟨hwf, by omega⟩
  rw [if_neg h0] at h
  cases hsw : cir_calc_sweep ((4 * radius).toNat + 1) 1
      { cp := (lv_circ_init (radius * 4)).1, tmp := (lv_circ_init (radius * 4)).2,
        x_int := [(asr (lv_circ_init (radius * 4)).1.x 2) % 2 ^ 32, 0, 0, 0],
        x_fract := [0, 0, 0, 0], cir_x := [], cir_y := [], c := c, y_8th_cnt := 0 } with
  | none => rw [hsw] at h; simp at h
  | some st1 =>
    rw [hsw] at h
    simp only [Option.some_bind] at h
    obtain ⟨lx0, ly0, a1, a2, a3, a4⟩ := cir_calc_sweep_some _ _ _ _ hsw
    simp only [List.nil_append] at a1 a2
    rcases cir_calc_sweep_first _ _ _ hsw rfl rfl with e | ⟨lx, ly, f1, f2, f3⟩
    · rw [e] at h
      simp at h
    simp only [List.getD_cons_zero, lv_circ_init] at f1 f2
    have hr : asr (radius * 4) 2 = radius := by
      simp only [asr]
      omega
    rw [hr] at f1
    cases hlx : st1.cir_x.getLast? with
    | none => rw [hlx] at h; simp at h
    | some last_x =>
      cases hly : st1.cir_y.getLast? with
      | none => rw [hlx, hly] at h; simp at h
      | some last_y =>
        rw [hlx, hly] at h
        simp only at h
        generalize hmid : asr (radius * 723 % 2 ^ 32) 10 = mid_int at h
        generalize htmp : cir_calc_aa4_mid 16 (radius * 723 % 2 ^ 32) mid_int = opa at h
        cases hst2 : (if last_x % 2 ^ 32 ≠ mid_int ∨ last_y % 2 ^ 32 ≠ mid_int then
            cir_push st1 mid_int mid_int opa else some st1) with
        | none => rw [hst2] at h; simp at h
        | some st2 =>
          rw [hst2] at h
          simp only [Option.some_bind] at h
          have hst2f : ∃ mx my : List Int, st2.cir_x = st1.cir_x ++ mx ∧
              st2.cir_y = st1.cir_y ++ my ∧ mx.length = my.length ∧
              (circle_dsc_wf st1.c → circle_dsc_wf st2.c) ∧
              (0 < radius → 2 ≤ st2.cir_x.length) := by
            by_cases hcnd : last_x % 2 ^ 32 ≠ mid_int ∨ last_y % 2 ^ 32 ≠ mid_int
            · rw [if_pos hcnd] at hst2
              obtain ⟨p1, p2, -, -, p5⟩ := cir_push_some _ _ _ _ _ hst2
              refine ⟨[mid_int], [mid_int], p1, p2, rfl, p5, fun _ => ?_⟩
              rw [p1, f1]
              simp
            · rw [if_neg hcnd] at hst2
              simp only [Option.some.injEq] at hst2
              subst hst2
              refine ⟨[], [], by simp, by simp, rfl, fun hw => hw, fun hpos => ?_⟩
              by_contra hlen
              have hlx0 : lx = [] := by
                rw [f1] at hlen
                simp only [List.length_cons] at hlen
                exact List.eq_nil_of_length_eq_zero (by omega)
              have hly0 : ly = [] := List.eq_nil_of_length_eq_zero (by rw [← f3, hlx0]; rfl)
              rw [f1, hlx0] at hlx
              rw [f2, hly0] at hly
              simp only [List.getLast?_singleton, Option.some.injEq] at hlx hly
              rw [← hlx, ← hly] at hcnd
              omega
          obtain ⟨mx, my, b1, b2, b3, b4, b5⟩ := hst2f
          cases hm : cir_calc_mirror (st2.cir_x.length - 1) st2 with
          | none => rw [hm] at h; simp at h
          | some st3 =>
            rw [hm] at h
            simp only [Option.some_bind] at h
            obtain ⟨nx, ny, m1, m2, m3, m4, m5⟩ := cir_calc_mirror_some _ _ _ hm
            cases hs0 : array_set st3.c.opa_start_on_y 0 0 with
            | none => rw [hs0] at h; simp at h
            | some a0 =>
              rw [hs0] at h
              simp only [Option.some_bind] at h
              rw [Option.map_eq_some'] at h
              obtain ⟨c2, hidx, rfl⟩ := h
              have hwf3 : circle_dsc_wf st3.c := m5 (b4 (a4 hwf))
              obtain ⟨l0, -, -, e0⟩ := array_set_some _ _ _ _ hs0
              have hwf3a : circle_dsc_wf { st3.c with opa_start_on_y := a0 } := by
                refine ⟨hwf3.1, hwf3.2.1, by rw [l0]; exact hwf3.2.2.1, fun v hv => ?_⟩
                rcases e0 v hv with e | e
                · rw [e]; decide
                · exact hwf3.2.2.2 v e
              obtain ⟨w1, w2⟩ := cir_calc_index_some _ _ _ _ _ _ _ hidx hwf3a
              refine ⟨w1, ?_⟩
              by_cases hpos : 0 < radius
              · have h2 := b5 hpos
                have hlen3 : st3.cir_x.length = st3.cir_y.length := by
                  rw [m1, m2, b1, b2, a1, a2]
                  simp only [List.length_append]
                  omega
                have hlast := m4 (by omega)
                have hbound := w2 (by rw [m1, List.length_append]; omega)
                rw [hlen3] at hbound
                rw [m2] at hbound
                rw [getD_last_append _ _ _ _ hlast rfl] at hbound
                rw [b1, f1] at hbound
                simp only [List.cons_append, List.getD_cons_zero] at hbound
                omega
              · omega

/-- The zero-initialised `circle_cache` has the layout of a descriptor. -/
theorem circle_cache_init_wf : circle_dsc_wf circle_cache_init := by
  refine ⟨List.length_replicate _ _, List.length_replicate _ _, List.length_replicate _ _,
    fun v hv => ?_⟩
  simp only [circle_cache_init, List.mem_replicate] at hv
  omega

/-- When `lv_draw_mask_radius_init` returns (the requested radius being a value of a type of at
most 32 bits), the descriptor has the layout of a descriptor and the stored radius is below
300. -/
theorem lv_draw_mask_radius_init_some (circle_cache circle : _lv_draw_mask_radius_circle_dsc_t)
    (rect : lv_area_t) (radius : Int) (inv : Bool) (hwf : circle_dsc_wf circle_cache)
    (h32 : radius < 2 ^ 31)
    (h : (lv_draw_mask_radius_init circle_cache rect radius inv).2 = some circle) :
    circle_dsc_wf circle ∧
    (lv_draw_mask_radius_init circle_cache rect radius inv).1.cfg_radius < 300 := by
  simp only [lv_draw_mask_radius_init] at h ⊢
  refine cir_calc_aa4_some circle_cache circle _ hwf ?_ h
  split_ifs <;> omega

/-! ## The radius generator: inner mode and outer mode on one span -/

set_option maxRecDepth 100000 in
/-- C21 (the code at the failing input): rectangle (0,0)-(9,9), radius 3, descriptor built by
`lv_draw_mask_radius_init` on the fresh `circle_cache`, two `0xFF` bytes at `x = -3`, `y = 0`,
`len = 2`, which are the columns -3 and -2, both left of the rectangle.  Inner mode gives
`CHANGED` with the bytes 0, 0; outer mode gives `CHANGED` with the bytes 255, 0: at the second
byte the two outputs add up to 0.  (`clr_start` is `LV_CLAMP(0, cir_x_left + 1, len - 1)`, here
`LV_CLAMP(0, 5, 1) = 1`, and `clr_len` is 1, so outer mode clears the last byte of the span.)
On the whole row, `x = 0`, `len = 10`, outer mode gives 255, 79, 0, 0, 0, 0, 0, 0, 79, 255. -/
theorem lv_draw_mask_radius_outer_clears_last_byte :
    ((lv_draw_mask_radius_init circle_cache_init ⟨0, 0, 9, 9⟩ 3 false).2.bind fun circle =>
        lv_draw_mask_radius circle [255, 255] (-3) 0 2
          (lv_draw_mask_radius_init circle_cache_init ⟨0, 0, 9, 9⟩ 3 false).1)
      = some (LV_DRAW_MASK_RES_CHANGED, [0, 0]) ∧
    ((lv_draw_mask_radius_init circle_cache_init ⟨0, 0, 9, 9⟩ 3 true).2.bind fun circle =>
        lv_draw_mask_radius circle [255, 255] (-3) 0 2
          (lv_draw_mask_radius_init circle_cache_init ⟨0, 0, 9, 9⟩ 3 true).1)
      = some (LV_DRAW_MASK_RES_CHANGED, [255, 0]) ∧
    (lv_draw_mask_radius_init circle_cache_init ⟨0, 0, 9, 9⟩ 3 true).2
      = (lv_draw_mask_radius_init circle_cache_init ⟨0, 0, 9, 9⟩ 3 false).2 ∧
    ((lv_draw_mask_radius_init circle_cache_init ⟨0, 0, 9, 9⟩ 3 true).2.bind fun circle =>
        lv_draw_mask_radius circle (List.replicate 10 255) 0 0 10
          (lv_draw_mask_radius_init circle_cache_init ⟨0, 0, 9, 9⟩ 3 true).1)
      = some (LV_DRAW_MASK_RES_CHANGED, [255, 79, 0, 0, 0, 0, 0, 0, 79, 255]) := by
  refine ⟨by decide, by decide, by decide, by decide⟩

/-! ## The angle generator: the result -/

/-- C27: for every angle block (those `lv_draw_mask_angle_init` produces among them) and every
buffer of `len` bytes, `x`, `y` and `len >= 0`, `lv_draw_mask_angle` returns, and its result is
`TRANSP`, `FULL_COVER` or `CHANGED`, never `UNKNOWN`.  In the regime that does not split the
span (neither `start > end` with both angles in 1..179 nor `start > end` with both above 180),
with `r1` and `r2` the results computed for the start line and the end line: the result is
`TRANSP` if `r1` or `r2` is `TRANSP` or both are `UNKNOWN`, else `FULL_COVER` if both are
`FULL_COVER`, else `CHANGED`. -/
theorem lv_draw_mask_angle_result (mask_buf : List Nat) (abs_x abs_y len : Int)
    (p : lv_draw_mask_angle_param_t) (hl : mask_buf.length = len.toNat) (hlen : 0 ≤ len) :
    ∃ r, lv_draw_mask_angle mask_buf abs_x abs_y len p = some r ∧
      (r.1 = LV_DRAW_MASK_RES_TRANSP ∨ r.1 = LV_DRAW_MASK_RES_FULL_COVER ∨
        r.1 = LV_DRAW_MASK_RES_CHANGED) ∧
      r.1 ≠ LV_DRAW_MASK_RES_UNKNOWN ∧
      (¬ (p.cfg_start_angle < 180 ∧ p.cfg_end_angle < 180 ∧ p.cfg_start_angle ≠ 0 ∧
            p.cfg_end_angle ≠ 0 ∧ p.cfg_start_angle > p.cfg_end_angle) →
        ¬ (p.cfg_start_angle > 180 ∧ p.cfg_end_angle > 180 ∧
            p.cfg_start_angle > p.cfg_end_angle) →
        ∃ r1 r2, lv_draw_mask_angle_res1 mask_buf abs_x abs_y len p = some r1 ∧
          lv_draw_mask_angle_res2 r1.2 abs_x abs_y len p = some r2 ∧
          ((r1.1 = LV_DRAW_MASK_RES_TRANSP ∨ r2.1 = LV_DRAW_MASK_RES_TRANSP ∨
              (r1.1 = LV_DRAW_MASK_RES_UNKNOWN ∧ r2.1 = LV_DRAW_MASK_RES_UNKNOWN)) →
            r.1 = LV_DRAW_MASK_RES_TRANSP) ∧
          (r1.1 = LV_DRAW_MASK_RES_FULL_COVER ∧ r2.1 = LV_DRAW_MASK_RES_FULL_COVER →
            r.1 = LV_DRAW_MASK_RES_FULL_COVER) ∧
          (¬ (r1.1 = LV_DRAW_MASK_RES_TRANSP ∨ r2.1 = LV_DRAW_MASK_RES_TRANSP ∨
              (r1.1 = LV_DRAW_MASK_RES_UNKNOWN ∧ r2.1 = LV_DRAW_MASK_RES_UNKNOWN)) →
            ¬ (r1.1 = LV_DRAW_MASK_RES_FULL_COVER ∧ r2.1 = LV_DRAW_MASK_RES_FULL_COVER) →
            r.1 = LV_DRAW_MASK_RES_CHANGED)) := by
  obtain ⟨r, hr, -, hu⟩ := lv_draw_mask_angle_in_span mask_buf abs_x abs_y len p hl hlen
  refine ⟨r, hr, ?_, hu, fun h1 h2 => ?_⟩
  · cases hres : r.1
    · exact Or.inl rfl
    · exact Or.inr (Or.inl rfl)
    · exact Or.inr (Or.inr rfl)
    · exact absurd hres hu
  · simp only [lv_draw_mask_angle, if_neg h1, if_neg h2] at hr
    cases hr1 : lv_draw_mask_angle_res1 mask_buf abs_x abs_y len p with
    | none => rw [hr1] at hr; simp at hr
    | some r1 =>
      rw [hr1] at hr
      simp only [Option.some_bind] at hr
      cases hr2 : lv_draw_mask_angle_res2 r1.2 abs_x abs_y len p with
      | none => rw [hr2] at hr; simp at hr
      | some r2 =>
        rw [hr2] at hr
        simp only [Option.some_bind, Option.some.injEq] at hr
        subst hr
        refine ⟨r1, r2, rfl, hr2, ?_, ?_, ?_⟩
        · simp only [lv_draw_mask_angle_combine]
          rintro (h | h | h)
          · rw [if_pos (Or.inl h)]
          · rw [if_pos (Or.inr h)]
          · by_cases ht : r1.1 = LV_DRAW_MASK_RES_TRANSP ∨ r2.1 = LV_DRAW_MASK_RES_TRANSP
            · rw [if_pos ht]
            · rw [if_neg ht, if_pos h]
        · rintro ⟨ha, hb⟩
          simp only [lv_draw_mask_angle_combine, ha, hb]
          decide
        · intro ha hb
          simp only [lv_draw_mask_angle_combine]
          rw [if_neg (fun h => ha (h.elim Or.inl fun h => Or.inr (Or.inl h))),
            if_neg (fun h => ha (Or.inr (Or.inr h))), if_neg hb]

/-- C27 at the angle block with start angle 0 and end angle 90 at the vertex (0, 0), whose
lines go through (1023, 0) and (0, 1023), on three `0xFF` bytes at `x = 0`, `y = -1`. -/
theorem lv_draw_mask_angle_result_witness :
    ([255, 255, 255] : List Nat).length = (3 : Int).toNat ∧ (0 : Int) ≤ 3 ∧
    ∃ r, lv_draw_mask_angle [255, 255, 255] 0 (-1) 3
          ⟨⟨0, 0⟩, 0, 90,
            lv_draw_mask_line_points_init 0 0 1023 0 LV_DRAW_MASK_LINE_SIDE_LEFT,
            lv_draw_mask_line_points_init 0 0 0 1023 LV_DRAW_MASK_LINE_SIDE_RIGHT, 90⟩ = some r ∧
      (r.1 = LV_DRAW_MASK_RES_TRANSP ∨ r.1 = LV_DRAW_MASK_RES_FULL_COVER ∨
        r.1 = LV_DRAW_MASK_RES_CHANGED) ∧
      r.1 ≠ LV_DRAW_MASK_RES_UNKNOWN :=
  ⟨by decide, by decide,
    (lv_draw_mask_angle_result [255, 255, 255] 0 (-1) 3
      ⟨⟨0, 0⟩, 0, 90,
        lv_draw_mask_line_points_init 0 0 1023 0 LV_DRAW_MASK_LINE_SIDE_LEFT,
        lv_draw_mask_line_points_init 0 0 0 1023 LV_DRAW_MASK_LINE_SIDE_RIGHT, 90⟩
      (by decide) (by decide)).imp fun _ h => ⟨h.1, h.2.1, h.2.2.1⟩⟩

/-! ## The generators on an empty span and inside the span -/

/-- C25 (as stated, refuted): three calls with `len = 0` that return `TRANSP`.  The line
generator for the vertical line through (0,0) and (0,10) with the side `LEFT`, at `x = 5`; the
radius generator in inner mode for the rectangle (0,0)-(9,9) with radius 0 (the block and the
descriptor `lv_draw_mask_radius_init` leaves), at the row `y = -1` above the rectangle; the
angle generator for the block `lv_draw_mask_angle_init` produces for the angles 0 and 90,
whatever the sine table, at the row `y = -1`. -/
theorem lv_draw_mask_zero_length_transp :
    lv_draw_mask_line [] 5 3 0
        (lv_draw_mask_line_points_init 0 0 0 10 LV_DRAW_MASK_LINE_SIDE_LEFT)
      = some (LV_DRAW_MASK_RES_TRANSP, []) ∧
    ((lv_draw_mask_radius_init circle_cache_init ⟨0, 0, 9, 9⟩ 0 false).2.bind fun circle =>
        lv_draw_mask_radius circle [] 0 (-1) 0
          (lv_draw_mask_radius_init circle_cache_init ⟨0, 0, 9, 9⟩ 0 false).1)
      = some (LV_DRAW_MASK_RES_TRANSP, []) ∧
    (∀ lv_trigo_sin : Int → Int,
      lv_draw_mask_angle [] 0 (-1) 0 (lv_draw_mask_angle_init lv_trigo_sin 0 0 0 90)
        = some (LV_DRAW_MASK_RES_TRANSP, [])) := by
  refine ⟨by decide, by decide, fun lv_trigo_sin => ?_⟩
  simp [lv_draw_mask_angle, lv_draw_mask_angle_init, lv_draw_mask_angle_res1,
    lv_draw_mask_angle_res2, lv_draw_mask_angle_combine]

/-- C25 (amended): for every `x` and `y`, a call with `len = 0` on the empty span returns and
leaves the span empty (no byte is written), for every block of the five generators (for the
radius generator: the block and the descriptor `lv_draw_mask_radius_init` leaves).  The line,
angle and radius generators return `TRANSP`, `FULL_COVER` or `CHANGED`; the fade and map
generators return `FULL_COVER` or `CHANGED`, never `TRANSP`. -/
theorem lv_draw_mask_zero_length (abs_x abs_y : Int) :
    (∀ p : lv_draw_mask_line_param_t, ∃ res, lv_draw_mask_line [] abs_x abs_y 0 p = some (res, []) ∧
      res ≠ LV_DRAW_MASK_RES_UNKNOWN) ∧
    (∀ p : lv_draw_mask_angle_param_t, ∃ res,
      lv_draw_mask_angle [] abs_x abs_y 0 p = some (res, []) ∧
      res ≠ LV_DRAW_MASK_RES_UNKNOWN) ∧
    (∀ (circle_cache circle : _lv_draw_mask_radius_circle_dsc_t) (rect : lv_area_t)
        (radius : Int) (inv : Bool), circle_dsc_wf circle_cache → radius < 2 ^ 31 →
      (lv_draw_mask_radius_init circle_cache rect radius inv).2 = some circle →
      ∃ res, lv_draw_mask_radius circle [] abs_x abs_y 0
          (lv_draw_mask_radius_init circle_cache rect radius inv).1 = some (res, []) ∧
        res ≠ LV_DRAW_MASK_RES_UNKNOWN) ∧
    (∀ p : lv_draw_mask_fade_param_t, ∃ res,
      lv_draw_mask_fade [] abs_x abs_y 0 p = some (res, []) ∧
      (res = LV_DRAW_MASK_RES_FULL_COVER ∨ res = LV_DRAW_MASK_RES_CHANGED)) ∧
    (∀ p : lv_draw_mask_map_param_t, ∃ res,
      lv_draw_mask_map [] abs_x abs_y 0 p = some (res, []) ∧
      (res = LV_DRAW_MASK_RES_FULL_COVER ∨ res = LV_DRAW_MASK_RES_CHANGED)) := by
  have hnil : ∀ o : Option (lv_draw_mask_res_t × List Nat),
      res_in_span ([] : List Nat).length o →
      ∃ res, o = some (res, []) ∧ res ≠ LV_DRAW_MASK_RES_UNKNOWN := by
    rintro o ⟨⟨res, b⟩, h1, h2, h3⟩
    have hb : b = [] := List.eq_nil_of_length_eq_zero h2
    subst hb
    exact ⟨res, h1, h3⟩
  refine ⟨fun p => hnil _ (lv_draw_mask_line_in_span [] abs_x abs_y 0 p rfl),
    fun p => hnil _ (lv_draw_mask_angle_in_span [] abs_x abs_y 0 p rfl (le_refl 0)),
    fun circle_cache circle rect radius inv hwf h32 h => ?_, fun p => ?_, fun p => ?_⟩
  · obtain ⟨h1, h2⟩ := lv_draw_mask_radius_init_some circle_cache circle rect radius inv hwf h32 h
    exact hnil _ (lv_draw_mask_radius_in_span circle [] abs_x abs_y 0 _ h1 h2 rfl (le_refl 0))
  · simp only [lv_draw_mask_fade]
    by_cases h1 : abs_y < p.cfg_coords.y1
    · exact ⟨_, by rw [if_pos h1], Or.inl rfl⟩
    rw [if_neg h1]
    by_cases h2 : abs_y > p.cfg_coords.y2
    · exact ⟨_, by rw [if_pos h2], Or.inl rfl⟩
    rw [if_neg h2]
    by_cases h3 : abs_x + 0 < p.cfg_coords.x1
    · exact ⟨_, by rw [if_pos h3], Or.inl rfl⟩
    rw [if_neg h3]
    by_cases h4 : abs_x > p.cfg_coords.x2
    · exact ⟨_, by rw [if_pos h4], Or.inl rfl⟩
    rw [if_neg h4]
    have h5 : ¬ abs_x + 0 > p.cfg_coords.x2 := by omega
    have h6 : ¬ abs_x < p.cfg_coords.x1 := by omega
    refine ⟨LV_DRAW_MASK_RES_CHANGED, ?_, Or.inr rfl⟩
    simp only [if_neg h5, if_neg h6]
    rfl
  · simp only [lv_draw_mask_map]
    by_cases h1 : abs_y < p.cfg_coords.y1
    · exact ⟨_, by rw [if_pos h1], Or.inl rfl⟩
    rw [if_neg h1]
    by_cases h2 : abs_y > p.cfg_coords.y2
    · exact ⟨_, by rw [if_pos h2], Or.inl rfl⟩
    rw [if_neg h2]
    by_cases h3 : abs_x + 0 < p.cfg_coords.x1
    · exact ⟨_, by rw [if_pos h3], Or.inl rfl⟩
    rw [if_neg h3]
    by_cases h4 : abs_x > p.cfg_coords.x2
    · exact ⟨_, by rw [if_pos h4], Or.inl rfl⟩
    rw [if_neg h4]
    have h5 : ¬ abs_x + 0 > p.cfg_coords.x2 := by omega
    have h6 : ¬ abs_x < p.cfg_coords.x1 := by omega
    refine ⟨LV_DRAW_MASK_RES_CHANGED, ?_, Or.inr rfl⟩
    simp only [if_neg h5, if_neg h6]
    rfl

set_option maxRecDepth 100000 in
/-- C25 (amended) at `x = 4`, `y = 0`: the radius generator for the rectangle (0,0)-(9,9) with
radius 3, on the descriptor `lv_draw_mask_radius_init` builds from the fresh `circle_cache`,
and the fade generator for the rectangle (0,0)-(9,9). -/
theorem lv_draw_mask_zero_length_witness :
    circle_dsc_wf circle_cache_init ∧ (3 : Int) < 2 ^ 31 ∧
    (∃ circle, (lv_draw_mask_radius_init circle_cache_init ⟨0, 0, 9, 9⟩ 3 false).2 = some circle ∧
      ∃ res, lv_draw_mask_radius circle [] 4 0 0
          (lv_draw_mask_radius_init circle_cache_init ⟨0, 0, 9, 9⟩ 3 false).1 = some (res, []) ∧
        res ≠ LV_DRAW_MASK_RES_UNKNOWN) ∧
    (∃ res, lv_draw_mask_fade [] 4 0 0 (lv_draw_mask_fade_init ⟨0, 0, 9, 9⟩ 255 0 0 9)
        = some (res, []) ∧
      (res = LV_DRAW_MASK_RES_FULL_COVER ∨ res = LV_DRAW_MASK_RES_CHANGED)) := by
  have hs : ((lv_draw_mask_radius_init circle_cache_init ⟨0, 0, 9, 9⟩ 3 false).2).isSome
      = true := by decide
  obtain ⟨circle, hc⟩ := Option.isSome_iff_exists.mp hs
  exact ⟨circle_cache_init_wf, by norm_num, ⟨circle, hc,
    (lv_draw_mask_zero_length 4 0).2.2.1 circle_cache_init circle ⟨0, 0, 9, 9⟩ 3 false
      circle_cache_init_wf (by norm_num) hc⟩,
    (lv_draw_mask_zero_length 4 0).2.2.2.1 _⟩

/-- C26: for every buffer of `len` bytes, `x`, `y` and `len >= 0`, each of the five generators
returns, and the buffer it leaves has `len` bytes: every write, of one byte or of a zero-fill,
was at an index in `[0, len)` (a write at any other index has no result in the embedding).  It
holds for every line block (flat, steep or degenerate) and every angle block, for the radius
generator with the block and the descriptor `lv_draw_mask_radius_init` leaves (on a
`circle_cache` laid out as the struct says, the requested radius being a value of a type of at
most 32 bits), for every fade block, and for every map block whose map holds one byte for
each pixel of its rectangle. -/
theorem lv_draw_mask_generators_in_span (mask_buf : List Nat) (abs_x abs_y len : Int)
    (hl : mask_buf.length = len.toNat) (hlen : 0 ≤ len) :
    (∀ p : lv_draw_mask_line_param_t, ∃ r, lv_draw_mask_line mask_buf abs_x abs_y len p = some r ∧
      r.2.length = len.toNat) ∧
    (∀ p : lv_draw_mask_angle_param_t, ∃ r,
      lv_draw_mask_angle mask_buf abs_x abs_y len p = some r ∧ r.2.length = len.toNat) ∧
    (∀ (circle_cache circle : _lv_draw_mask_radius_circle_dsc_t) (rect : lv_area_t)
        (radius : Int) (inv : Bool), circle_dsc_wf circle_cache → radius < 2 ^ 31 →
      (lv_draw_mask_radius_init circle_cache rect radius inv).2 = some circle →
      ∃ r, lv_draw_mask_radius circle mask_buf abs_x abs_y len
          (lv_draw_mask_radius_init circle_cache rect radius inv).1 = some r ∧
        r.2.length = len.toNat) ∧
    (∀ p : lv_draw_mask_fade_param_t, ∃ r,
      lv_draw_mask_fade mask_buf abs_x abs_y len p = some r ∧ r.2.length = len.toNat) ∧
    (∀ p : lv_draw_mask_map_param_t,
      lv_area_get_width p.cfg_coords * lv_area_get_height p.cfg_coords ≤ p.cfg_map.length →
      ∃ r, lv_draw_mask_map mask_buf abs_x abs_y len p = some r ∧ r.2.length = len.toNat) := by
  have hspan : ∀ o : Option (lv_draw_mask_res_t × List Nat),
      res_in_span mask_buf.length o → ∃ r, o = some r ∧ r.2.length = len.toNat := by
    rintro o ⟨r, h1, h2, -⟩
    exact ⟨r, h1, by rw [h2, hl]⟩
  refine ⟨fun p => hspan _ (lv_draw_mask_line_in_span mask_buf abs_x abs_y len p hl),
    fun p => hspan _ (lv_draw_mask_angle_in_span mask_buf abs_x abs_y len p hl hlen),
    fun circle_cache circle rect radius inv hwf h32 h => ?_,
    fun p => hspan _ (lv_draw_mask_fade_in_span mask_buf abs_x abs_y len p hl),
    fun p hm => hspan _ (lv_draw_mask_map_in_span mask_buf abs_x abs_y len p hl hm)⟩
  obtain ⟨h1, h2⟩ := lv_draw_mask_radius_init_some circle_cache circle rect radius inv hwf h32 h
  exact hspan _ (lv_draw_mask_radius_in_span circle mask_buf abs_x abs_y len _ h1 h2 hl hlen)

set_option maxRecDepth 100000 in
/-- C26 on two `0xFF` bytes at `x = -3`, `y = 0`: the radius generator in outer mode for the
rectangle (0,0)-(9,9) with radius 3, on the descriptor `lv_draw_mask_radius_init` builds from
the fresh `circle_cache`, and the map generator for the rectangle (0,0)-(1,0) with a map of two
bytes. -/
theorem lv_draw_mask_generators_in_span_witness :
    ([255, 255] : List Nat).length = (2 : Int).toNat ∧ (0 : Int) ≤ 2 ∧
    circle_dsc_wf circle_cache_init ∧ (3 : Int) < 2 ^ 31 ∧
    (∃ circle, (lv_draw_mask_radius_init circle_cache_init ⟨0, 0, 9, 9⟩ 3 true).2 = some circle ∧
      ∃ r, lv_draw_mask_radius circle [255, 255] (-3) 0 2
          (lv_draw_mask_radius_init circle_cache_init ⟨0, 0, 9, 9⟩ 3 true).1 = some r ∧
        r.2.length = (2 : Int).toNat) ∧
    lv_area_get_width (lv_draw_mask_map_init ⟨0, 0, 1, 0⟩ [7, 9]).cfg_coords *
        lv_area_get_height (lv_draw_mask_map_init ⟨0, 0, 1, 0⟩ [7, 9]).cfg_coords
      ≤ (lv_draw_mask_map_init ⟨0, 0, 1, 0⟩ [7, 9]).cfg_map.length ∧
    (∃ r, lv_draw_mask_map [255, 255] (-3) 0 2 (lv_draw_mask_map_init ⟨0, 0, 1, 0⟩ [7, 9])
        = some r ∧ r.2.length = (2 : Int).toNat) := by
  have hs : ((lv_draw_mask_radius_init circle_cache_init ⟨0, 0, 9, 9⟩ 3 true).2).isSome
      = true := by decide
  obtain ⟨circle, hc⟩ := Option.isSome_iff_exists.mp hs
  exact ⟨by decide, by decide, circle_cache_init_wf, by norm_num, ⟨circle, hc,
    (lv_draw_mask_generators_in_span [255, 255] (-3) 0 2 (by decide) (by decide)).2.2.1
      circle_cache_init circle ⟨0, 0, 9, 9⟩ 3 true circle_cache_init_wf (by norm_num) hc⟩,
    by decide,
    (lv_draw_mask_generators_in_span [255, 255] (-3) 0 2 (by decide) (by decide)).2.2.2.2
      _ (by decide)⟩

/-! ## Rectangles on the stack -/

/-- The search loop of `lv_draw_mask_add` walks over live slots and stops at the null slot
behind them. -/
theorem lv_draw_mask_add_loop_live (m0 : _lv_draw_mask_saved_t)
    (rest : List _lv_draw_mask_saved_t) (h0 : m0.param = NULL) :
    ∀ (live : List _lv_draw_mask_saved_t) (i : Nat), (∀ m ∈ live, m.param ≠ NULL) →
      lv_draw_mask_add_loop (live ++ m0 :: rest) i = i + live.length := by
  intro live
  induction live with
  | nil => intro i _; simp [lv_draw_mask_add_loop, h0]
  | cons m live ih =>
    intro i hlive
    have hm : m.param ≠ NULL := hlive m (List.mem_cons_self _ _)
    have := ih (i + 1) fun m1 h1 => hlive m1 (List.mem_cons_of_mem _ h1)
    rw [List.cons_append]
    simp only [lv_draw_mask_add_loop, if_neg hm, List.length_cons]
    rw [this]
    omega

/-- The slot behind a prefix of a list is replaced. -/
theorem set_append_cons {α : Type} (l rest : List α) (x v : α) :
    (l ++ x :: rest).set l.length v = l ++ v :: rest := by
  induction l with
  | nil => rfl
  | cons a l ih => simp [ih]

/-- `lv_draw_mask_add` on a stack of live slots followed by a null slot puts the mask into that
slot. -/
theorem lv_draw_mask_add_live (live rest : List _lv_draw_mask_saved_t) (m0 : _lv_draw_mask_saved_t)
    (param custom_id : Nat) (h0 : m0.param = NULL) (hlive : ∀ m ∈ live, m.param ≠ NULL)
    (hn : live.length < _LV_MASK_MAX_NUM) :
    (lv_draw_mask_add (live ++ m0 :: rest) param custom_id).2
      = live ++ ⟨param, custom_id⟩ :: rest := by
  simp only [lv_draw_mask_add, lv_draw_mask_add_loop_live m0 rest h0 live 0 hlive, Nat.zero_add]
  rw [if_neg (by omega)]
  exact set_append_cons live rest m0 _

/-- Masks added one after the other to a stack of live slots followed by free slots fill the
free slots in the order of the calls. -/
theorem run_ops_add_live : ∀ (addrs : List Nat) (live : List _lv_draw_mask_saved_t) (k : Nat),
    (∀ a ∈ addrs, a ≠ NULL) → (∀ m ∈ live, m.param ≠ NULL) → addrs.length ≤ k →
    live.length + addrs.length ≤ _LV_MASK_MAX_NUM →
    run_ops (live ++ List.replicate k ⟨NULL, NULL⟩) (addrs.map fun a => mask_op.add a NULL)
      = some (live ++ (addrs.map fun a => (⟨a, NULL⟩ : _lv_draw_mask_saved_t)) ++
          List.replicate (k - addrs.length) ⟨NULL, NULL⟩) := by
  intro addrs
  induction addrs with
  | nil => intro live k _ _ _ _; simp [run_ops]
  | cons a addrs ih =>
    intro live k ha hlive hk hn
    simp only [List.length_cons] at hk hn
    obtain ⟨k1, rfl⟩ : ∃ k1, k = k1 + 1 := ⟨k - 1, by omega⟩
    simp only [List.map_cons, run_ops, mask_op.run, Option.some_bind, List.replicate_succ]
    rw [lv_draw_mask_add_live live _ ⟨NULL, NULL⟩ a NULL rfl hlive (by omega)]
    have := ih (live ++ [⟨a, NULL⟩]) k1 (fun b hb => ha b (List.mem_cons_of_mem _ hb))
      (fun m hm => by
        rcases List.mem_append.mp hm with h | h
        · exact hlive m h
        · rw [List.mem_singleton.mp h]
          exact ha a (List.mem_cons_self _ _))
      (by omega) (by simp only [List.length_append, List.length_singleton]; omega)
    simp only [List.append_assoc, List.singleton_append] at this
    rw [this]
    simp only [List.length_cons, Nat.add_sub_add_right, List.append_assoc, List.cons_append]

/-- The radius generator in inner mode with radius 0 on any buffer of `len` bytes: it returns;
`TRANSP` only when no pixel of the span is in the rectangle, `FULL_COVER` only when all are;
and unless the result is `TRANSP` the bytes of the pixels in the rectangle are as before and
the others are zero. -/
theorem lv_draw_mask_radius_rect (circle : _lv_draw_mask_radius_circle_dsc_t)
    (mask_buf : List Nat) (abs_x abs_y len : Int) (p : lv_draw_mask_radius_param_t)
    (hr : p.cfg_radius = 0) (ho : p.cfg_outer = false) (hl : mask_buf.length = len.toNat)
    (hlen : 0 ≤ len) :
    ∃ r, lv_draw_mask_radius circle mask_buf abs_x abs_y len p = some r ∧
      r.2.length = len.toNat ∧ r.1 ≠ LV_DRAW_MASK_RES_UNKNOWN ∧
      (r.1 = LV_DRAW_MASK_RES_TRANSP →
        ∀ i : Nat, i < len.toNat → point_in_area p.cfg_rect (abs_x + i) abs_y = false) ∧
      (r.1 = LV_DRAW_MASK_RES_FULL_COVER →
        ∀ i : Nat, i < len.toNat → point_in_area p.cfg_rect (abs_x + i) abs_y = true) ∧
      (r.1 ≠ LV_DRAW_MASK_RES_TRANSP → ∀ i : Nat, i < len.toNat →
        r.2.getD i 0
          = if point_in_area p.cfg_rect (abs_x + i) abs_y = true then mask_buf.getD i 0 else 0) := by
  simp only [lv_draw_mask_radius, hr, ho, point_in_area, decide_eq_false_iff_not,
    decide_eq_true_eq]
  by_cases hout : abs_y < p.cfg_rect.y1 ∨ abs_y > p.cfg_rect.y2
  · rw [if_pos hout]
    refine ⟨_, rfl, hl, by simp, fun _ i _ => by omega, fun h => ?_, fun h => ?_⟩
    · simp at h
    · simp at h
  rw [if_neg hout]
  have hband : (abs_x ≥ p.cfg_rect.x1 + 0 ∧ abs_x + len ≤ p.cfg_rect.x2 - 0) ∨
      (abs_y ≥ p.cfg_rect.y1 + 0 ∧ abs_y ≤ p.cfg_rect.y2 - 0) := Or.inr ⟨by omega, by omega⟩
  rw [if_pos hband]
  simp only [if_true]
  by_cases h1 : p.cfg_rect.x1 - abs_x > len
  · rw [if_pos h1]
    refine ⟨_, rfl, hl, by simp, fun _ i hi => by omega, fun h => ?_, fun h => ?_⟩
    · simp at h
    · simp at h
  rw [if_neg h1]
  obtain ⟨buf1, hb1, hl1, hg1⟩ := lv_memset_00_guarded (p.cfg_rect.x1 - abs_x ≥ 0)
    mask_buf 0 (p.cfg_rect.x1 - abs_x) (fun h => ⟨le_refl 0, h, by rw [hl]; omega⟩)
  rw [hb1]
  simp only [Option.some_bind]
  by_cases h2 : p.cfg_rect.x2 - abs_x + 1 ≤ 0
  · rw [if_pos h2]
    refine ⟨_, rfl, by rw [hl1, hl], by simp, fun _ i hi => by omega, fun h => ?_, fun h => ?_⟩
    · simp at h
    · simp at h
  rw [if_neg h2]
  obtain ⟨buf2, hb2, hl2, hg2⟩ := lv_memset_00_guarded (p.cfg_rect.x2 - abs_x + 1 < len)
    buf1 (p.cfg_rect.x2 - abs_x + 1) (len - (p.cfg_rect.x2 - abs_x + 1))
    (fun h => ⟨by omega, by omega, by rw [hl1, hl]; omega⟩)
  rw [hb2]
  simp only [Option.some_bind]
  have hpix : ∀ i : Nat, i < len.toNat → buf2.getD i 0 =
      if p.cfg_rect.x1 ≤ abs_x + i ∧ abs_x + i ≤ p.cfg_rect.x2 ∧ p.cfg_rect.y1 ≤ abs_y ∧
          abs_y ≤ p.cfg_rect.y2 then mask_buf.getD i 0 else 0 := by
    intro i hi
    rw [hg2, hg1]
    by_cases hin : p.cfg_rect.x1 ≤ abs_x + i ∧ abs_x + i ≤ p.cfg_rect.x2 ∧
        p.cfg_rect.y1 ≤ abs_y ∧ abs_y ≤ p.cfg_rect.y2
    · rw [if_pos hin, if_neg (by omega), if_neg (by omega)]
    · rw [if_neg hin]
      by_cases hr2 : p.cfg_rect.x2 - abs_x + 1 < len ∧ p.cfg_rect.x2 - abs_x + 1 ≤ (i : Int) ∧
          (i : Int) < p.cfg_rect.x2 - abs_x + 1 + (len - (p.cfg_rect.x2 - abs_x + 1))
      · rw [if_pos hr2]
      · rw [if_neg hr2, if_pos (by omega)]
  by_cases h3 : p.cfg_rect.x1 - abs_x = 0 ∧ p.cfg_rect.x2 - abs_x + 1 = len
  · rw [if_pos h3]
    refine ⟨_, rfl, by rw [hl2, hl1, hl], by simp, fun h => ?_, fun _ i hi => by omega,
      fun _ i hi => hpix i hi⟩
    simp at h
  · rw [if_neg h3]
    refine ⟨_, rfl, by rw [hl2, hl1, hl], by simp, fun h => ?_, fun h => ?_,
      fun _ i hi => hpix i hi⟩
    · simp at h
    · simp at h

/-- The loop of `lv_draw_mask_apply` on a stack of rectangles (inner-mode radius masks with
radius 0) followed by a null slot: it returns with a buffer of `len` bytes; `TRANSP` only when
no pixel of the span is in all rectangles, `FULL_COVER` only when every pixel is in all of them
and the latch was not set; and unless the result is `TRANSP` the bytes of the pixels that are in
all rectangles are as before and the others are zero. -/
theorem lv_draw_mask_apply_loop_rect (circle : _lv_draw_mask_radius_circle_dsc_t)
    (blocks : Nat → lv_draw_mask_radius_param_t) (abs_x abs_y len : Int) (hlen : 0 ≤ len)
    (m0 : _lv_draw_mask_saved_t) (rest : List _lv_draw_mask_saved_t) (h0 : m0.param = NULL) :
    ∀ (live : List Nat) (mask_buf : List Nat) (changed : Bool), (∀ a ∈ live, a ≠ NULL) →
      (∀ a ∈ live, (blocks a).cfg_radius = 0 ∧ (blocks a).cfg_outer = false) →
      mask_buf.length = len.toNat →
      ∃ (res : lv_draw_mask_res_t) (buf1 : List Nat),
        lv_draw_mask_apply_loop (lv_draw_mask_radius_cb circle blocks) abs_x abs_y len
            ((live.map fun a => (⟨a, NULL⟩ : _lv_draw_mask_saved_t)) ++ m0 :: rest)
            (some mask_buf) changed = some (res, some buf1) ∧
        buf1.length = len.toNat ∧ res ≠ LV_DRAW_MASK_RES_UNKNOWN ∧
        (res = LV_DRAW_MASK_RES_TRANSP → ∀ i : Nat, i < len.toNat →
          (live.all fun a => point_in_area (blocks a).cfg_rect (abs_x + i) abs_y) = false) ∧
        (res = LV_DRAW_MASK_RES_FULL_COVER → changed = false ∧ ∀ i : Nat, i < len.toNat →
          (live.all fun a => point_in_area (blocks a).cfg_rect (abs_x + i) abs_y) = true) ∧
        (res ≠ LV_DRAW_MASK_RES_TRANSP → ∀ i : Nat, i < len.toNat →
          buf1.getD i 0
            = if (live.all fun a => point_in_area (blocks a).cfg_rect (abs_x + i) abs_y) = true
              then mask_buf.getD i 0 else 0) := by
  intro live
  induction live with
  | nil =>
    intro mask_buf changed _ _ hl
    refine ⟨if changed then LV_DRAW_MASK_RES_CHANGED else LV_DRAW_MASK_RES_FULL_COVER, mask_buf,
      by simp [lv_draw_mask_apply_loop, h0], hl, by cases changed <;> simp,
      by cases changed <;> simp, by cases changed <;> simp, by simp⟩
  | cons a live ih =>
    intro mask_buf changed hlive hrect hl
    have ha : a ≠ NULL := hlive a (List.mem_cons_self _ _)
    obtain ⟨hra, hoa⟩ := hrect a (List.mem_cons_self _ _)
    obtain ⟨r, hr, hrl, hru, hrt, hrf, hrp⟩ :=
      lv_draw_mask_radius_rect circle mask_buf abs_x abs_y len (blocks a) hra hoa hl hlen
    have hcb : lv_draw_mask_radius_cb circle blocks a (some mask_buf) abs_x abs_y len
        = (r.1, some r.2) := by
      simp only [lv_draw_mask_radius_cb, Option.some_bind, hr]
    have hstep : lv_draw_mask_apply_loop (lv_draw_mask_radius_cb circle blocks) abs_x abs_y len
        (((a :: live).map fun a => (⟨a, NULL⟩ : _lv_draw_mask_saved_t)) ++ m0 :: rest)
        (some mask_buf) changed
        = if r.1 = LV_DRAW_MASK_RES_TRANSP then some (LV_DRAW_MASK_RES_TRANSP, some r.2)
          else if r.1 = LV_DRAW_MASK_RES_CHANGED then
            lv_draw_mask_apply_loop (lv_draw_mask_radius_cb circle blocks) abs_x abs_y len
              ((live.map fun a => (⟨a, NULL⟩ : _lv_draw_mask_saved_t)) ++ m0 :: rest)
              (some r.2) true
          else lv_draw_mask_apply_loop (lv_draw_mask_radius_cb circle blocks) abs_x abs_y len
              ((live.map fun a => (⟨a, NULL⟩ : _lv_draw_mask_saved_t)) ++ m0 :: rest)
              (some r.2) changed := by
      rw [List.map_cons, List.cons_append]
      simp only [lv_draw_mask_apply_loop, hcb]
      rw [if_pos ha]
    rw [hstep]
    by_cases htr : r.1 = LV_DRAW_MASK_RES_TRANSP
    · rw [if_pos htr]
      refine ⟨_, _, rfl, hrl, by simp, fun _ i hi => ?_, fun h => by simp at h,
        fun h => absurd rfl h⟩
      simp only [List.all_cons, hrt htr i hi, Bool.false_and]
    rw [if_neg htr]
    have hl1 : ∀ a1 ∈ live, a1 ≠ NULL := fun a1 h1 => hlive a1 (List.mem_cons_of_mem _ h1)
    have hr1 : ∀ a1 ∈ live, (blocks a1).cfg_radius = 0 ∧ (blocks a1).cfg_outer = false :=
      fun a1 h1 => hrect a1 (List.mem_cons_of_mem _ h1)
    have hpix : ∀ (buf1 : List Nat) (i : Nat), i < len.toNat →
        (buf1.getD i 0
          = if (live.all fun a => point_in_area (blocks a).cfg_rect (abs_x + i) abs_y) = true
            then r.2.getD i 0 else 0) →
        buf1.getD i 0
          = if ((a :: live).all fun a => point_in_area (blocks a).cfg_rect (abs_x + i) abs_y)
              = true then mask_buf.getD i 0 else 0 := by
      intro buf1 i hi h
      rw [h, hrp htr i hi]
      simp only [List.all_cons, Bool.and_eq_true]
      by_cases c2 : (live.all fun a => point_in_area (blocks a).cfg_rect (abs_x + i) abs_y)
          = true
      · by_cases c1 : point_in_area (blocks a).cfg_rect (abs_x + i) abs_y = true
        · rw [if_pos c2, if_pos c1, if_pos ⟨c1, c2⟩]
        · rw [if_pos c2, if_neg c1, if_neg (fun h => c1 h.1)]
      · rw [if_neg c2, if_neg (fun h => c2 h.2)]
    by_cases hch : r.1 = LV_DRAW_MASK_RES_CHANGED
    · rw [if_pos hch]
      obtain ⟨res, buf1, e1, e2, e3, e4, e5, e6⟩ := ih r.2 true hl1 hr1 hrl
      refine ⟨res, buf1, e1, e2, e3, fun h i hi => ?_, fun h => ?_,
        fun h i hi => hpix buf1 i hi (e6 h i hi)⟩
      · simp only [List.all_cons, e4 h i hi, Bool.and_false]
      · exact absurd (e5 h).1 (by simp)
    · rw [if_neg hch]
      have hfc : r.1 = LV_DRAW_MASK_RES_FULL_COVER := by
        cases hres : r.1
        · exact absurd hres htr
        · rfl
        · exact absurd hres hch
        · exact absurd hres hru
      obtain ⟨res, buf1, e1, e2, e3, e4, e5, e6⟩ := ih r.2 changed hl1 hr1 hrl
      refine ⟨res, buf1, e1, e2, e3, fun h i hi => ?_, fun h => ⟨(e5 h).1, fun i hi => ?_⟩,
        fun h i hi => hpix buf1 i hi (e6 h i hi)⟩
      · simp only [List.all_cons, e4 h i hi, Bool.and_false]
      · simp only [List.all_cons, (e5 h).2 i hi, hrf hfc i hi, Bool.and_self]

/-- The rectangles at the addresses `addrs`, added in this order to the empty stack, and
`lv_draw_mask_apply` on a span pre-filled with `0xFF`: the call returns, and the opacity the
caller sees at a pixel is 255 if the pixel is in all rectangles and 0 otherwise. -/
theorem lv_draw_mask_apply_rect (circle : _lv_draw_mask_radius_circle_dsc_t)
    (blocks : Nat → lv_draw_mask_radius_param_t) (addrs : List Nat) (abs_x abs_y len : Int)
    (hn : addrs.length < _LV_MASK_MAX_NUM) (hlive : ∀ a ∈ addrs, a ≠ NULL)
    (hrect : ∀ a ∈ addrs, (blocks a).cfg_radius = 0 ∧ (blocks a).cfg_outer = false)
    (hlen : 0 ≤ len) :
    ∃ (stack : List _lv_draw_mask_saved_t) (out : List Nat),
      run_ops empty_stack (addrs.map fun a => mask_op.add a NULL) = some stack ∧
      lv_draw_mask_apply_out len
          (lv_draw_mask_apply (lv_draw_mask_radius_cb circle blocks) stack
            (some (List.replicate len.toNat 255)) abs_x abs_y len) = some out ∧
      out.length = len.toNat ∧
      ∀ i : Nat, i < len.toNat → out.getD i 0
        = if (addrs.all fun a => point_in_area (blocks a).cfg_rect (abs_x + i) abs_y) = true
          then 255 else 0 := by
  have hstack := run_ops_add_live addrs [] _LV_MASK_MAX_NUM hlive (by simp) (by omega)
    (by simp only [List.length_nil]; omega)
  simp only [List.nil_append] at hstack
  obtain ⟨k, hk⟩ : ∃ k, _LV_MASK_MAX_NUM - addrs.length = k + 1 :=
    ⟨_LV_MASK_MAX_NUM - addrs.length - 1, by omega⟩
  rw [hk, List.replicate_succ] at hstack
  obtain ⟨res, buf1, e1, e2, e3, e4, e5, e6⟩ :=
    lv_draw_mask_apply_loop_rect circle blocks abs_x abs_y len hlen ⟨NULL, NULL⟩
      (List.replicate k ⟨NULL, NULL⟩) rfl addrs (List.replicate len.toNat 255) false hlive hrect
      (List.length_replicate _ _)
  refine ⟨_, mask_out len (res, buf1), hstack, ?_, ?_, fun i hi => ?_⟩
  · simp only [lv_draw_mask_apply, empty_stack, e1, lv_draw_mask_apply_out, Option.some_bind,
      Option.map_some']
  · cases res <;> simp [mask_out, e2]
  · cases res
    · simp only [mask_out, replicate_getD _ _ _ hi, e4 rfl i hi]
      rfl
    · simp only [mask_out, replicate_getD _ _ _ hi, (e5 rfl).2 i hi]
      rfl
    · simp only [mask_out]
      rw [e6 (by simp) i hi, replicate_getD _ _ _ hi]
    · exact absurd rfl e3

/-- C28: rectangles (inner-mode radius masks with radius 0) at the addresses `addrs`, and any
permutation `addrs1` of these addresses; fewer than `_LV_MASK_MAX_NUM` of them, so that the
stack keeps a null slot.  Added to the empty stack in the one order or in the other,
`lv_draw_mask_apply` on a span pre-filled with `0xFF` returns, and the opacities the caller sees
(reading `TRANSP` as all 0 and `FULL_COVER` as all 255) are the same list `out` for both orders:
the difference is 0 at every pixel.  The opacity of a pixel is 255 if it is in all rectangles
and 0 otherwise. -/
theorem lv_draw_mask_apply_rect_order (circle : _lv_draw_mask_radius_circle_dsc_t)
    (blocks : Nat → lv_draw_mask_radius_param_t) (addrs addrs1 : List Nat)
    (abs_x abs_y len : Int) (hperm : addrs.Perm addrs1)
    (hn : addrs.length < _LV_MASK_MAX_NUM) (hlive : ∀ a ∈ addrs, a ≠ NULL)
    (hrect : ∀ a ∈ addrs, (blocks a).cfg_radius = 0 ∧ (blocks a).cfg_outer = false)
    (hlen : 0 ≤ len) :
    ∃ (stack stack1 : List _lv_draw_mask_saved_t) (out : List Nat),
      run_ops empty_stack (addrs.map fun a => mask_op.add a NULL) = some stack ∧
      run_ops empty_stack (addrs1.map fun a => mask_op.add a NULL) = some stack1 ∧
      lv_draw_mask_apply_out len
          (lv_draw_mask_apply (lv_draw_mask_radius_cb circle blocks) stack
            (some (List.replicate len.toNat 255)) abs_x abs_y len) = some out ∧
      lv_draw_mask_apply_out len
          (lv_draw_mask_apply (lv_draw_mask_radius_cb circle blocks) stack1
            (some (List.replicate len.toNat 255)) abs_x abs_y len) = some out ∧
      out.length = len.toNat ∧
      ∀ i : Nat, i < len.toNat → out.getD i 0
        = if (addrs.all fun a => point_in_area (blocks a).cfg_rect (abs_x + i) abs_y) = true
          then 255 else 0 := by
  obtain ⟨stack, out, a1, a2, a3, a4⟩ :=
    lv_draw_mask_apply_rect circle blocks addrs abs_x abs_y len hn hlive hrect hlen
  obtain ⟨stack1, out1, b1, b2, b3, b4⟩ :=
    lv_draw_mask_apply_rect circle blocks addrs1 abs_x abs_y len (by rw [← hperm.length_eq]; exact hn)
      (fun a ha => hlive a (hperm.mem_iff.mpr ha)) (fun a ha => hrect a (hperm.mem_iff.mpr ha))
      hlen
  have hall : ∀ i : Nat,
      (addrs1.all fun a => point_in_area (blocks a).cfg_rect (abs_x + i) abs_y)
        = (addrs.all fun a => point_in_area (blocks a).cfg_rect (abs_x + i) abs_y) := by
    intro i
    rw [Bool.eq_iff_iff, List.all_eq_true, List.all_eq_true]
    exact ⟨fun h a ha => h a (hperm.mem_iff.mp ha), fun h a ha => h a (hperm.mem_iff.mpr ha)⟩
  have heq : out1 = out := by
    apply list_eq_of_getD _ _ (by rw [a3, b3])
    intro j
    by_cases hj : j < len.toNat
    · rw [a4 j hj, b4 j hj, hall j]
    · rw [List.getD_eq_default _ _ (by omega), List.getD_eq_default _ _ (by omega)]
  rw [heq] at b2
  exact ⟨stack, stack1, out, a1, b1, a2, b2, a3, a4⟩

/-- C28 at the rectangles (0,0)-(5,5) and (3,0)-(9,9), at the addresses 1 and 2, added in the
orders 1, 2 and 2, 1, on the row 0 from column 0 to column 7. -/
theorem lv_draw_mask_apply_rect_order_witness :
    ([1, 2] : List Nat).Perm [2, 1] ∧ ([1, 2] : List Nat).length < _LV_MASK_MAX_NUM ∧
    (∀ a ∈ ([1, 2] : List Nat), a ≠ NULL) ∧
    (∀ a ∈ ([1, 2] : List Nat),
      ((fun p : Nat => if p = 1 then (⟨⟨0, 0, 5, 5⟩, 0, false⟩ : lv_draw_mask_radius_param_t)
          else ⟨⟨3, 0, 9, 9⟩, 0, false⟩) a).cfg_radius = 0 ∧
      ((fun p : Nat => if p = 1 then (⟨⟨0, 0, 5, 5⟩, 0, false⟩ : lv_draw_mask_radius_param_t)
          else ⟨⟨3, 0, 9, 9⟩, 0, false⟩) a).cfg_outer = false) ∧
    (0 : Int) ≤ 8 ∧
    ∃ (stack stack1 : List _lv_draw_mask_saved_t) (out : List Nat),
      run_ops empty_stack (([1, 2] : List Nat).map fun a => mask_op.add a NULL) = some stack ∧
      run_ops empty_stack (([2, 1] : List Nat).map fun a => mask_op.add a NULL) = some stack1 ∧
      lv_draw_mask_apply_out 8
          (lv_draw_mask_apply
            (lv_draw_mask_radius_cb circle_cache_init
              (fun p : Nat => if p = 1 then (⟨⟨0, 0, 5, 5⟩, 0, false⟩ : lv_draw_mask_radius_param_t)
                else ⟨⟨3, 0, 9, 9⟩, 0, false⟩)) stack
            (some (List.replicate (8 : Int).toNat 255)) 0 0 8) = some out ∧
      lv_draw_mask_apply_out 8
          (lv_draw_mask_apply
            (lv_draw_mask_radius_cb circle_cache_init
              (fun p : Nat => if p = 1 then (⟨⟨0, 0, 5, 5⟩, 0, false⟩ : lv_draw_mask_radius_param_t)
                else ⟨⟨3, 0, 9, 9⟩, 0, false⟩)) stack1
            (some (List.replicate (8 : Int).toNat 255)) 0 0 8) = some out ∧
      out.length = (8 : Int).toNat :=
  ⟨by decide, by decide, by decide, by decide, by decide,
    (lv_draw_mask_apply_rect_order circle_cache_init
      (fun p : Nat => if p = 1 then (⟨⟨0, 0, 5, 5⟩, 0, false⟩ : lv_draw_mask_radius_param_t)
        else ⟨⟨3, 0, 9, 9⟩, 0, false⟩) [1, 2] [2, 1] 0 0 8 (by decide) (by decide) (by decide)
      (by decide) (by decide)).imp fun _ h => h.imp fun _ h => h.imp fun _ h =>
        ⟨h.1, h.2.1, h.2.2.1, h.2.2.2.1, h.2.2.2.2.1⟩⟩

/-! ## The radius generator: inner mode and outer mode on one span, away from the slip -/

/-- The radius generator on a row of the rectangle that is handled as a straight band (the row
is in the straight band, or the span lies between the corners), on a buffer pre-filled with
`0xFF`: inner mode leaves 255 at the columns of the rectangle and 0 elsewhere, outer mode 0 at
the columns of the rectangle and 255 elsewhere. -/
theorem lv_draw_mask_radius_band (circle : _lv_draw_mask_radius_circle_dsc_t)
    (p : lv_draw_mask_radius_param_t) (abs_x abs_y len : Int)
    (hout : ¬ (abs_y < p.cfg_rect.y1 ∨ abs_y > p.cfg_rect.y2))
    (hband : (abs_x ≥ p.cfg_rect.x1 + p.cfg_radius ∧
        abs_x + len ≤ p.cfg_rect.x2 - p.cfg_radius) ∨
      (abs_y ≥ p.cfg_rect.y1 + p.cfg_radius ∧ abs_y ≤ p.cfg_rect.y2 - p.cfg_radius)) :
    ∃ r, lv_draw_mask_radius circle (List.replicate len.toNat 255) abs_x abs_y len p = some r ∧
      (mask_out len r).length = len.toNat ∧
      ∀ i : Nat, i < len.toNat → (mask_out len r).getD i 0 =
        if p.cfg_outer = false then
          (if p.cfg_rect.x1 ≤ abs_x + i ∧ abs_x + i ≤ p.cfg_rect.x2 then 255 else 0)
        else (if p.cfg_rect.x1 ≤ abs_x + i ∧ abs_x + i ≤ p.cfg_rect.x2 then 0 else 255) := by
  simp only [lv_draw_mask_radius, if_neg hout, if_pos hband]
  cases houter : p.cfg_outer
  · -- inner mode
    simp only [if_true]
    by_cases h1 : p.cfg_rect.x1 - abs_x > len
    · refine ⟨(LV_DRAW_MASK_RES_TRANSP, List.replicate len.toNat 255), by rw [if_pos h1],
        by simp [mask_out], fun i hi => ?_⟩
      have : ¬ (p.cfg_rect.x1 ≤ abs_x + i ∧ abs_x + i ≤ p.cfg_rect.x2) := by omega
      simp [mask_out, replicate_getD, hi, this]
    · rw [if_neg h1]
      obtain ⟨buf1, hb1, hl1, hg1⟩ := lv_memset_00_guarded (p.cfg_rect.x1 - abs_x ≥ 0)
        (List.replicate len.toNat 255) 0 (p.cfg_rect.x1 - abs_x)
        (fun h => ⟨le_refl 0, h, by simp only [List.length_replicate]; omega⟩)
      rw [hb1]
      simp only [Option.some_bind]
      by_cases h2 : p.cfg_rect.x2 - abs_x + 1 ≤ 0
      · refine ⟨(LV_DRAW_MASK_RES_TRANSP, buf1), by rw [if_pos h2], by simp [mask_out],
          fun i hi => ?_⟩
        have : ¬ (p.cfg_rect.x1 ≤ abs_x + i ∧ abs_x + i ≤ p.cfg_rect.x2) := by omega
        simp [mask_out, replicate_getD, hi, this]
      · rw [if_neg h2]
        obtain ⟨buf2, hb2, hl2, hg2⟩ := lv_memset_00_guarded (p.cfg_rect.x2 - abs_x + 1 < len)
          buf1 (p.cfg_rect.x2 - abs_x + 1) (len - (p.cfg_rect.x2 - abs_x + 1))
          (fun h => ⟨by omega, by omega, by rw [hl1, List.length_replicate]; omega⟩)
        rw [hb2]
        simp only [Option.some_bind]
        have hpix : ∀ i : Nat, i < len.toNat → buf2.getD i 0 =
            if p.cfg_rect.x1 ≤ abs_x + i ∧ abs_x + i ≤ p.cfg_rect.x2 then 255 else 0 := by
          intro i hi
          rw [hg2, hg1, replicate_getD _ _ _ hi]
          by_cases hin : p.cfg_rect.x1 ≤ abs_x + i ∧ abs_x + i ≤ p.cfg_rect.x2
          · rw [if_pos hin, if_neg (by omega), if_neg (by omega)]
          · rw [if_neg hin]
            by_cases hr2 : p.cfg_rect.x2 - abs_x + 1 < len ∧ p.cfg_rect.x2 - abs_x + 1 ≤ (i : Int) ∧
                (i : Int) < p.cfg_rect.x2 - abs_x + 1 + (len - (p.cfg_rect.x2 - abs_x + 1))
            · rw [if_pos hr2]
            · rw [if_neg hr2, if_pos (by omega)]
        by_cases h3 : p.cfg_rect.x1 - abs_x = 0 ∧ p.cfg_rect.x2 - abs_x + 1 = len
        · refine ⟨(LV_DRAW_MASK_RES_FULL_COVER, buf2), by rw [if_pos h3], by simp [mask_out],
            fun i hi => ?_⟩
          have : p.cfg_rect.x1 ≤ abs_x + i ∧ abs_x + i ≤ p.cfg_rect.x2 := by omega
          simp [mask_out, replicate_getD, hi, this]
        · refine ⟨(LV_DRAW_MASK_RES_CHANGED, buf2), by rw [if_neg h3],
            by simp [mask_out, hl2, hl1], fun i hi => ?_⟩
          simpa [mask_out] using hpix i hi
  · -- outer mode
    simp only [Bool.true_eq_false, if_false]
    by_cases h1 : (if p.cfg_rect.x1 - abs_x < 0 then 0 else p.cfg_rect.x1 - abs_x) ≤ len
    · rw [if_pos h1]
      generalize hfirst : (if p.cfg_rect.x1 - abs_x < 0 then 0 else p.cfg_rect.x1 - abs_x) = first
        at h1 ⊢
      have hf0 : 0 ≤ first := by rw [← hfirst]; split_ifs <;> omega
      have hf1 : first = 0 ∨ first = p.cfg_rect.x1 - abs_x := by
        rw [← hfirst]; split_ifs <;> omega
      have hf2 : p.cfg_rect.x1 - abs_x ≤ first := by rw [← hfirst]; split_ifs <;> omega
      generalize hlast : (if first + (p.cfg_rect.x2 - abs_x - first + 1) > len then len - first
        else p.cfg_rect.x2 - abs_x - first + 1) = last
      have hl0 : first + last ≤ len := by rw [← hlast]; split_ifs <;> omega
      have hl1 : last = len - first ∨ last = p.cfg_rect.x2 - abs_x - first + 1 := by
        rw [← hlast]; split_ifs <;> omega
      have hl2 : last ≤ p.cfg_rect.x2 - abs_x - first + 1 := by rw [← hlast]; split_ifs <;> omega
      obtain ⟨buf1, hb1, hlen1, hg1⟩ := lv_memset_00_guarded (last ≥ 0)
        (List.replicate len.toNat 255) first last
        (fun h => ⟨hf0, h, by simp only [List.length_replicate]; omega⟩)
      refine ⟨(LV_DRAW_MASK_RES_CHANGED, buf1), by rw [hb1]; rfl, by simp [mask_out, hlen1],
        fun i hi => ?_⟩
      simp only [mask_out, hg1, replicate_getD _ _ _ hi]
      by_cases hin : p.cfg_rect.x1 ≤ abs_x + i ∧ abs_x + i ≤ p.cfg_rect.x2
      · rw [if_pos hin, if_pos (by omega)]
      · rw [if_neg hin, if_neg (by omega)]
    · rw [if_neg h1]
      refine ⟨(LV_DRAW_MASK_RES_CHANGED, List.replicate len.toNat 255), rfl, by simp [mask_out],
        fun i hi => ?_⟩
      have : ¬ (p.cfg_rect.x1 ≤ abs_x + i ∧ abs_x + i ≤ p.cfg_rect.x2) := by
        split_ifs at h1 <;> omega
      simp [mask_out, replicate_getD, hi, this]

/-- The statement `mask_buf[k] = mask_mix(opa, mask_buf[k])` under a guard that makes `k` an
index of the buffer: it returns, the length is kept, and only the byte `k` changes, if the guard
holds. -/
theorem mask_buf_mix_opa_guarded (g : Prop) [Decidable g] (mask_buf : List Nat) (k : Int)
    (opa : Nat) (h : g → 0 ≤ k ∧ k < mask_buf.length) :
    ∃ buf1, (if g then mask_buf_mix_opa mask_buf k opa else some mask_buf) = some buf1 ∧
      buf1.length = mask_buf.length ∧
      ∀ i : Nat, buf1.getD i 0
        = if g ∧ (i : Int) = k then mask_mix opa (mask_buf.getD i 0) else mask_buf.getD i 0 := by
  by_cases hg : g
  · obtain ⟨h0, h1⟩ := h hg
    have hlt : k.toNat < mask_buf.length := by omega
    refine ⟨mask_buf.set k.toNat (mask_mix opa (mask_buf[k.toNat])), ?_, by simp, fun i => ?_⟩
    · rw [if_pos hg]
      simp only [mask_buf_mix_opa, if_pos h0, List.getElem?_eq_getElem hlt]
    · simp only [List.getD_eq_getElem?_getD, List.getElem?_set]
      by_cases hik : (i : Int) = k
      · have hik2 : k.toNat = i := by omega
        have hi : i < mask_buf.length := by omega
        simp [hg, hik, hik2, hi]
      · have hik2 : ¬ k.toNat = i := by omega
        simp [hik, hik2]
  · exact ⟨mask_buf, by rw [if_neg hg], rfl, fun i => by simp [hg]⟩

/-- An opacity mixed into a pixel that is still `0xFF` is stored as it is. -/
theorem mask_mix_opa_255 (opa : Nat) : mask_mix opa 255 = opa := by
  simp [mask_mix, mask_mix_with, LV_OPA_MAX]

/-- The complement `255 - v` of a byte is a byte. -/
theorem uint8_t_compl (v : Nat) (hv : v < 256) : uint8_t (255 - (v : Int)) = 255 - v := by
  simp only [uint8_t]
  omega

/-- The two loops of the corner branch of `lv_draw_mask_radius`, inner mode on `bI` and outer
mode on `bO`, run in lock step.  Before pass `i` the bytes of the columns `[R, R + i)` and
`(Lf - i, Lf]` add up to 255 and the other bytes are still `0xFF` in both buffers; the two
bands do not meet since `Lf < R`. -/
theorem lv_draw_mask_radius_loop_dual (c : _lv_draw_mask_radius_circle_dsc_t)
    (aa_opa aa_len R Lf len : Int) (hop : ∀ v ∈ c.cir_opa, v < 256) (hRL : Lf < R)
    (h0 : 0 ≤ aa_opa) (hcap : aa_opa + aa_len ≤ c.cir_opa.length) :
    ∀ (n : Nat) (i : Int) (bI bO : List Nat), 0 ≤ i → i + n ≤ aa_len →
      bI.length = len.toNat → bO.length = len.toNat →
      (∀ k : Nat, k < len.toNat →
        (((R ≤ (k : Int) ∧ (k : Int) < R + i) ∨ (Lf - i < (k : Int) ∧ (k : Int) ≤ Lf)) →
          bI.getD k 0 + bO.getD k 0 = 255) ∧
        (¬ ((R ≤ (k : Int) ∧ (k : Int) < R + i) ∨ (Lf - i < (k : Int) ∧ (k : Int) ≤ Lf)) →
          bI.getD k 0 = 255 ∧ bO.getD k 0 = 255)) →
      ∃ bI1 bO1,
        lv_draw_mask_radius_loop c false aa_opa aa_len R Lf len n i bI = some bI1 ∧
        lv_draw_mask_radius_loop c true aa_opa aa_len R Lf len n i bO = some bO1 ∧
        bI1.length = len.toNat ∧ bO1.length = len.toNat ∧
        ∀ k : Nat, k < len.toNat →
          (((R ≤ (k : Int) ∧ (k : Int) < R + (i + n)) ∨
              (Lf - (i + n) < (k : Int) ∧ (k : Int) ≤ Lf)) →
            bI1.getD k 0 + bO1.getD k 0 = 255) ∧
          (¬ ((R ≤ (k : Int) ∧ (k : Int) < R + (i + n)) ∨
              (Lf - (i + n) < (k : Int) ∧ (k : Int) ≤ Lf)) →
            bI1.getD k 0 = 255 ∧ bO1.getD k 0 = 255) := by
  intro n
  induction n with
  | zero =>
    intro i bI bO _ _ hlI hlO hinv
    refine ⟨bI, bO, rfl, rfl, hlI, hlO, fun k hk => ?_⟩
    simpa using hinv k hk
  | succ n ih =>
    intro i bI bO hi hin hlI hlO hinv
    simp only [lv_draw_mask_radius_loop]
    have hidx0 : 0 ≤ aa_opa + (aa_len - i - 1) := by push_cast at hin; omega
    have hidx1 : aa_opa + (aa_len - i - 1) < c.cir_opa.length := by push_cast at hin; omega
    rw [array_get_some _ _ hidx0 hidx1]
    simp only [Option.some_bind]
    generalize hv : c.cir_opa.getD (aa_opa + (aa_len - i - 1)).toNat 0 = v
    have hv256 : v < 256 := by
      rw [← hv, List.getD_eq_getElem _ _ (by omega)]
      exact hop _ (List.getElem_mem _)
    simp only [Bool.false_eq_true, if_false, if_true, uint8_t_compl v hv256]
    obtain ⟨bI1, e1, l1, g1⟩ := mask_buf_mix_opa_guarded (R + i ≥ 0 ∧ R + i < len) bI (R + i) v
      (fun h => ⟨h.1, by rw [hlI]; omega⟩)
    obtain ⟨bI2, e2, l2, g2⟩ := mask_buf_mix_opa_guarded (Lf - i ≥ 0 ∧ Lf - i < len) bI1 (Lf - i) v
      (fun h => ⟨h.1, by rw [l1, hlI]; omega⟩)
    obtain ⟨bO1, f1, m1, k1⟩ := mask_buf_mix_opa_guarded (R + i ≥ 0 ∧ R + i < len) bO (R + i)
      (255 - v) (fun h => ⟨h.1, by rw [hlO]; omega⟩)
    obtain ⟨bO2, f2, m2, k2⟩ := mask_buf_mix_opa_guarded (Lf - i ≥ 0 ∧ Lf - i < len) bO1 (Lf - i)
      (255 - v) (fun h => ⟨h.1, by rw [m1, hlO]; omega⟩)
    rw [e1, f1]
    simp only [Option.some_bind]
    rw [e2, f2]
    simp only [Option.some_bind]
    obtain ⟨bI3, bO3, r1, r2, r3, r4, r5⟩ := ih (i + 1) bI2 bO2 (by omega)
      (by push_cast at hin ⊢; omega) (by rw [l2, l1, hlI]) (by rw [m2, m1, hlO]) (fun k hk => by
        obtain ⟨a1, a2⟩ := hinv k hk
        rw [g2, g1, k2, k1]
        by_cases c1 : (k : Int) = R + i
        · have ha := a2 (by omega)
          have hg : R + i ≥ 0 ∧ R + i < len := by omega
          rw [if_neg (by omega), if_pos ⟨hg, c1⟩, if_neg (by omega), if_pos ⟨hg, c1⟩, ha.1, ha.2,
            mask_mix_opa_255, mask_mix_opa_255]
          exact ⟨fun _ => by omega, fun h => absurd (Or.inl ⟨by omega, by omega⟩) h⟩
        · by_cases c2 : (k : Int) = Lf - i
          · have ha := a2 (by omega)
            have hg : Lf - i ≥ 0 ∧ Lf - i < len := by omega
            rw [if_pos ⟨hg, c2⟩, if_neg (fun h => c1 h.2), if_pos ⟨hg, c2⟩,
              if_neg (fun h => c1 h.2), ha.1, ha.2, mask_mix_opa_255, mask_mix_opa_255]
            exact ⟨fun _ => by omega, fun h => absurd (Or.inr ⟨by omega, by omega⟩) h⟩
          · rw [if_neg (fun h => c2 h.2), if_neg (fun h => c1 h.2), if_neg (fun h => c2 h.2),
              if_neg (fun h => c1 h.2)]
            exact ⟨fun h => a1 (by omega), fun h => a2 (by omega)⟩)
    refine ⟨bI3, bO3, r1, r2, r3, r4, fun k hk => ?_⟩
    have := r5 k hk
    push_cast
    rw [show i + ((n : Int) + 1) = i + 1 + n by ring]
    exact this

/-- The two zero-fills that end the corner branch of `lv_draw_mask_radius` in inner mode: the
bytes from column `a` on and the bytes before column `c` are cleared. -/
theorem lv_draw_mask_radius_inner_clear (b : List Nat) (len a c : Int)
    (hl : b.length = len.toNat) (hlen : 0 ≤ len) :
    ∃ b3, ((lv_memset_00 b (LV_CLAMP 0 a len) (len - LV_CLAMP 0 a len)).bind fun buf2 =>
        (lv_memset_00 buf2 0 (LV_CLAMP 0 c len)).bind fun buf3 =>
        some (LV_DRAW_MASK_RES_CHANGED, buf3)) = some (LV_DRAW_MASK_RES_CHANGED, b3) ∧
      b3.length = len.toNat ∧
      ∀ k : Nat, k < len.toNat →
        b3.getD k 0 = if a ≤ (k : Int) ∨ (k : Int) < c then 0 else b.getD k 0 := by
  have hc : 0 ≤ LV_CLAMP 0 a len ∧ LV_CLAMP 0 a len ≤ len ∧
      ∀ k : Int, 0 ≤ k → k < len → (LV_CLAMP 0 a len ≤ k ↔ a ≤ k) := by
    simp only [LV_CLAMP, LV_MAX, LV_MIN]
    refine ⟨by split_ifs <;> omega, by split_ifs <;> omega, fun k h0 h1 => ?_⟩
    split_ifs <;> omega
  have hd : 0 ≤ LV_CLAMP 0 c len ∧ LV_CLAMP 0 c len ≤ len ∧
      ∀ k : Int, 0 ≤ k → k < len → (k < LV_CLAMP 0 c len ↔ k < c) := by
    simp only [LV_CLAMP, LV_MAX, LV_MIN]
    refine ⟨by split_ifs <;> omega, by split_ifs <;> omega, fun k h0 h1 => ?_⟩
    split_ifs <;> omega
  generalize LV_CLAMP 0 a len = cr at hc ⊢
  generalize LV_CLAMP 0 c len = cl at hd ⊢
  obtain ⟨b2, e2, l2, g2⟩ := lv_memset_00_spec b cr (len - cr) hc.1 (by omega)
    (by rw [hl]; omega)
  obtain ⟨b3, e3, l3, g3⟩ := lv_memset_00_spec b2 0 cl (le_refl 0) hd.1
    (by rw [l2, hl]; omega)
  refine ⟨b3, by rw [e2]; simp only [Option.some_bind]; rw [e3]; rfl, by rw [l3, l2, hl],
    fun k hk => ?_⟩
  rw [g3, g2]
  have h1 := hc.2.2 k (by omega) (by omega)
  have h2 := hd.2.2 k (by omega) (by omega)
  by_cases c1 : (k : Int) < c
  · rw [if_pos ⟨by omega, by omega⟩, if_pos (Or.inr c1)]
  · rw [if_neg (by omega)]
    by_cases c2 : a ≤ (k : Int)
    · rw [if_pos ⟨by omega, by omega⟩, if_pos (Or.inl c2)]
    · rw [if_neg (by omega), if_neg (by omega)]

/-- The zero-fill that ends the corner branch of `lv_draw_mask_radius` in outer mode, when the
column `a` is in the span: the bytes of the columns from `a` to `c - 1` are cleared. -/
theorem lv_draw_mask_radius_outer_clear (b : List Nat) (len a c : Int)
    (hl : b.length = len.toNat) (hlen : 0 ≤ len) (ha : a < len) :
    ∃ b2, ((lv_memset_00 b (LV_CLAMP 0 a (len - 1))
          (LV_CLAMP 0 (c - LV_CLAMP 0 a (len - 1)) (len - LV_CLAMP 0 a (len - 1)))).bind
        fun buf2 => some (LV_DRAW_MASK_RES_CHANGED, buf2))
        = some (LV_DRAW_MASK_RES_CHANGED, b2) ∧
      b2.length = len.toNat ∧
      ∀ k : Nat, k < len.toNat →
        b2.getD k 0 = if a ≤ (k : Int) ∧ (k : Int) < c then 0 else b.getD k 0 := by
  have hc : 0 ≤ LV_CLAMP 0 a (len - 1) ∧ LV_CLAMP 0 a (len - 1) ≤ len ∧
      ∀ k : Int, 0 ≤ k → k < len → (LV_CLAMP 0 a (len - 1) ≤ k ↔ a ≤ k) := by
    simp only [LV_CLAMP, LV_MAX, LV_MIN]
    refine ⟨by split_ifs <;> omega, by split_ifs <;> omega, fun k h0 h1 => ?_⟩
    split_ifs <;> omega
  generalize LV_CLAMP 0 a (len - 1) = cs at hc ⊢
  have hd : 0 ≤ LV_CLAMP 0 (c - cs) (len - cs) ∧ cs + LV_CLAMP 0 (c - cs) (len - cs) ≤ len ∧
      ∀ k : Int, 0 ≤ k → k < len → cs ≤ k →
        (k < cs + LV_CLAMP 0 (c - cs) (len - cs) ↔ k < c) := by
    simp only [LV_CLAMP, LV_MAX, LV_MIN]
    refine ⟨by split_ifs <;> omega, by split_ifs <;> omega, fun k h0 h1 h2 => ?_⟩
    split_ifs <;> omega
  generalize LV_CLAMP 0 (c - cs) (len - cs) = cl at hd ⊢
  obtain ⟨b2, e2, l2, g2⟩ := lv_memset_00_spec b cs cl hc.1 hd.1 (by rw [hl]; omega)
  refine ⟨b2, by rw [e2]; rfl, by rw [l2, hl], fun k hk => ?_⟩
  rw [g2]
  have h1 := hc.2.2 k (by omega) (by omega)
  by_cases c1 : a ≤ (k : Int)
  · have h2 := hd.2.2 k (by omega) (by omega) (by omega)
    by_cases c2 : (k : Int) < c
    · rw [if_pos ⟨by omega, by omega⟩, if_pos ⟨c1, c2⟩]
    · rw [if_neg (by omega), if_neg (by omega)]
  · rw [if_neg (by omega), if_neg (by omega)]

/-- Inner mode and outer mode of the radius generator on one span, away from the slip of the
outer corner branch: the descriptor has the layout of a descriptor, its opacities are bytes and
its rows up to the radius have a non-negative length; the rectangle is at least `2 * radius`
wide; the span reaches beyond the column `x1 + radius`.  On buffers pre-filled with `0xFF`
both calls return, and at every pixel the two outputs add up to 255 (reading `TRANSP` as all 0
and `FULL_COVER` as all 255). -/
theorem lv_draw_mask_radius_inner_outer (circle : _lv_draw_mask_radius_circle_dsc_t)
    (rect : lv_area_t) (radius abs_x abs_y len : Int) (hwf : circle_dsc_wf circle)
    (hop : ∀ v ∈ circle.cir_opa, v < 256)
    (hrows : ∀ y : Nat, (y : Int) < radius →
      circle.opa_start_on_y.getD y 0 ≤ circle.opa_start_on_y.getD (y + 1) 0)
    (hr : radius < 300) (hw : 2 * radius ≤ lv_area_get_width rect) (hlen : 0 ≤ len)
    (hreach : rect.x1 + radius < abs_x + len) :
    ∃ rI rO,
      lv_draw_mask_radius circle (List.replicate len.toNat 255) abs_x abs_y len
        ⟨rect, radius, false⟩ = some rI ∧
      lv_draw_mask_radius circle (List.replicate len.toNat 255) abs_x abs_y len
        ⟨rect, radius, true⟩ = some rO ∧
      ∀ i : Nat, i < len.toNat → (mask_out len rI).getD i 0 + (mask_out len rO).getD i 0 = 255 := by
  obtain ⟨hw1, hw2, hw3, hw4⟩ := hwf
  by_cases hout : abs_y < rect.y1 ∨ abs_y > rect.y2
  · refine ⟨(LV_DRAW_MASK_RES_TRANSP, List.replicate len.toNat 255),
      (LV_DRAW_MASK_RES_FULL_COVER, List.replicate len.toNat 255), ?_, ?_, fun i hi => ?_⟩
    · simp only [lv_draw_mask_radius, if_pos hout, if_true]
    · simp only [lv_draw_mask_radius, if_pos hout, Bool.true_eq_false, if_false]
    · simp only [mask_out, replicate_getD _ _ _ hi]
  by_cases hband : (abs_x ≥ rect.x1 + radius ∧ abs_x + len ≤ rect.x2 - radius) ∨
      (abs_y ≥ rect.y1 + radius ∧ abs_y ≤ rect.y2 - radius)
  · obtain ⟨rI, eI, -, gI⟩ := lv_draw_mask_radius_band circle ⟨rect, radius, false⟩ abs_x abs_y len
      hout hband
    obtain ⟨rO, eO, -, gO⟩ := lv_draw_mask_radius_band circle ⟨rect, radius, true⟩ abs_x abs_y len
      hout hband
    refine ⟨rI, rO, eI, eO, fun i hi => ?_⟩
    rw [gI i hi, gO i hi]
    simp only [if_true, Bool.true_eq_false, if_false]
    split_ifs <;> rfl
  simp only [lv_draw_mask_radius, if_neg hout, if_neg hband, lv_area_get_height]
  generalize hcy : (if abs_y - rect.y1 < radius then radius - (abs_y - rect.y1) - 1
    else abs_y - rect.y1 - (rect.y2 - rect.y1 + 1 - radius)) = cir_y
  have hcy0 : 0 ≤ cir_y ∧ cir_y < radius := by
    rw [← hcy]
    split_ifs <;> omega
  simp only [get_next_line]
  rw [array_get_some _ (cir_y + 1) (by omega) (by omega),
    array_get_some _ cir_y (by omega) (by omega),
    array_get_some _ cir_y (by omega) (by omega)]
  simp only [Option.some_bind, Option.map_some', Option.pure_def, Option.bind_eq_bind]
  have ho1 : circle.opa_start_on_y.getD (cir_y + 1).toNat 0 < 256 := by
    have hlt : (cir_y + 1).toNat < circle.opa_start_on_y.length := by omega
    rw [List.getD_eq_getElem?_getD, List.getElem?_eq_getElem hlt, Option.getD_some]
    exact hw4 _ (List.getElem_mem _)
  have ho01 : circle.opa_start_on_y.getD cir_y.toNat 0
      ≤ circle.opa_start_on_y.getD (cir_y + 1).toNat 0 := by
    have := hrows cir_y.toNat (by omega)
    rwa [show cir_y.toNat + 1 = (cir_y + 1).toNat by omega] at this
  generalize circle.opa_start_on_y.getD (cir_y + 1).toNat 0 = o1 at ho1 ho01 ⊢
  generalize circle.opa_start_on_y.getD cir_y.toNat 0 = o0 at ho01 ⊢
  generalize circle.x_start_on_y.getD cir_y.toNat 0 = xs
  simp only [if_true, Bool.true_eq_false, if_false]
  have hRL : rect.x1 - abs_x + radius - (xs : Int) - 1
      < rect.x1 - abs_x + lv_area_get_width rect - radius + (xs : Int) := by omega
  have hLlen : rect.x1 - abs_x + radius - (xs : Int) - 1 + 1 < len := by omega
  generalize rect.x1 - abs_x + lv_area_get_width rect - radius + (xs : Int) = R at hRL ⊢
  generalize rect.x1 - abs_x + radius - (xs : Int) - 1 = Lf at hRL hLlen ⊢
  have haa0 : (0 : Int) ≤ (o1 : Int) - (o0 : Int) := by omega
  have hcap : (o0 : Int) + ((o1 : Int) - (o0 : Int)) ≤ circle.cir_opa.length := by omega
  generalize (o1 : Int) - (o0 : Int) = aa at haa0 hcap ⊢
  have haa : (if 0 < aa then aa else 0) = aa := by split_ifs <;> omega
  rw [haa]
  have hn : ((aa.toNat : Nat) : Int) = aa := Int.toNat_of_nonneg haa0
  obtain ⟨bI1, bO1, e1, e2, l1, l2, inv⟩ := lv_draw_mask_radius_loop_dual circle o0 aa R Lf len
    hop hRL (by omega) hcap aa.toNat 0 (List.replicate len.toNat 255)
    (List.replicate len.toNat 255) (le_refl 0) (by omega) (List.length_replicate _ _)
    (List.length_replicate _ _) (fun k hk =>
      ⟨fun h => by omega, fun _ => ⟨replicate_getD _ _ _ hk, replicate_getD _ _ _ hk⟩⟩)
  simp only [zero_add, hn] at inv
  rw [e1, e2]
  simp only [Option.some_bind]
  obtain ⟨bI3, e3, l3, g3⟩ := lv_draw_mask_radius_inner_clear bI1 len (R + aa) (Lf - aa + 1)
    l1 hlen
  obtain ⟨bO3, e4, l4, g4⟩ := lv_draw_mask_radius_outer_clear bO1 len (Lf + 1) R l2 hlen hLlen
  refine ⟨_, _, e3, e4, fun k hk => ?_⟩
  simp only [mask_out]
  rw [g3 k hk, g4 k hk]
  obtain ⟨i1, i2⟩ := inv k hk
  by_cases c1 : R + aa ≤ (k : Int) ∨ (k : Int) < Lf - aa + 1
  · rw [if_pos c1, if_neg (by omega), (i2 (by omega)).2]
  · rw [if_neg c1]
    by_cases c2 : Lf + 1 ≤ (k : Int) ∧ (k : Int) < R
    · rw [if_pos c2, (i2 (by omega)).1]
    · rw [if_neg c2]
      exact i1 (by omega)

set_option maxRecDepth 100000 in
/-- The rectangle (0,0)-(9,9) with radius 3 and the descriptor `lv_draw_mask_radius_init`
builds from the fresh `circle_cache`: on every span that reaches beyond column 3, in every
row, the outputs of inner mode and outer mode add up to 255 at every pixel. -/
theorem lv_draw_mask_radius_inner_outer_corner_3 (circle : _lv_draw_mask_radius_circle_dsc_t)
    (abs_x abs_y len : Int)
    (h : (lv_draw_mask_radius_init circle_cache_init ⟨0, 0, 9, 9⟩ 3 false).2 = some circle)
    (hlen : 0 ≤ len) (hreach : 3 < abs_x + len) :
    ∃ rI rO,
      lv_draw_mask_radius circle (List.replicate len.toNat 255) abs_x abs_y len
        ⟨⟨0, 0, 9, 9⟩, 3, false⟩ = some rI ∧
      lv_draw_mask_radius circle (List.replicate len.toNat 255) abs_x abs_y len
        ⟨⟨0, 0, 9, 9⟩, 3, true⟩ = some rO ∧
      ∀ i : Nat, i < len.toNat → (mask_out len rI).getD i 0 + (mask_out len rO).getD i 0 = 255 := by
  have hd : ((lv_draw_mask_radius_init circle_cache_init ⟨0, 0, 9, 9⟩ 3 false).2.all fun c =>
      decide ((∀ v ∈ c.cir_opa, v < 256) ∧
        ∀ y : Nat, y < 3 → c.opa_start_on_y.getD y 0 ≤ c.opa_start_on_y.getD (y + 1) 0))
      = true := by decide
  rw [h] at hd
  simp only [Option.all_some, decide_eq_true_eq] at hd
  obtain ⟨hwf, -⟩ := lv_draw_mask_radius_init_some circle_cache_init circle ⟨0, 0, 9, 9⟩ 3 false
    circle_cache_init_wf (by norm_num) h
  exact lv_draw_mask_radius_inner_outer circle ⟨0, 0, 9, 9⟩ 3 abs_x abs_y len hwf hd.1
    (fun y hy => hd.2 y (by omega)) (by norm_num) (by decide) hlen (by simpa using hreach)

/-! ## `mask_mix`: the order of the arguments -/

/-- C35: for all bytes `a` and `b`, `mask_mix(a, b) = mask_mix(b, a)`: the order
`mask_mix(opa, mask_buf[i])` of the radius generator gives the same byte as the order
`mask_mix(mask_buf[i], opa)` of the other generators. -/
theorem mask_mix_comm (a b : Nat) (ha : a < 256) (hb : b < 256) :
    mask_mix a b = mask_mix b a := by
  by_cases hb255 : b = 255
  · subst hb255
    rw [mask_mix_opa_255, mask_mix_255 a ha]
  by_cases ha255 : a = 255
  · subst ha255
    rw [mask_mix_opa_255, mask_mix_255 b hb]
  have h1 : ¬ b ≥ 255 := by omega
  have h2 : ¬ a ≥ 255 := by omega
  simp only [mask_mix, mask_mix_with, LV_OPA_MAX, LV_OPA_MIN, if_neg h1, if_neg h2]
  by_cases hb0 : b ≤ 0
  · have : b = 0 := by omega
    subst this
    simp [LV_UDIV255]
  by_cases ha0 : a ≤ 0
  · have : a = 0 := by omega
    subst this
    simp [LV_UDIV255]
  rw [if_neg hb0, if_neg ha0, Nat.mul_comm]

/-- C35 at the bytes 100 and 200 (both orders give 78), and at a pixel the radius generator
mixes into a buffer. -/
theorem mask_mix_comm_witness :
    (100 : Nat) < 256 ∧ (200 : Nat) < 256 ∧ mask_mix 100 200 = mask_mix 200 100 ∧
    mask_buf_mix_opa [255, 200] 1 100 = mask_buf_mix [255, 200] 1 100 :=
  ⟨by decide, by decide, mask_mix_comm 100 200 (by decide) (by decide), by decide⟩

/-- With thresholds strictly inside the byte range the order of the arguments matters: for
`LV_OPA_MIN = 2` and `LV_OPA_MAX = 253`, `mask_mix(1, 254)` is 1 and `mask_mix(254, 1)` is 0. -/
theorem mask_mix_with_order_matters :
    mask_mix_with 2 253 LV_UDIV255 1 254 = 1 ∧ mask_mix_with 2 253 LV_UDIV255 254 1 = 0 := by
  decide

/-! ## The radius generator: two blocks and one `circle_cache` -/

set_option maxRecDepth 100000 in
/-- C36 (the code at the failing input): block `A` is initialised for the rectangle (0,0)-(9,9)
with radius 3 on the fresh `circle_cache`; on the corner row `y = 0` (`x = 0`, `len = 10`,
buffer of `0xFF`) it gives the bytes 0, 176, 255, 255, 255, 255, 255, 255, 176, 0.  Then block
`B` is initialised for the rectangle (20,20)-(29,29) with radius 2: `A` is not touched, but
`A.circle` points at the `circle_cache` that the second call has recomputed, and the same
scanline on `A` now gives 0, 0, 0, 255, 255, 255, 255, 0, 0, 0. -/
theorem lv_draw_mask_radius_init_shared_cache :
    ((lv_draw_mask_radius_init circle_cache_init ⟨0, 0, 9, 9⟩ 3 false).2.bind fun cache_a =>
        lv_draw_mask_radius cache_a (List.replicate 10 255) 0 0 10
          (lv_draw_mask_radius_init circle_cache_init ⟨0, 0, 9, 9⟩ 3 false).1)
      = some (LV_DRAW_MASK_RES_CHANGED, [0, 176, 255, 255, 255, 255, 255, 255, 176, 0]) ∧
    ((lv_draw_mask_radius_init circle_cache_init ⟨0, 0, 9, 9⟩ 3 false).2.bind fun cache_a =>
        (lv_draw_mask_radius_init cache_a ⟨20, 20, 29, 29⟩ 2 false).2.bind fun cache_b =>
        lv_draw_mask_radius cache_b (List.replicate 10 255) 0 0 10
          (lv_draw_mask_radius_init circle_cache_init ⟨0, 0, 9, 9⟩ 3 false).1)
      = some (LV_DRAW_MASK_RES_CHANGED, [0, 0, 0, 255, 255, 255, 255, 0, 0, 0]) ∧
    (lv_draw_mask_radius_init circle_cache_init ⟨0, 0, 9, 9⟩ 3 false).1.cfg_radius = 3 ∧
    ((lv_draw_mask_radius_init circle_cache_init ⟨0, 0, 9, 9⟩ 3 false).2.bind fun cache_a =>
        some (lv_draw_mask_radius_init cache_a ⟨20, 20, 29, 29⟩ 2 false).1.cfg_radius)
      = some 2 := by
  refine ⟨by decide, by decide, by decide, by decide⟩

/-! ## The entry list of the circle descriptor -/

/-- `cir_calc_aa4` for a radius other than 0 and an `lv_coord_t` of `bits` bits: the entries,
then the indexing part. -/
theorem cir_calc_aa4_bits_eq (bits : Nat) (c : _lv_draw_mask_radius_circle_dsc_t)
    (radius : Int) (h0 : radius ≠ 0) :
    cir_calc_aa4_bits bits c radius = (cir_calc_aa4_entries_bits bits c radius).bind fun st3 =>
      (array_set st3.c.opa_start_on_y 0 0).bind fun a0 =>
      (cir_calc_index st3.cir_x st3.cir_y 301 0 0 { st3.c with opa_start_on_y := a0 }).map
        fun c1 => { c1 with cir_size := st3.cir_x.length } := by
  simp only [cir_calc_aa4_bits, cir_calc_aa4_entries_bits, cir_calc_aa4_octant, if_neg h0]
  cases cir_calc_sweep ((4 * radius).toNat + 1) 1
      { cp := (lv_circ_init (radius * 4)).1, tmp := (lv_circ_init (radius * 4)).2,
        x_int := [(asr (lv_circ_init (radius * 4)).1.x 2) % 2 ^ 32, 0, 0, 0],
        x_fract := [0, 0, 0, 0], cir_x := [], cir_y := [], c := c, y_8th_cnt := 0 } with
  | none => rfl
  | some st1 =>
    simp only [Option.some_bind]
    cases st1.cir_x.getLast? with
    | none => rfl
    | some last_x =>
      cases st1.cir_y.getLast? with
      | none => rfl
      | some last_y =>
        simp only []
        rw [Option.bind_assoc]

/-- `cir_calc_aa4` for a radius other than 0: the entries, then the indexing part. -/
theorem cir_calc_aa4_eq (c : _lv_draw_mask_radius_circle_dsc_t) (radius : Int)
    (h0 : radius ≠ 0) :
    cir_calc_aa4 c radius = (cir_calc_aa4_entries c radius).bind fun st3 =>
      (array_set st3.c.opa_start_on_y 0 0).bind fun a0 =>
      (cir_calc_index st3.cir_x st3.cir_y 301 0 0 { st3.c with opa_start_on_y := a0 }).map
        fun c1 => { c1 with cir_size := st3.cir_x.length } :=
  cir_calc_aa4_bits_eq 16 c radius h0

/-- The push writes `cir_opa[cir_size]` and no other entry of `cir_opa`. -/
theorem cir_push_opa (st st1 : cir_calc_state) (x y : Int) (opa : Nat)
    (h : cir_push st x y opa = some st1) :
    st.cir_x.length < st.c.cir_opa.length ∧ st1.c.cir_opa.getD st.cir_x.length 0 = opa ∧
    ∀ j : Nat, j ≠ st.cir_x.length → st1.c.cir_opa.getD j 0 = st.c.cir_opa.getD j 0 := by
  simp only [cir_push] at h
  split_ifs at h with hc
  cases hs : array_set st.c.cir_opa st.cir_x.length opa with
  | none => rw [hs] at h; simp at h
  | some a =>
    rw [hs] at h
    simp only [Option.map_some', Option.some.injEq] at h
    subst h
    simp only [array_set] at hs
    split_ifs at hs with hi
    simp only [Option.some.injEq] at hs
    subst hs
    have hlt : st.cir_x.length < st.c.cir_opa.length := by exact_mod_cast hi.2
    refine ⟨hlt, ?_, fun j hj => ?_⟩
    · simp only [Int.toNat_ofNat, List.getD_eq_getElem?_getD]
      rw [List.getElem?_set_self hlt]
      rfl
    · simp only [Int.toNat_ofNat, List.getD_eq_getElem?_getD]
      rw [List.getElem?_set_ne (fun e => hj e.symm)]

/-- The loop that builds the second octant appends the first `n` entries of `cir_y` in reverse
order to `cir_x` and those of `cir_x` to `cir_y`, keeps the entries of `cir_opa` that were there
and copies the first `n` of them in reverse order behind them. -/
theorem cir_calc_mirror_lists (n : Nat) : ∀ (st st1 : cir_calc_state),
    cir_calc_mirror n st = some st1 → n ≤ st.cir_x.length →
    st.cir_y.length = st.cir_x.length →
    st1.cir_x = st.cir_x ++ (st.cir_y.take n).reverse ∧
    st1.cir_y = st.cir_y ++ (st.cir_x.take n).reverse ∧
    (∀ j : Nat, j < st.cir_x.length → st1.c.cir_opa.getD j 0 = st.c.cir_opa.getD j 0) ∧
    (∀ t : Nat, t < n →
      st1.c.cir_opa.getD (st.cir_x.length + t) 0 = st.c.cir_opa.getD (n - 1 - t) 0) := by
  induction n with
  | zero =>
    intro st st1 h _ _
    simp only [cir_calc_mirror, Option.some.injEq] at h
    subst h
    exact ⟨by simp, by simp, fun _ _ => rfl, fun t ht => absurd ht (by omega)⟩
  | succ i ih =>
    intro st st1 h hn hlen
    simp only [cir_calc_mirror] at h
    cases hy : st.cir_y[i]? with
    | none => rw [hy] at h; simp at h
    | some y =>
      cases hx : st.cir_x[i]? with
      | none => rw [hy, hx] at h; simp at h
      | some x =>
        cases ho : st.c.cir_opa[i]? with
        | none => rw [hy, hx, ho] at h; simp at h
        | some opa =>
          rw [hy, hx, ho] at h
          simp only at h
          cases hp : cir_push st y x opa with
          | none => rw [hp] at h; simp at h
          | some s =>
            rw [hp] at h
            simp only [Option.some_bind] at h
            obtain ⟨p1, p2, -, -, -⟩ := cir_push_some _ _ _ _ _ hp
            obtain ⟨q1, q2, q3⟩ := cir_push_opa _ _ _ _ _ hp
            have hsl : s.cir_x.length = st.cir_x.length + 1 := by rw [p1]; simp
            obtain ⟨r1, r2, r3, r4⟩ := ih s st1 h (by omega) (by rw [p1, p2]; simp [hlen])
            have tx : (st.cir_x.take (i + 1)) = st.cir_x.take i ++ [x] := by
              rw [List.take_succ, hx]; rfl
            have ty : (st.cir_y.take (i + 1)) = st.cir_y.take i ++ [y] := by
              rw [List.take_succ, hy]; rfl
            have sx : s.cir_x.take i = st.cir_x.take i := by
              rw [p1, List.take_append_of_le_length (by omega)]
            have sy : s.cir_y.take i = st.cir_y.take i := by
              rw [p2, List.take_append_of_le_length (by omega)]
            refine ⟨?_, ?_, fun j hj => ?_, fun t ht => ?_⟩
            · rw [r1, sy, p1, ty]; simp
            · rw [r2, sx, p2, tx]; simp
            · rw [r3 j (by omega), q3 j (by omega)]
            · by_cases ht0 : t = 0
              · subst ht0
                rw [Nat.add_zero, r3 _ (by omega), q2]
                simp only [Nat.add_sub_cancel, Nat.sub_zero, List.getD_eq_getElem?_getD, ho]
                rfl
              · have e1 : st.cir_x.length + t = s.cir_x.length + (t - 1) := by omega
                rw [e1, r4 (t - 1) (by omega), q3 _ (by omega)]
                congr 1
                omega

/-- The row loop of the indexing part leaves `cir_opa` as it is. -/
theorem cir_calc_row_opa (cir_x cir_y : List Int) (y : Int) (n : Nat) :
    ∀ (i : Nat) (c : _lv_draw_mask_radius_circle_dsc_t)
      (r : Nat × _lv_draw_mask_radius_circle_dsc_t),
    cir_calc_row cir_x cir_y y n i c = some r → r.2.cir_opa = c.cir_opa := by
  induction n with
  | zero =>
    intro i c r h
    simp only [cir_calc_row, Option.some.injEq] at h
    subst h
    rfl
  | succ n ih =>
    intro i c r h
    simp only [cir_calc_row] at h
    cases hy : cir_y[i]? with
    | none => rw [hy] at h; simp only [Option.some.injEq] at h; subst h; rfl
    | some cy =>
      cases hx : cir_x[i]? with
      | none => rw [hy, hx] at h; simp only [Option.some.injEq] at h; subst h; rfl
      | some cx =>
        rw [hy, hx] at h
        simp only at h
        by_cases hc : cy % 2 ^ 32 = y
        · rw [if_pos hc] at h
          cases hg : array_get c.x_start_on_y y with
          | none => rw [hg] at h; simp at h
          | some xs =>
            rw [hg] at h
            simp only [Option.some_bind] at h
            cases hs : array_set c.x_start_on_y y (uint8_t (LV_MIN xs cx)) with
            | none => rw [hs] at h; simp at h
            | some a =>
              rw [hs] at h
              simp only [Option.some_bind] at h
              exact ih (i + 1) { c with x_start_on_y := a } r h
        · rw [if_neg hc] at h
          simp only [Option.some.injEq] at h
          subst h
          rfl

/-- The indexing part leaves `cir_opa` as it is. -/
theorem cir_calc_index_opa (cir_x cir_y : List Int) (fuel : Nat) :
    ∀ (y : Int) (i : Nat) (c c1 : _lv_draw_mask_radius_circle_dsc_t),
    cir_calc_index cir_x cir_y fuel y i c = some c1 → c1.cir_opa = c.cir_opa := by
  induction fuel with
  | zero => intro y i c c1 h; simp [cir_calc_index] at h
  | succ fuel ih =>
    intro y i c c1 h
    simp only [cir_calc_index] at h
    by_cases hi : i < cir_x.length
    · rw [if_pos hi] at h
      cases h1 : array_set c.opa_start_on_y y (uint8_t i) with
      | none => rw [h1] at h; simp at h
      | some a1 =>
        rw [h1] at h
        simp only [Option.some_bind] at h
        cases h2 : array_set c.x_start_on_y y (uint8_t (cir_x.getD i 0)) with
        | none => rw [h2] at h; simp at h
        | some a2 =>
          rw [h2] at h
          simp only [Option.some_bind] at h
          cases h3 : cir_calc_row cir_x cir_y y (cir_x.length - i) i
              { c with opa_start_on_y := a1, x_start_on_y := a2 } with
          | none => rw [h3] at h; simp at h
          | some r =>
            rw [h3] at h
            simp only [Option.some_bind] at h
            rw [ih _ _ _ _ h, cir_calc_row_opa _ _ _ _ _ _ _ h3]
    · rw [if_neg hi] at h
      simp only [Option.some.injEq] at h
      subst h
      rfl

/-- A push that returns found room in the scratch arrays. -/
theorem cir_push_room (st st1 : cir_calc_state) (x y : Int) (opa : Nat)
    (h : cir_push st x y opa = some st1) : st.cir_x.length < 1000 := by
  simp only [cir_push] at h
  split_ifs at h with hc
  exact hc

/-- A push of a value in range for the row `y_8th_cnt` keeps the ranges, and leaves room for
`y_8th_cnt` to grow by one. -/
theorem cir_push_ranges (st st1 : cir_calc_state) (x : Int) (opa : Nat)
    (h : cir_push st x st.y_8th_cnt opa = some st1) (hr : cir_calc_ranges st)
    (hx : -2 ^ 31 ≤ x ∧ x < 2 ^ 32) :
    cir_calc_ranges st1 ∧ st1.y_8th_cnt + 1 ≤ st1.cir_x.length := by
  obtain ⟨p1, p2, p3, p4, -⟩ := cir_push_some _ _ _ _ _ h
  have hroom := cir_push_room _ _ _ _ _ h
  obtain ⟨r1, r2, r3, r4, r5⟩ := hr
  have hl : st1.cir_x.length = st.cir_x.length + 1 := by rw [p1]; simp
  refine ⟨⟨by rw [p3]; exact r1, by rw [p4]; exact r2, by rw [p4, hl]; omega, ?_, ?_⟩, ?_⟩
  · intro y hy
    rw [p2, List.mem_append, List.mem_singleton] at hy
    rcases hy with hy | hy
    · exact r4 y hy
    · subst hy
      exact ⟨r2, by omega⟩
  · intro v hv
    rw [p1, List.mem_append, List.mem_singleton] at hv
    rcases hv with hv | hv
    · exact r5 v hv
    · subst hv
      exact hx
  · rw [p4, hl]
    omega

/-- The value of `int32_t` lies in the range of the type. -/
theorem int32_t_range (v : Int) : -2 ^ 31 ≤ int32_t v ∧ int32_t v < 2 ^ 32 := by
  simp only [int32_t]
  omega

/-- An entry of a list of values in range, read with the default 0, is in range. -/
theorem getD_range (l : List Int) (i : Nat) (h : ∀ v ∈ l, 0 ≤ v ∧ v < 2 ^ 32) :
    0 ≤ l.getD i 0 ∧ l.getD i 0 < 2 ^ 32 := by
  rw [List.getD_eq_getElem?_getD]
  cases hi : l[i]? with
  | none => simp
  | some v =>
    obtain ⟨hlt, he⟩ := List.getElem?_eq_some_iff.mp hi
    exact h v (he ▸ List.getElem_mem hlt)

/-- One row of the sweep keeps the ranges. -/
theorem cir_calc_group_ranges (st st1 : cir_calc_state) (h : cir_calc_group st = some st1)
    (hr : cir_calc_ranges st) : cir_calc_ranges st1 := by
  have hx0 := getD_range st.x_int 0 hr.1
  have hx0a : -2 ^ 31 ≤ st.x_int.getD 0 0 ∧ st.x_int.getD 0 0 < 2 ^ 32 := ⟨by omega, hx0.2⟩
  have key : ∀ s2 : cir_calc_state, cir_calc_ranges s2 → s2.y_8th_cnt + 1 ≤ s2.cir_x.length →
      cir_calc_ranges { s2 with y_8th_cnt := s2.y_8th_cnt + 1 } := by
    intro s2 h2 hle
    exact ⟨h2.1, by have := h2.2.1; simp only; omega, hle, h2.2.2.2.1, h2.2.2.2.2⟩
  have two : ∀ (opa opa1 : Nat) (s2 : cir_calc_state),
      (cir_push st (st.x_int.getD 0 0) st.y_8th_cnt opa).bind
        (fun s => cir_push s (int32_t (st.x_int.getD 0 0 - 1)) st.y_8th_cnt opa1) = some s2 →
      cir_calc_ranges s2 ∧ s2.y_8th_cnt + 1 ≤ s2.cir_x.length ∧
        s2.y_8th_cnt = st.y_8th_cnt := by
    intro opa opa1 s2 hs
    cases hp : cir_push st (st.x_int.getD 0 0) st.y_8th_cnt opa with
    | none => rw [hp] at hs; simp at hs
    | some s =>
      rw [hp] at hs
      simp only [Option.some_bind] at hs
      obtain ⟨a1, -⟩ := cir_push_ranges _ _ _ _ hp hr hx0a
      obtain ⟨-, -, -, e4, -⟩ := cir_push_some _ _ _ _ _ hp
      rw [← e4] at hs
      obtain ⟨b1, b2⟩ := cir_push_ranges _ _ _ _ hs a1 (int32_t_range _)
      obtain ⟨-, -, -, e5, -⟩ := cir_push_some _ _ _ _ _ hs
      exact ⟨b1, b2, by rw [e5, e4]⟩
  simp only [cir_calc_group] at h
  rw [Option.map_eq_some'] at h
  obtain ⟨s2, h2, rfl⟩ := h
  split_ifs at h2 with c0 c1 c2
  · obtain ⟨a1, a2⟩ := cir_push_ranges _ _ _ _ h2 hr hx0a
    obtain ⟨-, -, -, e4, -⟩ := cir_push_some _ _ _ _ _ h2
    rw [← e4]
    exact key s2 a1 a2
  · obtain ⟨a1, a2, e⟩ := two _ _ _ h2
    rw [← e]
    exact key s2 a1 a2
  · obtain ⟨a1, a2, e⟩ := two _ _ _ h2
    rw [← e]
    exact key s2 a1 a2
  · obtain ⟨a1, a2, e⟩ := two _ _ _ h2
    rw [← e]
    exact key s2 a1 a2

/-- The sampling loop keeps the ranges. -/
theorem cir_calc_sample_ranges (n : Nat) : ∀ (i : Nat) (st : cir_calc_state),
    cir_calc_ranges st → cir_calc_ranges (cir_calc_sample n i st).2 := by
  induction n with
  | zero => intro i st h; simpa [cir_calc_sample] using h
  | succ n ih =>
    intro i st h
    simp only [cir_calc_sample]
    split_ifs with hc
    · apply ih
      refine ⟨fun v hv => ?_, h.2.1, h.2.2.1, h.2.2.2.1, h.2.2.2.2⟩
      rcases List.mem_or_eq_of_mem_set hv with h1 | h1
      · exact h.1 v h1
      · subst h1
        exact ⟨Int.emod_nonneg _ (by norm_num), Int.emod_lt_of_pos _ (by norm_num)⟩
    · exact h

/-- The sweep keeps the ranges. -/
theorem cir_calc_sweep_ranges (fuel : Nat) : ∀ (i : Nat) (st st1 : cir_calc_state),
    cir_calc_sweep fuel i st = some st1 → cir_calc_ranges st → cir_calc_ranges st1 := by
  induction fuel with
  | zero => intro i st st1 h; simp [cir_calc_sweep] at h
  | succ fuel ih =>
    intro i st st1 h hr
    simp only [cir_calc_sweep] at h
    have hs := cir_calc_sample_ranges (4 - i) i st hr
    split_ifs at h with hc h4
    · simp only [Option.some.injEq] at h
      subst h
      exact hs
    · cases hg : cir_calc_group (cir_calc_sample (4 - i) i st).2 with
      | none => rw [hg] at h; simp at h
      | some g =>
        rw [hg] at h
        simp only [Option.some_bind] at h
        exact ih 0 g st1 h (cir_calc_group_ranges _ _ hg hs)
    · simp only [Option.some.injEq] at h
      subst h
      exact hr

/-- The entry at index `j` of a list followed by the reverse of the first `n` entries of another
list. -/
theorem getD_append_take_reverse (X Y : List Int) (n j : Nat) (hn : n ≤ Y.length) :
    (j < X.length → (X ++ (Y.take n).reverse).getD j 0 = X.getD j 0) ∧
    (∀ t : Nat, t < n → j = X.length + t →
      (X ++ (Y.take n).reverse).getD j 0 = Y.getD (n - 1 - t) 0) := by
  refine ⟨fun hj => ?_, fun t ht hjt => ?_⟩
  · simp only [List.getD_eq_getElem?_getD]
    rw [List.getElem?_append_left hj]
  · subst hjt
    simp only [List.getD_eq_getElem?_getD]
    rw [List.getElem?_append_right (by omega)]
    have hl : (List.take n Y).length = n := by rw [List.length_take]; omega
    rw [List.getElem?_reverse (by rw [hl]; omega), hl]
    have e : X.length + t - X.length = t := by omega
    rw [e, List.getElem?_take_of_lt (by omega)]

/-- A list of entries with equal last coordinates, followed by the mirror loop's entries, reads
backwards as the list with the coordinates swapped. -/
theorem mirror_getD (X Y : List Int) (L i : Nat) (hX : X.length = L) (hY : Y.length = L)
    (hd : X.getD (L - 1) 0 = Y.getD (L - 1) 0) (hi : i < 2 * L - 1) :
    (X ++ (Y.take (L - 1)).reverse).getD (2 * L - 1 - 1 - i) 0 =
      (Y ++ (X.take (L - 1)).reverse).getD i 0 := by
  obtain ⟨a1, a2⟩ := getD_append_take_reverse X Y (L - 1) (2 * L - 1 - 1 - i) (by omega)
  obtain ⟨b1, b2⟩ := getD_append_take_reverse Y X (L - 1) i (by omega)
  by_cases h1 : i < L - 1
  · rw [a2 (L - 2 - i) (by omega) (by omega), b1 (by omega)]
    congr 1
    omega
  by_cases h2 : i = L - 1
  · rw [a1 (by omega), b1 (by omega), h2]
    have e : 2 * L - 1 - 1 - (L - 1) = L - 1 := by omega
    rw [e, hd]
  · rw [a1 (by omega), b2 (i - L) (by omega) (by omega)]
    congr 1
    omega

/-- The entry at the last index of a non-empty list. -/
theorem getD_of_getLast? (l : List Int) (v : Int) (h : l.getLast? = some v) :
    l.getD (l.length - 1) 0 = v := by
  rw [List.getLast?_eq_getElem?] at h
  rw [List.getD_eq_getElem?_getD, h]
  rfl

/-- The last entry of a list is one of its entries. -/
theorem mem_of_getLast_some (l : List Int) (v : Int) (h : l.getLast? = some v) : v ∈ l := by
  rw [List.getLast?_eq_getElem?] at h
  obtain ⟨hlt, he⟩ := List.getElem?_eq_some_iff.mp h
  exact he ▸ List.getElem_mem hlt

/-- When the sweep of `cir_calc_aa4` is followed by the midpoint step, the scratch arrays have
the same length, which is not 0, and their last entries are equal: the last entry of the first
octant lies on the diagonal. -/
theorem cir_calc_aa4_diagonal (c : _lv_draw_mask_radius_circle_dsc_t) (radius : Int)
    (st1 st2 : cir_calc_state) (last_x last_y : Int) (opa : Nat)
    (ho : cir_calc_aa4_octant c radius = some st1)
    (hlx : st1.cir_x.getLast? = some last_x) (hly : st1.cir_y.getLast? = some last_y)
    (h2 : (if last_x % 2 ^ 32 ≠ asr (radius * 723 % 2 ^ 32) 10 ∨
              last_y % 2 ^ 32 ≠ asr (radius * 723 % 2 ^ 32) 10 then
            cir_push st1 (asr (radius * 723 % 2 ^ 32) 10) (asr (radius * 723 % 2 ^ 32) 10) opa
          else some st1) = some st2) :
    st2.cir_y.length = st2.cir_x.length ∧ 1 ≤ st2.cir_x.length ∧
    st2.cir_x.getD (st2.cir_x.length - 1) 0 = st2.cir_y.getD (st2.cir_x.length - 1) 0 := by
  simp only [cir_calc_aa4_octant] at ho
  obtain ⟨lx0, ly0, a1, a2, a3, -⟩ := cir_calc_sweep_some _ _ _ _ ho
  simp only [List.nil_append] at a1 a2
  have hr0 : cir_calc_ranges
      { cp := (lv_circ_init (radius * 4)).1, tmp := (lv_circ_init (radius * 4)).2,
        x_int := [(asr (lv_circ_init (radius * 4)).1.x 2) % 2 ^ 32, 0, 0, 0],
        x_fract := [0, 0, 0, 0], cir_x := [], cir_y := [], c := c, y_8th_cnt := 0 } := by
    refine ⟨fun v hv => ?_, le_refl _, by simp, by simp, by simp⟩
    simp only [List.mem_cons, List.mem_singleton, List.not_mem_nil, or_false] at hv
    rcases hv with e | e | e | e
    · rw [e]
      exact ⟨Int.emod_nonneg _ (by norm_num), Int.emod_lt_of_pos _ (by norm_num)⟩
    · rw [e]; norm_num
    · rw [e]; norm_num
    · rw [e]; norm_num
  have hr1 := cir_calc_sweep_ranges _ _ _ _ ho hr0
  have hlen1 : st1.cir_y.length = st1.cir_x.length := by rw [a1, a2, a3]
  have hne : 1 ≤ st1.cir_x.length := by
    cases hl : st1.cir_x with
    | nil => rw [hl] at hlx; simp at hlx
    | cons a t => simp
  by_cases hcnd : last_x % 2 ^ 32 ≠ asr (radius * 723 % 2 ^ 32) 10 ∨
      last_y % 2 ^ 32 ≠ asr (radius * 723 % 2 ^ 32) 10
  · rw [if_pos hcnd] at h2
    obtain ⟨p1, p2, -, -, -⟩ := cir_push_some _ _ _ _ _ h2
    refine ⟨by rw [p1, p2]; simp [hlen1], by rw [p1]; simp, ?_⟩
    have e1 : st2.cir_x.length - 1 = st1.cir_x.length := by rw [p1]; simp
    rw [e1, p1, p2]
    simp only [List.getD_eq_getElem?_getD]
    rw [List.getElem?_append_right (le_refl _), List.getElem?_append_right (by omega), hlen1]
  · rw [if_neg hcnd] at h2
    simp only [Option.some.injEq] at h2
    subst h2
    refine ⟨hlen1, hne, ?_⟩
    have gx := getD_of_getLast? _ _ hlx
    have gy := getD_of_getLast? _ _ hly
    rw [hlen1] at gy
    rw [gx, gy]
    have mx : last_x ∈ st1.cir_x := mem_of_getLast_some _ _ hlx
    have my : last_y ∈ st1.cir_y := mem_of_getLast_some _ _ hly
    have rx := hr1.2.2.2.2 last_x mx
    have ry := hr1.2.2.2.1 last_y my
    simp only [not_or, not_not] at hcnd
    obtain ⟨c1, c2⟩ := hcnd
    simp only [asr] at c1 c2
    norm_num at rx c1 c2
    omega

/-- C33: for a radius of at least 1 whose tables fit (`cir_calc_aa4` returns), the entry list
built by `cir_calc_aa4` is its own mirror: the descriptor's `cir_size` is the number of entries of
`cir_x`, `cir_y` and `cir_opa` that were written, and for every `i < cir_size` the entry at
`cir_size - 1 - i` has the `x` that is the `y` of entry `i`, the `y` that is the `x` of entry `i`,
and the same coverage. -/
theorem cir_calc_aa4_mirror (c c1 : _lv_draw_mask_radius_circle_dsc_t) (radius : Int)
    (h1 : 1 ≤ radius) (h : cir_calc_aa4 c radius = some c1) :
    ∃ st : cir_calc_state, cir_calc_aa4_entries c radius = some st ∧
      c1.cir_size = st.cir_x.length ∧ st.cir_y.length = st.cir_x.length ∧
      c1.cir_opa = st.c.cir_opa ∧
      ∀ i : Nat, i < st.cir_x.length →
        st.cir_x.getD (st.cir_x.length - 1 - i) 0 = st.cir_y.getD i 0 ∧
        st.cir_y.getD (st.cir_x.length - 1 - i) 0 = st.cir_x.getD i 0 ∧
        c1.cir_opa.getD (st.cir_x.length - 1 - i) 0 = c1.cir_opa.getD i 0 := by
  rw [cir_calc_aa4_eq c radius (by omega)] at h
  cases he : cir_calc_aa4_entries c radius with
  | none => rw [he] at h; simp at h
  | some st3 =>
    rw [he] at h
    simp only [Option.some_bind] at h
    cases hs0 : array_set st3.c.opa_start_on_y 0 0 with
    | none => rw [hs0] at h; simp at h
    | some a0 =>
      rw [hs0] at h
      simp only [Option.some_bind] at h
      rw [Option.map_eq_some'] at h
      obtain ⟨c2, hidx, rfl⟩ := h
      have hopa := cir_calc_index_opa _ _ _ _ _ _ _ hidx
      simp only at hopa
      simp only [cir_calc_aa4_entries, cir_calc_aa4_entries_bits] at he
      cases ho : cir_calc_aa4_octant c radius with
      | none => rw [ho] at he; simp at he
      | some st1 =>
        rw [ho] at he
        simp only [Option.some_bind] at he
        cases hlx : st1.cir_x.getLast? with
        | none => rw [hlx] at he; simp at he
        | some last_x =>
          cases hly : st1.cir_y.getLast? with
          | none => rw [hlx, hly] at he; simp at he
          | some last_y =>
            rw [hlx, hly] at he
            simp only at he
            rw [Option.bind_eq_some] at he
            obtain ⟨st2, h2, hm⟩ := he
            obtain ⟨d1, d2, d3⟩ := cir_calc_aa4_diagonal c radius st1 st2 last_x last_y _ ho hlx hly h2
            obtain ⟨m1, m2, m3, m4⟩ := cir_calc_mirror_lists _ _ _ hm (by omega) d1
            have hN : st3.cir_x.length = 2 * st2.cir_x.length - 1 := by
              rw [m1]
              simp only [List.length_append, List.length_reverse, List.length_take]
              omega
            have hNy : st3.cir_y.length = st3.cir_x.length := by
              rw [m1, m2]
              simp only [List.length_append, List.length_reverse, List.length_take]
              omega
            refine ⟨st3, rfl, rfl, hNy, hopa, fun i hi => ⟨?_, ?_, ?_⟩⟩
            · rw [hN]
              rw [m1, m2]
              exact mirror_getD _ _ _ i rfl d1 d3 (by omega)
            · rw [hN]
              rw [m1, m2]
              exact mirror_getD _ _ _ i d1 rfl d3.symm (by omega)
            · simp only [hopa]
              rw [hN]
              by_cases i1 : i < st2.cir_x.length - 1
              · have e : 2 * st2.cir_x.length - 1 - 1 - i =
                    st2.cir_x.length + (st2.cir_x.length - 2 - i) := by omega
                rw [e, m4 _ (by omega), m3 i (by omega)]
                congr 1
                omega
              by_cases i2 : i = st2.cir_x.length - 1
              · congr 1
                omega
              · have e : i = st2.cir_x.length + (i - st2.cir_x.length) := by omega
                rw [m3 _ (by omega)]
                conv_rhs => rw [e]
                rw [m4 _ (by omega)]
                congr 1
                omega

set_option maxRecDepth 100000 in
/-- The mirror property of C33 at radius 2 on the zero-initialised cache, where `cir_calc_aa4`
builds 5 entries. -/
theorem cir_calc_aa4_mirror_witness :
    (1 : Int) ≤ 2 ∧
    (cir_calc_aa4 circle_cache_init 2).map (fun c1 => (c1.cir_size, c1.cir_opa.take 5)) =
      some (5, [0, 240, 0, 240, 0]) ∧
    ∃ c1, cir_calc_aa4 circle_cache_init 2 = some c1 ∧
      ∃ st : cir_calc_state, cir_calc_aa4_entries circle_cache_init 2 = some st ∧
        c1.cir_size = st.cir_x.length ∧ st.cir_y.length = st.cir_x.length ∧
        c1.cir_opa = st.c.cir_opa ∧
        ∀ i : Nat, i < st.cir_x.length →
          st.cir_x.getD (st.cir_x.length - 1 - i) 0 = st.cir_y.getD i 0 ∧
          st.cir_y.getD (st.cir_x.length - 1 - i) 0 = st.cir_x.getD i 0 ∧
          c1.cir_opa.getD (st.cir_x.length - 1 - i) 0 = c1.cir_opa.getD i 0 := by
  refine ⟨by decide, by decide, ?_⟩
  obtain ⟨c1, hc⟩ := Option.isSome_iff_exists.mp
    (by decide : (cir_calc_aa4 circle_cache_init 2).isSome = true)
  exact ⟨c1, hc, cir_calc_aa4_mirror circle_cache_init c1 2 (by decide) hc⟩

/-- A byte `uint8_t (v * 16)` is 16 times a value from 0 to 15. -/
theorem uint8_t_mul_16 (v : Int) : ∃ k : Nat, k ≤ 15 ∧ uint8_t (v * 16) = 16 * k := by
  refine ⟨(v % 16).toNat, ?_, ?_⟩
  · omega
  · simp only [uint8_t]
    omega

/-- The byte of the midpoint entry is 16 times a value from 0 to 15, whatever the width of
`lv_coord_t`. -/
theorem cir_calc_aa4_mid_mul_16 (bits : Nat) (mid mid_int : Int) :
    ∃ k : Nat, k ≤ 15 ∧ cir_calc_aa4_mid bits mid mid_int = 16 * k := by
  simp only [cir_calc_aa4_mid]
  exact uint8_t_mul_16 _

/-- A push of a byte that is 16 times a value from 0 to 15 keeps all entries of `cir_opa` below
`cir_size` of that form. -/
theorem cir_push_mul_16 (st st1 : cir_calc_state) (x y : Int) (opa : Nat)
    (h : cir_push st x y opa = some st1) (ho : ∃ k : Nat, k ≤ 15 ∧ opa = 16 * k)
    (hq : ∀ i : Nat, i < st.cir_x.length → ∃ k : Nat, k ≤ 15 ∧ st.c.cir_opa.getD i 0 = 16 * k) :
    ∀ i : Nat, i < st1.cir_x.length → ∃ k : Nat, k ≤ 15 ∧ st1.c.cir_opa.getD i 0 = 16 * k := by
  obtain ⟨p1, -, -, -, -⟩ := cir_push_some _ _ _ _ _ h
  obtain ⟨-, q2, q3⟩ := cir_push_opa _ _ _ _ _ h
  intro i hi
  rw [p1, List.length_append, List.length_singleton] at hi
  by_cases e : i = st.cir_x.length
  · rw [e, q2]
    exact ho
  · rw [q3 i e]
    exact hq i (by omega)

/-- Two pushes in a row of bytes that are 16 times a value from 0 to 15. -/
theorem cir_push_push_mul_16 (st st2 : cir_calc_state) (x y x1 y1 : Int) (opa opa1 : Nat)
    (h : (cir_push st x y opa).bind (fun s => cir_push s x1 y1 opa1) = some st2)
    (ho : ∃ k : Nat, k ≤ 15 ∧ opa = 16 * k) (ho1 : ∃ k : Nat, k ≤ 15 ∧ opa1 = 16 * k)
    (hq : ∀ i : Nat, i < st.cir_x.length → ∃ k : Nat, k ≤ 15 ∧ st.c.cir_opa.getD i 0 = 16 * k) :
    ∀ i : Nat, i < st2.cir_x.length → ∃ k : Nat, k ≤ 15 ∧ st2.c.cir_opa.getD i 0 = 16 * k := by
  cases hs : cir_push st x y opa with
  | none => rw [hs] at h; simp at h
  | some s =>
    rw [hs] at h
    simp only [Option.some_bind] at h
    exact cir_push_mul_16 _ _ _ _ _ h ho1 (cir_push_mul_16 _ _ _ _ _ hs ho hq)

/-- One row of the sweep keeps all entries of `cir_opa` below `cir_size` of the form 16 times a
value from 0 to 15. -/
theorem cir_calc_group_mul_16 (st st1 : cir_calc_state) (h : cir_calc_group st = some st1)
    (hq : ∀ i : Nat, i < st.cir_x.length → ∃ k : Nat, k ≤ 15 ∧ st.c.cir_opa.getD i 0 = 16 * k) :
    ∀ i : Nat, i < st1.cir_x.length → ∃ k : Nat, k ≤ 15 ∧ st1.c.cir_opa.getD i 0 = 16 * k := by
  simp only [cir_calc_group] at h
  rw [Option.map_eq_some'] at h
  obtain ⟨s2, h2, rfl⟩ := h
  split_ifs at h2 with c0 c1 c2
  · exact fun i hi => cir_push_mul_16 _ s2 _ _ _ h2 (uint8_t_mul_16 _) hq i hi
  · exact fun i hi => cir_push_push_mul_16 _ s2 _ _ _ _ _ _ h2 (uint8_t_mul_16 _)
      (uint8_t_mul_16 _) hq i hi
  · exact fun i hi => cir_push_push_mul_16 _ s2 _ _ _ _ _ _ h2 (uint8_t_mul_16 _)
      (uint8_t_mul_16 _) hq i hi
  · exact fun i hi => cir_push_push_mul_16 _ s2 _ _ _ _ _ _ h2 (uint8_t_mul_16 _)
      (uint8_t_mul_16 _) hq i hi

/-- The sweep keeps all entries of `cir_opa` below `cir_size` of the form 16 times a value from
0 to 15. -/
theorem cir_calc_sweep_mul_16 (fuel : Nat) : ∀ (i : Nat) (st st1 : cir_calc_state),
    cir_calc_sweep fuel i st = some st1 →
    (∀ j : Nat, j < st.cir_x.length → ∃ k : Nat, k ≤ 15 ∧ st.c.cir_opa.getD j 0 = 16 * k) →
    ∀ j : Nat, j < st1.cir_x.length → ∃ k : Nat, k ≤ 15 ∧ st1.c.cir_opa.getD j 0 = 16 * k := by
  induction fuel with
  | zero => intro i st st1 h; simp [cir_calc_sweep] at h
  | succ fuel ih =>
    intro i st st1 h hq
    simp only [cir_calc_sweep] at h
    obtain ⟨s1, -, s3, -, -⟩ := cir_calc_sample_some (4 - i) i st
    have hs : ∀ j : Nat, j < (cir_calc_sample (4 - i) i st).2.cir_x.length →
        ∃ k : Nat, k ≤ 15 ∧ (cir_calc_sample (4 - i) i st).2.c.cir_opa.getD j 0 = 16 * k := by
      rw [s1, s3]
      exact hq
    split_ifs at h with hc h4
    · simp only [Option.some.injEq] at h
      subst h
      exact hs
    · cases hg : cir_calc_group (cir_calc_sample (4 - i) i st).2 with
      | none => rw [hg] at h; simp at h
      | some g =>
        rw [hg] at h
        simp only [Option.some_bind] at h
        exact ih 0 g st1 h (cir_calc_group_mul_16 _ _ hg hs)
    · simp only [Option.some.injEq] at h
      subst h
      exact hq

/-- Every entry of `cir_opa` below `cir_size` that `cir_calc_aa4` leaves is 16 times a value
from 0 to 15. -/
theorem cir_calc_aa4_mul_16 (c c1 : _lv_draw_mask_radius_circle_dsc_t) (radius : Int)
    (h1 : 1 ≤ radius) (h : cir_calc_aa4 c radius = some c1) :
    ∀ i : Nat, (i : Int) < c1.cir_size → ∃ k : Nat, k ≤ 15 ∧ c1.cir_opa.getD i 0 = 16 * k := by
  rw [cir_calc_aa4_eq c radius (by omega)] at h
  cases he : cir_calc_aa4_entries c radius with
  | none => rw [he] at h; simp at h
  | some st3 =>
    rw [he] at h
    simp only [Option.some_bind] at h
    cases hs0 : array_set st3.c.opa_start_on_y 0 0 with
    | none => rw [hs0] at h; simp at h
    | some a0 =>
      rw [hs0] at h
      simp only [Option.some_bind] at h
      rw [Option.map_eq_some'] at h
      obtain ⟨c2, hidx, rfl⟩ := h
      have hopa := cir_calc_index_opa _ _ _ _ _ _ _ hidx
      simp only at hopa
      simp only [cir_calc_aa4_entries, cir_calc_aa4_entries_bits] at he
      cases ho : cir_calc_aa4_octant c radius with
      | none => rw [ho] at he; simp at he
      | some st1 =>
        rw [ho] at he
        simp only [Option.some_bind] at he
        cases hlx : st1.cir_x.getLast? with
        | none => rw [hlx] at he; simp at he
        | some last_x =>
          cases hly : st1.cir_y.getLast? with
          | none => rw [hlx, hly] at he; simp at he
          | some last_y =>
            rw [hlx, hly] at he
            simp only at he
            rw [Option.bind_eq_some] at he
            obtain ⟨st2, h2, hm⟩ := he
            obtain ⟨d1, d2, -⟩ :=
              cir_calc_aa4_diagonal c radius st1 st2 last_x last_y _ ho hlx hly h2
            obtain ⟨m1, -, m3, m4⟩ := cir_calc_mirror_lists _ _ _ hm (by omega) d1
            have hq1 : ∀ j : Nat, j < st1.cir_x.length →
                ∃ k : Nat, k ≤ 15 ∧ st1.c.cir_opa.getD j 0 = 16 * k := by
              simp only [cir_calc_aa4_octant] at ho
              exact cir_calc_sweep_mul_16 _ _ _ _ ho (fun j hj => absurd hj (by simp))
            have hq2 : ∀ j : Nat, j < st2.cir_x.length →
                ∃ k : Nat, k ≤ 15 ∧ st2.c.cir_opa.getD j 0 = 16 * k := by
              by_cases hc : last_x % 2 ^ 32 ≠ asr (radius * 723 % 2 ^ 32) 10 ∨
                  last_y % 2 ^ 32 ≠ asr (radius * 723 % 2 ^ 32) 10
              · rw [if_pos hc] at h2
                exact fun j hj => cir_push_mul_16 _ _ _ _ _ h2 (cir_calc_aa4_mid_mul_16 _ _ _)
                  hq1 j hj
              · rw [if_neg hc] at h2
                obtain rfl := Option.some.inj h2
                exact hq1
            intro i hi
            simp only [hopa]
            simp only [Nat.cast_lt] at hi
            have hN : st3.cir_x.length = 2 * st2.cir_x.length - 1 := by
              rw [m1]
              simp only [List.length_append, List.length_reverse, List.length_take]
              omega
            by_cases i1 : i < st2.cir_x.length
            · rw [m3 i i1]
              exact hq2 i i1
            · have e : i = st2.cir_x.length + (i - st2.cir_x.length) := by omega
              rw [e, m4 _ (by omega)]
              exact hq2 _ (by omega)

/-- A value of `lv_opa_t` that was in range before the conversion. -/
theorem uint8_t_of_range (v : Int) (h0 : 0 ≤ v) (h1 : v < 256) :
    ((uint8_t v : Nat) : Int) = v := by
  simp only [uint8_t]
  omega

/-- The correction `AA_EXTRA` of two samples of which the first is not the smaller one: the
`uint32_t` difference does not wrap. -/
theorem aa_extra_of_le (a b : Int) (h0 : b ≤ a) (h1 : a - b < 4) :
    aa_extra a b = (a - b + 1) / 2 ∧ 0 ≤ (a - b + 1) / 2 ∧ (a - b + 1) / 2 ≤ 2 := by
  simp only [aa_extra]
  norm_num
  omega

/-- The byte stored for a coverage from 0 to 15. -/
theorem uint8_t_cov (v : Int) (h0 : 0 ≤ v) (h1 : v ≤ 15) :
    uint8_t (((uint8_t v : Nat) : Int) * 16) = (16 * v).toNat := by
  rw [uint8_t_of_range v h0 (by omega)]
  simp only [uint8_t]
  omega

/-- The coverage of a row whose four samples fall into one pixel. -/
theorem cir_opa_4 (f0 f1 f2 f3 : Int)
    (h0 : f0 ≤ 3) (h3 : 0 ≤ f3) (c01 : f1 ≤ f0) (c12 : f2 ≤ f1) (c23 : f3 ≤ f2) :
    uint8_t (↑(uint8_t (↑(uint8_t (↑(uint8_t (↑(uint8_t (f0 + f1 + f2 + f3)) + aa_extra f0 f1)) +
      aa_extra f1 f2)) + aa_extra f2 f3)) * 16) =
      (16 * (f0 + f1 + f2 + f3 + (f0 - f1 + 1) / 2 + (f1 - f2 + 1) / 2 +
        (f2 - f3 + 1) / 2)).toNat ∧
    0 ≤ f0 + f1 + f2 + f3 + (f0 - f1 + 1) / 2 + (f1 - f2 + 1) / 2 + (f2 - f3 + 1) / 2 ∧
    f0 + f1 + f2 + f3 + (f0 - f1 + 1) / 2 + (f1 - f2 + 1) / 2 + (f2 - f3 + 1) / 2 ≤ 15 := by
  obtain ⟨a1, a2, a3⟩ := aa_extra_of_le f0 f1 c01 (by omega)
  obtain ⟨b1, b2, b3⟩ := aa_extra_of_le f1 f2 c12 (by omega)
  obtain ⟨d1, d2, d3⟩ := aa_extra_of_le f2 f3 c23 (by omega)
  rw [a1, b1, d1]
  have hsum : f0 + f1 + f2 + f3 + (f0 - f1 + 1) / 2 + (f1 - f2 + 1) / 2 +
      (f2 - f3 + 1) / 2 ≤ 15 := by omega
  rw [uint8_t_of_range (f0 + f1 + f2 + f3) (by omega) (by omega),
    uint8_t_of_range (f0 + f1 + f2 + f3 + (f0 - f1 + 1) / 2) (by omega) (by omega),
    uint8_t_of_range (f0 + f1 + f2 + f3 + (f0 - f1 + 1) / 2 + (f1 - f2 + 1) / 2) (by omega)
      (by omega)]
  exact ⟨uint8_t_cov _ (by omega) hsum, by omega, hsum⟩

/-- The coverage of the second entry of a row whose first sample alone falls into the first
pixel. -/
theorem cir_opa_1_3 (f1 f2 f3 : Int)
    (h0 : f1 ≤ 3) (h3 : 0 ≤ f3) (c12 : f2 ≤ f1) (c23 : f3 ≤ f2) :
    uint8_t (↑(uint8_t (↑(uint8_t (↑(uint8_t ((1 * 4 + f1 + f2 + f3) % 2 ^ 32)) +
      aa_extra f1 f2)) + aa_extra f2 f3)) * 16) =
      (16 * (1 * 4 + f1 + f2 + f3 + (f1 - f2 + 1) / 2 + (f2 - f3 + 1) / 2)).toNat ∧
    0 ≤ 1 * 4 + f1 + f2 + f3 + (f1 - f2 + 1) / 2 + (f2 - f3 + 1) / 2 ∧
    1 * 4 + f1 + f2 + f3 + (f1 - f2 + 1) / 2 + (f2 - f3 + 1) / 2 ≤ 15 := by
  obtain ⟨b1, b2, b3⟩ := aa_extra_of_le f1 f2 c12 (by omega)
  obtain ⟨d1, d2, d3⟩ := aa_extra_of_le f2 f3 c23 (by omega)
  rw [b1, d1, Int.emod_eq_of_lt (by omega) (by omega)]
  have hsum : 1 * 4 + f1 + f2 + f3 + (f1 - f2 + 1) / 2 + (f2 - f3 + 1) / 2 ≤ 15 := by omega
  rw [uint8_t_of_range (1 * 4 + f1 + f2 + f3) (by omega) (by omega),
    uint8_t_of_range (1 * 4 + f1 + f2 + f3 + (f1 - f2 + 1) / 2) (by omega) (by omega)]
  exact ⟨uint8_t_cov _ (by omega) hsum, by omega, hsum⟩

/-- The coverages of the two entries of a row whose first two samples fall into the first
pixel. -/
theorem cir_opa_2_2 (f0 f1 f2 f3 : Int)
    (h0 : f0 ≤ 3) (h1 : 0 ≤ f1) (h2 : f2 ≤ 3) (h3 : 0 ≤ f3) (c01 : f1 ≤ f0) (c23 : f3 ≤ f2) :
    (uint8_t (↑(uint8_t (↑(uint8_t (f0 + f1)) + aa_extra f0 f1)) * 16) =
      (16 * (f0 + f1 + (f0 - f1 + 1) / 2)).toNat ∧
    0 ≤ f0 + f1 + (f0 - f1 + 1) / 2 ∧ f0 + f1 + (f0 - f1 + 1) / 2 ≤ 15) ∧
    (uint8_t (↑(uint8_t (↑(uint8_t ((2 * 4 + f2 + f3) % 2 ^ 32)) + aa_extra f2 f3)) * 16) =
      (16 * (2 * 4 + f2 + f3 + (f2 - f3 + 1) / 2)).toNat ∧
    0 ≤ 2 * 4 + f2 + f3 + (f2 - f3 + 1) / 2 ∧ 2 * 4 + f2 + f3 + (f2 - f3 + 1) / 2 ≤ 15) := by
  obtain ⟨a1, a2, a3⟩ := aa_extra_of_le f0 f1 c01 (by omega)
  obtain ⟨d1, d2, d3⟩ := aa_extra_of_le f2 f3 c23 (by omega)
  rw [a1, d1, Int.emod_eq_of_lt (by omega) (by omega)]
  have hs1 : f0 + f1 + (f0 - f1 + 1) / 2 ≤ 15 := by omega
  have hs2 : 2 * 4 + f2 + f3 + (f2 - f3 + 1) / 2 ≤ 15 := by omega
  rw [uint8_t_of_range (f0 + f1) (by omega) (by omega),
    uint8_t_of_range (2 * 4 + f2 + f3) (by omega) (by omega)]
  exact ⟨⟨uint8_t_cov _ (by omega) hs1, by omega, hs1⟩,
    ⟨uint8_t_cov _ (by omega) hs2, by omega, hs2⟩⟩

/-- The coverages of the two entries of a row whose first three samples fall into the first
pixel. -/
theorem cir_opa_3_1 (f0 f1 f2 f3 : Int)
    (h0 : f0 ≤ 3) (h2 : 0 ≤ f2) (h3 : 0 ≤ f3 ∧ f3 ≤ 3) (c01 : f1 ≤ f0) (c12 : f2 ≤ f1) :
    (uint8_t (↑(uint8_t (↑(uint8_t (↑(uint8_t (f0 + f1 + f2)) + aa_extra f0 f1)) +
        aa_extra f1 f2)) * 16) =
      (16 * (f0 + f1 + f2 + (f0 - f1 + 1) / 2 + (f1 - f2 + 1) / 2)).toNat ∧
    0 ≤ f0 + f1 + f2 + (f0 - f1 + 1) / 2 + (f1 - f2 + 1) / 2 ∧
    f0 + f1 + f2 + (f0 - f1 + 1) / 2 + (f1 - f2 + 1) / 2 ≤ 15) ∧
    (uint8_t (↑(uint8_t ((3 * 4 + f3) % 2 ^ 32)) * 16) = (16 * (3 * 4 + f3)).toNat ∧
    0 ≤ 3 * 4 + f3 ∧ 3 * 4 + f3 ≤ 15) := by
  obtain ⟨a1, a2, a3⟩ := aa_extra_of_le f0 f1 c01 (by omega)
  obtain ⟨b1, b2, b3⟩ := aa_extra_of_le f1 f2 c12 (by omega)
  rw [a1, b1, Int.emod_eq_of_lt (by omega) (by omega)]
  have hs1 : f0 + f1 + f2 + (f0 - f1 + 1) / 2 + (f1 - f2 + 1) / 2 ≤ 15 := by omega
  rw [uint8_t_of_range (f0 + f1 + f2) (by omega) (by omega),
    uint8_t_of_range (f0 + f1 + f2 + (f0 - f1 + 1) / 2) (by omega) (by omega)]
  exact ⟨⟨uint8_t_cov _ (by omega) hs1, by omega, hs1⟩,
    ⟨uint8_t_cov _ (by omega) (by omega), by omega, by omega⟩⟩

/-- One row of the sweep, entered with four samples taken: no sum and no difference wraps, so
the row is the one `cir_calc_group_exact` builds. -/
theorem cir_calc_group_eq_exact (st : cir_calc_state) (hs : cir_calc_samples 4 st) :
    cir_calc_group st = cir_calc_group_exact st := by
  obtain ⟨-, -, -, -, -, -, r, ch, -⟩ := hs
  obtain ⟨r01, r02, r03, r04⟩ := r 0 (by omega)
  obtain ⟨r11, r12, r13, r14⟩ := r 1 (by omega)
  obtain ⟨r21, r22, r23, r24⟩ := r 2 (by omega)
  obtain ⟨r31, r32, r33, r34⟩ := r 3 (by omega)
  obtain ⟨c01, c02⟩ := ch 0 (by omega)
  obtain ⟨c11, c12⟩ := ch 1 (by omega)
  obtain ⟨c21, c22⟩ := ch 2 (by omega)
  simp only [Nat.zero_add, Nat.reduceAdd] at c01 c02 c11 c12 c21 c22
  simp only [cir_calc_group, cir_calc_group_exact, cir_push_exact]
  generalize st.x_int.getD 0 0 = i0 at *
  generalize st.x_int.getD 1 0 = i1 at *
  generalize st.x_int.getD 2 0 = i2 at *
  generalize st.x_int.getD 3 0 = i3 at *
  generalize st.x_fract.getD 0 0 = f0 at *
  generalize st.x_fract.getD 1 0 = f1 at *
  generalize st.x_fract.getD 2 0 = f2 at *
  generalize st.x_fract.getD 3 0 = f3 at *
  congr 1
  by_cases e03 : i0 = i3
  · rw [if_pos e03, if_pos e03]
    obtain ⟨q1, q2, q3⟩ := cir_opa_4 f0 f1 f2 f3 r02 r31 (by omega) (by omega) (by omega)
    rw [if_pos ⟨q2, q3⟩, q1]
  rw [if_neg e03, if_neg e03]
  by_cases e01 : i0 ≠ i1
  · rw [if_pos e01, if_pos e01]
    obtain ⟨q1, q2, q3⟩ := cir_opa_1_3 f1 f2 f3 r12 r31 (by omega) (by omega)
    rw [if_pos ⟨r01, by omega⟩, uint8_t_cov f0 r01 (by omega)]
    simp only [if_pos (And.intro q2 q3), q1]
  rw [if_neg e01, if_neg e01]
  by_cases e02 : i0 ≠ i2
  · rw [if_pos e02, if_pos e02]
    obtain ⟨⟨q1, q2, q3⟩, ⟨p1, p2, p3⟩⟩ :=
      cir_opa_2_2 f0 f1 f2 f3 r02 r11 r22 r31 (by omega) (by omega)
    rw [if_pos ⟨q2, q3⟩, q1]
    simp only [if_pos (And.intro p2 p3), p1]
  · rw [if_neg e02, if_neg e02]
    obtain ⟨⟨q1, q2, q3⟩, ⟨p1, p2, p3⟩⟩ :=
      cir_opa_3_1 f0 f1 f2 f3 r02 r21 ⟨r31, r32⟩ (by omega) (by omega)
    rw [if_pos ⟨q2, q3⟩, q1]
    simp only [if_pos (And.intro p2 p3), p1]

/-- The entry a `set` wrote. -/
theorem getD_set_self (l : List Int) (i : Nat) (v : Int) (h : i < l.length) :
    (l.set i v).getD i 0 = v := by
  rw [List.getD_eq_getElem?_getD, List.getElem?_set_self h]
  rfl

/-- An entry a `set` did not write. -/
theorem getD_set_other (l : List Int) (i j : Nat) (v : Int) (h : j ≠ i) :
    (l.set i v).getD j 0 = l.getD j 0 := by
  rw [List.getD_eq_getElem?_getD, List.getD_eq_getElem?_getD,
    List.getElem?_set_ne (fun e => h e.symm)]

/-- The split of a sample into `x_int` and `x_fract`. -/
theorem cir_calc_sample_split (x : Int) (h0 : 0 ≤ x) (h1 : x < 2 ^ 34) :
    0 ≤ x % 4 ∧ x % 4 ≤ 3 ∧ 0 ≤ asr x 2 % 2 ^ 32 ∧ asr x 2 % 2 ^ 32 < 2 ^ 32 ∧
    4 * (asr x 2 % 2 ^ 32) + x % 4 = x := by
  simp only [asr]
  norm_num at h1 ⊢
  omega

/-- The step of the circle point: `y` grows by one and `x` stays or shrinks by one. -/
theorem lv_circ_next_step (c : lv_point_t) (tmp : Int) :
    ((lv_circ_next c tmp).1.x = c.x ∨ (lv_circ_next c tmp).1.x = c.x - 1) ∧
    (lv_circ_next c tmp).1.y = c.y + 1 := by
  simp only [lv_circ_next]
  split_ifs
  · exact ⟨Or.inl rfl, rfl⟩
  · exact ⟨Or.inr rfl, rfl⟩

/-- The sampling loop, when it takes all the samples that were missing, leaves four samples. -/
theorem cir_calc_sample_samples (n : Nat) : ∀ (i : Nat) (st : cir_calc_state),
    i + n = 4 → cir_calc_samples i st → (cir_calc_sample n i st).1 = 4 →
    cir_calc_samples 4 (cir_calc_sample n i st).2 := by
  induction n with
  | zero =>
    intro i st hin hs _
    have : i = 4 := by omega
    subst this
    simpa [cir_calc_sample] using hs
  | succ n ih =>
    intro i st hin hs h4
    simp only [cir_calc_sample] at h4 ⊢
    by_cases hc : lv_circ_cont st.cp = true
    · rw [if_pos hc] at h4 ⊢
      refine ih (i + 1) _ (by omega) ?_ h4
      obtain ⟨l1, l2, x0, x1, y0, y1, r, ch, la⟩ := hs
      simp only [lv_circ_cont, decide_eq_true_eq] at hc
      obtain ⟨nx, ny⟩ := lv_circ_next_step st.cp st.tmp
      have hx0 : 0 ≤ (lv_circ_next st.cp st.tmp).1.x := by
        by_cases hy : st.cp.y = 0
        · have := y1 hy
          omega
        · omega
      have hx1 : (lv_circ_next st.cp st.tmp).1.x < 2 ^ 34 := by omega
      obtain ⟨s1, s2, s3, s4, s5⟩ := cir_calc_sample_split _ hx0 hx1
      refine ⟨by simp [l1], by simp [l2], hx0, hx1, by simp only; omega,
        fun h => by simp only at h; omega, fun j hj => ?_, fun j hj => ?_, fun _ => ?_⟩
      · by_cases e : j = i
        · subst e
          simp only
          rw [getD_set_self _ _ _ (by omega), getD_set_self _ _ _ (by omega)]
          exact ⟨s1, s2, s3, s4⟩
        · simp only
          rw [getD_set_other _ _ _ _ e, getD_set_other _ _ _ _ e]
          exact r j (by omega)
      · by_cases e : j + 1 = i
        · subst e
          simp only
          rw [getD_set_self _ _ _ (by omega), getD_set_self _ _ _ (by omega),
            getD_set_other _ _ _ _ (by omega), getD_set_other _ _ _ _ (by omega), s5]
          have := la (by omega)
          simp only [Nat.add_sub_cancel] at this
          omega
        · simp only
          rw [getD_set_other _ _ _ _ (by omega), getD_set_other _ _ _ _ (by omega),
            getD_set_other _ _ _ _ (by omega), getD_set_other _ _ _ _ (by omega)]
          exact ch j (by omega)
      · simp only [Nat.add_sub_cancel]
        rw [getD_set_self _ _ _ (by omega), getD_set_self _ _ _ (by omega)]
        exact s5
    · rw [if_neg hc] at h4
      simp only at h4
      omega

/-- The push leaves the circle point and the samples as they are. -/
theorem cir_push_frame (st st1 : cir_calc_state) (x y : Int) (opa : Nat)
    (h : cir_push st x y opa = some st1) :
    st1.cp = st.cp ∧ st1.x_int = st.x_int ∧ st1.x_fract = st.x_fract := by
  simp only [cir_push] at h
  split_ifs at h with hc
  rw [Option.map_eq_some'] at h
  obtain ⟨a, -, rfl⟩ := h
  exact ⟨rfl, rfl, rfl⟩

/-- One row of the sweep leaves the circle point and the samples as they are. -/
theorem cir_calc_group_frame (st st1 : cir_calc_state) (h : cir_calc_group st = some st1) :
    st1.cp = st.cp ∧ st1.x_int = st.x_int ∧ st1.x_fract = st.x_fract := by
  have two : ∀ (x y x1 y1 : Int) (opa opa1 : Nat) (s2 : cir_calc_state),
      (cir_push st x y opa).bind (fun s => cir_push s x1 y1 opa1) = some s2 →
      s2.cp = st.cp ∧ s2.x_int = st.x_int ∧ s2.x_fract = st.x_fract := by
    intro x y x1 y1 opa opa1 s2 hs
    rw [Option.bind_eq_some] at hs
    obtain ⟨s, hp, hq⟩ := hs
    obtain ⟨a1, a2, a3⟩ := cir_push_frame _ _ _ _ _ hp
    obtain ⟨b1, b2, b3⟩ := cir_push_frame _ _ _ _ _ hq
    exact ⟨by rw [b1, a1], by rw [b2, a2], by rw [b3, a3]⟩
  simp only [cir_calc_group] at h
  rw [Option.map_eq_some'] at h
  obtain ⟨s2, h2, rfl⟩ := h
  split_ifs at h2 with c0 c1 c2
  · exact cir_push_frame _ s2 _ _ _ h2
  · exact two _ _ _ _ _ _ s2 h2
  · exact two _ _ _ _ _ _ s2 h2
  · exact two _ _ _ _ _ _ s2 h2

/-- The sweep, entered with the samples before `i_start` taken, is the sweep with the rows of
`cir_calc_group_exact`. -/
theorem cir_calc_sweep_eq_exact (fuel : Nat) : ∀ (i : Nat) (st : cir_calc_state),
    i ≤ 4 → cir_calc_samples i st →
    cir_calc_sweep fuel i st = cir_calc_sweep_exact fuel i st := by
  induction fuel with
  | zero => intro i st _ _; rfl
  | succ fuel ih =>
    intro i st hi hs
    simp only [cir_calc_sweep, cir_calc_sweep_exact]
    by_cases hc : lv_circ_cont st.cp = true
    · rw [if_pos hc, if_pos hc]
      by_cases h4 : (cir_calc_sample (4 - i) i st).1 ≠ 4
      · rw [if_pos h4, if_pos h4]
      · rw [if_neg h4, if_neg h4]
        simp only [not_not] at h4
        have hs4 := cir_calc_sample_samples (4 - i) i st (by omega) hs h4
        rw [← cir_calc_group_eq_exact _ hs4]
        cases hg : cir_calc_group (cir_calc_sample (4 - i) i st).2 with
        | none => rfl
        | some g =>
          simp only [Option.some_bind]
          obtain ⟨g1, g2, g3⟩ := cir_calc_group_frame _ _ hg
          obtain ⟨l1, l2, x0, x1, y0, y1, -, -, -⟩ := hs4
          exact ih 0 g (by omega) ⟨by rw [g2]; exact l1, by rw [g3]; exact l2,
            by rw [g1]; exact x0, by rw [g1]; exact x1, by rw [g1]; exact y0,
            by rw [g1]; exact y1, fun j hj => absurd hj (by omega),
            fun j hj => absurd hj (by omega), fun h => absurd h (by omega)⟩
    · rw [if_neg hc, if_neg hc]

/-- C31: for a radius of at least 1 (a value of a type of at most 32 bits) whose tables fit
(`cir_calc_aa4` returns), every entry `cir_opa[i]` with `i < cir_size` is a multiple of 16 in
the range 0..240, and no 8-bit wrap-around occurs when the sample sums and the `AA_EXTRA`
corrections are accumulated and multiplied by 16: the sweep of the first octant is the one with
the rows of `cir_calc_group_exact`, where the coverages are computed in unbounded integers and
lie in 0..15. -/
theorem cir_calc_aa4_opa_no_wrap (c c1 : _lv_draw_mask_radius_circle_dsc_t) (radius : Int)
    (h1 : 1 ≤ radius) (h32 : radius < 2 ^ 32) (h : cir_calc_aa4 c radius = some c1) :
    (∀ i : Nat, (i : Int) < c1.cir_size →
      ∃ k : Nat, k ≤ 15 ∧ c1.cir_opa.getD i 0 = 16 * k) ∧
    cir_calc_aa4_octant c radius = cir_calc_aa4_octant_exact c radius ∧
    (cir_calc_aa4_octant_exact c radius).isSome = true := by
  have heq : cir_calc_aa4_octant c radius = cir_calc_aa4_octant_exact c radius := by
    simp only [cir_calc_aa4_octant, cir_calc_aa4_octant_exact]
    apply cir_calc_sweep_eq_exact _ 1 _ (by omega)
    have hr : asr (radius * 4) 2 % 2 ^ 32 = radius := by
      simp only [asr]
      norm_num at h32 ⊢
      omega
    refine ⟨rfl, rfl, ?_, ?_, ?_, ?_, fun j hj => ?_, fun j hj => absurd hj (by omega),
      fun _ => ?_⟩
    · simp only [lv_circ_init]; omega
    · simp only [lv_circ_init]; norm_num at h32 ⊢; omega
    · simp only [lv_circ_init]; omega
    · intro _; simp only [lv_circ_init]; omega
    · have : j = 0 := by omega
      subst this
      simp only [List.getD_cons_zero, lv_circ_init, hr]
      norm_num at h32 ⊢
      omega
    · simp only [Nat.sub_self, List.getD_cons_zero, lv_circ_init, hr]
      omega
  refine ⟨cir_calc_aa4_mul_16 c c1 radius h1 h, heq, ?_⟩
  rw [← heq]
  rw [cir_calc_aa4_eq c radius (by omega)] at h
  cases he : cir_calc_aa4_entries c radius with
  | none => rw [he] at h; simp at h
  | some st3 =>
    simp only [cir_calc_aa4_entries, cir_calc_aa4_entries_bits] at he
    cases ho : cir_calc_aa4_octant c radius with
    | none => rw [ho] at he; simp at he
    | some st1 => rfl

set_option maxRecDepth 100000 in
/-- The coverage bytes of C31 at radius 3 on the zero-initialised cache: the five entries are
0, 176, 0, 176 and 0, that is 16 times the coverages 0, 11, 0, 11 and 0. -/
theorem cir_calc_aa4_opa_no_wrap_witness :
    (1 : Int) ≤ 3 ∧ (3 : Int) < 2 ^ 32 ∧
    (cir_calc_aa4 circle_cache_init 3).map (fun c1 => (c1.cir_size, c1.cir_opa.take 5)) =
      some (5, [0, 176, 0, 176, 0]) ∧
    ∃ c1, cir_calc_aa4 circle_cache_init 3 = some c1 ∧
      (∀ i : Nat, (i : Int) < c1.cir_size →
        ∃ k : Nat, k ≤ 15 ∧ c1.cir_opa.getD i 0 = 16 * k) ∧
      cir_calc_aa4_octant circle_cache_init 3 = cir_calc_aa4_octant_exact circle_cache_init 3 ∧
      (cir_calc_aa4_octant_exact circle_cache_init 3).isSome = true := by
  refine ⟨by decide, by decide, by decide, ?_⟩
  obtain ⟨c1, hc⟩ := Option.isSome_iff_exists.mp
    (by decide : (cir_calc_aa4 circle_cache_init 3).isSome = true)
  exact ⟨c1, hc, cir_calc_aa4_opa_no_wrap circle_cache_init c1 3 (by decide) (by decide) hc⟩

/-! ## The radii whose tables fit the descriptor -/

/-- The sampling loop on natural numbers follows the sampling loop of `cir_calc_aa4`. -/
theorem cir_calc_sample_nat_sim (k : Nat) (n : Nat) :
    ∀ (i : Nat) (st : cir_calc_state) (x y t xi0 : Nat),
    st.cp.x = x → st.cp.y = y → st.tmp = (t : Int) - k → st.x_int.getD 0 0 = xi0 →
    1 ≤ st.x_int.length → 2 * x ≤ k → (y = 0 → 1 ≤ x) → k < 2 ^ 34 →
    (cir_calc_sample n i st).1 = (cir_calc_sample_nat k n i x y t xi0).1 ∧
    (cir_calc_sample n i st).2.cp.x = (cir_calc_sample_nat k n i x y t xi0).2.1 ∧
    (cir_calc_sample n i st).2.cp.y = (cir_calc_sample_nat k n i x y t xi0).2.2.1 ∧
    (cir_calc_sample n i st).2.tmp = ((cir_calc_sample_nat k n i x y t xi0).2.2.2.1 : Int) - k ∧
    (cir_calc_sample n i st).2.x_int.getD 0 0 = (cir_calc_sample_nat k n i x y t xi0).2.2.2.2 ∧
    2 * (cir_calc_sample_nat k n i x y t xi0).2.1 ≤ k ∧
    ((cir_calc_sample_nat k n i x y t xi0).2.2.1 = 0 →
      1 ≤ (cir_calc_sample_nat k n i x y t xi0).2.1) := by
  induction n with
  | zero =>
    intro i st x y t xi0 hx hy ht h0 hl hk hy0 hk34
    simp only [cir_calc_sample, cir_calc_sample_nat]
    exact ⟨trivial, hx, hy, ht, h0, hk, hy0⟩
  | succ n ih =>
    intro i st x y t xi0 hx hy ht h0 hl hk hy0 hk34
    simp only [cir_calc_sample, cir_calc_sample_nat]
    by_cases hc : y ≤ x
    · have hc1 : lv_circ_cont st.cp = true := by
        simp only [lv_circ_cont, decide_eq_true_eq, hx, hy]
        exact_mod_cast hc
      have hc2 : Nat.ble y x = true := Nat.ble_eq_true_of_le hc
      rw [if_pos hc1, hc2]
      simp only [cond_true]
      have hx1 : 1 ≤ x := by
        by_cases e : y = 0
        · exact hy0 e
        · omega
      by_cases htk : t ≤ k
      · have hn : lv_circ_next st.cp st.tmp = (⟨st.cp.x, st.cp.y + 1⟩, st.tmp + (2 * st.cp.y + 3)) := by
          simp only [lv_circ_next]
          rw [if_pos (by rw [ht]; omega)]
        have hb : Nat.ble t k = true := Nat.ble_eq_true_of_le htk
        rw [hn, hb]
        simp only [cond_true]
        refine ih (i + 1) _ x (y + 1) (t + (2 * y + 3)) _ hx (by simp only [hy]; push_cast; ring)
          (by simp only [ht, hy]; push_cast; ring) ?_ (by simp only [List.length_set]; exact hl)
          hk (fun h => absurd h (by omega)) hk34
        by_cases e : i = 0
        · subst e
          simp only [Nat.beq_refl, cond_true]
          rw [getD_set_self _ _ _ (by omega), hx]
          simp only [asr]
          norm_num at hk34 ⊢
          omega
        · have hb0 : Nat.beq i 0 = false := by
            cases hbb : Nat.beq i 0 with
            | false => rfl
            | true => exact absurd (Nat.eq_of_beq_eq_true hbb) e
          rw [hb0]
          simp only [cond_false]
          rw [getD_set_other _ _ _ _ (fun h => e h.symm)]
          exact h0
      · have hn : lv_circ_next st.cp st.tmp =
            (⟨st.cp.x - 1, st.cp.y + 1⟩, st.tmp + (2 * (st.cp.y - st.cp.x) + 5)) := by
          simp only [lv_circ_next]
          rw [if_neg (by rw [ht]; omega)]
        have hb : Nat.ble t k = false := by
          cases hbb : Nat.ble t k with
          | false => rfl
          | true => exact absurd (Nat.le_of_ble_eq_true hbb) htk
        rw [hn, hb]
        simp only [cond_false]
        refine ih (i + 1) _ (x - 1) (y + 1) (t + (2 * y + 5) - 2 * x) _
          (by simp only [hx]; omega) (by simp only [hy]; push_cast; ring)
          (by simp only [ht, hy, hx]; omega) ?_ (by simp only [List.length_set]; exact hl)
          (by omega) (fun h => absurd h (by omega)) hk34
        by_cases e : i = 0
        · subst e
          simp only [Nat.beq_refl, cond_true]
          rw [getD_set_self _ _ _ (by omega), hx]
          simp only [asr]
          norm_num at hk34 ⊢
          omega
        · have hb0 : Nat.beq i 0 = false := by
            cases hbb : Nat.beq i 0 with
            | false => rfl
            | true => exact absurd (Nat.eq_of_beq_eq_true hbb) e
          rw [hb0]
          simp only [cond_false]
          rw [getD_set_other _ _ _ _ (fun h => e h.symm)]
          exact h0
    · have hc1 : ¬ lv_circ_cont st.cp = true := by
        simp only [lv_circ_cont, decide_eq_true_eq, hx, hy]
        intro h
        exact hc (by exact_mod_cast h)
      have hc2 : Nat.ble y x = false := by
        cases hbb : Nat.ble y x with
        | false => rfl
        | true => exact absurd (Nat.le_of_ble_eq_true hbb) hc
      rw [if_neg hc1, hc2]
      simp only [cond_false]
      exact ⟨trivial, hx, hy, ht, h0, hk, hy0⟩

/-- A push into a descriptor with the layout of a descriptor returns while fewer than 300
entries are written. -/
theorem cir_push_fits (st : cir_calc_state) (x y : Int) (opa : Nat)
    (hwf : circle_dsc_wf st.c) (hl : st.cir_x.length < 300) :
    cir_push st x y opa =
      some { st with cir_x := st.cir_x ++ [x], cir_y := st.cir_y ++ [y],
                     c := { st.c with cir_opa := st.c.cir_opa.set st.cir_x.length opa } } := by
  simp only [cir_push, array_set]
  rw [if_pos (by omega), if_pos ⟨by omega, by rw [hwf.1]; exact_mod_cast hl⟩]
  simp

/-- Two pushes in a row into a descriptor with the layout of a descriptor return while fewer
than 299 entries are written. -/
theorem cir_push_push_fits (st : cir_calc_state) (x y x1 y1 : Int) (opa opa1 : Nat)
    (hwf : circle_dsc_wf st.c) (hl : st.cir_x.length + 1 < 300) :
    (cir_push st x y opa).bind (fun s => cir_push s x1 y1 opa1) =
      some { st with cir_x := st.cir_x ++ [x] ++ [x1], cir_y := st.cir_y ++ [y] ++ [y1],
                     c := { st.c with cir_opa :=
                       (st.c.cir_opa.set st.cir_x.length opa).set (st.cir_x ++ [x]).length opa1 } } := by
  rw [cir_push_fits st x y opa hwf (by omega)]
  simp only [Option.some_bind]
  exact cir_push_fits _ x1 y1 opa1
    ⟨by simp only [List.length_set]; exact hwf.1, hwf.2.1, hwf.2.2.1, hwf.2.2.2⟩
    (by simp only [List.length_append, List.length_singleton]; omega)

/-- One row of the sweep into a descriptor with the layout of a descriptor: one entry when
`x_int[0]` is `x_int[3]`, two entries otherwise; the circle point, `tmp` and the samples stay. -/
theorem cir_calc_group_fits (st : cir_calc_state) (hwf : circle_dsc_wf st.c) :
    (st.x_int.getD 0 0 = st.x_int.getD 3 0 → st.cir_x.length < 300 →
      ∃ o : List Nat, o.length = 300 ∧ cir_calc_group st =
        some { st with cir_x := st.cir_x ++ [st.x_int.getD 0 0],
                       cir_y := st.cir_y ++ [st.y_8th_cnt],
                       c := { st.c with cir_opa := o },
                       y_8th_cnt := st.y_8th_cnt + 1 }) ∧
    (st.x_int.getD 0 0 ≠ st.x_int.getD 3 0 → st.cir_x.length + 1 < 300 →
      ∃ o : List Nat, o.length = 300 ∧ cir_calc_group st =
        some { st with cir_x := st.cir_x ++ [st.x_int.getD 0 0] ++
                         [int32_t (st.x_int.getD 0 0 - 1)],
                       cir_y := st.cir_y ++ [st.y_8th_cnt] ++ [st.y_8th_cnt],
                       c := { st.c with cir_opa := o },
                       y_8th_cnt := st.y_8th_cnt + 1 }) := by
  refine ⟨fun h03 hl => ?_, fun h03 hl => ?_⟩
  · simp only [cir_calc_group]
    rw [if_pos h03, cir_push_fits _ _ _ _ hwf hl]
    exact ⟨_, by simp only [List.length_set]; exact hwf.1, rfl⟩
  · simp only [cir_calc_group]
    rw [if_neg h03]
    by_cases h01 : st.x_int.getD 0 0 ≠ st.x_int.getD 1 0
    · rw [if_pos h01, cir_push_push_fits _ _ _ _ _ _ _ hwf hl]
      exact ⟨_, by simp only [List.length_set]; exact hwf.1, rfl⟩
    rw [if_neg h01]
    by_cases h02 : st.x_int.getD 0 0 ≠ st.x_int.getD 2 0
    · rw [if_pos h02, cir_push_push_fits _ _ _ _ _ _ _ hwf hl]
      exact ⟨_, by simp only [List.length_set]; exact hwf.1, rfl⟩
    · rw [if_neg h02, cir_push_push_fits _ _ _ _ _ _ _ hwf hl]
      exact ⟨_, by simp only [List.length_set]; exact hwf.1, rfl⟩

/-- The loop that builds the second octant returns when its entries fit into 300 entries. -/
theorem cir_calc_mirror_fits (n : Nat) : ∀ (st : cir_calc_state),
    circle_dsc_wf st.c → n ≤ st.cir_x.length → st.cir_y.length = st.cir_x.length →
    st.cir_x.length + n ≤ 300 →
    ∃ st1, cir_calc_mirror n st = some st1 ∧ circle_dsc_wf st1.c := by
  induction n with
  | zero => intro st hwf _ _ _; exact ⟨st, rfl, hwf⟩
  | succ i ih =>
    intro st hwf hn hlen h300
    simp only [cir_calc_mirror]
    have hy : st.cir_y[i]? = some (st.cir_y[i]) := List.getElem?_eq_getElem (by omega)
    have hx : st.cir_x[i]? = some (st.cir_x[i]) := List.getElem?_eq_getElem (by omega)
    have hb : i < st.c.cir_opa.length := by rw [hwf.1]; omega
    have ho : st.c.cir_opa[i]? = some (st.c.cir_opa[i]) := List.getElem?_eq_getElem hb
    rw [hy, hx, ho]
    simp only
    rw [cir_push_fits _ _ _ _ hwf (by omega)]
    simp only [Option.some_bind]
    exact ih _ ⟨by simp only [List.length_set]; exact hwf.1, hwf.2.1, hwf.2.2.1, hwf.2.2.2⟩
      (by simp only [List.length_append, List.length_singleton]; omega)
      (by simp only [List.length_append, List.length_singleton]; omega)
      (by simp only [List.length_append, List.length_singleton]; omega)

/-- A boolean test of natural numbers that is not true is false. -/
theorem nat_beq_false (a b : Nat) (h : a ≠ b) : Nat.beq a b = false := by
  cases hb : Nat.beq a b with
  | false => rfl
  | true => exact absurd (Nat.eq_of_beq_eq_true hb) h

/-- The sweep on natural numbers follows the sweep of `cir_calc_aa4`: when it returns entries,
the sweep of `cir_calc_aa4` into a descriptor with the layout of a descriptor returns, with the
same coordinates. -/
theorem cir_calc_sweep_nat_sim (k : Nat) (fuel : Nat) :
    ∀ (i : Nat) (st : cir_calc_state) (x y t xi0 y8 n : Nat) (xr yr : List Nat)
      (res : Nat × List Nat × List Nat),
    i ≤ 4 → cir_calc_samples i st →
    st.cp.x = x → st.cp.y = y → st.tmp = (t : Int) - k → st.x_int.getD 0 0 = xi0 →
    2 * x ≤ k → k < 2 ^ 34 → st.y_8th_cnt = y8 →
    st.cir_x = xr.reverse.map (fun v : Nat => (v : Int)) →
    st.cir_y = yr.reverse.map (fun v : Nat => (v : Int)) →
    xr.length = n → yr.length = n → circle_dsc_wf st.c →
    cir_calc_sweep_nat k fuel i x y t xi0 y8 n xr yr = some res →
    ∃ st1, cir_calc_sweep fuel i st = some st1 ∧
      st1.cir_x = res.2.1.reverse.map (fun v : Nat => (v : Int)) ∧
      st1.cir_y = res.2.2.reverse.map (fun v : Nat => (v : Int)) ∧
      res.2.1.length = res.1 ∧ res.2.2.length = res.1 ∧ circle_dsc_wf st1.c := by
  induction fuel with
  | zero =>
    intro i st x y t xi0 y8 n xr yr res _ _ _ _ _ _ _ _ _ _ _ _ _ _ hres
    simp [cir_calc_sweep_nat] at hres
  | succ fuel ih =>
    intro i st x y t xi0 y8 n xr yr res hi hs hx hy ht h0 hk hk34 hy8 hcx hcy hxn hyn hwf hres
    simp only [cir_calc_sweep_nat] at hres
    simp only [cir_calc_sweep]
    by_cases hc : y ≤ x
    · have hc1 : lv_circ_cont st.cp = true := by
        simp only [lv_circ_cont, decide_eq_true_eq, hx, hy]
        exact_mod_cast hc
      rw [Nat.ble_eq_true_of_le hc] at hres
      simp only [cond_true] at hres
      rw [if_pos hc1]
      obtain ⟨e1, e2, e3, e4, e5, e6, e7⟩ := cir_calc_sample_nat_sim k (4 - i) i st x y t xi0
        hx hy ht h0 (by rw [hs.1]; omega)
        hk (fun h => by have := hs.2.2.2.2.2.1 (by rw [hy, h]; rfl); rw [hx] at this; exact_mod_cast this) hk34
      obtain ⟨s1, s2, s3, s4, -⟩ := cir_calc_sample_some (4 - i) i st
      rcases hfs : cir_calc_sample_nat k (4 - i) i x y t xi0 with ⟨i', x1, y1, t1, xi⟩
      rw [hfs] at hres e1 e2 e3 e4 e5 e6 e7
      simp only at hres e1 e2 e3 e4 e5 e6 e7
      by_cases h4 : i' = 4
      · subst h4
        simp only [Nat.beq_refl, cond_true] at hres
        rw [if_neg (by rw [e1]; simp)]
        have hs4 := cir_calc_sample_samples (4 - i) i st (by omega) hs e1
        obtain ⟨l1, l2, x0, xb, y0, yb, r, ch, la⟩ := hs4
        have la3 := la (by omega)
        simp only [Nat.add_one_sub_one, Nat.reduceSub] at la3
        obtain ⟨r01, r02, r03, r04⟩ := r 0 (by omega)
        obtain ⟨r11, r12, r13, r14⟩ := r 1 (by omega)
        obtain ⟨r21, r22, r23, r24⟩ := r 2 (by omega)
        obtain ⟨r31, r32, r33, r34⟩ := r 3 (by omega)
        obtain ⟨c01, c02⟩ := ch 0 (by omega)
        obtain ⟨c11, c12⟩ := ch 1 (by omega)
        obtain ⟨c21, c22⟩ := ch 2 (by omega)
        simp only [Nat.zero_add, Nat.reduceAdd] at c01 c02 c11 c12 c21 c22
        have hwfs : circle_dsc_wf (cir_calc_sample (4 - i) i st).2.c := by rw [s3]; exact hwf
        obtain ⟨g1, g2⟩ := cir_calc_group_fits _ hwfs
        have hlen : (cir_calc_sample (4 - i) i st).2.cir_x.length = n := by
          rw [s1, hcx]
          simp [hxn]
        have h3 : (cir_calc_sample (4 - i) i st).2.x_int.getD 3 0 = ((x1 / 4 : Nat) : Int) := by
          rw [e2] at la3
          push_cast
          omega
        by_cases hb : xi = x1 / 4
        · rw [hb] at hres
          simp only [Nat.beq_refl, cond_true] at hres
          by_cases hn : n < 300
          · have hblt : Nat.blt n 300 = true := by
              simp only [Nat.blt, Nat.ble_eq_true_of_le hn]
            rw [hblt] at hres
            simp only [cond_true] at hres
            obtain ⟨o, ho, hg⟩ := g1 (by rw [e5, h3, hb]) (by rw [hlen]; exact hn)
            rw [hg]
            simp only [Option.some_bind]
            refine ih 0 _ x1 y1 t1 (x1 / 4) (y8 + 1) (n + 1) (x1 / 4 :: xr) (y8 :: yr) res
              (by omega)
              ⟨l1, l2, x0, xb, y0, yb, fun j hj => absurd hj (by omega),
                fun j hj => absurd hj (by omega), fun h => absurd h (by omega)⟩
              e2 e3 e4 (by simp only; rw [e5, hb]) e6 hk34
              (by simp only; rw [s4, hy8]; push_cast; ring)
              (by simp only; rw [s1, hcx, e5, hb]; simp)
              (by simp only; rw [s2, hcy, s4, hy8]; simp)
              (by simp [hxn]) (by simp [hyn])
              ⟨ho, hwfs.2.1, hwfs.2.2.1, hwfs.2.2.2⟩ hres
          · have hblt : Nat.blt n 300 = false := by
              cases hbb : Nat.blt n 300 with
              | false => rfl
              | true =>
                simp only [Nat.blt] at hbb
                exact absurd (Nat.le_of_ble_eq_true hbb) hn
            rw [hblt] at hres
            simp at hres
        · rw [nat_beq_false _ _ hb] at hres
          simp only [cond_false] at hres
          by_cases hn : n + 1 < 300
          · have hblt : Nat.blt (n + 1) 300 = true := by
              simp only [Nat.blt, Nat.ble_eq_true_of_le hn]
            rw [hblt] at hres
            simp only [cond_true] at hres
            have hne : (cir_calc_sample (4 - i) i st).2.x_int.getD 0 0 ≠
                (cir_calc_sample (4 - i) i st).2.x_int.getD 3 0 := by
              rw [e5, h3]
              exact_mod_cast hb
            obtain ⟨o, ho, hg⟩ := g2 hne (by rw [hlen]; exact hn)
            rw [hg]
            simp only [Option.some_bind]
            have hxi1 : 1 ≤ xi := by
              rw [e5, h3] at hne
              rw [e5] at r03 c01 c02
              rw [e2] at la3
              omega
            have hi32 : int32_t ((xi : Int) - 1) = ((xi - 1 : Nat) : Int) := by
              rw [e5] at c01 c02
              rw [e2] at la3
              simp only [int32_t]
              norm_num at hk34 ⊢
              omega
            refine ih 0 _ x1 y1 t1 xi (y8 + 1) (n + 2) ((xi - 1) :: xi :: xr) (y8 :: y8 :: yr) res
              (by omega)
              ⟨l1, l2, x0, xb, y0, yb, fun j hj => absurd hj (by omega),
                fun j hj => absurd hj (by omega), fun h => absurd h (by omega)⟩
              e2 e3 e4 (by simp only; rw [e5]) e6 hk34
              (by simp only; rw [s4, hy8]; push_cast; ring)
              (by simp only; rw [s1, hcx, e5, hi32]; simp)
              (by simp only; rw [s2, hcy, s4, hy8]; simp)
              (by simp [hxn]) (by simp [hyn])
              ⟨ho, hwfs.2.1, hwfs.2.2.1, hwfs.2.2.2⟩ hres
          · have hblt : Nat.blt (n + 1) 300 = false := by
              cases hbb : Nat.blt (n + 1) 300 with
              | false => rfl
              | true =>
                simp only [Nat.blt] at hbb
                exact absurd (Nat.le_of_ble_eq_true hbb) hn
            rw [hblt] at hres
            simp at hres
      · rw [nat_beq_false _ _ h4] at hres
        simp only [cond_false, Option.some.injEq] at hres
        subst hres
        rw [if_pos (by rw [e1]; exact h4)]
        exact ⟨_, rfl, by rw [s1, hcx], by rw [s2, hcy], hxn, hyn, by rw [s3]; exact hwf⟩
    · have hc1 : ¬ lv_circ_cont st.cp = true := by
        simp only [lv_circ_cont, decide_eq_true_eq, hx, hy]
        intro h
        exact hc (by exact_mod_cast h)
      have hc2 : Nat.ble y x = false := by
        cases hbb : Nat.ble y x with
        | false => rfl
        | true => exact absurd (Nat.le_of_ble_eq_true hbb) hc
      rw [hc2] at hres
      simp only [cond_false, Option.some.injEq] at hres
      subst hres
      rw [if_neg hc1]
      exact ⟨st, rfl, hcx, hcy, hxn, hyn, hwf⟩

/-- An assignment to an array at an index of the array returns. -/
theorem array_set_fits (a : List Nat) (y : Nat) (v : Nat) (h : y < a.length) :
    array_set a (y : Int) v = some (a.set y v) := by
  simp only [array_set]
  rw [if_pos ⟨by omega, by exact_mod_cast h⟩]
  simp

/-- The row loop of the indexing part, for a row below 300 and a descriptor with the layout of a
descriptor, returns behind the entries of the row. -/
theorem cir_calc_row_fits (cir_x cir_y : List Int) (ys : List Nat) (y : Nat) (n : Nat) :
    ∀ (i : Nat) (c : _lv_draw_mask_radius_circle_dsc_t),
    cir_y = ys.map (fun v : Nat => (v : Int)) → cir_x.length = cir_y.length →
    (∀ a ∈ ys, a < 2 ^ 32) → circle_dsc_wf c → y < 300 → i + n = ys.length →
    ∃ r, cir_calc_row cir_x cir_y (y : Int) n i c = some r ∧ circle_dsc_wf r.2 ∧
      ys.drop r.1 = (ys.drop i).dropWhile (fun v => Nat.beq v y) ∧ r.1 ≤ ys.length := by
  induction n with
  | zero =>
    intro i c hcy hlen hb hwf hy hin
    refine ⟨(i, c), rfl, hwf, ?_, by simp only; omega⟩
    simp only
    rw [List.drop_of_length_le (by omega)]
    rfl
  | succ n ih =>
    intro i c hcy hlen hb hwf hy hin
    have hi : i < ys.length := by omega
    have hly : cir_y.length = ys.length := by rw [hcy]; simp
    have e1 : cir_y[i]? = some ((ys[i] : Nat) : Int) := by
      rw [hcy, List.getElem?_map, List.getElem?_eq_getElem hi]
      rfl
    have hix : i < cir_x.length := by omega
    have e2 : cir_x[i]? = some (cir_x[i]) := List.getElem?_eq_getElem hix
    have hd : ys.drop i = ys[i] :: ys.drop (i + 1) := List.drop_eq_getElem_cons hi
    have hbi : ys[i] < 2 ^ 32 := hb _ (List.getElem_mem hi)
    simp only [cir_calc_row]
    rw [e1, e2]
    simp only
    by_cases e : ys[i] = y
    · have hc : ((ys[i] : Nat) : Int) % 2 ^ 32 = (y : Int) := by
        rw [e]
        norm_num at hbi ⊢
        omega
      rw [if_pos hc]
      have hyl : y < c.x_start_on_y.length := by rw [hwf.2.1]; exact hy
      have hg : array_get c.x_start_on_y (y : Int) = some (c.x_start_on_y[y]) := by
        simp only [array_get]
        rw [if_pos (by omega)]
        simp only [Int.toNat_ofNat]
        exact List.getElem?_eq_getElem hyl
      rw [hg]
      simp only [Option.some_bind]
      rw [array_set_fits _ _ _ (by rw [hwf.2.1]; exact hy)]
      simp only [Option.some_bind]
      obtain ⟨r, r1, r2, r3, r4⟩ := ih (i + 1) { c with x_start_on_y := c.x_start_on_y.set y _ }
        hcy hlen hb ⟨hwf.1, by simp only [List.length_set]; exact hwf.2.1, hwf.2.2.1, hwf.2.2.2⟩
        hy (by omega)
      refine ⟨r, r1, r2, ?_, r4⟩
      rw [r3, hd, List.dropWhile_cons_of_pos (by rw [e]; exact Nat.beq_refl y)]
    · have hc : ¬ ((ys[i] : Nat) : Int) % 2 ^ 32 = (y : Int) := by
        norm_num at hbi ⊢
        omega
      rw [if_neg hc]
      refine ⟨(i, c), rfl, hwf, ?_, by simp only; omega⟩
      simp only
      rw [hd, List.dropWhile_cons_of_neg (by rw [nat_beq_false _ _ e]; simp)]

/-- The indexing part returns when its control flow on natural numbers stays below row 300. -/
theorem cir_calc_index_fits (cir_x cir_y : List Int) (ys : List Nat) (fuel : Nat) :
    ∀ (y i : Nat) (c : _lv_draw_mask_radius_circle_dsc_t),
    cir_y = ys.map (fun v : Nat => (v : Int)) → cir_x.length = cir_y.length →
    (∀ a ∈ ys, a < 2 ^ 32) → circle_dsc_wf c → i ≤ ys.length →
    cir_calc_index_nat fuel y (ys.drop i) = true →
    ∃ c1, cir_calc_index cir_x cir_y fuel (y : Int) i c = some c1 ∧ circle_dsc_wf c1 := by
  induction fuel with
  | zero =>
    intro y i c _ _ _ _ _ h
    simp [cir_calc_index_nat] at h
  | succ fuel ih =>
    intro y i c hcy hlen hb hwf hi h
    have hly : cir_y.length = ys.length := by rw [hcy]; simp
    simp only [cir_calc_index]
    by_cases hlt : i < cir_x.length
    · rw [if_pos hlt]
      have hiy : i < ys.length := by omega
      have hd : ys.drop i = ys[i] :: ys.drop (i + 1) := List.drop_eq_getElem_cons hiy
      rw [hd] at h
      simp only [cir_calc_index_nat, Bool.and_eq_true] at h
      obtain ⟨hy, hrest⟩ := h
      rw [← hd] at hrest
      have hy300 : y < 300 := by
        simp only [Nat.blt] at hy
        exact Nat.le_of_ble_eq_true hy
      rw [array_set_fits _ _ _ (by rw [hwf.2.2.1]; exact hy300)]
      simp only [Option.some_bind]
      rw [array_set_fits _ _ _ (by rw [hwf.2.1]; exact hy300)]
      simp only [Option.some_bind]
      have hwf1 : circle_dsc_wf
          { c with opa_start_on_y := c.opa_start_on_y.set y (uint8_t i),
                   x_start_on_y := c.x_start_on_y.set y (uint8_t (cir_x.getD i 0)) } := by
        refine ⟨hwf.1, by simp only [List.length_set]; exact hwf.2.1,
          by simp only [List.length_set]; exact hwf.2.2.1, fun v hv => ?_⟩
        rcases List.mem_or_eq_of_mem_set hv with h1 | h1
        · exact hwf.2.2.2 v h1
        · rw [h1]; exact uint8_t_lt _
      obtain ⟨r, r1, r2, r3, r4⟩ := cir_calc_row_fits cir_x cir_y ys y (cir_x.length - i) i _
        hcy hlen hb hwf1 hy300 (by omega)
      rw [r1]
      simp only [Option.some_bind]
      have := ih (y + 1) r.1 r.2 hcy hlen hb r2 r4 (by rw [r3]; exact hrest)
      simpa using this
    · rw [if_neg hlt]
      exact ⟨c, rfl, hwf⟩

/-- The first octant of `cir_calc_aa4` keeps the ranges. -/
theorem cir_calc_aa4_octant_ranges (c : _lv_draw_mask_radius_circle_dsc_t) (radius : Int)
    (st1 : cir_calc_state) (ho : cir_calc_aa4_octant c radius = some st1) :
    cir_calc_ranges st1 := by
  simp only [cir_calc_aa4_octant] at ho
  refine cir_calc_sweep_ranges _ _ _ _ ho ⟨fun v hv => ?_, le_refl _, by simp, by simp, by simp⟩
  simp only [List.mem_cons, List.mem_singleton, List.not_mem_nil, or_false] at hv
  rcases hv with e | e | e | e
  · rw [e]
    exact ⟨Int.emod_nonneg _ (by norm_num), Int.emod_lt_of_pos _ (by norm_num)⟩
  · rw [e]; norm_num
  · rw [e]; norm_num
  · rw [e]; norm_num

/-- The entries the mirror loop takes from a list given last entry first. -/
theorem take_reverse_tail (l : List Nat) :
    ((l.reverse.map (fun v : Nat => (v : Int))).take (l.length - 1)).reverse =
      l.tail.map (fun v : Nat => (v : Int)) := by
  cases l with
  | nil => rfl
  | cons a t =>
    simp only [List.reverse_cons, List.map_append, List.length_cons, Nat.add_sub_cancel,
      List.tail_cons]
    rw [List.take_append_of_le_length (by simp), List.take_of_length_le (by simp)]
    simp

/-- The part of `cir_calc_aa4` behind the midpoint step returns when the entries given by
`cir_calc_mirror_nat` pass the check `cir_calc_index_nat`. -/
theorem cir_calc_aa4_tail_fits (st2 : cir_calc_state) (xr2 yr2 xs ys : List Nat) (L : Nat)
    (hwf : circle_dsc_wf st2.c)
    (hcx : st2.cir_x = xr2.reverse.map (fun v : Nat => (v : Int)))
    (hcy : st2.cir_y = yr2.reverse.map (fun v : Nat => (v : Int)))
    (hxl : xr2.length = L) (hyl : yr2.length = L) (hL : 1 ≤ L)
    (hbx : ∀ a ∈ xr2, a < 2 ^ 32) (hby : ∀ a ∈ yr2, a < 2 ^ 32)
    (hm : cir_calc_mirror_nat L xr2 yr2 = some (xs, ys))
    (hidx : cir_calc_index_nat 301 0 ys = true) :
    ∃ c1, ((cir_calc_mirror (st2.cir_x.length - 1) st2).bind fun st3 =>
        (array_set st3.c.opa_start_on_y 0 0).bind fun a0 =>
        (cir_calc_index st3.cir_x st3.cir_y 301 0 0 { st3.c with opa_start_on_y := a0 }).map
          fun c1 => { c1 with cir_size := st3.cir_x.length }) = some c1 ∧
      circle_dsc_wf c1 ∧ 0 ≤ c1.cir_size ∧ c1.cir_size ≤ 300 := by
  simp only [cir_calc_mirror_nat] at hm
  have h2L : 2 * L ≤ 301 := by
    cases hb : Nat.ble (2 * L) 301 with
    | true => exact Nat.le_of_ble_eq_true hb
    | false => rw [hb] at hm; simp at hm
  rw [Nat.ble_eq_true_of_le h2L] at hm
  simp only [cond_true, Option.some.injEq, Prod.mk.injEq] at hm
  obtain ⟨hxs, hys⟩ := hm
  have hlx : st2.cir_x.length = L := by rw [hcx]; simp [hxl]
  have hly : st2.cir_y.length = st2.cir_x.length := by rw [hcx, hcy]; simp [hxl, hyl]
  obtain ⟨st3, hmir, hwf3⟩ := cir_calc_mirror_fits (st2.cir_x.length - 1) st2 hwf (by omega) hly
    (by omega)
  obtain ⟨m1, m2, -, -⟩ := cir_calc_mirror_lists _ _ _ hmir (by omega) hly
  rw [hmir]
  simp only [Option.some_bind]
  have h0 : array_set st3.c.opa_start_on_y 0 0 = some (st3.c.opa_start_on_y.set 0 0) := by
    have := array_set_fits st3.c.opa_start_on_y 0 0 (by rw [hwf3.2.2.1]; omega)
    simpa using this
  rw [h0]
  simp only [Option.some_bind]
  have hy3 : st3.cir_y = ys.map (fun v : Nat => (v : Int)) := by
    rw [m2, ← hys, List.map_append, hcy]
    congr 1
    rw [hlx, ← hxl, hcx]
    exact take_reverse_tail xr2
  have hl3 : st3.cir_x.length = st3.cir_y.length := by
    rw [m1, m2]
    simp only [List.length_append, List.length_reverse, List.length_take]
    omega
  have hbys : ∀ a ∈ ys, a < 2 ^ 32 := by
    intro a ha
    rw [← hys, List.mem_append] at ha
    rcases ha with h | h
    · exact hby a (List.mem_reverse.mp h)
    · exact hbx a (List.mem_of_mem_tail h)
  have hwf3a : circle_dsc_wf { st3.c with opa_start_on_y := st3.c.opa_start_on_y.set 0 0 } := by
    refine ⟨hwf3.1, hwf3.2.1, by simp only [List.length_set]; exact hwf3.2.2.1, fun v hv => ?_⟩
    rcases List.mem_or_eq_of_mem_set hv with h1 | h1
    · exact hwf3.2.2.2 v h1
    · rw [h1]; decide
  obtain ⟨c1, hc1, hwf1⟩ := cir_calc_index_fits st3.cir_x st3.cir_y ys 301 0 0 _ hy3 hl3 hbys
    hwf3a (by omega) (by simpa using hidx)
  have hc1a : cir_calc_index st3.cir_x st3.cir_y 301 0 0
      { st3.c with opa_start_on_y := st3.c.opa_start_on_y.set 0 0 } = some c1 := by
    simpa using hc1
  rw [hc1a]
  simp only [Option.map_some']
  refine ⟨_, rfl, ⟨hwf1.1, hwf1.2.1, hwf1.2.2.1, hwf1.2.2.2⟩, by simp only; omega, ?_⟩
  simp only
  rw [m1]
  simp only [List.length_append, List.length_reverse, List.length_take]
  omega

/-- The midpoint push followed by the part of `cir_calc_aa4` behind it. -/
theorem cir_calc_aa4_tail_fits_push (st1 : cir_calc_state) (m : Nat) (opa : Nat)
    (xr yr xs ys : List Nat) (n : Nat)
    (hwf : circle_dsc_wf st1.c)
    (hcx : st1.cir_x = xr.reverse.map (fun v : Nat => (v : Int)))
    (hcy : st1.cir_y = yr.reverse.map (fun v : Nat => (v : Int)))
    (hxl : xr.length = n) (hyl : yr.length = n) (hn : n < 300) (hmb : m < 2 ^ 32)
    (hbx : ∀ a ∈ xr, a < 2 ^ 32) (hby : ∀ a ∈ yr, a < 2 ^ 32)
    (hm : cir_calc_mirror_nat (n + 1) (m :: xr) (m :: yr) = some (xs, ys))
    (hidx : cir_calc_index_nat 301 0 ys = true) :
    ∃ c1, ((cir_push st1 (m : Int) (m : Int) opa).bind fun st2 =>
        (cir_calc_mirror (st2.cir_x.length - 1) st2).bind fun st3 =>
        (array_set st3.c.opa_start_on_y 0 0).bind fun a0 =>
        (cir_calc_index st3.cir_x st3.cir_y 301 0 0 { st3.c with opa_start_on_y := a0 }).map
          fun c1 => { c1 with cir_size := st3.cir_x.length }) = some c1 ∧
      circle_dsc_wf c1 ∧ 0 ≤ c1.cir_size ∧ c1.cir_size ≤ 300 := by
  have hl1 : st1.cir_x.length = n := by rw [hcx]; simpa using hxl
  rw [cir_push_fits _ _ _ _ hwf (by omega)]
  simp only [Option.some_bind]
  refine cir_calc_aa4_tail_fits
    { st1 with cir_x := st1.cir_x ++ [(m : Int)], cir_y := st1.cir_y ++ [(m : Int)],
               c := { st1.c with cir_opa := st1.c.cir_opa.set st1.cir_x.length opa } }
    (m :: xr) (m :: yr) xs ys (n + 1) ?_ ?_ ?_ ?_ ?_ (by omega) ?_ ?_ hm hidx
  · exact ⟨by simp only [List.length_set]; exact hwf.1, hwf.2.1, hwf.2.2.1, hwf.2.2.2⟩
  · show st1.cir_x ++ [(m : Int)] = _
    rw [hcx]
    simp
  · show st1.cir_y ++ [(m : Int)] = _
    rw [hcy]
    simp
  · simpa using hxl
  · simpa using hyl
  · intro a ha
    rcases List.mem_cons.mp ha with h | h
    · rw [h]; exact hmb
    · exact hbx a h
  · intro a ha
    rcases List.mem_cons.mp ha with h | h
    · rw [h]; exact hmb
    · exact hby a h

/-- The state in which `cir_calc_aa4` enters the sweep has its first sample taken. -/
theorem cir_calc_aa4_init_samples (c : _lv_draw_mask_radius_circle_dsc_t) (r : Nat)
    (h1 : 1 ≤ r) (hr : r < 2 ^ 20) :
    cir_calc_samples 1
      { cp := (lv_circ_init ((r : Int) * 4)).1, tmp := (lv_circ_init ((r : Int) * 4)).2,
        x_int := [(asr (lv_circ_init ((r : Int) * 4)).1.x 2) % 2 ^ 32, 0, 0, 0],
        x_fract := [0, 0, 0, 0], cir_x := [], cir_y := [], c := c, y_8th_cnt := 0 } ∧
    (asr (lv_circ_init ((r : Int) * 4)).1.x 2) % 2 ^ 32 = (r : Int) := by
  have hr2 : asr ((r : Int) * 4) 2 % 2 ^ 32 = (r : Int) := by
    simp only [asr]
    norm_num at hr ⊢
    omega
  refine ⟨⟨rfl, rfl, ?_, ?_, ?_, ?_, fun j hj => ?_, fun j hj => absurd hj (by omega),
    fun _ => ?_⟩, by simp only [lv_circ_init]; exact hr2⟩
  · simp only [lv_circ_init]; omega
  · simp only [lv_circ_init]; norm_num at hr ⊢; omega
  · simp only [lv_circ_init]; omega
  · intro _; simp only [lv_circ_init]; omega
  · have : j = 0 := by omega
    subst this
    simp only [List.getD_cons_zero, lv_circ_init, hr2]
    norm_num at hr ⊢
    omega
  · simp only [Nat.sub_self, List.getD_cons_zero, lv_circ_init, hr2]
    omega

/-- When the check `cir_calc_aa4_fits` passes for a radius, `cir_calc_aa4` returns for it on
every descriptor that has the layout of a descriptor, with at most 300 entries. -/
theorem cir_calc_aa4_fits_some (c : _lv_draw_mask_radius_circle_dsc_t) (r : Nat)
    (hwf : circle_dsc_wf c) (h1 : 1 ≤ r) (hr : r < 2 ^ 20)
    (hf : cir_calc_aa4_fits r = true) :
    ∃ c1, cir_calc_aa4 c (r : Int) = some c1 ∧ circle_dsc_wf c1 ∧ 0 ≤ c1.cir_size ∧
      c1.cir_size ≤ 300 := by
  simp only [cir_calc_aa4_fits] at hf
  cases he : cir_calc_entries_nat r with
  | none => rw [he] at hf; simp at hf
  | some p =>
    obtain ⟨xs, ys⟩ := p
    rw [he] at hf
    simp only at hf
    simp only [cir_calc_entries_nat] at he
    cases hsw : cir_calc_sweep_nat (8 * r) (4 * r + 1) 1 (4 * r) 0 (4 * r + 1) r 0 0 [] [] with
    | none => rw [hsw] at he; simp at he
    | some res =>
      obtain ⟨n, xr, yr⟩ := res
      obtain ⟨hs1, hx0⟩ := cir_calc_aa4_init_samples c r h1 hr
      obtain ⟨st1, hreal, hcx, hcy, hxn, hyn, hwf1⟩ := cir_calc_sweep_nat_sim (8 * r) (4 * r + 1) 1
        _ (4 * r) 0 (4 * r + 1) r 0 0 [] [] (n, xr, yr) (by omega) hs1
        (by simp only [lv_circ_init]; push_cast; ring) (by simp only [lv_circ_init]; rfl)
        (by simp only [lv_circ_init]; push_cast; ring)
        (by simp only [List.getD_cons_zero]; exact hx0) (by omega)
        (by norm_num at hr ⊢; omega) rfl rfl rfl rfl rfl hwf hsw
      simp only at hcx hcy hxn hyn
      have hfuel : (4 * (r : Int)).toNat + 1 = 4 * r + 1 := by omega
      have hoct : cir_calc_aa4_octant c (r : Int) = some st1 := by
        simp only [cir_calc_aa4_octant]
        rw [hfuel]
        exact hreal
      have hrng := cir_calc_aa4_octant_ranges c _ st1 hoct
      have hbx : ∀ a ∈ xr, a < 2 ^ 32 := by
        intro a ha
        have : ((a : Nat) : Int) ∈ st1.cir_x := by
          rw [hcx]
          exact List.mem_map.mpr ⟨a, List.mem_reverse.mpr ha, rfl⟩
        have := (hrng.2.2.2.2 _ this).2
        exact_mod_cast this
      have hby : ∀ a ∈ yr, a < 2 ^ 32 := by
        intro a ha
        have : ((a : Nat) : Int) ∈ st1.cir_y := by
          rw [hcy]
          exact List.mem_map.mpr ⟨a, List.mem_reverse.mpr ha, rfl⟩
        have := (hrng.2.2.2.1 _ this).2
        have h2 : (a : Int) < 2 ^ 32 := by omega
        exact_mod_cast h2
      rw [hsw] at he
      cases xr with
      | nil => simp at he
      | cons lx xr =>
        cases yr with
        | nil => simp at he
        | cons ly yr =>
          simp only at he
          have hlx : st1.cir_x.getLast? = some (lx : Int) := by rw [hcx]; simp
          have hly : st1.cir_y.getLast? = some (ly : Int) := by rw [hcy]; simp
          have hmid : asr ((r : Int) * 723 % 2 ^ 32) 10 = ((r * 723 / 1024 : Nat) : Int) := by
            simp only [asr]
            norm_num at hr ⊢
            omega
          have hblx := hbx lx (List.mem_cons_self _ _)
          have hbly := hby ly (List.mem_cons_self _ _)
          have hr0 : (r : Int) ≠ 0 := by omega
          have hmidb : r * 723 / 1024 < 2 ^ 32 := by
            norm_num at hr ⊢
            omega
          simp only [cir_calc_aa4, cir_calc_aa4_bits, if_neg hr0]
          simp only [cir_calc_aa4_octant] at hoct
          rw [hoct]
          simp only [Option.some_bind]
          rw [hlx, hly]
          simp only
          rw [hmid]
          generalize r * 723 / 1024 = m at he hmidb ⊢
          clear hmid hoct hreal hs1 hx0 hsw
          by_cases hcnd : lx = m ∧ ly = m
          · have hc1 : ¬ ((lx : Int) % 2 ^ 32 ≠ (m : Int) ∨ (ly : Int) % 2 ^ 32 ≠ (m : Int)) := by
              obtain ⟨a1, a2⟩ := hcnd
              norm_num at hblx hbly ⊢
              omega
            rw [if_neg hc1]
            simp only [Option.some_bind]
            obtain ⟨a1, a2⟩ := hcnd
            rw [← a1] at he
            rw [show Nat.beq ly lx = true from by rw [a2, a1]; exact Nat.beq_refl _] at he
            simp only [Nat.beq_refl, Bool.and_self, cond_true] at he
            exact cir_calc_aa4_tail_fits st1 (lx :: xr) (ly :: yr) xs ys n hwf1 hcx hcy hxn hyn
              (by rw [← hxn]; simp) hbx hby he hf
          · have hc1 : (lx : Int) % 2 ^ 32 ≠ (m : Int) ∨ (ly : Int) % 2 ^ 32 ≠ (m : Int) := by
              norm_num at hblx hbly ⊢
              omega
            rw [if_pos hc1]
            have hb : (Nat.beq lx m && Nat.beq ly m) = false := by
              by_cases e : lx = m
              · have e2 : ly ≠ m := fun h => hcnd ⟨e, h⟩
                rw [nat_beq_false _ _ e2]
                simp
              · rw [nat_beq_false _ _ e]
                simp
            rw [hb] at he
            simp only [cond_false] at he
            have hn : n < 300 := by
              cases hbb : Nat.blt n 300 with
              | true =>
                simp only [Nat.blt] at hbb
                exact Nat.le_of_ble_eq_true hbb
              | false => rw [hbb] at he; simp at he
            have hblt : Nat.blt n 300 = true := by
              simp only [Nat.blt, Nat.ble_eq_true_of_le hn]
            rw [hblt] at he
            simp only [cond_true] at he
            exact cir_calc_aa4_tail_fits_push st1 m _ (lx :: xr) (ly :: yr) xs ys n hwf1 hcx hcy
              hxn hyn hn hmidb hbx hby he hf

set_option maxRecDepth 1000000 in
/-- The check `cir_calc_aa4_fits` passes for every radius from 1 to 50. -/
theorem cir_calc_aa4_fits_from_1 :
    ((List.range' 1 50).all fun r => cir_calc_aa4_fits r) = true := by decide!

set_option maxRecDepth 1000000 in
/-- The check `cir_calc_aa4_fits` passes for every radius from 51 to 80. -/
theorem cir_calc_aa4_fits_from_51 :
    ((List.range' 51 30).all fun r => cir_calc_aa4_fits r) = true := by decide!

set_option maxRecDepth 1000000 in
/-- The check `cir_calc_aa4_fits` passes for every radius from 81 to 100. -/
theorem cir_calc_aa4_fits_from_81 :
    ((List.range' 81 20).all fun r => cir_calc_aa4_fits r) = true := by decide!

set_option maxRecDepth 1000000 in
/-- The check `cir_calc_aa4_fits` passes for every radius from 101 to 115. -/
theorem cir_calc_aa4_fits_from_101 :
    ((List.range' 101 15).all fun r => cir_calc_aa4_fits r) = true := by decide!

set_option maxRecDepth 1000000 in
/-- The check `cir_calc_aa4_fits` passes for every radius from 116 to 128. -/
theorem cir_calc_aa4_fits_from_116 :
    ((List.range' 116 13).all fun r => cir_calc_aa4_fits r) = true := by decide!

set_option maxRecDepth 1000000 in
/-- The check `cir_calc_aa4_fits` passes for every radius from 129 to 140. -/
theorem cir_calc_aa4_fits_from_129 :
    ((List.range' 129 12).all fun r => cir_calc_aa4_fits r) = true := by decide!

set_option maxRecDepth 1000000 in
/-- The check `cir_calc_aa4_fits` passes for every radius from 141 to 151. -/
theorem cir_calc_aa4_fits_from_141 :
    ((List.range' 141 11).all fun r => cir_calc_aa4_fits r) = true := by decide!

set_option maxRecDepth 1000000 in
/-- The check `cir_calc_aa4_fits` passes for every radius from 152 to 161. -/
theorem cir_calc_aa4_fits_from_152 :
    ((List.range' 152 10).all fun r => cir_calc_aa4_fits r) = true := by decide!

/-- The check `cir_calc_aa4_fits` passes for every radius from 1 to 161. -/
theorem cir_calc_aa4_fits_upto_161 (r : Nat) (h1 : 1 ≤ r) (h2 : r ≤ 161) :
    cir_calc_aa4_fits r = true := by
  have key : ∀ (s n : Nat), ((List.range' s n).all fun r => cir_calc_aa4_fits r) = true →
      s ≤ r → r < s + n → cir_calc_aa4_fits r = true := by
    intro s n h hs hn
    rw [List.all_eq_true] at h
    exact h r (List.mem_range'_1.mpr ⟨hs, hn⟩)
  by_cases c0 : r < 51
  · exact key 1 50 cir_calc_aa4_fits_from_1 (by omega) (by omega)
  by_cases c1 : r < 81
  · exact key 51 30 cir_calc_aa4_fits_from_51 (by omega) (by omega)
  by_cases c2 : r < 101
  · exact key 81 20 cir_calc_aa4_fits_from_81 (by omega) (by omega)
  by_cases c3 : r < 116
  · exact key 101 15 cir_calc_aa4_fits_from_101 (by omega) (by omega)
  by_cases c4 : r < 129
  · exact key 116 13 cir_calc_aa4_fits_from_116 (by omega) (by omega)
  by_cases c5 : r < 141
  · exact key 129 12 cir_calc_aa4_fits_from_129 (by omega) (by omega)
  by_cases c6 : r < 152
  · exact key 141 11 cir_calc_aa4_fits_from_141 (by omega) (by omega)
  exact key 152 10 cir_calc_aa4_fits_from_152 (by omega) (by omega)

/-- C34 (amended): for every radius `r` with `1 <= r <= 161` and every descriptor with the
layout of a descriptor (three tables of 300 entries), `cir_calc_aa4` returns, so every write to
`cir_opa`, `x_start_on_y` and `opa_start_on_y` stays inside the 300-entry tables, and it
produces `cir_size <= 300`. -/
theorem cir_calc_aa4_fits_radius_161 (c : _lv_draw_mask_radius_circle_dsc_t) (radius : Int)
    (hwf : circle_dsc_wf c) (h1 : 1 ≤ radius) (h2 : radius ≤ 161) :
    ∃ c1, cir_calc_aa4 c radius = some c1 ∧ circle_dsc_wf c1 ∧ 0 ≤ c1.cir_size ∧
      c1.cir_size ≤ 300 := by
  obtain ⟨r, rfl⟩ := Int.eq_ofNat_of_zero_le (by omega : 0 ≤ radius)
  exact cir_calc_aa4_fits_some c r hwf (by omega) (by norm_num; omega)
    (cir_calc_aa4_fits_upto_161 r (by omega) (by omega))

/-- The amended C34 at radius 161 on the zero-initialised cache. -/
theorem cir_calc_aa4_fits_radius_161_witness :
    circle_dsc_wf circle_cache_init ∧ (1 : Int) ≤ 161 ∧ (161 : Int) ≤ 161 ∧
    ∃ c1, cir_calc_aa4 circle_cache_init 161 = some c1 ∧ circle_dsc_wf c1 ∧
      0 ≤ c1.cir_size ∧ c1.cir_size ≤ 300 :=
  ⟨circle_cache_init_wf, by decide, by decide,
    cir_calc_aa4_fits_radius_161 circle_cache_init 161 circle_cache_init_wf (by decide)
      (by decide)⟩

/-! ## The tables of the circle descriptor on natural numbers -/

/-- The first octant of `cir_calc_aa4` is the one the sweep on natural numbers gives. -/
theorem cir_calc_aa4_octant_nat_sim (c : _lv_draw_mask_radius_circle_dsc_t) (r : Nat)
    (hwf : circle_dsc_wf c) (h1 : 1 ≤ r) (hr : r < 2 ^ 20) (n : Nat) (xr yr : List Nat)
    (hsw : cir_calc_sweep_nat (8 * r) (4 * r + 1) 1 (4 * r) 0 (4 * r + 1) r 0 0 [] [] =
      some (n, xr, yr)) :
    ∃ st1, cir_calc_aa4_octant c (r : Int) = some st1 ∧
      st1.cir_x = xr.reverse.map (fun v : Nat => (v : Int)) ∧
      st1.cir_y = yr.reverse.map (fun v : Nat => (v : Int)) ∧
      xr.length = n ∧ yr.length = n ∧ circle_dsc_wf st1.c ∧
      (∀ a ∈ xr, a < 2 ^ 32) ∧ (∀ a ∈ yr, a < 2 ^ 32) := by
  obtain ⟨hs1, hx0⟩ := cir_calc_aa4_init_samples c r h1 hr
  obtain ⟨st1, hreal, hcx, hcy, hxn, hyn, hwf1⟩ := cir_calc_sweep_nat_sim (8 * r) (4 * r + 1) 1
    _ (4 * r) 0 (4 * r + 1) r 0 0 [] [] (n, xr, yr) (by omega) hs1
    (by simp only [lv_circ_init]; push_cast; ring) (by simp only [lv_circ_init]; rfl)
    (by simp only [lv_circ_init]; push_cast; ring)
    (by simp only [List.getD_cons_zero]; exact hx0) (by omega)
    (by norm_num at hr ⊢; omega) rfl rfl rfl rfl rfl hwf hsw
  simp only at hcx hcy hxn hyn
  have hfuel : (4 * (r : Int)).toNat + 1 = 4 * r + 1 := by omega
  have hoct : cir_calc_aa4_octant c (r : Int) = some st1 := by
    simp only [cir_calc_aa4_octant]
    rw [hfuel]
    exact hreal
  have hrng := cir_calc_aa4_octant_ranges c _ st1 hoct
  refine ⟨st1, hoct, hcx, hcy, hxn, hyn, hwf1, fun a ha => ?_, fun a ha => ?_⟩
  · have : ((a : Nat) : Int) ∈ st1.cir_x := by
      rw [hcx]
      exact List.mem_map.mpr ⟨a, List.mem_reverse.mpr ha, rfl⟩
    have := (hrng.2.2.2.2 _ this).2
    exact_mod_cast this
  · have : ((a : Nat) : Int) ∈ st1.cir_y := by
      rw [hcy]
      exact List.mem_map.mpr ⟨a, List.mem_reverse.mpr ha, rfl⟩
    have := (hrng.2.2.2.1 _ this).2
    have h2 : (a : Int) < 2 ^ 32 := by omega
    exact_mod_cast h2

/-- The loop that builds the second octant gives the entries `cir_calc_mirror_nat` gives. -/
theorem cir_calc_mirror_nat_sim (st2 : cir_calc_state) (xr2 yr2 xs ys : List Nat) (L : Nat)
    (hwf : circle_dsc_wf st2.c)
    (hcx : st2.cir_x = xr2.reverse.map (fun v : Nat => (v : Int)))
    (hcy : st2.cir_y = yr2.reverse.map (fun v : Nat => (v : Int)))
    (hxl : xr2.length = L) (hyl : yr2.length = L) (hL : 1 ≤ L)
    (hbx : ∀ a ∈ xr2, a < 2 ^ 32) (hby : ∀ a ∈ yr2, a < 2 ^ 32)
    (hm : cir_calc_mirror_nat L xr2 yr2 = some (xs, ys)) :
    ∃ st3, cir_calc_mirror (st2.cir_x.length - 1) st2 = some st3 ∧ circle_dsc_wf st3.c ∧
      st3.cir_x = xs.map (fun v : Nat => (v : Int)) ∧
      st3.cir_y = ys.map (fun v : Nat => (v : Int)) ∧
      ys.length = xs.length ∧ xs.length ≤ 300 ∧ (∀ a ∈ ys, a < 2 ^ 32) := by
  simp only [cir_calc_mirror_nat] at hm
  have h2L : 2 * L ≤ 301 := by
    cases hb : Nat.ble (2 * L) 301 with
    | true => exact Nat.le_of_ble_eq_true hb
    | false => rw [hb] at hm; simp at hm
  rw [Nat.ble_eq_true_of_le h2L] at hm
  simp only [cond_true, Option.some.injEq, Prod.mk.injEq] at hm
  obtain ⟨hxs, hys⟩ := hm
  have hlx : st2.cir_x.length = L := by rw [hcx]; simp [hxl]
  have hly : st2.cir_y.length = st2.cir_x.length := by rw [hcx, hcy]; simp [hxl, hyl]
  obtain ⟨st3, hmir, hwf3⟩ := cir_calc_mirror_fits (st2.cir_x.length - 1) st2 hwf (by omega) hly
    (by omega)
  obtain ⟨m1, m2, -, -⟩ := cir_calc_mirror_lists _ _ _ hmir (by omega) hly
  refine ⟨st3, hmir, hwf3, ?_, ?_, ?_, ?_, ?_⟩
  · rw [m1, hlx, ← hyl, hcy, ← hxs, List.map_append, hcx]
    congr 1
    exact take_reverse_tail yr2
  · rw [m2, hlx, ← hxl, hcx, ← hys, List.map_append, hcy]
    congr 1
    exact take_reverse_tail xr2
  · rw [← hxs, ← hys]
    simp only [List.length_append, List.length_reverse, List.length_tail]
    omega
  · rw [← hxs]
    simp only [List.length_append, List.length_reverse, List.length_tail]
    omega
  · intro a ha
    rw [← hys, List.mem_append] at ha
    rcases ha with h | h
    · exact hby a (List.mem_reverse.mp h)
    · exact hbx a (List.mem_of_mem_tail h)

/-- The midpoint push followed by the loop that builds the second octant. -/
theorem cir_calc_mirror_nat_sim_push (st1 : cir_calc_state) (m : Nat) (opa : Nat)
    (xr yr xs ys : List Nat) (n : Nat)
    (hwf : circle_dsc_wf st1.c)
    (hcx : st1.cir_x = xr.reverse.map (fun v : Nat => (v : Int)))
    (hcy : st1.cir_y = yr.reverse.map (fun v : Nat => (v : Int)))
    (hxl : xr.length = n) (hyl : yr.length = n) (hn : n < 300) (hmb : m < 2 ^ 32)
    (hbx : ∀ a ∈ xr, a < 2 ^ 32) (hby : ∀ a ∈ yr, a < 2 ^ 32)
    (hm : cir_calc_mirror_nat (n + 1) (m :: xr) (m :: yr) = some (xs, ys)) :
    ∃ st3, ((cir_push st1 (m : Int) (m : Int) opa).bind fun st2 =>
        cir_calc_mirror (st2.cir_x.length - 1) st2) = some st3 ∧ circle_dsc_wf st3.c ∧
      st3.cir_x = xs.map (fun v : Nat => (v : Int)) ∧
      st3.cir_y = ys.map (fun v : Nat => (v : Int)) ∧
      ys.length = xs.length ∧ xs.length ≤ 300 ∧ (∀ a ∈ ys, a < 2 ^ 32) := by
  have hl1 : st1.cir_x.length = n := by rw [hcx]; simpa using hxl
  rw [cir_push_fits _ _ _ _ hwf (by omega)]
  simp only [Option.some_bind]
  refine cir_calc_mirror_nat_sim
    { st1 with cir_x := st1.cir_x ++ [(m : Int)], cir_y := st1.cir_y ++ [(m : Int)],
               c := { st1.c with cir_opa := st1.c.cir_opa.set st1.cir_x.length opa } }
    (m :: xr) (m :: yr) xs ys (n + 1) ?_ ?_ ?_ ?_ ?_ (by omega) ?_ ?_ hm
  · exact ⟨by simp only [List.length_set]; exact hwf.1, hwf.2.1, hwf.2.2.1, hwf.2.2.2⟩
  · show st1.cir_x ++ [(m : Int)] = _
    rw [hcx]
    simp
  · show st1.cir_y ++ [(m : Int)] = _
    rw [hcy]
    simp
  · simpa using hxl
  · simpa using hyl
  · intro a ha
    rcases List.mem_cons.mp ha with h | h
    · rw [h]; exact hmb
    · exact hbx a h
  · intro a ha
    rcases List.mem_cons.mp ha with h | h
    · rw [h]; exact hmb
    · exact hby a h

/-- The entries `cir_calc_aa4` builds are the ones `cir_calc_entries_nat` gives. -/
theorem cir_calc_aa4_entries_nat_sim (c : _lv_draw_mask_radius_circle_dsc_t) (r : Nat)
    (hwf : circle_dsc_wf c) (h1 : 1 ≤ r) (hr : r < 2 ^ 20) (xs ys : List Nat)
    (he : cir_calc_entries_nat r = some (xs, ys)) :
    ∃ st3, cir_calc_aa4_entries c (r : Int) = some st3 ∧ circle_dsc_wf st3.c ∧
      st3.cir_x = xs.map (fun v : Nat => (v : Int)) ∧
      st3.cir_y = ys.map (fun v : Nat => (v : Int)) ∧
      ys.length = xs.length ∧ xs.length ≤ 300 ∧ (∀ a ∈ ys, a < 2 ^ 32) := by
  simp only [cir_calc_entries_nat] at he
  cases hsw : cir_calc_sweep_nat (8 * r) (4 * r + 1) 1 (4 * r) 0 (4 * r + 1) r 0 0 [] [] with
  | none => rw [hsw] at he; simp at he
  | some res =>
    obtain ⟨n, xr, yr⟩ := res
    obtain ⟨st1, hoct, hcx, hcy, hxn, hyn, hwf1, hbx, hby⟩ :=
      cir_calc_aa4_octant_nat_sim c r hwf h1 hr n xr yr hsw
    rw [hsw] at he
    cases xr with
    | nil => simp at he
    | cons lx xr =>
      cases yr with
      | nil => simp at he
      | cons ly yr =>
        simp only at he
        have hlx : st1.cir_x.getLast? = some (lx : Int) := by rw [hcx]; simp
        have hly : st1.cir_y.getLast? = some (ly : Int) := by rw [hcy]; simp
        have hmid : asr ((r : Int) * 723 % 2 ^ 32) 10 = ((r * 723 / 1024 : Nat) : Int) := by
          simp only [asr]
          norm_num at hr ⊢
          omega
        have hblx := hbx lx (List.mem_cons_self _ _)
        have hbly := hby ly (List.mem_cons_self _ _)
        have hmidb : r * 723 / 1024 < 2 ^ 32 := by
          norm_num at hr ⊢
          omega
        simp only [cir_calc_aa4_entries, cir_calc_aa4_entries_bits]
        rw [hoct]
        simp only [Option.some_bind]
        rw [hlx, hly]
        simp only
        rw [hmid]
        generalize r * 723 / 1024 = m at he hmidb ⊢
        clear hmid hoct hsw
        by_cases hcnd : lx = m ∧ ly = m
        · have hc1 : ¬ ((lx : Int) % 2 ^ 32 ≠ (m : Int) ∨ (ly : Int) % 2 ^ 32 ≠ (m : Int)) := by
            obtain ⟨a1, a2⟩ := hcnd
            norm_num at hblx hbly ⊢
            omega
          rw [if_neg hc1]
          simp only [Option.some_bind]
          obtain ⟨a1, a2⟩ := hcnd
          rw [← a1] at he
          rw [show Nat.beq ly lx = true from by rw [a2, a1]; exact Nat.beq_refl _] at he
          simp only [Nat.beq_refl, Bool.and_self, cond_true] at he
          exact cir_calc_mirror_nat_sim st1 (lx :: xr) (ly :: yr) xs ys n hwf1 hcx hcy hxn hyn
            (by rw [← hxn]; simp) hbx hby he
        · have hc1 : (lx : Int) % 2 ^ 32 ≠ (m : Int) ∨ (ly : Int) % 2 ^ 32 ≠ (m : Int) := by
            norm_num at hblx hbly ⊢
            omega
          rw [if_pos hc1]
          have hb : (Nat.beq lx m && Nat.beq ly m) = false := by
            by_cases e : lx = m
            · have e2 : ly ≠ m := fun h => hcnd ⟨e, h⟩
              rw [nat_beq_false _ _ e2]
              simp
            · rw [nat_beq_false _ _ e]
              simp
          rw [hb] at he
          simp only [cond_false] at he
          have hn : n < 300 := by
            cases hbb : Nat.blt n 300 with
            | true =>
              simp only [Nat.blt] at hbb
              exact Nat.le_of_ble_eq_true hbb
            | false => rw [hbb] at he; simp at he
          have hblt : Nat.blt n 300 = true := by
            simp only [Nat.blt, Nat.ble_eq_true_of_le hn]
          rw [hblt] at he
          simp only [cond_true] at he
          exact cir_calc_mirror_nat_sim_push st1 m _ (lx :: xr) (ly :: yr) xs ys n hwf1 hcx hcy
            hxn hyn hn hmidb hbx hby he

/-- The byte of a natural number. -/
theorem uint8_t_cast (b : Nat) : uint8_t (b : Int) = b % 256 := by
  simp only [uint8_t]
  omega

/-- The byte of the smaller one of two natural numbers. -/
theorem uint8_t_min (a b : Nat) : uint8_t (LV_MIN (a : Int) (b : Int)) = min a b % 256 := by
  simp only [LV_MIN, uint8_t]
  split_ifs <;> omega

/-- The row loop of the indexing part follows the row loop on natural numbers. -/
theorem cir_calc_row_tab_sim (cir_x cir_y : List Int) (xs ys : List Nat) (y : Nat) (n : Nat) :
    ∀ (i : Nat) (c : _lv_draw_mask_radius_circle_dsc_t),
    cir_x = xs.map (fun v : Nat => (v : Int)) → cir_y = ys.map (fun v : Nat => (v : Int)) →
    ys.length = xs.length → (∀ a ∈ ys, a < 2 ^ 32) → circle_dsc_wf c → y < 300 →
    i + n = ys.length →
    ∃ r, cir_calc_row cir_x cir_y (y : Int) n i c = some r ∧ circle_dsc_wf r.2 ∧
      r.2.opa_start_on_y = c.opa_start_on_y ∧ r.1 ≤ ys.length ∧
      cir_calc_row_tab y (xs.drop i) (ys.drop i) i c.x_start_on_y =
        (xs.drop r.1, ys.drop r.1, r.1, r.2.x_start_on_y) := by
  induction n with
  | zero =>
    intro i c hcx hcy hlen hb hwf hy hin
    refine ⟨(i, c), rfl, hwf, rfl, by simp only; omega, ?_⟩
    simp only
    rw [List.drop_of_length_le (by omega), List.drop_of_length_le (by omega)]
    cases xs.drop i <;> rfl
  | succ n ih =>
    intro i c hcx hcy hlen hb hwf hy hin
    have hi : i < ys.length := by omega
    have hix : i < xs.length := by omega
    have e1 : cir_y[i]? = some ((ys[i] : Nat) : Int) := by
      rw [hcy, List.getElem?_map, List.getElem?_eq_getElem hi]
      rfl
    have e2 : cir_x[i]? = some ((xs[i] : Nat) : Int) := by
      rw [hcx, List.getElem?_map, List.getElem?_eq_getElem hix]
      rfl
    have hd : ys.drop i = ys[i] :: ys.drop (i + 1) := List.drop_eq_getElem_cons hi
    have hdx : xs.drop i = xs[i] :: xs.drop (i + 1) := List.drop_eq_getElem_cons hix
    have hbi : ys[i] < 2 ^ 32 := hb _ (List.getElem_mem hi)
    simp only [cir_calc_row]
    rw [e1, e2, hd, hdx]
    simp only [cir_calc_row_tab]
    by_cases e : ys[i] = y
    · have hc : ((ys[i] : Nat) : Int) % 2 ^ 32 = (y : Int) := by
        rw [e]
        norm_num at hbi ⊢
        omega
      rw [if_pos hc]
      have hyl : y < c.x_start_on_y.length := by rw [hwf.2.1]; exact hy
      have hg : array_get c.x_start_on_y (y : Int) = some (c.x_start_on_y.getD y 0) := by
        have := array_get_some c.x_start_on_y (y : Int) (by omega) (by exact_mod_cast hyl)
        simpa using this
      rw [hg]
      simp only [Option.some_bind]
      rw [array_set_fits _ _ _ hyl]
      simp only [Option.some_bind]
      rw [show Nat.beq ys[i] y = true from by rw [e]; exact Nat.beq_refl _]
      simp only [cond_true]
      obtain ⟨r, r1, r2, r3, r4, r5⟩ := ih (i + 1)
        { c with x_start_on_y := (c.x_start_on_y.set y
            (uint8_t (LV_MIN ((c.x_start_on_y.getD y 0 : Nat) : Int) ((xs[i] : Nat) : Int)))) }
        hcx hcy hlen hb
        ⟨hwf.1, by simp only [List.length_set]; exact hwf.2.1, hwf.2.2.1, hwf.2.2.2⟩
        hy (by omega)
      refine ⟨r, r1, r2, r3, r4, ?_⟩
      rw [← r5, uint8_t_min]
    · have hc : ¬ ((ys[i] : Nat) : Int) % 2 ^ 32 = (y : Int) := by
        norm_num at hbi ⊢
        omega
      rw [if_neg hc, nat_beq_false _ _ e]
      simp only [cond_false]
      refine ⟨(i, c), rfl, hwf, rfl, by simp only; omega, ?_⟩
      simp only
      rw [← hd, ← hdx]

/-- The indexing part follows the indexing part on natural numbers: it returns, with the tables
`opa_start_on_y` and `x_start_on_y` that `cir_calc_index_tab` gives. -/
theorem cir_calc_index_tab_sim (cir_x cir_y : List Int) (xs ys : List Nat) (fuel : Nat) :
    ∀ (y i : Nat) (c : _lv_draw_mask_radius_circle_dsc_t) (t : List Nat × List Nat),
    cir_x = xs.map (fun v : Nat => (v : Int)) → cir_y = ys.map (fun v : Nat => (v : Int)) →
    ys.length = xs.length → (∀ a ∈ ys, a < 2 ^ 32) → circle_dsc_wf c → i ≤ ys.length →
    cir_calc_index_tab fuel y (xs.drop i) (ys.drop i) i c.opa_start_on_y c.x_start_on_y =
      some t →
    ∃ c1, cir_calc_index cir_x cir_y fuel (y : Int) i c = some c1 ∧ circle_dsc_wf c1 ∧
      c1.opa_start_on_y = t.1 ∧ c1.x_start_on_y = t.2 := by
  induction fuel with
  | zero =>
    intro y i c t _ _ _ _ _ _ h
    simp [cir_calc_index_tab] at h
  | succ fuel ih =>
    intro y i c t hcx hcy hlen hb hwf hi h
    have hlx : cir_x.length = xs.length := by rw [hcx]; simp
    simp only [cir_calc_index]
    by_cases hlt : i < cir_x.length
    · rw [if_pos hlt]
      have hix : i < xs.length := by omega
      have hdx : xs.drop i = xs[i] :: xs.drop (i + 1) := List.drop_eq_getElem_cons hix
      rw [hdx] at h
      simp only [cir_calc_index_tab] at h
      have hy300 : y < 300 := by
        cases hbb : Nat.blt y 300 with
        | true =>
          simp only [Nat.blt] at hbb
          exact Nat.le_of_ble_eq_true hbb
        | false => rw [hbb] at h; simp at h
      have hblt : Nat.blt y 300 = true := by
        simp only [Nat.blt, Nat.ble_eq_true_of_le hy300]
      rw [hblt] at h
      simp only [cond_true] at h
      rw [array_set_fits _ _ _ (by rw [hwf.2.2.1]; exact hy300)]
      simp only [Option.some_bind]
      rw [array_set_fits _ _ _ (by rw [hwf.2.1]; exact hy300)]
      simp only [Option.some_bind]
      have hgx : cir_x.getD i 0 = ((xs[i] : Nat) : Int) := by
        rw [List.getD_eq_getElem?_getD, hcx, List.getElem?_map, List.getElem?_eq_getElem hix]
        rfl
      rw [hgx, uint8_t_cast, uint8_t_cast]
      have hwf1 : circle_dsc_wf
          { c with opa_start_on_y := c.opa_start_on_y.set y (i % 256),
                   x_start_on_y := c.x_start_on_y.set y (xs[i] % 256) } := by
        refine ⟨hwf.1, by simp only [List.length_set]; exact hwf.2.1,
          by simp only [List.length_set]; exact hwf.2.2.1, fun v hv => ?_⟩
        rcases List.mem_or_eq_of_mem_set hv with h1 | h1
        · exact hwf.2.2.2 v h1
        · rw [h1]; omega
      obtain ⟨r, r1, r2, r3, r4, r5⟩ := cir_calc_row_tab_sim cir_x cir_y xs ys y
        (cir_x.length - i) i _ hcx hcy hlen hb hwf1 hy300 (by omega)
      rw [r1]
      simp only [Option.some_bind]
      simp only at r5
      rw [← hdx, r5] at h
      simp only at h
      have := ih (y + 1) r.1 r.2 t hcx hcy hlen hb r2 r4 (by rw [r3]; exact h)
      simpa using this
    · rw [if_neg hlt]
      rw [List.drop_of_length_le (by omega)] at h
      simp only [cir_calc_index_tab, Option.some.injEq] at h
      subst h
      exact ⟨c, rfl, hwf, rfl, rfl⟩

/-- The push leaves the tables `opa_start_on_y` and `x_start_on_y` as they are. -/
theorem cir_push_tables (st st1 : cir_calc_state) (x y : Int) (opa : Nat)
    (h : cir_push st x y opa = some st1) :
    st1.c.opa_start_on_y = st.c.opa_start_on_y ∧ st1.c.x_start_on_y = st.c.x_start_on_y := by
  simp only [cir_push] at h
  split_ifs at h with hc
  rw [Option.map_eq_some'] at h
  obtain ⟨a, -, rfl⟩ := h
  exact ⟨rfl, rfl⟩

/-- One row of the sweep leaves the tables `opa_start_on_y` and `x_start_on_y` as they are. -/
theorem cir_calc_group_tables (st st1 : cir_calc_state) (h : cir_calc_group st = some st1) :
    st1.c.opa_start_on_y = st.c.opa_start_on_y ∧ st1.c.x_start_on_y = st.c.x_start_on_y := by
  have two : ∀ (x y x1 y1 : Int) (opa opa1 : Nat) (s2 : cir_calc_state),
      (cir_push st x y opa).bind (fun s => cir_push s x1 y1 opa1) = some s2 →
      s2.c.opa_start_on_y = st.c.opa_start_on_y ∧ s2.c.x_start_on_y = st.c.x_start_on_y := by
    intro x y x1 y1 opa opa1 s2 hs
    rw [Option.bind_eq_some] at hs
    obtain ⟨s, hp, hq⟩ := hs
    obtain ⟨a1, a2⟩ := cir_push_tables _ _ _ _ _ hp
    obtain ⟨b1, b2⟩ := cir_push_tables _ _ _ _ _ hq
    exact ⟨by rw [b1, a1], by rw [b2, a2]⟩
  simp only [cir_calc_group] at h
  rw [Option.map_eq_some'] at h
  obtain ⟨s2, h2, rfl⟩ := h
  split_ifs at h2 with c0 c1 c2
  · exact cir_push_tables _ s2 _ _ _ h2
  · exact two _ _ _ _ _ _ s2 h2
  · exact two _ _ _ _ _ _ s2 h2
  · exact two _ _ _ _ _ _ s2 h2

/-- The sweep leaves the tables `opa_start_on_y` and `x_start_on_y` as they are. -/
theorem cir_calc_sweep_tables (fuel : Nat) : ∀ (i : Nat) (st st1 : cir_calc_state),
    cir_calc_sweep fuel i st = some st1 →
    st1.c.opa_start_on_y = st.c.opa_start_on_y ∧ st1.c.x_start_on_y = st.c.x_start_on_y := by
  induction fuel with
  | zero => intro i st st1 h; simp [cir_calc_sweep] at h
  | succ fuel ih =>
    intro i st st1 h
    simp only [cir_calc_sweep] at h
    obtain ⟨-, -, s3, -, -⟩ := cir_calc_sample_some (4 - i) i st
    split_ifs at h with hc h4
    · simp only [Option.some.injEq] at h
      subst h
      rw [s3]
      exact ⟨rfl, rfl⟩
    · rw [Option.bind_eq_some] at h
      obtain ⟨g, hg, hr⟩ := h
      obtain ⟨g1, g2⟩ := cir_calc_group_tables _ _ hg
      obtain ⟨r1, r2⟩ := ih 0 g st1 hr
      rw [r1, r2, g1, g2, s3]
      exact ⟨rfl, rfl⟩
    · simp only [Option.some.injEq] at h
      subst h
      exact ⟨rfl, rfl⟩

/-- The loop that builds the second octant leaves the tables `opa_start_on_y` and
`x_start_on_y` as they are. -/
theorem cir_calc_mirror_tables (n : Nat) : ∀ (st st1 : cir_calc_state),
    cir_calc_mirror n st = some st1 →
    st1.c.opa_start_on_y = st.c.opa_start_on_y ∧ st1.c.x_start_on_y = st.c.x_start_on_y := by
  induction n with
  | zero =>
    intro st st1 h
    simp only [cir_calc_mirror, Option.some.injEq] at h
    subst h
    exact ⟨rfl, rfl⟩
  | succ i ih =>
    intro st st1 h
    simp only [cir_calc_mirror] at h
    cases hy : st.cir_y[i]? with
    | none => rw [hy] at h; simp at h
    | some y =>
      cases hx : st.cir_x[i]? with
      | none => rw [hy, hx] at h; simp at h
      | some x =>
        cases ho : st.c.cir_opa[i]? with
        | none => rw [hy, hx, ho] at h; simp at h
        | some opa =>
          rw [hy, hx, ho] at h
          simp only at h
          rw [Option.bind_eq_some] at h
          obtain ⟨s, hp, hr⟩ := h
          obtain ⟨p1, p2⟩ := cir_push_tables _ _ _ _ _ hp
          obtain ⟨r1, r2⟩ := ih s st1 hr
          exact ⟨by rw [r1, p1], by rw [r2, p2]⟩

/-- The entries part of `cir_calc_aa4` leaves the tables `opa_start_on_y` and `x_start_on_y` as
they are. -/
theorem cir_calc_aa4_entries_tables (c : _lv_draw_mask_radius_circle_dsc_t) (radius : Int)
    (st3 : cir_calc_state) (h : cir_calc_aa4_entries c radius = some st3) :
    st3.c.opa_start_on_y = c.opa_start_on_y ∧ st3.c.x_start_on_y = c.x_start_on_y := by
  simp only [cir_calc_aa4_entries, cir_calc_aa4_entries_bits] at h
  rw [Option.bind_eq_some] at h
  obtain ⟨st1, ho, h⟩ := h
  simp only [cir_calc_aa4_octant] at ho
  obtain ⟨o1, o2⟩ := cir_calc_sweep_tables _ _ _ _ ho
  simp only at o1 o2
  cases hlx : st1.cir_x.getLast? with
  | none => rw [hlx] at h; simp at h
  | some last_x =>
    cases hly : st1.cir_y.getLast? with
    | none => rw [hlx, hly] at h; simp at h
    | some last_y =>
      rw [hlx, hly] at h
      simp only at h
      rw [Option.bind_eq_some] at h
      obtain ⟨st2, h2, hm⟩ := h
      obtain ⟨m1, m2⟩ := cir_calc_mirror_tables _ _ _ hm
      by_cases hc : last_x % 2 ^ 32 ≠ asr (radius * 723 % 2 ^ 32) 10 ∨
          last_y % 2 ^ 32 ≠ asr (radius * 723 % 2 ^ 32) 10
      · rw [if_pos hc] at h2
        obtain ⟨p1, p2⟩ := cir_push_tables _ _ _ _ _ h2
        exact ⟨by rw [m1, p1, o1], by rw [m2, p2, o2]⟩
      · rw [if_neg hc] at h2
        obtain rfl := Option.some.inj h2
        exact ⟨by rw [m1, o1], by rw [m2, o2]⟩

/-- The descriptor `cir_calc_aa4` leaves has as many entries as `cir_calc_entries_nat` gives and
the tables `opa_start_on_y` and `x_start_on_y` that `cir_calc_index_tab` gives. -/
theorem cir_calc_aa4_tables (c : _lv_draw_mask_radius_circle_dsc_t) (r : Nat)
    (hwf : circle_dsc_wf c) (h1 : 1 ≤ r) (hr : r < 2 ^ 20) (xs ys : List Nat)
    (t : List Nat × List Nat)
    (he : cir_calc_entries_nat r = some (xs, ys))
    (ht : cir_calc_index_tab 301 0 xs ys 0 (c.opa_start_on_y.set 0 0) c.x_start_on_y = some t) :
    ∃ c1, cir_calc_aa4 c (r : Int) = some c1 ∧ c1.cir_size = xs.length ∧
      c1.opa_start_on_y = t.1 ∧ c1.x_start_on_y = t.2 := by
  obtain ⟨st3, hent, hwf3, hx3, hy3, hlen, -, hb⟩ :=
    cir_calc_aa4_entries_nat_sim c r hwf h1 hr xs ys he
  rw [cir_calc_aa4_eq c _ (by omega), hent]
  simp only [Option.some_bind]
  have h0 : array_set st3.c.opa_start_on_y 0 0 = some (st3.c.opa_start_on_y.set 0 0) := by
    have := array_set_fits st3.c.opa_start_on_y 0 0 (by rw [hwf3.2.2.1]; omega)
    simpa using this
  rw [h0]
  simp only [Option.some_bind]
  obtain ⟨e1, e2⟩ := cir_calc_aa4_entries_tables c _ st3 hent
  have hwf3a : circle_dsc_wf { st3.c with opa_start_on_y := st3.c.opa_start_on_y.set 0 0 } := by
    refine ⟨hwf3.1, hwf3.2.1, by simp only [List.length_set]; exact hwf3.2.2.1, fun v hv => ?_⟩
    rcases List.mem_or_eq_of_mem_set hv with h1 | h1
    · exact hwf3.2.2.2 v h1
    · rw [h1]; decide
  obtain ⟨c1, hc1, -, t1, t2⟩ := cir_calc_index_tab_sim st3.cir_x st3.cir_y xs ys 301 0 0
    { st3.c with opa_start_on_y := st3.c.opa_start_on_y.set 0 0 } t hx3 hy3 hlen hb hwf3a
    (by omega) (by simp only [List.drop_zero]; rw [e1, e2]; exact ht)
  have hc1a : cir_calc_index st3.cir_x st3.cir_y 301 0 0
      { st3.c with opa_start_on_y := st3.c.opa_start_on_y.set 0 0 } = some c1 := by
    simpa using hc1
  rw [hc1a]
  simp only [Option.map_some']
  refine ⟨_, rfl, ?_, t1, t2⟩
  simp only
  rw [hx3]
  simp

/-- The push keeps the length of `cir_opa`. -/
theorem cir_push_opa_length (st st1 : cir_calc_state) (x y : Int) (opa : Nat)
    (h : cir_push st x y opa = some st1) : st1.c.cir_opa.length = st.c.cir_opa.length := by
  simp only [cir_push] at h
  split_ifs at h with hc
  rw [Option.map_eq_some'] at h
  obtain ⟨a, ha, rfl⟩ := h
  exact (array_set_some _ _ _ _ ha).1

/-- When the loop that builds the second octant returns, its entries had room in `cir_opa`. -/
theorem cir_calc_mirror_room (n : Nat) : ∀ (st st1 : cir_calc_state),
    cir_calc_mirror n st = some st1 → 1 ≤ n → st.cir_x.length + n ≤ st.c.cir_opa.length := by
  induction n with
  | zero => intro st st1 _ h; omega
  | succ i ih =>
    intro st st1 h _
    simp only [cir_calc_mirror] at h
    cases hy : st.cir_y[i]? with
    | none => rw [hy] at h; simp at h
    | some y =>
      cases hx : st.cir_x[i]? with
      | none => rw [hy, hx] at h; simp at h
      | some x =>
        cases ho : st.c.cir_opa[i]? with
        | none => rw [hy, hx, ho] at h; simp at h
        | some opa =>
          rw [hy, hx, ho] at h
          simp only at h
          rw [Option.bind_eq_some] at h
          obtain ⟨s, hp, hr⟩ := h
          obtain ⟨q1, -, -⟩ := cir_push_opa _ _ _ _ _ hp
          obtain ⟨p1, -, -, -, -⟩ := cir_push_some _ _ _ _ _ hp
          have hl := cir_push_opa_length _ _ _ _ _ hp
          by_cases hi : i = 0
          · omega
          · have := ih s st1 hr (by omega)
            rw [p1, hl] at this
            simp only [List.length_append, List.length_singleton] at this
            omega

/-- When the first octant alone has more than 150 entries, `cir_calc_aa4` does not return: the
loop that builds the second octant runs out of the 300 entries of `cir_opa`. -/
theorem cir_calc_aa4_overflow (c : _lv_draw_mask_radius_circle_dsc_t) (r : Nat)
    (hwf : circle_dsc_wf c) (h1 : 1 ≤ r) (hr : r < 2 ^ 20) (n : Nat)
    (hsw : (cir_calc_sweep_nat (8 * r) (4 * r + 1) 1 (4 * r) 0 (4 * r + 1) r 0 0 [] []).map
      (fun res => res.1) = some n)
    (hbig : 301 < 2 * n) : cir_calc_aa4 c (r : Int) = none := by
  rw [Option.map_eq_some'] at hsw
  obtain ⟨⟨n1, xr, yr⟩, hsw1, hn1⟩ := hsw
  simp only at hn1
  subst hn1
  obtain ⟨st1, hoct, hcx, hcy, hxn, hyn, hwf1, -, -⟩ :=
    cir_calc_aa4_octant_nat_sim c r hwf h1 hr n1 xr yr hsw1
  have hl1 : st1.cir_x.length = n1 := by rw [hcx]; simpa using hxn
  cases h : cir_calc_aa4 c (r : Int) with
  | none => rfl
  | some c1 =>
    exfalso
    rw [cir_calc_aa4_eq c _ (by omega)] at h
    cases he : cir_calc_aa4_entries c (r : Int) with
    | none => rw [he] at h; simp at h
    | some st3 =>
      simp only [cir_calc_aa4_entries, cir_calc_aa4_entries_bits] at he
      rw [hoct] at he
      simp only [Option.some_bind] at he
      cases hlx : st1.cir_x.getLast? with
      | none => rw [hlx] at he; simp at he
      | some last_x =>
        cases hly : st1.cir_y.getLast? with
        | none => rw [hlx, hly] at he; simp at he
        | some last_y =>
          rw [hlx, hly] at he
          simp only at he
          rw [Option.bind_eq_some] at he
          obtain ⟨st2, h2, hm⟩ := he
          have h2f : n1 ≤ st2.cir_x.length ∧ st2.c.cir_opa.length = 300 := by
            by_cases hc : last_x % 2 ^ 32 ≠ asr ((r : Int) * 723 % 2 ^ 32) 10 ∨
                last_y % 2 ^ 32 ≠ asr ((r : Int) * 723 % 2 ^ 32) 10
            · rw [if_pos hc] at h2
              obtain ⟨p1, -, -, -, p5⟩ := cir_push_some _ _ _ _ _ h2
              refine ⟨?_, (p5 hwf1).1⟩
              rw [p1]
              simp only [List.length_append, List.length_singleton]
              omega
            · rw [if_neg hc] at h2
              obtain rfl := Option.some.inj h2
              exact ⟨by omega, hwf1.1⟩
          have := cir_calc_mirror_room _ _ _ hm (by omega)
          omega

/-- The result of `lv_draw_mask_radius` depends on the descriptor only through the tables
`opa_start_on_y` and `x_start_on_y` when the row read by `get_next_line` has no entries
(`aa_len <= 0`), as then no entry of `cir_opa` is read. -/
theorem lv_draw_mask_radius_tables_only (c c1 : _lv_draw_mask_radius_circle_dsc_t)
    (mask_buf : List Nat) (abs_x abs_y len : Int) (p : lv_draw_mask_radius_param_t)
    (ho : c.opa_start_on_y = c1.opa_start_on_y) (hx : c.x_start_on_y = c1.x_start_on_y)
    (hneg : ∀ (cy : Int) (line : Int × Int × Int), get_next_line c1 cy = some line →
      cy = (if abs_y - p.cfg_rect.y1 < p.cfg_radius then
          p.cfg_radius - (abs_y - p.cfg_rect.y1) - 1
        else abs_y - p.cfg_rect.y1 - (lv_area_get_height p.cfg_rect - p.cfg_radius)) →
      line.2.1 ≤ 0) :
    lv_draw_mask_radius c mask_buf abs_x abs_y len p =
      lv_draw_mask_radius c1 mask_buf abs_x abs_y len p := by
  have hg : ∀ y, get_next_line c y = get_next_line c1 y := by
    intro y
    simp only [get_next_line, ho, hx]
  simp only [lv_draw_mask_radius, hg]
  by_cases h1 : abs_y < p.cfg_rect.y1 ∨ abs_y > p.cfg_rect.y2
  · rw [if_pos h1, if_pos h1]
  rw [if_neg h1, if_neg h1]
  by_cases h2 : (abs_x ≥ p.cfg_rect.x1 + p.cfg_radius ∧
      abs_x + len ≤ p.cfg_rect.x2 - p.cfg_radius) ∨
      (abs_y ≥ p.cfg_rect.y1 + p.cfg_radius ∧ abs_y ≤ p.cfg_rect.y2 - p.cfg_radius)
  · rw [if_pos h2, if_pos h2]
  rw [if_neg h2, if_neg h2]
  cases hl : get_next_line c1 (if abs_y - p.cfg_rect.y1 < p.cfg_radius then
      p.cfg_radius - (abs_y - p.cfg_rect.y1) - 1
    else abs_y - p.cfg_rect.y1 - (lv_area_get_height p.cfg_rect - p.cfg_radius)) with
  | none => rfl
  | some line =>
    have h0 := hneg _ line hl rfl
    have ht : line.2.1.toNat = 0 := by omega
    simp only [Option.some_bind, ht, lv_draw_mask_radius_loop]

set_option maxRecDepth 1000000 in
/-- The first octant of the radius 162 has 156 entries. -/
theorem cir_calc_sweep_nat_162 :
    (cir_calc_sweep_nat (8 * 162) (4 * 162 + 1) 1 (4 * 162) 0 (4 * 162 + 1) 162 0 0 [] []).map
      (fun res => res.1) = some 156 := by decide!

set_option maxRecDepth 1000000 in
/-- The tables of the radius 140 on the zero-initialised cache, computed on natural numbers: 263
entries, `opa_start_on_y[139] = 245` and `opa_start_on_y[140] = 1`, the line
`get_next_line` gives for the circle row 139, and the row `y = 0` of the inner mask of the
rectangle (0,0)-(512,279) on a descriptor with these tables. -/
theorem cir_calc_tables_140 :
    ((cir_calc_entries_nat 140).bind fun p =>
      (cir_calc_index_tab 301 0 p.1 p.2 0 (circle_cache_init.opa_start_on_y.set 0 0)
        circle_cache_init.x_start_on_y).bind fun t =>
      (get_next_line { cir_size := 0, cir_opa := [], x_start_on_y := t.2,
                       opa_start_on_y := t.1 } 139).bind fun l =>
      (lv_draw_mask_radius { cir_size := 0, cir_opa := [], x_start_on_y := t.2,
                             opa_start_on_y := t.1 }
        (List.replicate 513 255) 0 0 513 ⟨⟨0, 0, 512, 279⟩, 140, false⟩).map fun r =>
      ([p.1.length, t.1.getD 139 0, t.1.getD 140 0], [l.1, l.2.1, l.2.2], r.1,
        [r.2.length, r.2.getD 134 0, r.2.getD 378 0]))
      = some ([263, 245, 1], [245, -244, 6], LV_DRAW_MASK_RES_CHANGED, [513, 0, 255]) := by
  decide!

/-- C34 (counterexample): the radius 162 lies in `1 <= r <= 180`, and `cir_calc_aa4` does not
return for it on the zero-initialised cache: the first octant has 156 entries, and the loop that
builds the second octant writes `cir_opa[300]`, behind the end of the table. -/
theorem cir_calc_aa4_radius_162_overflows :
    (1 : Int) ≤ 162 ∧ (162 : Int) ≤ 180 ∧ cir_calc_aa4 circle_cache_init 162 = none :=
  ⟨by decide, by decide,
    cir_calc_aa4_overflow circle_cache_init 162 circle_cache_init_wf (by decide) (by decide) 156
      cir_calc_sweep_nat_162 (by decide)⟩

/-! ## The radius generator: rows of a wide rectangle with a large radius -/

/-- C37 (the code at the failing input): an inner-mode radius mask is built by
`lv_draw_mask_radius_init` on the fresh `circle_cache` for the rectangle (0,0)-(512,279) with
radius 140, and applied on the row `y = 0` to a buffer of 513 bytes `0xFF` with the span
`x = 0`, `len = 513`.  The descriptor has 263 entries, and the `uint8_t` table `opa_start_on_y`
holds 245 for the circle row 139 and `257 mod 256 = 1` for the row 140.  The result is
`LV_DRAW_MASK_RES_CHANGED`, and the buffer is not left-right symmetric: the byte at index 134 is
0 and the byte at the mirrored index `512 - 134 = 378` is 255. -/
theorem lv_draw_mask_radius_row_not_symmetric :
    ((lv_draw_mask_radius_init circle_cache_init ⟨0, 0, 512, 279⟩ 140 false).2.bind fun cache =>
        (lv_draw_mask_radius cache (List.replicate 513 255) 0 0 513
          (lv_draw_mask_radius_init circle_cache_init ⟨0, 0, 512, 279⟩ 140 false).1).map
        fun r => (cache.cir_size, [cache.opa_start_on_y.getD 139 0,
          cache.opa_start_on_y.getD 140 0], r.1, [r.2.length, r.2.getD 134 0, r.2.getD 378 0]))
      = some (263, [245, 1], LV_DRAW_MASK_RES_CHANGED, [513, 0, 255]) := by
  have hi1 : (lv_draw_mask_radius_init circle_cache_init ⟨0, 0, 512, 279⟩ 140 false).1 =
      ⟨⟨0, 0, 512, 279⟩, 140, false⟩ := by
    simp only [lv_draw_mask_radius_init, lv_area_get_width, lv_area_get_height, LV_MIN, asr]
    norm_num
  have hi2 : (lv_draw_mask_radius_init circle_cache_init ⟨0, 0, 512, 279⟩ 140 false).2 =
      cir_calc_aa4 circle_cache_init ((140 : Nat) : Int) := by
    simp only [lv_draw_mask_radius_init, lv_area_get_width, lv_area_get_height, LV_MIN, asr]
    norm_num
  have hf := cir_calc_tables_140
  generalize List.replicate 513 255 = buf at hf ⊢
  rw [hi1, hi2]
  cases he : cir_calc_entries_nat 140 with
  | none => rw [he] at hf; simp only [Option.none_bind] at hf; exact Option.noConfusion hf
  | some q =>
    obtain ⟨xs, ys⟩ := q
    rw [he] at hf
    simp only [Option.some_bind] at hf
    cases ht : cir_calc_index_tab 301 0 xs ys 0 (circle_cache_init.opa_start_on_y.set 0 0)
        circle_cache_init.x_start_on_y with
    | none => rw [ht] at hf; simp only [Option.none_bind] at hf; exact Option.noConfusion hf
    | some t =>
      rw [ht] at hf
      simp only [Option.some_bind] at hf
      cases hl : get_next_line
          { cir_size := 0, cir_opa := [], x_start_on_y := t.2, opa_start_on_y := t.1 } 139 with
      | none => rw [hl] at hf; simp only [Option.none_bind] at hf; exact Option.noConfusion hf
      | some l =>
        rw [hl] at hf
        simp only [Option.some_bind] at hf
        rw [Option.map_eq_some'] at hf
        obtain ⟨rr, hrr, hv⟩ := hf
        simp only [Prod.mk.injEq, List.cons.injEq, and_true] at hv
        obtain ⟨⟨v1, v2, v3⟩, ⟨w1, w2, w3⟩, v4, v5, v6, v7⟩ := hv
        obtain ⟨c1, hc1, s1, s2, s3⟩ := cir_calc_aa4_tables circle_cache_init 140
          circle_cache_init_wf (by decide) (by decide) xs ys t he ht
        rw [hc1]
        simp only [Option.some_bind]
        rw [lv_draw_mask_radius_tables_only c1
          { cir_size := 0, cir_opa := [], x_start_on_y := t.2, opa_start_on_y := t.1 } _ _ _ _ _
          s2 s3 ?_, hrr]
        · simp only [Option.map_some', Option.some.injEq, Prod.mk.injEq, List.cons.injEq,
            and_true]
          refine ⟨by rw [s1, v1]; rfl, ⟨by rw [s2, v2], by rw [s2, v3]⟩, v4, v5, v6, v7⟩
        · intro cy line hline hcy
          have hcy1 : cy = 139 := by
            rw [hcy]
            simp only [lv_area_get_height]
            norm_num
          rw [hcy1, hl] at hline
          obtain rfl := Option.some.inj hline
          rw [w2]
          decide

end LvDrawMask
